import Mathlib

/-! # Enhanced Houdini Engine: dependency-graph execution engine

A shallow embedding of the automation graph of the Enhanced Houdini Engine
plugin (node state machine, build-sequence nodes and their work items, the
editor-side connection check and rebuild, and the build manager), followed by
theorems about it.

Modelling conventions.

* Objects live in arenas (lists); a pointer is an index into its arena. A node
  pointer is `Option Nat`: `none` is `nullptr`. Dereferencing `nullptr` or an
  index outside the arena is undefined in the source; the model reads a
  default-constructed object there and drops writes.
* `FPlatformTime::Seconds()` is a reading of a clock handed to each operation
  as `FEnv.Now`. Time values are integers counting milliseconds, so the
  default `BuildFailTimeoutSec = 60.0` is `60000` and `kBuildPollRateSec =
  0.100` is `100`.
* A `TSet` is a duplicate-free list in insertion order, a `TArray` a list.
* Log output is not modelled.
-/


namespace EHE

/-! ## Data model -/

/-- Pointer to a graph node (`TObjectPtr<UAutomationGraphNode>`). -/
abbrev NodePtr := Option Nat

/-- An `FName` (actor tag, layer name). -/
abbrev FName := Nat

/-- Pointer to an actor of the world: index into `UWorld.Actors`. -/
abbrev ActorPtr := Nat

/-- Pointer to a `UHoudiniAsset`. -/
abbrev AssetPtr := Nat

/-- The enum `EAutomationGraphNodeState` of AutomationGraphNode.h. -/
inductive EAutomationGraphNodeState where
  | Uninitialized
  | Standby
  | Active
  | Finished
  | Expired
  | Error
  deriving DecidableEq, Repr, Inhabited

/-- The enum `EEHEBuildState` of HoudiniBuildSequenceNode.h. -/
inductive EEHEBuildState where
  | Uninitialized
  | Standby
  | Building
  | Finished
  | Expired
  | Error
  deriving DecidableEq, Repr, Inhabited

/-- The struct `FHoudiniBuildSequenceInfo`; the timeouts are in milliseconds. -/
structure FHoudiniBuildSequenceInfo where
  AssetTypes : List AssetPtr := []
  ActorTags : List FName := []
  BuildWarnTimeoutSec : Int := 15000
  BuildFailTimeoutSec : Int := 60000
  deriving DecidableEq, Repr, Inhabited

/-- The part of `UHoudiniAssetComponent` the engine reads. -/
structure UHoudiniAssetComponent where
  HoudiniAsset : Option AssetPtr := none
  deriving DecidableEq, Repr, Inhabited

/-- An `AHoudiniAssetActor`: its tags and what `GetHoudiniAssetComponent()` returns. -/
structure AHoudiniAssetActor where
  Tags : List FName := []
  HoudiniAssetComponent : Option UHoudiniAssetComponent := none
  deriving DecidableEq, Repr, Inhabited

/-- An `ALandscape` as far as `UAGN_ClearLandscapeLayers::Activate` reads it:
`LandscapeInfo` is `none` when `GetLandscapeInfo()` is null and otherwise lists
the paint layers `GetLayerInfoByName` knows; `EditLayerNames` lists the names
for which `GetLayerIndex` is not `INDEX_NONE`. -/
structure ALandscape where
  LandscapeInfo : Option (List FName) := none
  EditLayerNames : List FName := []
  deriving DecidableEq, Repr, Inhabited

/-- An actor of the world, by dynamic class. -/
inductive AActor where
  | HoudiniAssetActor (a : AHoudiniAssetActor)
  | Landscape (l : ALandscape)
  | Other
  deriving DecidableEq, Repr, Inhabited

/-- The world: slot `i` of `Actors` holds actor `i`, or `none` once it is destroyed. -/
structure UWorld where
  Actors : List (Option AActor) := []
  IsEditorWorld : Bool := true
  deriving DecidableEq, Repr, Inhabited

/-- What an operation reads from outside the graph: the clock, the world, and
what `BuildInternal` of a derived work-item class answers for an actor. -/
structure FEnv where
  Now : Int
  World : UWorld
  DerivedBuildInternal : ActorPtr → Bool

/-- Dynamic class of a work item: the base class, whose `BuildInternal` returns
false, or a derived class that overrides it. -/
inductive EWorkItemClass where
  | Base
  | Derived
  deriving DecidableEq, Repr, Inhabited

/-- The class `UHoudiniBuildWorkItem`. `Owner` is not stored: an item is created
only by `UHoudiniBuildSequenceNode::Add`, which passes `this`, so the owner's
`BuildInfo` is handed to the operations that read it. -/
structure UHoudiniBuildWorkItem where
  ToBuild : Option ActorPtr := none
  TimeStarted : Int := 0
  BuildState : EEHEBuildState := EEHEBuildState.Uninitialized
  DelegateBound : Bool := false
  deriving DecidableEq, Repr, Inhabited

/-- Dynamic class of a graph node. -/
inductive ENodeClass where
  | AutomationGraphNode
  | HoudiniBuildSequenceNode
  | ClearLandscapeLayers
  | ConsoleCommandBase
  deriving DecidableEq, Repr, Inhabited

/-- A node object: the fields of `UAutomationGraphNode` followed by those of its
subclasses `UHoudiniBuildSequenceNode` and `UAGN_ClearLandscapeLayers`; `Class`
selects the overrides. `CommandSetupOk` is the outcome of the setup of a
console-command node, whose source is not part of the repository snapshot. -/
structure UAutomationGraphNode where
  Class : ENodeClass := ENodeClass.AutomationGraphNode
  ParentNodes : List NodePtr := []
  ChildNodes : List NodePtr := []
  NodeState : EAutomationGraphNodeState := EAutomationGraphNodeState.Uninitialized
  TimeStarted : Int := 0
  TimeFinished : Int := 0
  BuildInfo : FHoudiniBuildSequenceInfo := {}
  WorkItemClass : EWorkItemClass := EWorkItemClass.Base
  WorkItems : List (Option UHoudiniBuildWorkItem) := []
  bFinishedWithError : Bool := false
  TargetLandscape : Option ActorPtr := none
  EditLayers : List FName := []
  PaintLayers : List FName := []
  CommandSetupOk : Bool := true
  deriving DecidableEq, Repr, Inhabited

/-- The class `UAutomationGraph` together with the node objects it owns. -/
structure UAutomationGraph where
  Nodes : List UAutomationGraphNode := []
  RootNodes : List NodePtr := []
  deriving DecidableEq, Repr, Inhabited

/-- Dereference a node pointer. -/
def UAutomationGraph.node (g : UAutomationGraph) (p : NodePtr) : UAutomationGraphNode :=
  match p with
  | none => default
  | some i => g.Nodes.getD i default

/-- Write a node object back through a pointer. -/
def UAutomationGraph.setNode (g : UAutomationGraph) (p : NodePtr) (n : UAutomationGraphNode) :
    UAutomationGraph :=
  match p with
  | none => g
  | some i => { g with Nodes := g.Nodes.set i n }

/-- The actor a weak pointer resolves to, provided it is a live `AHoudiniAssetActor`. -/
def UWorld.assetActor (w : UWorld) (p : Option ActorPtr) : Option AHoudiniAssetActor :=
  match p with
  | none => none
  | some i =>
    match w.Actors.getD i none with
    | some (AActor.HoudiniAssetActor a) => some a
    | _ => none

/-- The test `TWeakObjectPtr<AHoudiniAssetActor>::IsValid()`. -/
def UWorld.IsValid (w : UWorld) (p : Option ActorPtr) : Bool :=
  (w.assetActor p).isSome

/-! ## Node state machine (AutomationGraphNode.cpp) -/

/-- The method `UAutomationGraphNode::SetState`. -/
def UAutomationGraphNode.SetState (e : FEnv) (NewState : EAutomationGraphNodeState)
    (n : UAutomationGraphNode) : UAutomationGraphNode :=
  match NewState with
  | EAutomationGraphNodeState.Uninitialized =>
    { n with NodeState := NewState, TimeStarted := 0, TimeFinished := 0 }
  | EAutomationGraphNodeState.Standby =>
    { n with NodeState := NewState, TimeStarted := 0, TimeFinished := 0 }
  | EAutomationGraphNodeState.Active =>
    { n with NodeState := NewState, TimeStarted := e.Now }
  | EAutomationGraphNodeState.Finished =>
    { n with NodeState := NewState, TimeFinished := e.Now }
  | EAutomationGraphNodeState.Error =>
    { n with NodeState := NewState, TimeFinished := e.Now }
  | EAutomationGraphNodeState.Expired =>
    { n with NodeState := NewState, TimeFinished := e.Now }

/-! ## Work items (HoudiniBuildSequenceNode.cpp) -/

/-- The method `UHoudiniBuildWorkItem::Initialize`, for a non-null owner;
`AssetActor` is `none` for a null pointer. -/
def UHoudiniBuildWorkItem.Initialize (e : FEnv) (AssetActor : Option ActorPtr)
    (w : UHoudiniBuildWorkItem) : Bool × UHoudiniBuildWorkItem :=
  match e.World.assetActor AssetActor with
  | none => (false, { w with BuildState := EEHEBuildState.Error })
  | some a =>
    match a.HoudiniAssetComponent with
    | none => (false, { w with BuildState := EEHEBuildState.Error })
    | some _ => (true, { w with ToBuild := AssetActor, BuildState := EEHEBuildState.Standby })

/-- The method `UHoudiniBuildWorkItem::BuildStarted`. -/
def UHoudiniBuildWorkItem.BuildStarted (e : FEnv) (w : UHoudiniBuildWorkItem) :
    UHoudiniBuildWorkItem :=
  { w with BuildState := EEHEBuildState.Building, TimeStarted := e.Now }

/-- The virtual `BuildInternal`: false in the base class, external in a derived one. -/
def UHoudiniBuildWorkItem.BuildInternal (e : FEnv) (c : EWorkItemClass)
    (w : UHoudiniBuildWorkItem) : Bool :=
  match c with
  | EWorkItemClass.Base => false
  | EWorkItemClass.Derived =>
    match w.ToBuild with
    | none => false
    | some a => e.DerivedBuildInternal a

/-- The method `UHoudiniBuildWorkItem::Build`. -/
def UHoudiniBuildWorkItem.Build (e : FEnv) (c : EWorkItemClass) (w : UHoudiniBuildWorkItem) :
    Bool × UHoudiniBuildWorkItem :=
  if w.BuildState = EEHEBuildState.Uninitialized then (false, w)
  else if w.BuildState = EEHEBuildState.Building then (true, w)
  else
    match e.World.assetActor w.ToBuild with
    | none => (false, w)
    | some a =>
      match a.HoudiniAssetComponent with
      | none => (false, w)
      | some _ =>
        let w1 := { w.BuildStarted e with DelegateBound := true }
        (w1.BuildInternal e c, w1)

/-- The method `UHoudiniBuildWorkItem::GetBuildState`; `info` is `Owner->BuildInfo`. -/
def UHoudiniBuildWorkItem.GetBuildState (e : FEnv) (info : FHoudiniBuildSequenceInfo)
    (w : UHoudiniBuildWorkItem) : EEHEBuildState × UHoudiniBuildWorkItem :=
  if e.World.IsValid w.ToBuild = false then
    (EEHEBuildState.Error, { w with BuildState := EEHEBuildState.Error })
  else if w.BuildState = EEHEBuildState.Building then
    if e.Now - w.TimeStarted ≥ info.BuildFailTimeoutSec then
      (EEHEBuildState.Expired, { w with BuildState := EEHEBuildState.Expired })
    else (w.BuildState, w)
  else (w.BuildState, w)

/-- The method `UHoudiniBuildWorkItem::OnHoudiniAssetPostProcess`. -/
def UHoudiniBuildWorkItem.OnHoudiniAssetPostProcess (Succeeded : Bool)
    (w : UHoudiniBuildWorkItem) : UHoudiniBuildWorkItem :=
  if w.BuildState ≠ EEHEBuildState.Building then w
  else if Succeeded then { w with BuildState := EEHEBuildState.Finished }
  else { w with BuildState := EEHEBuildState.Error }

/-! ## Build-sequence node (HoudiniBuildSequenceNode.cpp) -/

/-- Outcome of the loop over the work items in `UHoudiniBuildSequenceNode::GetState`:
the state set by an early return, the number of finished items counted, and the
work items after the queries made. -/
structure FGetStateScan where
  Exit : Option EAutomationGraphNodeState
  NumFinished : Nat
  WorkItems : List (Option UHoudiniBuildWorkItem)
  deriving DecidableEq, Repr

/-- The loop over `WorkItems` in `UHoudiniBuildSequenceNode::GetState`. -/
def UHoudiniBuildSequenceNode.scanWorkItems (e : FEnv) (info : FHoudiniBuildSequenceInfo) :
    List (Option UHoudiniBuildWorkItem) → Nat → FGetStateScan
  | [], NumFinished => ⟨none, NumFinished, []⟩
  | none :: rest, NumFinished =>
    ⟨some EAutomationGraphNodeState.Error, NumFinished, none :: rest⟩
  | some w :: rest, NumFinished =>
    let r := w.GetBuildState e info
    match r.1 with
    | EEHEBuildState.Building =>
      let s := scanWorkItems e info rest NumFinished
      ⟨s.Exit, s.NumFinished, some r.2 :: s.WorkItems⟩
    | EEHEBuildState.Finished =>
      let s := scanWorkItems e info rest (NumFinished + 1)
      ⟨s.Exit, s.NumFinished, some r.2 :: s.WorkItems⟩
    | EEHEBuildState.Expired =>
      ⟨some EAutomationGraphNodeState.Expired, NumFinished, some r.2 :: rest⟩
    | _ => ⟨some EAutomationGraphNodeState.Error, NumFinished, some r.2 :: rest⟩

/-- The override `UHoudiniBuildSequenceNode::GetState`. -/
def UHoudiniBuildSequenceNode.GetState (e : FEnv) (n0 : UAutomationGraphNode) :
    EAutomationGraphNodeState × UAutomationGraphNode :=
  let n := { n0 with bFinishedWithError := false }
  if n.WorkItems.length = 0 then
    let n1 := n.SetState e EAutomationGraphNodeState.Uninitialized
    (n1.NodeState, n1)
  else if n.NodeState = EAutomationGraphNodeState.Active then
    let s := scanWorkItems e n.BuildInfo n.WorkItems 0
    let n1 := { n with WorkItems := s.WorkItems }
    match s.Exit with
    | some st =>
      let n2 := n1.SetState e st
      (n2.NodeState, n2)
    | none =>
      if s.NumFinished = n.WorkItems.length then
        let n2 := n1.SetState e EAutomationGraphNodeState.Finished
        (n2.NodeState, n2)
      else (n1.NodeState, n1)
  else (n.NodeState, n)

/-- The virtual `GetState()`: the stored state, except for a build-sequence node. -/
def UAutomationGraphNode.GetState (e : FEnv) (n : UAutomationGraphNode) :
    EAutomationGraphNodeState × UAutomationGraphNode :=
  match n.Class with
  | ENodeClass.HoudiniBuildSequenceNode => UHoudiniBuildSequenceNode.GetState e n
  | _ => (n.NodeState, n)

/-- The loop over `ParentNodes` in `UAutomationGraphNode::CanActivate`; each
`ParentNode->GetState()` may update the parent it is called on. -/
def UAutomationGraphNode.CanActivate.parents (e : FEnv) :
    List NodePtr → UAutomationGraph → Bool × UAutomationGraph
  | [], g => (true, g)
  | ParentNode :: rest, g =>
    let r := (g.node ParentNode).GetState e
    let g1 := g.setNode ParentNode r.2
    if r.1 ≠ EAutomationGraphNodeState.Finished then (false, g1)
    else parents e rest g1

/-- The method `UAutomationGraphNode::CanActivate` called on the node `self`. -/
def UAutomationGraphNode.CanActivate (e : FEnv) (g : UAutomationGraph) (self : NodePtr) :
    Bool × UAutomationGraph :=
  let n := g.node self
  if n.NodeState = EAutomationGraphNodeState.Uninitialized
      ∨ n.NodeState = EAutomationGraphNodeState.Active then (false, g)
  else if n.ParentNodes.isEmpty then (true, g)
  else UAutomationGraphNode.CanActivate.parents e n.ParentNodes g

/-- The loop over `WorkItems` in `UHoudiniBuildSequenceNode::Activate`: whether
every `Build()` succeeded, and the work items after the calls made. -/
def UHoudiniBuildSequenceNode.buildWorkItems (e : FEnv) (c : EWorkItemClass) :
    List (Option UHoudiniBuildWorkItem) → Bool × List (Option UHoudiniBuildWorkItem)
  | [] => (true, [])
  | none :: rest => (false, none :: rest)
  | some w :: rest =>
    let r := w.Build e c
    if r.1 = false then (false, some r.2 :: rest)
    else
      let s := buildWorkItems e c rest
      (s.1, some r.2 :: s.2)

/-- The override `UHoudiniBuildSequenceNode::Activate`; both tests call `GetState()`. -/
def UHoudiniBuildSequenceNode.Activate (e : FEnv) (n : UAutomationGraphNode) :
    Bool × UAutomationGraphNode :=
  let r1 := UHoudiniBuildSequenceNode.GetState e n
  if r1.1 = EAutomationGraphNodeState.Uninitialized then (false, r1.2)
  else
    let r2 := UHoudiniBuildSequenceNode.GetState e r1.2
    if r2.1 = EAutomationGraphNodeState.Active then (false, r2.2)
    else
      let n3 := r2.2.SetState e EAutomationGraphNodeState.Active
      let b := buildWorkItems e n3.WorkItemClass n3.WorkItems
      (b.1, { n3 with WorkItems := b.2 })

/-- The override `UHoudiniBuildSequenceNode::Reset`. -/
def UHoudiniBuildSequenceNode.Reset (e : FEnv) (n : UAutomationGraphNode) :
    UAutomationGraphNode :=
  ({ n with WorkItems := [] }).SetState e EAutomationGraphNodeState.Uninitialized

/-- The method `UHoudiniBuildSequenceNode::Add`; the second `GetState()` of the
guard is only evaluated when the first did not return `Uninitialized`. -/
def UHoudiniBuildSequenceNode.Add (e : FEnv) (AssetActor : Option ActorPtr)
    (n : UAutomationGraphNode) : Bool × UAutomationGraphNode :=
  let r1 := UHoudiniBuildSequenceNode.GetState e n
  let r2 :=
    if r1.1 ≠ EAutomationGraphNodeState.Uninitialized then
      UHoudiniBuildSequenceNode.GetState e r1.2
    else r1
  if r1.1 ≠ EAutomationGraphNodeState.Uninitialized
      ∧ r2.1 ≠ EAutomationGraphNodeState.Standby then (false, r2.2)
  else
    let NewWorkItem := UHoudiniBuildWorkItem.Initialize e AssetActor {}
    if NewWorkItem.1 = false then (false, r2.2)
    else (true, { r2.2 with WorkItems := r2.2.WorkItems ++ [some NewWorkItem.2] })

/-! ## Leaf nodes -/

/-- The test `TargetLandscape.IsValid()` together with `TargetLandscape.Get()`. -/
def UWorld.landscape (w : UWorld) (p : Option ActorPtr) : Option ALandscape :=
  match p with
  | none => none
  | some i =>
    match w.Actors.getD i none with
    | some (AActor.Landscape l) => some l
    | _ => none

/-- The override `UAGN_ClearLandscapeLayers::Activate`; clearing the paint
layers of the landscape is an effect outside the graph. -/
def UAGN_ClearLandscapeLayers.Activate (e : FEnv) (n : UAutomationGraphNode) :
    Bool × UAutomationGraphNode :=
  match e.World.landscape n.TargetLandscape with
  | none => (false, n.SetState e EAutomationGraphNodeState.Error)
  | some LandscapePtr =>
    if n.EditLayers.isEmpty ∨ n.PaintLayers.isEmpty then
      (false, n.SetState e EAutomationGraphNodeState.Error)
    else
      let n1 := n.SetState e EAutomationGraphNodeState.Active
      match LandscapePtr.LandscapeInfo with
      | none => (false, n1.SetState e EAutomationGraphNodeState.Error)
      | some LayerInfos =>
        if n1.PaintLayers.any (fun PaintLayerName => !LayerInfos.contains PaintLayerName) then
          (false, n1.SetState e EAutomationGraphNodeState.Error)
        else if n1.EditLayers.any
            (fun EditLayerName => !LandscapePtr.EditLayerNames.contains EditLayerName) then
          (false, n1.SetState e EAutomationGraphNodeState.Error)
        else (true, n1.SetState e EAutomationGraphNodeState.Finished)

/-- The first `ALandscape` the actor iterator of the world meets. -/
def UWorld.firstLandscape (w : UWorld) : Option ActorPtr :=
  (List.range w.Actors.length).find?
    (fun i => match w.Actors.getD i none with
      | some (AActor.Landscape _) => true
      | _ => false)

/-- The method `UAGN_ClearLandscapeLayers::Initialize` for a non-null world. -/
def UAGN_ClearLandscapeLayers.Initialize (e : FEnv) (n : UAutomationGraphNode) :
    UAutomationGraphNode :=
  let n1 :=
    match e.World.firstLandscape with
    | some l => { n with TargetLandscape := some l }
    | none => n
  if (e.World.landscape n1.TargetLandscape).isNone then
    n1.SetState e EAutomationGraphNodeState.Error
  else n1.SetState e EAutomationGraphNodeState.Standby

/-- Modelled from the spec: `UAGN_ConsoleCommandBase::Initialize`, whose source
(AutomationNodes/ConsoleCommandNode) is missing. Section 4.3: other node kinds
run their own setup, which may fail and set the node to `Error`; on success the
node is moved to `Standby`. -/
def UAGN_ConsoleCommandBase.Initialize (e : FEnv) (n : UAutomationGraphNode) :
    UAutomationGraphNode :=
  if n.CommandSetupOk then n.SetState e EAutomationGraphNodeState.Standby
  else n.SetState e EAutomationGraphNodeState.Error

/-- The method `UAutomationGraphNode::Activate` of the base class. -/
def UAutomationGraphNode.ActivateBase (e : FEnv) (n : UAutomationGraphNode) :
    Bool × UAutomationGraphNode :=
  if n.NodeState ≠ EAutomationGraphNodeState.Standby then (false, n)
  else (true, n.SetState e EAutomationGraphNodeState.Finished)

/-- The virtual `Activate()`. A console-command node, whose source is missing,
is given the default of the base class (section 4.1: the default behaviour of a
leaf node is immediate `Finished`). -/
def UAutomationGraphNode.Activate (e : FEnv) (n : UAutomationGraphNode) :
    Bool × UAutomationGraphNode :=
  match n.Class with
  | ENodeClass.HoudiniBuildSequenceNode => UHoudiniBuildSequenceNode.Activate e n
  | ENodeClass.ClearLandscapeLayers => UAGN_ClearLandscapeLayers.Activate e n
  | _ => n.ActivateBase e

/-- The method `UAutomationGraphNode::Ready`, which no class in the repository overrides. -/
def UAutomationGraphNode.Ready (e : FEnv) (n : UAutomationGraphNode) : UAutomationGraphNode :=
  if n.NodeState = EAutomationGraphNodeState.Active then n
  else n.SetState e EAutomationGraphNodeState.Standby

/-- The virtual `Reset()`. -/
def UAutomationGraphNode.Reset (e : FEnv) (n : UAutomationGraphNode) : UAutomationGraphNode :=
  match n.Class with
  | ENodeClass.HoudiniBuildSequenceNode => UHoudiniBuildSequenceNode.Reset e n
  | _ => n.SetState e EAutomationGraphNodeState.Uninitialized

/-- Modelled from the spec: `UAutomationGraph::Reset`, declared in
AutomationGraph.h with its definition missing. Section 3: it clears the
transient per-run state on every node without discarding structure. -/
def UAutomationGraph.Reset (e : FEnv) (g : UAutomationGraph) : UAutomationGraph :=
  { g with Nodes := g.Nodes.map (fun n => n.Reset e) }

/-! ## Sets and maps -/

/-- The operation `TSet::Add`. -/
def TSetAdd {α : Type} [DecidableEq α] (s : List α) (x : α) : List α :=
  if x ∈ s then s else s ++ [x]

/-- The operation `TSet::Append`. -/
def TSetAppend {α : Type} [DecidableEq α] (s : List α) (xs : List α) : List α :=
  xs.foldl TSetAdd s

/-- The operation `TSet::Remove`. -/
def TSetRemove {α : Type} [DecidableEq α] (s : List α) (x : α) : List α :=
  s.filter (fun y => decide (y ≠ x))

/-- The statement `Map.FindOrAdd(Key).Add(Value)` on a `TMap<Key, TSet<Value>>`. -/
def TMapFindOrAddAdd {κ ν : Type} [DecidableEq κ] [DecidableEq ν] :
    List (κ × List ν) → κ → ν → List (κ × List ν)
  | [], k, v => [(k, [v])]
  | (k1, s) :: rest, k, v =>
    if k1 = k then (k1, TSetAdd s v) :: rest
    else (k1, s) :: TMapFindOrAddAdd rest k v

/-- The lookup `Map.Find(Key)`; `none` when `Map.Contains(Key)` is false. -/
def TMapFind {κ ν : Type} [DecidableEq κ] : List (κ × List ν) → κ → Option (List ν)
  | [], _ => none
  | (k1, s) :: rest, k => if k1 = k then some s else TMapFind rest k

/-! ## Build manager (HoudiniBuildManager.cpp) -/

/-- The constant `AHoudiniBuildManager::kBuildPollRateSec` (0.100 s). -/
def kBuildPollRateSec : Int := 100

/-- The struct `FEHEBuildSequenceDFSNode`. -/
structure FEHEBuildSequenceDFSNode where
  GraphNode : NodePtr := none
  Ancestors : List NodePtr := []
  deriving DecidableEq, Repr, Inhabited

/-- The class `AHoudiniBuildManager`. `SequenceGraph` is taken to be a valid
pointer: `Run()` dereferences it without a test. -/
structure AHoudiniBuildManager where
  SequenceGraph : UAutomationGraph := {}
  ActiveNodes : List NodePtr := []
  LastTimePolled : Int := 0
  bNeedsInitializeGraph : Bool := false
  deriving DecidableEq, Repr, Inhabited

/-- The index `ActorsByTag` built at the start of `InitializeNodes`. -/
def ActorsByTag (w : UWorld) : List (FName × List ActorPtr) :=
  (List.range w.Actors.length).foldl
    (fun m CurrentActor =>
      match w.Actors.getD CurrentActor none with
      | some (AActor.HoudiniAssetActor a) =>
        a.Tags.foldl (fun m1 ActorTag => TMapFindOrAddAdd m1 ActorTag CurrentActor) m
      | _ => m) []

/-- The index `ActorsByAsset` built at the start of `InitializeNodes`. -/
def ActorsByAsset (w : UWorld) : List (AssetPtr × List ActorPtr) :=
  (List.range w.Actors.length).foldl
    (fun m CurrentActor =>
      match w.Actors.getD CurrentActor none with
      | some (AActor.HoudiniAssetActor a) =>
        match a.HoudiniAssetComponent with
        | some c =>
          match c.HoudiniAsset with
          | some CurrentAsset => TMapFindOrAddAdd m CurrentAsset CurrentActor
          | none => m
        | none => m
      | _ => m) []

/-- State of the initialization of one build-sequence node. -/
structure FNodeInit where
  Node : UAutomationGraphNode
  AddedActors : List ActorPtr
  NodeInitialized : Bool

/-- The inner loop `for (AssetActor : *Map.Find(Key))` of `InitializeNodes`. -/
def AHoudiniBuildManager.addActors (e : FEnv) : List ActorPtr → FNodeInit → FNodeInit
  | [], s => s
  | AssetActor :: rest, s =>
    if s.AddedActors.contains AssetActor then addActors e rest s
    else
      let r := UHoudiniBuildSequenceNode.Add e (some AssetActor) s.Node
      addActors e rest
        ⟨r.2, TSetAdd s.AddedActors AssetActor, s.NodeInitialized && r.1⟩

/-- One of the two outer loops of the build-sequence branch of `InitializeNodes`,
over the keys `BuildInfo.ActorTags` or `BuildInfo.AssetTypes`. -/
def AHoudiniBuildManager.addActorsByKey {κ : Type} [DecidableEq κ] (e : FEnv)
    (m : List (κ × List ActorPtr)) : List κ → FNodeInit → FNodeInit
  | [], s => s
  | k :: rest, s =>
    match TMapFind m k with
    | none => addActorsByKey e m rest s
    | some actors => addActorsByKey e m rest (AHoudiniBuildManager.addActors e actors s)

/-- The block between the markers "Initialize Nodes Here" and "End Node
Initialization" of `InitializeNodes`, run on one node object. -/
def AHoudiniBuildManager.initializeNode (e : FEnv) (n : UAutomationGraphNode)
    (AddedActors : List ActorPtr) : UAutomationGraphNode × List ActorPtr :=
  match n.Class with
  | ENodeClass.HoudiniBuildSequenceNode =>
    let s0 : FNodeInit := ⟨n, AddedActors, true⟩
    let s1 := AHoudiniBuildManager.addActorsByKey e (ActorsByTag e.World) n.BuildInfo.ActorTags s0
    let s2 :=
      AHoudiniBuildManager.addActorsByKey e (ActorsByAsset e.World) n.BuildInfo.AssetTypes s1
    if s2.NodeInitialized then (s2.Node.Ready e, s2.AddedActors)
    else (s2.Node, s2.AddedActors)
  | ENodeClass.ClearLandscapeLayers => (UAGN_ClearLandscapeLayers.Initialize e n, AddedActors)
  | ENodeClass.ConsoleCommandBase => (UAGN_ConsoleCommandBase.Initialize e n, AddedActors)
  | ENodeClass.AutomationGraphNode => (n.Ready e, AddedActors)

/-- State of the traversal of `InitializeNodes`. `NodeStack` is kept with its
top (the end of the `TArray`) at the head. `Initialized` records, in order, the
nodes on which the initialization block ran; `CycleError` tells that the
traversal stopped on the error "A cycle exists in the build graph". -/
structure FInitializeNodes where
  Graph : UAutomationGraph
  NodeStack : List FEHEBuildSequenceDFSNode
  Visited : List NodePtr
  AddedActors : List ActorPtr
  Initialized : List NodePtr
  CycleError : Bool

/-- The loop over `GraphNode->ChildNodes` of `InitializeNodes`: the stack after
the pushes, or `none` when a child is among the ancestors. -/
def AHoudiniBuildManager.pushChildren (Ancestors : List NodePtr) :
    List NodePtr → List FEHEBuildSequenceDFSNode → Option (List FEHEBuildSequenceDFSNode)
  | [], NodeStack => some NodeStack
  | ChildNode :: rest, NodeStack =>
    if Ancestors.contains ChildNode then none
    else pushChildren Ancestors rest (⟨ChildNode, Ancestors⟩ :: NodeStack)

/-- The `while (!NodeStack.IsEmpty())` loop of `InitializeNodes`, bounded by `fuel` turns. -/
def AHoudiniBuildManager.initializeLoop (e : FEnv) : Nat → FInitializeNodes → FInitializeNodes
  | 0, s => s
  | fuel + 1, s =>
    match s.NodeStack with
    | [] => s
    | DFSNode :: NodeStack =>
      let GraphNode := DFSNode.GraphNode
      if s.Visited.contains GraphNode then
        initializeLoop e fuel { s with NodeStack := NodeStack }
      else
        let Visited := TSetAdd s.Visited GraphNode
        let Ancestors := TSetAdd DFSNode.Ancestors GraphNode
        let r := AHoudiniBuildManager.initializeNode e (s.Graph.node GraphNode) s.AddedActors
        let g := s.Graph.setNode GraphNode r.1
        match AHoudiniBuildManager.pushChildren Ancestors (g.node GraphNode).ChildNodes
            NodeStack with
        | none =>
          { Graph := g.Reset e, NodeStack := NodeStack, Visited := Visited,
            AddedActors := r.2, Initialized := s.Initialized ++ [GraphNode],
            CycleError := true }
        | some NodeStack1 =>
          initializeLoop e fuel
            { Graph := g, NodeStack := NodeStack1, Visited := Visited,
              AddedActors := r.2, Initialized := s.Initialized ++ [GraphNode],
              CycleError := false }

/-- A number of turns the loop of `InitializeNodes` cannot exceed: every turn
pops one entry, and entries are pushed for the roots and once for each child
link of a node. -/
def AHoudiniBuildManager.initializeFuel (g : UAutomationGraph) : Nat :=
  g.RootNodes.length + (g.Nodes.map (fun n => n.ChildNodes.length)).sum

/-- The traversal of `AHoudiniBuildManager::InitializeNodes` with what it
records; `none` when one of the early returns is taken. -/
def AHoudiniBuildManager.runInitializeNodes (e : FEnv) (m : AHoudiniBuildManager) :
    Option FInitializeNodes :=
  if e.World.IsEditorWorld = false then none
  else if m.SequenceGraph.RootNodes.isEmpty then none
  else
    let g := m.SequenceGraph.Reset e
    some (AHoudiniBuildManager.initializeLoop e (AHoudiniBuildManager.initializeFuel g)
      { Graph := g,
        NodeStack := (g.RootNodes.map (fun r => (⟨r, []⟩ : FEHEBuildSequenceDFSNode))).reverse,
        Visited := [], AddedActors := [], Initialized := [], CycleError := false })

/-- Whether `InitializeNodes` stops on the error "A cycle exists in the build graph". -/
def AHoudiniBuildManager.InitializeNodesCycleError (e : FEnv) (m : AHoudiniBuildManager) : Bool :=
  match AHoudiniBuildManager.runInitializeNodes e m with
  | none => false
  | some s => s.CycleError

/-- The nodes on which `InitializeNodes` runs the initialization block, in
order, one entry for each run of the block. -/
def AHoudiniBuildManager.InitializeNodesInitialized (e : FEnv) (m : AHoudiniBuildManager) :
    List NodePtr :=
  match AHoudiniBuildManager.runInitializeNodes e m with
  | none => []
  | some s => s.Initialized

/-- The method `AHoudiniBuildManager::InitializeNodes`. -/
def AHoudiniBuildManager.InitializeNodes (e : FEnv) (m : AHoudiniBuildManager) :
    AHoudiniBuildManager :=
  match AHoudiniBuildManager.runInitializeNodes e m with
  | none => m
  | some s => { m with SequenceGraph := s.Graph }

/-- The method `AHoudiniBuildManager::Run`. -/
def AHoudiniBuildManager.Run (e : FEnv) (m : AHoudiniBuildManager) : AHoudiniBuildManager :=
  if ¬ m.ActiveNodes.isEmpty then m
  else
    let m1 := m.InitializeNodes e
    { m1 with ActiveNodes := TSetAppend m1.ActiveNodes m1.SequenceGraph.RootNodes }

/-- The method `AHoudiniBuildManager::Cancel`. -/
def AHoudiniBuildManager.Cancel (m : AHoudiniBuildManager) : AHoudiniBuildManager :=
  { m with ActiveNodes := [], LastTimePolled := 0 }

/-- A call of `Activate()` made by the scheduler: the receiver and the graph at
the moment of the call. -/
structure FActivateCall where
  Node : NodePtr
  Graph : UAutomationGraph
  deriving DecidableEq, Repr

/-- State of one pass of `PollActiveNodes` over the active set; `Calls` records
the calls of `Activate()` in order. -/
structure FPollState where
  Graph : UAutomationGraph
  ToAdd : List NodePtr
  ToRemove : List NodePtr
  Calls : List FActivateCall

/-- The statement `Node->Activate()` on the graph, recorded in `Calls`. -/
def FPollState.activate (e : FEnv) (s : FPollState) (Node : NodePtr) : Bool × FPollState :=
  let r := (s.Graph.node Node).Activate e
  (r.1, { s with Graph := s.Graph.setNode Node r.2, Calls := s.Calls ++ [⟨Node, s.Graph⟩] })

/-- The loop over `CurrentNode->ChildNodes` in the `Finished` case of `PollActiveNodes`. -/
def AHoudiniBuildManager.pollChildren (e : FEnv) : List NodePtr → FPollState → FPollState
  | [], s => s
  | ChildNode :: rest, s =>
    let c := UAutomationGraphNode.CanActivate e s.Graph ChildNode
    let s1 := { s with Graph := c.2 }
    if c.1 then
      let a := s1.activate e ChildNode
      if a.1 then pollChildren e rest { a.2 with ToAdd := TSetAdd a.2.ToAdd ChildNode }
      else pollChildren e rest a.2
    else pollChildren e rest s1

/-- The body of the loop over `ActiveNodes` in `PollActiveNodes`. -/
def AHoudiniBuildManager.pollNode (e : FEnv) (s : FPollState) (CurrentNode : NodePtr) :
    FPollState :=
  match CurrentNode with
  | none => { s with ToRemove := TSetAdd s.ToRemove CurrentNode }
  | some _ =>
    let r := (s.Graph.node CurrentNode).GetState e
    let s1 := { s with Graph := s.Graph.setNode CurrentNode r.2 }
    match r.1 with
    | EAutomationGraphNodeState.Active => s1
    | EAutomationGraphNodeState.Standby => (s1.activate e CurrentNode).2
    | EAutomationGraphNodeState.Finished =>
      let s2 := AHoudiniBuildManager.pollChildren e (s1.Graph.node CurrentNode).ChildNodes s1
      { s2 with ToRemove := TSetAdd s2.ToRemove CurrentNode }
    | EAutomationGraphNodeState.Expired => { s1 with ToRemove := TSetAdd s1.ToRemove CurrentNode }
    | EAutomationGraphNodeState.Error => { s1 with ToRemove := TSetAdd s1.ToRemove CurrentNode }
    | EAutomationGraphNodeState.Uninitialized =>
      { s1 with ToRemove := TSetAdd s1.ToRemove CurrentNode }

/-- The method `AHoudiniBuildManager::PollActiveNodes` at clock reading `e.Now`,
with the calls of `Activate()` it made. -/
def AHoudiniBuildManager.PollActiveNodesCalls (e : FEnv) (m : AHoudiniBuildManager) :
    AHoudiniBuildManager × List FActivateCall :=
  if e.Now - m.LastTimePolled < kBuildPollRateSec then (m, [])
  else
    let s := m.ActiveNodes.foldl (AHoudiniBuildManager.pollNode e)
      { Graph := m.SequenceGraph, ToAdd := [], ToRemove := [], Calls := [] }
    ({ m with
        SequenceGraph := s.Graph,
        ActiveNodes := s.ToRemove.foldl TSetRemove (TSetAppend m.ActiveNodes s.ToAdd),
        LastTimePolled := e.Now }, s.Calls)

/-- The method `AHoudiniBuildManager::PollActiveNodes`. -/
def AHoudiniBuildManager.PollActiveNodes (e : FEnv) (m : AHoudiniBuildManager) :
    AHoudiniBuildManager :=
  (m.PollActiveNodesCalls e).1

/-! ## Runs of the build manager -/

/-- The completion callback `OnHoudiniAssetPostProcess` delivered to work item
number `Item` of the node `Node`. -/
def UAutomationGraph.PostProcess (g : UAutomationGraph) (Node : NodePtr) (Item : Nat)
    (Succeeded : Bool) : UAutomationGraph :=
  let n := g.node Node
  g.setNode Node
    { n with
      WorkItems := n.WorkItems.set Item
        ((n.WorkItems.getD Item none).map
          (fun w => w.OnHoudiniAssetPostProcess Succeeded)) }

/-- What can happen to a build manager: a call of `Run()`, of `Cancel()`, a poll
tick, a completion callback of the build subsystem, and, the iteration order of
a `TSet` being unspecified, a reordering of the active set. Each call reads its
own environment, so the clock and the world may change between events. -/
inductive FRunEvent where
  | Run (e : FEnv)
  | Cancel
  | Poll (e : FEnv)
  | PostProcess (Node : NodePtr) (Item : Nat) (Succeeded : Bool)
  | Reorder (ActiveNodes : List NodePtr)

/-- The event is a poll tick, a completion callback or a reordering: it neither
starts nor cancels a run. -/
def FRunEvent.withinRun : FRunEvent → Prop
  | FRunEvent.Run _ => False
  | FRunEvent.Cancel => False
  | _ => True

/-- The manager after one event, with the calls of `Activate()` the event made. -/
def AHoudiniBuildManager.step (m : AHoudiniBuildManager) :
    FRunEvent → AHoudiniBuildManager × List FActivateCall
  | FRunEvent.Run e => (m.Run e, [])
  | FRunEvent.Cancel => (m.Cancel, [])
  | FRunEvent.Poll e => m.PollActiveNodesCalls e
  | FRunEvent.PostProcess Node Item Succeeded =>
    ({ m with SequenceGraph := m.SequenceGraph.PostProcess Node Item Succeeded }, [])
  | FRunEvent.Reorder ActiveNodes =>
    if ActiveNodes.Perm m.ActiveNodes then ({ m with ActiveNodes := ActiveNodes }, [])
    else (m, [])

/-- The manager after a sequence of events, with all calls of `Activate()` made, in order. -/
def AHoudiniBuildManager.steps (m : AHoudiniBuildManager) :
    List FRunEvent → AHoudiniBuildManager × List FActivateCall
  | [] => (m, [])
  | ev :: rest =>
    let r := m.step ev
    let r2 := r.1.steps rest
    (r2.1, r.2 ++ r2.2)

/-! ## Editor graph (EdGraph_HoudiniBuildSequenceGraph.cpp) -/

/-- The enum `EEdGraphPinDirection`. -/
inductive EEdGraphPinDirection where
  | EGPD_Input
  | EGPD_Output
  | EGPD_MAX
  deriving DecidableEq, Repr, Inhabited

/-- A `UEdGraphPin`: its direction and, for each pin of `LinkedTo`, the index in
`Nodes` of that pin's owning node. -/
structure UEdGraphPin where
  Direction : EEdGraphPinDirection := EEdGraphPinDirection.EGPD_Input
  LinkedTo : List Nat := []
  deriving DecidableEq, Repr, Inhabited

/-- The class `UEdNode_HoudiniBuildSequenceNode`; a null entry of `Pins` is `none`. -/
structure UEdNode_HoudiniBuildSequenceNode where
  SequenceNode : NodePtr := none
  Pins : List (Option UEdGraphPin) := []
  deriving DecidableEq, Repr, Inhabited

/-- The class `UEdNode_HoudiniBuildSequenceEdge`, whose source is missing, as far
as the rebuild reads it: what `GetStartNode()` and `GetEndNode()` return, as
indices into `Nodes` (`none` for a null pointer). -/
structure UEdNode_HoudiniBuildSequenceEdge where
  StartNode : Option Nat := none
  EndNode : Option Nat := none
  deriving DecidableEq, Repr, Inhabited

/-- An editor node, by dynamic class. -/
inductive UEdGraphNode where
  | SequenceNode (n : UEdNode_HoudiniBuildSequenceNode)
  | SequenceEdge (d : UEdNode_HoudiniBuildSequenceEdge)
  | Other
  deriving DecidableEq, Repr, Inhabited

/-- The class `UEdGraph_HoudiniBuildSequenceGraph`: the array `Nodes`; an editor
node is identified by its index. -/
structure UEdGraph_HoudiniBuildSequenceGraph where
  Nodes : List UEdGraphNode := []
  deriving DecidableEq, Repr, Inhabited

/-- The cast `Cast<UEdNode_HoudiniBuildSequenceNode>` of the editor node at an index. -/
def UEdGraph_HoudiniBuildSequenceGraph.sequenceNode (ed : UEdGraph_HoudiniBuildSequenceGraph)
    (i : Nat) : Option UEdNode_HoudiniBuildSequenceNode :=
  match ed.Nodes.getD i UEdGraphNode.Other with
  | UEdGraphNode.SequenceNode n => some n
  | _ => none

/-- The cast `CastChecked<UEdNode_HoudiniBuildSequenceEdge>` of the editor node at an index. -/
def UEdGraph_HoudiniBuildSequenceGraph.sequenceEdge (ed : UEdGraph_HoudiniBuildSequenceGraph)
    (i : Nat) : Option UEdNode_HoudiniBuildSequenceEdge :=
  match ed.Nodes.getD i UEdGraphNode.Other with
  | UEdGraphNode.SequenceEdge d => some d
  | _ => none

/-- The response codes of `FPinConnectionResponse` the schema returns. -/
inductive ECanCreateConnectionResponse where
  | CONNECT_RESPONSE_DISALLOW
  | CONNECT_RESPONSE_MAKE_WITH_CONVERSION_NODE
  deriving DecidableEq, Repr, Inhabited

/-- The keys of the messages of the responses of `CanCreateConnection`. -/
inductive EConnectionMessage where
  | PinError_InvalidEdNode
  | ConnectionSameNode
  | PinError_InvalidNode
  | PinError_AlreadyConnected
  | PinError_Cycle
  | PinConnect
  deriving DecidableEq, Repr, Inhabited

/-- The struct `FPinConnectionResponse`. -/
structure FPinConnectionResponse where
  Response : ECanCreateConnectionResponse
  Message : EConnectionMessage
  deriving DecidableEq, Repr, Inhabited

/-- The `while (!NodeStack.IsEmpty())` loop of `CanCreateConnection`, bounded by
`fuel` turns; `NodeStack` is kept with its top at the head. Returns `Visited`. -/
def UEdGraphSchema_HoudiniBuildSequenceGraph.ancestorsLoop (g : UAutomationGraph) :
    Nat → List NodePtr → List NodePtr → List NodePtr
  | 0, _, Visited => Visited
  | _ + 1, [], Visited => Visited
  | fuel + 1, AncestorNode :: NodeStack, Visited =>
    if Visited.contains AncestorNode then ancestorsLoop g fuel NodeStack Visited
    else
      ancestorsLoop g fuel ((g.node AncestorNode).ParentNodes.reverse ++ NodeStack)
        (TSetAdd Visited AncestorNode)

/-- A number of turns the loop of `CanCreateConnection` cannot exceed. -/
def UEdGraphSchema_HoudiniBuildSequenceGraph.ancestorsFuel (g : UAutomationGraph)
    (FromNode : NodePtr) : Nat :=
  (g.node FromNode).ParentNodes.length + (g.Nodes.map (fun n => n.ParentNodes.length)).sum

/-- The set `Visited` at the end of the traversal of `CanCreateConnection`. -/
def UEdGraphSchema_HoudiniBuildSequenceGraph.visitedAncestors (g : UAutomationGraph)
    (FromNode : NodePtr) : List NodePtr :=
  ancestorsLoop g (ancestorsFuel g FromNode) (g.node FromNode).ParentNodes.reverse []

/-- The method `UEdGraphSchema_HoudiniBuildSequenceGraph::CanCreateConnection`;
`PinAOwner` and `PinBOwner` are the indices of `PinA->GetOwningNode()` and
`PinB->GetOwningNode()`. The second null test of the source repeats the first. -/
def UEdGraphSchema_HoudiniBuildSequenceGraph.CanCreateConnection
    (ed : UEdGraph_HoudiniBuildSequenceGraph) (g : UAutomationGraph)
    (PinAOwner PinBOwner : Nat) : FPinConnectionResponse :=
  match ed.sequenceNode PinAOwner, ed.sequenceNode PinBOwner with
  | some FromEdNode, some ToEdNode =>
    if PinAOwner = PinBOwner then
      ⟨ECanCreateConnectionResponse.CONNECT_RESPONSE_DISALLOW,
        EConnectionMessage.ConnectionSameNode⟩
    else
      let FromNode := FromEdNode.SequenceNode
      let ToNode := ToEdNode.SequenceNode
      if (g.node FromNode).ChildNodes.contains ToNode
          ∨ (g.node ToNode).ChildNodes.contains FromNode then
        ⟨ECanCreateConnectionResponse.CONNECT_RESPONSE_DISALLOW,
          EConnectionMessage.PinError_AlreadyConnected⟩
      else if (visitedAncestors g FromNode).contains ToNode then
        ⟨ECanCreateConnectionResponse.CONNECT_RESPONSE_DISALLOW,
          EConnectionMessage.PinError_Cycle⟩
      else
        ⟨ECanCreateConnectionResponse.CONNECT_RESPONSE_MAKE_WITH_CONVERSION_NODE,
          EConnectionMessage.PinConnect⟩
  | _, _ =>
    ⟨ECanCreateConnectionResponse.CONNECT_RESPONSE_DISALLOW,
      EConnectionMessage.PinError_InvalidEdNode⟩

/-- The sets `ParentNodes` and `ChildNodes` local to one turn of `RebuildSequenceGraph`. -/
structure FRebuildSets where
  ParentNodes : List NodePtr := []
  ChildNodes : List NodePtr := []
  deriving DecidableEq, Repr, Inhabited

/-- The body of the loop `for (LinkedPin : Pin->LinkedTo)` of `RebuildSequenceGraph`. -/
def UEdGraph_HoudiniBuildSequenceGraph.rebuildLink (ed : UEdGraph_HoudiniBuildSequenceGraph)
    (SequenceGraphNode : Nat) (Direction : EEdGraphPinDirection) (s : FRebuildSets)
    (LinkedPinOwner : Nat) : FRebuildSets :=
  match ed.sequenceEdge LinkedPinOwner with
  | none => s
  | some GraphEdge =>
    let LinkedSequenceGraphNode : Option Nat :=
      match Direction with
      | EEdGraphPinDirection.EGPD_Input => GraphEdge.StartNode
      | EEdGraphPinDirection.EGPD_Output => GraphEdge.EndNode
      | EEdGraphPinDirection.EGPD_MAX => none
    match LinkedSequenceGraphNode with
    | none => s
    | some l =>
      match ed.sequenceNode l with
      | none => s
      | some LinkedNode =>
        if l = SequenceGraphNode then s
        else
          match Direction with
          | EEdGraphPinDirection.EGPD_Input =>
            if s.ParentNodes.contains LinkedNode.SequenceNode then s
            else { s with ParentNodes := TSetAdd s.ParentNodes LinkedNode.SequenceNode }
          | EEdGraphPinDirection.EGPD_Output =>
            if s.ChildNodes.contains LinkedNode.SequenceNode then s
            else { s with ChildNodes := TSetAdd s.ChildNodes LinkedNode.SequenceNode }
          | EEdGraphPinDirection.EGPD_MAX => s

/-- The loop `for (Pin : SequenceGraphNode->Pins)` of `RebuildSequenceGraph`. -/
def UEdGraph_HoudiniBuildSequenceGraph.rebuildSets (ed : UEdGraph_HoudiniBuildSequenceGraph)
    (SequenceGraphNode : Nat) (Pins : List (Option UEdGraphPin)) : FRebuildSets :=
  Pins.foldl
    (fun s Pin =>
      match Pin with
      | none => s
      | some P => P.LinkedTo.foldl (ed.rebuildLink SequenceGraphNode P.Direction) s) {}

/-- The body of the loop `for (Node : Nodes)` of `RebuildSequenceGraph`, for the
editor node at index `Node`. -/
def UEdGraph_HoudiniBuildSequenceGraph.rebuildNode (ed : UEdGraph_HoudiniBuildSequenceGraph)
    (g : UAutomationGraph) (Node : Nat) : UAutomationGraph :=
  match ed.sequenceNode Node with
  | none => g
  | some SequenceGraphNode =>
    match SequenceGraphNode.SequenceNode with
    | none => g
    | some i =>
      let SequenceNode : NodePtr := some i
      let s := ed.rebuildSets Node SequenceGraphNode.Pins
      let n := { g.node SequenceNode with ParentNodes := s.ParentNodes, ChildNodes := s.ChildNodes }
      let g1 := g.setNode SequenceNode n
      if (g1.node SequenceNode).ParentNodes.isEmpty then
        { g1 with RootNodes := g1.RootNodes ++ [SequenceNode] }
      else g1

/-- The method `UEdGraph_HoudiniBuildSequenceGraph::RebuildSequenceGraph`. -/
def UEdGraph_HoudiniBuildSequenceGraph.RebuildSequenceGraph
    (ed : UEdGraph_HoudiniBuildSequenceGraph) (g : UAutomationGraph) : UAutomationGraph :=
  (List.range ed.Nodes.length).foldl ed.rebuildNode { g with RootNodes := [] }

/-! ## Vocabulary of the statements -/

/-- The link "`b` is listed among the parents of `a`". -/
def UAutomationGraph.parentLink (g : UAutomationGraph) (a b : NodePtr) : Prop :=
  b ∈ (g.node a).ParentNodes

/-- The link "`b` is listed among the children of `a`". -/
def UAutomationGraph.childLink (g : UAutomationGraph) (a b : NodePtr) : Prop :=
  b ∈ (g.node a).ChildNodes

/-- The node `b` is an ancestor of `a`: it is reached from `a` by following one
or more parent links. -/
def UAutomationGraph.IsAncestor (g : UAutomationGraph) (b a : NodePtr) : Prop :=
  Relation.TransGen g.parentLink a b

/-- No node reaches itself by following one or more child links. -/
def UAutomationGraph.Acyclic (g : UAutomationGraph) : Prop :=
  ∀ a, ¬ Relation.TransGen g.childLink a a

/-- Parent lists and child lists mirror each other. -/
def UAutomationGraph.Mirrored (g : UAutomationGraph) : Prop :=
  ∀ a b, b ∈ (g.node a).ChildNodes ↔ a ∈ (g.node b).ParentNodes

/-- The graph with the connection `A → B` added: `B` joins the children of `A`
and `A` joins the parents of `B`. -/
def UAutomationGraph.addConnection (g : UAutomationGraph) (A B : NodePtr) : UAutomationGraph :=
  let g1 := g.setNode A { g.node A with ChildNodes := (g.node A).ChildNodes ++ [B] }
  g1.setNode B { g1.node B with ParentNodes := (g1.node B).ParentNodes ++ [A] }

/-- The pointer designates a node object of the graph. -/
def UAutomationGraph.IsNode (g : UAutomationGraph) (p : NodePtr) : Prop :=
  ∃ i, p = some i ∧ i < g.Nodes.length

/-- Every editor node owns its own runtime node: two editor nodes that carry a
sequence node carry different ones (`SequenceNode` is an instanced subobject,
created with the editor node and copied with it). -/
def UEdGraph_HoudiniBuildSequenceGraph.OwnsSequenceNodes
    (ed : UEdGraph_HoudiniBuildSequenceGraph) : Prop :=
  ∀ i j ni nj, ed.sequenceNode i = some ni → ed.sequenceNode j = some nj →
    ni.SequenceNode = nj.SequenceNode → i = j

/-- The node is reachable from the root set by following child links. -/
def UAutomationGraph.ReachableFromRoots (g : UAutomationGraph) (v : NodePtr) : Prop :=
  ∃ r ∈ g.RootNodes, Relation.ReflTransGen g.childLink r v

/-- The child links of the nodes reachable from the root set contain a cycle. -/
def UAutomationGraph.HasReachableCycle (g : UAutomationGraph) : Prop :=
  ∃ v, g.ReachableFromRoots v ∧ Relation.TransGen g.childLink v v

/-- The node object `n1` has the class and the links of `n`. -/
def UAutomationGraphNode.SameLinks (n n1 : UAutomationGraphNode) : Prop :=
  n1.Class = n.Class ∧ n1.ParentNodes = n.ParentNodes ∧ n1.ChildNodes = n.ChildNodes

/-- The graph `g1` has the structure of `g`: the same root set and, behind every
pointer, a node of the same class with the same links. -/
def UAutomationGraph.SameLinks (g g1 : UAutomationGraph) : Prop :=
  g1.RootNodes = g.RootNodes ∧ ∀ p, (g.node p).SameLinks (g1.node p)

/-- The graph is the diamond `A → B → D`, `A → C → D` with root `A`, where `A`,
`B`, `C`, `D` are the nodes 0, 1, 2, 3; the classes and the other fields of the
four nodes are free. -/
def UAutomationGraph.IsDiamond (g : UAutomationGraph) : Prop :=
  g.RootNodes = [some 0] ∧ g.Nodes.length = 4
  ∧ (g.node (some 0)).ParentNodes = [] ∧ (g.node (some 0)).ChildNodes = [some 1, some 2]
  ∧ (g.node (some 1)).ParentNodes = [some 0] ∧ (g.node (some 1)).ChildNodes = [some 3]
  ∧ (g.node (some 2)).ParentNodes = [some 0] ∧ (g.node (some 2)).ChildNodes = [some 3]
  ∧ (g.node (some 3)).ParentNodes = [some 1, some 2] ∧ (g.node (some 3)).ChildNodes = []

/-- The stored state of `g1` is `Standby` only where that of `g` is. -/
def UAutomationGraph.NoNewStandby (g g1 : UAutomationGraph) : Prop :=
  ∀ p, (g1.node p).NodeState = EAutomationGraphNodeState.Standby →
    (g.node p).NodeState = EAutomationGraphNodeState.Standby

/-- Every call of the list was made at a moment when all parents of the receiver
were stored as `Finished`. -/
def CallsWithFinishedParents (Calls : List FActivateCall) : Prop :=
  ∀ c ∈ Calls, ∀ p ∈ (c.Graph.node c.Node).ParentNodes,
    (c.Graph.node p).NodeState = EAutomationGraphNodeState.Finished

/-- Every root has an empty parent list, as after a rebuild. -/
def UAutomationGraph.RootsHaveNoParents (g : UAutomationGraph) : Prop :=
  ∀ r ∈ g.RootNodes, (g.node r).ParentNodes = []

/-- The node is listed as a parent by no node. -/
def UAutomationGraph.IsParentOfNone (g : UAutomationGraph) (D : NodePtr) : Prop :=
  ∀ q, D ∉ (g.node q).ParentNodes

/-- Every member of the active set that is stored as `Standby` has no parents. -/
def AHoudiniBuildManager.StandbyHaveNoParents (m : AHoudiniBuildManager) : Prop :=
  ∀ n ∈ m.ActiveNodes,
    (m.SequenceGraph.node n).NodeState = EAutomationGraphNodeState.Standby →
      (m.SequenceGraph.node n).ParentNodes = []

/-- Invariant of one pass of `PollActiveNodes` that started on the graph `g`. -/
structure PollInv (g : UAutomationGraph) (s : FPollState) : Prop where
  links : g.SameLinks s.Graph
  standby : g.NoNewStandby s.Graph
  added : ∀ n ∈ s.ToAdd, (s.Graph.node n).NodeState ≠ EAutomationGraphNodeState.Standby
  calls : CallsWithFinishedParents s.Calls
  callLinks : ∀ c ∈ s.Calls, g.SameLinks c.Graph

/-- During a pass of `PollActiveNodes` that started on the graph `g`, the node
`D` has either received a call of `Activate()` or is untouched and not to be added. -/
def PollFrame (D : NodePtr) (g : UAutomationGraph) (s : FPollState) : Prop :=
  (∃ c ∈ s.Calls, c.Node = D) ∨ (s.Graph.node D = g.node D ∧ D ∉ s.ToAdd)

/-- Measure of the traversals: the number of successor links, as listed by
`next`, of the first `n` node objects that are not yet in `Visited`. -/
def unvisitedWeight (n : Nat) (next : NodePtr → List NodePtr) (Visited : List NodePtr) : Nat :=
  ((List.range n).map (fun i => if some i ∈ Visited then 0 else (next (some i)).length)).sum

/-- Invariant of the traversal of `InitializeNodes` over the child links of
`g`, for its stack and visited set. The ghost `anc v` is the ancestor set a
visited node `v` was processed with and `rank v` its position in the order of
the visits. -/
structure InitializeInv (g : UAutomationGraph) (NodeStack : List FEHEBuildSequenceDFSNode)
    (Visited : List NodePtr) (anc : NodePtr → List NodePtr) (rank : NodePtr → Nat) : Prop where
  nodup : Visited.Nodup
  reachStack : ∀ d ∈ NodeStack, g.ReachableFromRoots d.GraphNode
  reachVisited : ∀ v ∈ Visited, g.ReachableFromRoots v
  path : ∀ d ∈ NodeStack, ∀ a ∈ d.Ancestors,
    Relation.TransGen g.childLink a d.GraphNode ∧ a ∈ Visited
  roots : ∀ r ∈ g.RootNodes, r ∈ Visited ∨ ∃ d ∈ NodeStack, d.GraphNode = r
  closed : ∀ v ∈ Visited, ∀ c ∈ (g.node v).ChildNodes,
    (c ∈ Visited ∧ (rank c ≤ rank v ∨ anc v ⊆ anc c))
      ∨ (c ∉ Visited ∧ ∃ d ∈ NodeStack, d.GraphNode = c ∧ anc v ⊆ d.Ancestors)
  mono : NodeStack.Pairwise (fun hi lo => lo.Ancestors ⊆ hi.Ancestors)
  noBack : ∀ v ∈ Visited, v ∈ anc v ∧ ∀ c ∈ (g.node v).ChildNodes, c ∉ anc v
  later : ∀ d ∈ NodeStack, ∀ a ∈ d.Ancestors, ∀ u ∈ Visited, rank a ≤ rank u → a ∈ anc u
  between : ∀ w ∈ Visited, ∀ a ∈ anc w,
    a ∈ Visited ∧ ∀ u ∈ Visited, rank a ≤ rank u → rank u ≤ rank w → a ∈ anc u
  rankLt : ∀ v ∈ Visited, rank v < Visited.length

/-! ## Example inputs -/

/-- A world with two Houdini asset actors that have a component, a landscape,
and a Houdini asset actor without a component. -/
def exampleWorld : UWorld :=
  { Actors :=
      [some (AActor.HoudiniAssetActor
          { Tags := [1], HoudiniAssetComponent := some { HoudiniAsset := some 7 } }),
       some (AActor.HoudiniAssetActor
          { Tags := [2], HoudiniAssetComponent := some { HoudiniAsset := some 7 } }),
       some (AActor.Landscape { LandscapeInfo := some [5], EditLayerNames := [6] }),
       some (AActor.HoudiniAssetActor { Tags := [1], HoudiniAssetComponent := none })] }

/-- The environment at clock reading `now`, in `exampleWorld`, every derived
`BuildInternal` succeeding. -/
def exampleEnv (now : Int) : FEnv :=
  ⟨now, exampleWorld, fun _ => true⟩

/-- An Active build-sequence node without work items. -/
def exampleActiveNoItems : UAutomationGraphNode :=
  { Class := ENodeClass.HoudiniBuildSequenceNode, NodeState := EAutomationGraphNodeState.Active }

/-- An Active build-sequence node whose two work items are Finished. -/
def exampleActiveAllFinished : UAutomationGraphNode :=
  { Class := ENodeClass.HoudiniBuildSequenceNode, NodeState := EAutomationGraphNodeState.Active,
    WorkItems :=
      [some { ToBuild := some 0, BuildState := EEHEBuildState.Finished },
       some { ToBuild := some 1, BuildState := EEHEBuildState.Finished }] }

/-- A work item on actor 1 that has been Building since clock reading 0. -/
def exampleBuildingItem : UHoudiniBuildWorkItem :=
  { ToBuild := some 1, TimeStarted := 0, BuildState := EEHEBuildState.Building }

/-- An Active build-sequence node: a failed item, then an item Building since 0. -/
def exampleActiveErrorFirst : UAutomationGraphNode :=
  { Class := ENodeClass.HoudiniBuildSequenceNode, NodeState := EAutomationGraphNodeState.Active,
    WorkItems :=
      [some { ToBuild := some 0, BuildState := EEHEBuildState.Error },
       some exampleBuildingItem] }

/-- An Active build-sequence node: a Finished item, an item Building since 0,
then a failed item. -/
def exampleActiveExpiredFirst : UAutomationGraphNode :=
  { Class := ENodeClass.HoudiniBuildSequenceNode, NodeState := EAutomationGraphNodeState.Active,
    WorkItems :=
      [some { ToBuild := some 0, BuildState := EEHEBuildState.Finished },
       some exampleBuildingItem,
       some { ToBuild := some 0, BuildState := EEHEBuildState.Error }] }

/-- A graph of two default nodes: node 0 in Standby without parents, node 1 in
Standby with parent 0. -/
def exampleChain : UAutomationGraph :=
  { Nodes :=
      [{ NodeState := EAutomationGraphNodeState.Standby, ChildNodes := [some 1] },
       { NodeState := EAutomationGraphNodeState.Standby, ParentNodes := [some 0] }],
    RootNodes := [some 0] }

/-- A graph of two default nodes without links. -/
def exampleTwoIsolated : UAutomationGraph :=
  { Nodes := [{}, {}], RootNodes := [] }

/-- An editor graph: editor node 0 carries node 0, editor node 1 carries node 1,
and editor node 2 is an edge from editor node 0 to editor node 1, linked to the
output pin of the former and the input pin of the latter. -/
def exampleEd : UEdGraph_HoudiniBuildSequenceGraph :=
  { Nodes :=
      [UEdGraphNode.SequenceNode
        { SequenceNode := some 0,
          Pins := [some { Direction := EEdGraphPinDirection.EGPD_Input, LinkedTo := [] },
                   some { Direction := EEdGraphPinDirection.EGPD_Output, LinkedTo := [2] }] },
       UEdGraphNode.SequenceNode
        { SequenceNode := some 1,
          Pins := [some { Direction := EEdGraphPinDirection.EGPD_Input, LinkedTo := [2] },
                   some { Direction := EEdGraphPinDirection.EGPD_Output, LinkedTo := [] }] },
       UEdGraphNode.SequenceEdge { StartNode := some 0, EndNode := some 1 }] }

/-- The diamond `A → B → D`, `A → C → D` of default nodes: `A`, `B`, `C`, `D`
are the nodes 0, 1, 2, 3. -/
def exampleDiamond : UAutomationGraph :=
  { Nodes :=
      [{ ChildNodes := [some 1, some 2] },
       { ParentNodes := [some 0], ChildNodes := [some 3] },
       { ParentNodes := [some 0], ChildNodes := [some 3] },
       { ParentNodes := [some 1, some 2] }],
    RootNodes := [some 0] }

/-- Two default nodes whose child links form the cycle `0 → 1 → 0`, with root 0. -/
def exampleCycle : UAutomationGraph :=
  { Nodes :=
      [{ ChildNodes := [some 1], ParentNodes := [some 1] },
       { ChildNodes := [some 0], ParentNodes := [some 0] }],
    RootNodes := [some 0] }

/-- A world with two Houdini asset actors that have a component: actor 0 with
tag 1 and actor 1 with tag 2. -/
def exampleBuildWorld : UWorld :=
  { Actors :=
      [some (AActor.HoudiniAssetActor
          { Tags := [1], HoudiniAssetComponent := some { HoudiniAsset := some 7 } }),
       some (AActor.HoudiniAssetActor
          { Tags := [2], HoudiniAssetComponent := some { HoudiniAsset := some 8 } })] }

/-- The environment at clock reading `now`, in `exampleBuildWorld`, every derived
`BuildInternal` succeeding. -/
def exampleBuildEnv (now : Int) : FEnv :=
  ⟨now, exampleBuildWorld, fun _ => true⟩

/-- The diamond `A → B → D`, `A → C → D` where `A` and `D` are default nodes and
`B` and `C` are build-sequence nodes that select the actors with tag 1 and tag 2. -/
def exampleBuildDiamond : AHoudiniBuildManager :=
  { SequenceGraph :=
      { Nodes :=
          [{ ChildNodes := [some 1, some 2] },
           { Class := ENodeClass.HoudiniBuildSequenceNode,
             WorkItemClass := EWorkItemClass.Derived,
             BuildInfo := { ActorTags := [1] },
             ParentNodes := [some 0], ChildNodes := [some 3] },
           { Class := ENodeClass.HoudiniBuildSequenceNode,
             WorkItemClass := EWorkItemClass.Derived,
             BuildInfo := { ActorTags := [2] },
             ParentNodes := [some 0], ChildNodes := [some 3] },
           { ParentNodes := [some 1, some 2] }],
        RootNodes := [some 0] } }

/-- A run on `exampleBuildDiamond` after `Run()`: two ticks, the completion of
the work item of `B`, and a tick. -/
def exampleDiamondEventsB : List FRunEvent :=
  [FRunEvent.Poll (exampleBuildEnv 100), FRunEvent.Poll (exampleBuildEnv 200),
   FRunEvent.PostProcess (some 1) 0 true, FRunEvent.Poll (exampleBuildEnv 300)]

/-- The run `exampleDiamondEventsB` followed by the completion of the work item
of `C` and a tick. -/
def exampleDiamondEventsBC : List FRunEvent :=
  exampleDiamondEventsB
    ++ [FRunEvent.PostProcess (some 2) 0 true, FRunEvent.Poll (exampleBuildEnv 400)]

/-- A manager whose graph has the roots 0, 1 (default nodes) and 2 (a
build-sequence node on the actor with tag 1); node 3 is a default child of 0;
node 4 is a build-sequence node on the actor with tag 2, with a fail timeout of
one second, child of 3 and 1; node 5 is a default child of 4 and 2. -/
def exampleReactivation : AHoudiniBuildManager :=
  { SequenceGraph :=
      { Nodes :=
          [{ ChildNodes := [some 3] },
           { ChildNodes := [some 4] },
           { Class := ENodeClass.HoudiniBuildSequenceNode,
             WorkItemClass := EWorkItemClass.Derived,
             BuildInfo := { ActorTags := [1] },
             ChildNodes := [some 5] },
           { ParentNodes := [some 0], ChildNodes := [some 4] },
           { Class := ENodeClass.HoudiniBuildSequenceNode,
             WorkItemClass := EWorkItemClass.Derived,
             BuildInfo := { ActorTags := [2], BuildFailTimeoutSec := 1000 },
             ParentNodes := [some 3, some 1], ChildNodes := [some 5] },
           { ParentNodes := [some 4, some 2] }],
        RootNodes := [some 0, some 1, some 2] } }

/-- A run on `exampleReactivation`: `Run()`, two ticks, the completion of the
work item of node 2, and a tick at which the work item of node 4 has been
building for 1.1 seconds. -/
def exampleReactivationEvents3 : List FRunEvent :=
  [FRunEvent.Run (exampleBuildEnv 0),
   FRunEvent.Poll (exampleBuildEnv 100), FRunEvent.Poll (exampleBuildEnv 200),
   FRunEvent.PostProcess (some 2) 0 true, FRunEvent.Poll (exampleBuildEnv 1300)]

/-- The run `exampleReactivationEvents3` followed by the completion of the work
item of node 4 and a tick. -/
def exampleReactivationEvents4 : List FRunEvent :=
  exampleReactivationEvents3
    ++ [FRunEvent.PostProcess (some 4) 0 true, FRunEvent.Poll (exampleBuildEnv 1400)]

/-! ## Vocabulary of the statements on work items and build-sequence nodes -/

/-- What `ToBuild.Get()->GetHoudiniAssetComponent()` answers for a target:
`none` when the target is not a live `AHoudiniAssetActor` or has no component. -/
def UWorld.GetHoudiniAssetComponent (w : UWorld) (p : Option ActorPtr) :
    Option UHoudiniAssetComponent :=
  match w.assetActor p with
  | none => none
  | some a => a.HoudiniAssetComponent

/-- The target of a slot of `WorkItems`; `none` for a null slot. -/
def UHoudiniBuildWorkItem.target (x : Option UHoudiniBuildWorkItem) : Option ActorPtr :=
  match x with
  | none => none
  | some w => w.ToBuild

/-- The slot of `WorkItems` holds a work item in state `Building`. -/
def UHoudiniBuildWorkItem.IsBuilding (x : Option UHoudiniBuildWorkItem) : Prop :=
  ∃ w, x = some w ∧ w.BuildState = EEHEBuildState.Building

/-- The statement `WorkItem->Build()` of `UHoudiniBuildSequenceNode::Activate`
succeeds on the slot: the slot is not null and `Build()` returns true. -/
def UHoudiniBuildWorkItem.BuildSucceeds (e : FEnv) (c : EWorkItemClass)
    (x : Option UHoudiniBuildWorkItem) : Prop :=
  ∃ w, x = some w ∧ (w.Build e c).1 = true

/-- The slot after the statement `WorkItem->Build()`. -/
def UHoudiniBuildWorkItem.afterBuild (e : FEnv) (c : EWorkItemClass)
    (x : Option UHoudiniBuildWorkItem) : Option UHoudiniBuildWorkItem :=
  x.map (fun w => (w.Build e c).2)

/-- The states in which the spec lets no work item be added: `Active` and the
three terminal states. -/
def EAutomationGraphNodeState.IsFrozen (s : EAutomationGraphNodeState) : Prop :=
  s = EAutomationGraphNodeState.Active ∨ s = EAutomationGraphNodeState.Finished
    ∨ s = EAutomationGraphNodeState.Expired ∨ s = EAutomationGraphNodeState.Error

/-! ## Example inputs for work items and build-sequence nodes -/

/-- A work item on actor 3 of `exampleWorld`, a live actor without a component,
Building since clock reading 0. -/
def exampleItemWithoutComponent : UHoudiniBuildWorkItem :=
  { ToBuild := some 3, TimeStarted := 0, BuildState := EEHEBuildState.Building }

/-- An Active build-sequence node whose only work item is `exampleItemWithoutComponent`. -/
def exampleActiveWithoutComponent : UAutomationGraphNode :=
  { Class := ENodeClass.HoudiniBuildSequenceNode, NodeState := EAutomationGraphNodeState.Active,
    WorkItems := [some exampleItemWithoutComponent] }

/-- A work item on actor 9, which `exampleWorld` does not have (a destroyed
target), Building since clock reading 0. -/
def exampleItemDestroyed : UHoudiniBuildWorkItem :=
  { ToBuild := some 9, TimeStarted := 0, BuildState := EEHEBuildState.Building }

/-- An Active build-sequence node: an item Building since 0, then the item on
the destroyed target. -/
def exampleActiveBuildingThenDestroyed : UAutomationGraphNode :=
  { Class := ENodeClass.HoudiniBuildSequenceNode, NodeState := EAutomationGraphNodeState.Active,
    WorkItems := [some exampleBuildingItem, some exampleItemDestroyed] }

/-- A build-sequence node of a derived work-item class that has Finished: its
work item on actor 0 is Finished. -/
def exampleFinishedSequenceNode : UAutomationGraphNode :=
  { Class := ENodeClass.HoudiniBuildSequenceNode, WorkItemClass := EWorkItemClass.Derived,
    NodeState := EAutomationGraphNodeState.Finished, TimeStarted := 1, TimeFinished := 2,
    WorkItems :=
      [some { ToBuild := some 0, TimeStarted := 1, BuildState := EEHEBuildState.Finished,
              DelegateBound := true }] }

/-- A build-sequence node of a derived work-item class in Standby with three
work items in Standby: on actor 0, on actor 3 (which has no component) and on
actor 1. -/
def exampleStandbySequenceNode : UAutomationGraphNode :=
  { Class := ENodeClass.HoudiniBuildSequenceNode, WorkItemClass := EWorkItemClass.Derived,
    NodeState := EAutomationGraphNodeState.Standby,
    WorkItems :=
      [some { ToBuild := some 0, BuildState := EEHEBuildState.Standby },
       some { ToBuild := some 3, BuildState := EEHEBuildState.Standby },
       some { ToBuild := some 1, BuildState := EEHEBuildState.Standby }] }

/-- A build-sequence node of a derived work-item class in Standby with work
items in Standby on the actors 0 and 1. -/
def exampleReadySequenceNode : UAutomationGraphNode :=
  { Class := ENodeClass.HoudiniBuildSequenceNode, WorkItemClass := EWorkItemClass.Derived,
    NodeState := EAutomationGraphNodeState.Standby,
    WorkItems :=
      [some { ToBuild := some 0, BuildState := EEHEBuildState.Standby },
       some { ToBuild := some 1, BuildState := EEHEBuildState.Standby }] }

/-- A manager on the chain `0 → 1` of default nodes, with an empty active set. -/
def exampleChainManager : AHoudiniBuildManager :=
  { SequenceGraph := exampleChain }

/-! ## Vocabulary of the statements on target claiming -/

/-- The map holds the value in the set stored under the key. -/
def TMapHas {κ ν : Type} [DecidableEq κ] (m : List (κ × List ν)) (k : κ) (v : ν) : Prop :=
  ∃ s, TMapFind m k = some s ∧ v ∈ s

/-- The selectors of a `BuildInfo` match a target of the world: the target is
an `AHoudiniAssetActor` that carries one of `ActorTags`, or whose component has
one of `AssetTypes` as its asset. -/
def UWorld.SelectorsMatch (w : UWorld) (info : FHoudiniBuildSequenceInfo) (a : ActorPtr) : Prop :=
  ∃ actor, w.Actors.getD a none = some (AActor.HoudiniAssetActor actor)
    ∧ ((∃ t ∈ info.ActorTags, t ∈ actor.Tags)
      ∨ ∃ c asset, actor.HoudiniAssetComponent = some c ∧ c.HoudiniAsset = some asset
          ∧ asset ∈ info.AssetTypes)

/-- The node behind the pointer is a build-sequence node whose selectors match the target. -/
def UAutomationGraph.Claims (g : UAutomationGraph) (w : UWorld) (p : NodePtr) (a : ActorPtr) :
    Prop :=
  (g.node p).Class = ENodeClass.HoudiniBuildSequenceNode
    ∧ w.SelectorsMatch (g.node p).BuildInfo a

/-- The targets of the work items of a node, in registration order. -/
def UAutomationGraphNode.targets (n : UAutomationGraphNode) : List (Option ActorPtr) :=
  n.WorkItems.map UHoudiniBuildWorkItem.target

/-- Work item number `j` of the build-sequence node behind `p` is bound to the target `a`. -/
def UAutomationGraph.BoundAt (g : UAutomationGraph) (p : NodePtr) (j : Nat) (a : ActorPtr) :
    Prop :=
  (g.node p).Class = ENodeClass.HoudiniBuildSequenceNode
    ∧ (g.node p).targets[j]? = some (some a)

/-- The list of targets `t1` is `t` followed by distinct new targets, each of
which satisfies `P`, was not among the claimed actors `A` and is among `A1`. -/
def TargetsExtend (A A1 : List ActorPtr) (P : ActorPtr → Prop)
    (t t1 : List (Option ActorPtr)) : Prop :=
  ∃ new : List (Option ActorPtr), t1 = t ++ new ∧ new.Nodup
    ∧ ∀ x ∈ new, ∃ a, x = some a ∧ a ∉ A ∧ a ∈ A1 ∧ P a

/-- Invariant of the traversal of `InitializeNodes` that started on the graph
`g0`, for the graph `g`, the claimed actors `A` and the nodes `I` initialized so
far: classes and selectors are those of `g0`; every bound target is claimed,
bound once, and bound at the first initialized node that claims it; every
target an initialized node claims is among `A`. -/
structure ClaimInv (w : UWorld) (g0 g : UAutomationGraph) (A : List ActorPtr)
    (I : List NodePtr) : Prop where
  info : ∀ p, (g.node p).Class = (g0.node p).Class ∧ (g.node p).BuildInfo = (g0.node p).BuildInfo
  bound : ∀ p j a, g.BoundAt p j a →
    a ∈ A ∧ p ∈ I ∧ g0.Claims w p a
      ∧ ∀ pre post, I = pre ++ p :: post → ∀ q ∈ pre, ¬ g0.Claims w q a
  once : ∀ p j q k a, g.BoundAt p j a → g.BoundAt q k a → p = q ∧ j = k
  claimed : ∀ q ∈ I, ∀ a, g0.Claims w q a → a ∈ A

/-! ## Example inputs for target claiming -/

/-- A manager whose graph is the chain `0 → 1` of two build-sequence nodes: node
0 selects the actors with tag 1 or tag 2, node 1 the actors with tag 2. -/
def exampleClaimChain : AHoudiniBuildManager :=
  { SequenceGraph :=
      { Nodes :=
          [{ Class := ENodeClass.HoudiniBuildSequenceNode,
             WorkItemClass := EWorkItemClass.Derived,
             BuildInfo := { ActorTags := [1, 2] },
             ChildNodes := [some 1] },
           { Class := ENodeClass.HoudiniBuildSequenceNode,
             WorkItemClass := EWorkItemClass.Derived,
             BuildInfo := { ActorTags := [2] },
             ParentNodes := [some 0] }],
        RootNodes := [some 0] } }

/-! ## Vocabulary of the statements on runs over graphs of default nodes -/

/-- A graph of default leaf nodes as a rebuild leaves it: every node object is
of the base class, the roots are the nodes without parents, parent and child
lists mirror each other, and the child links have no cycle. -/
structure UAutomationGraph.IsLeafDag (g : UAutomationGraph) : Prop where
  leaf : ∀ n ∈ g.Nodes, n.Class = ENodeClass.AutomationGraphNode
  roots : ∀ p, p ∈ g.RootNodes ↔ g.IsNode p ∧ (g.node p).ParentNodes = []
  mirrored : g.Mirrored
  acyclic : g.Acyclic

/-- The events are poll ticks and reorderings of the active set, every tick
coming at least `kBuildPollRateSec` after the poll before it; `last` is the time
of the last poll before the events. -/
def TicksPastRateLimit : Int → List FRunEvent → Prop
  | _, [] => True
  | last, FRunEvent.Poll e :: rest =>
    e.Now - last ≥ kBuildPollRateSec ∧ TicksPastRateLimit e.Now rest
  | last, FRunEvent.Reorder _ :: rest => TicksPastRateLimit last rest
  | _, _ :: _ => False

/-- The number of poll ticks among the events. -/
def countPolls : List FRunEvent → Nat
  | [] => 0
  | FRunEvent.Poll _ :: rest => countPolls rest + 1
  | _ :: rest => countPolls rest

/-- Weight of node `i` in a run: 2 while it is in Standby, 1 while it is in the
active set after that, 0 afterwards. -/
def runWeight (g : UAutomationGraph) (L : List NodePtr) (i : Nat) : Nat :=
  if (g.node (some i)).NodeState = EAutomationGraphNodeState.Standby then 2
  else if some i ∈ L then 1 else 0

/-- Total weight of the first `n` nodes in a run. -/
def runWeightSum (g : UAutomationGraph) (L : List NodePtr) (n : Nat) : Nat :=
  ((List.range n).map (runWeight g L)).sum

/-- State of a run on a graph with the structure of the graph `g0` of default
leaf nodes: the graph `g` and the active set `L`. Every node is in Standby or
Finished; a member of the active set in Standby has no parents; a node in
Standby is in the active set or has a parent that is in Standby or in the set. -/
structure LeafRun (g0 g : UAutomationGraph) (L : List NodePtr) : Prop where
  dag : g0.IsLeafDag
  links : g0.SameLinks g
  length : g.Nodes.length = g0.Nodes.length
  states : ∀ p, g0.IsNode p →
    (g.node p).NodeState = EAutomationGraphNodeState.Standby
      ∨ (g.node p).NodeState = EAutomationGraphNodeState.Finished
  nodup : L.Nodup
  valid : ∀ c ∈ L, g0.IsNode c
  standby : ∀ c ∈ L, (g.node c).NodeState = EAutomationGraphNodeState.Standby →
    (g0.node c).ParentNodes = []
  waiting : ∀ v, g0.IsNode v → (g.node v).NodeState = EAutomationGraphNodeState.Standby →
    v ∈ L ∨ ∃ p ∈ (g0.node v).ParentNodes,
      (g.node p).NodeState = EAutomationGraphNodeState.Standby ∨ p ∈ L

/-- Invariant of one pass of `PollActiveNodes` over the active set of a run in
state `gs`, after the members `done` have been polled: the graph `G` and the
sets `ToAdd` and `ToRemove` of the pass. -/
structure TickInv (g0 gs : UAutomationGraph) (done : List NodePtr) (G : UAutomationGraph)
    (ToAdd ToRemove : List NodePtr) : Prop where
  links : g0.SameLinks G
  length : G.Nodes.length = g0.Nodes.length
  states : ∀ p, (G.node p).NodeState = (gs.node p).NodeState
    ∨ ((gs.node p).NodeState = EAutomationGraphNodeState.Standby
        ∧ (G.node p).NodeState = EAutomationGraphNodeState.Finished)
  finished : ∀ c ∈ done, (G.node c).NodeState = EAutomationGraphNodeState.Finished
  remove : ∀ c, c ∈ ToRemove ↔
    c ∈ done ∧ (gs.node c).NodeState = EAutomationGraphNodeState.Finished
  add : ∀ a ∈ ToAdd, (gs.node a).NodeState = EAutomationGraphNodeState.Standby
    ∧ (G.node a).NodeState = EAutomationGraphNodeState.Finished
    ∧ (g0.node a).ParentNodes ≠ [] ∧ g0.IsNode a
  changed : ∀ p, (gs.node p).NodeState = EAutomationGraphNodeState.Standby →
    (G.node p).NodeState = EAutomationGraphNodeState.Finished → p ∈ done ∨ p ∈ ToAdd
  blocked : ∀ c ∈ done, (gs.node c).NodeState = EAutomationGraphNodeState.Finished →
    ∀ v ∈ (g0.node c).ChildNodes,
      (G.node v).NodeState = EAutomationGraphNodeState.Finished
        ∨ ∃ q ∈ (g0.node v).ParentNodes,
            (gs.node q).NodeState = EAutomationGraphNodeState.Standby

/-! ## Example inputs for runs -/

/-- The run on the chain `0 → 1` after `Run()`: the ticks at 0.1 s, 0.2 s and 0.3 s. -/
def exampleChainTicks : List FRunEvent :=
  [FRunEvent.Poll (exampleEnv 100), FRunEvent.Poll (exampleEnv 200),
   FRunEvent.Poll (exampleEnv 300)]

/-! ## Vocabulary of the statements on resets and initialization -/

/-- A call made on a build-sequence node from outside: `GetState()`,
`Add(AssetActor)`, `Ready()` or `Activate()`, each with the environment it reads. -/
inductive FNodeCall where
  | GetState (e : FEnv)
  | Add (e : FEnv) (AssetActor : Option ActorPtr)
  | Ready (e : FEnv)
  | Activate (e : FEnv)

/-- The build-sequence node after one call. -/
def UHoudiniBuildSequenceNode.call (n : UAutomationGraphNode) : FNodeCall → UAutomationGraphNode
  | FNodeCall.GetState e => (UHoudiniBuildSequenceNode.GetState e n).2
  | FNodeCall.Add e AssetActor => (UHoudiniBuildSequenceNode.Add e AssetActor n).2
  | FNodeCall.Ready e => n.Ready e
  | FNodeCall.Activate e => (UHoudiniBuildSequenceNode.Activate e n).2

/-- The build-sequence node after a sequence of calls. -/
def UHoudiniBuildSequenceNode.calls (n : UAutomationGraphNode) (cs : List FNodeCall) :
    UAutomationGraphNode :=
  cs.foldl UHoudiniBuildSequenceNode.call n

/-- Among the calls there is a `Ready()` that comes after an `Add`; `added`
tells that an `Add` came before the calls. -/
def FNodeCall.readiedAfterAdd : Bool → List FNodeCall → Bool
  | _, [] => false
  | _, FNodeCall.Add _ _ :: rest => readiedAfterAdd true rest
  | added, FNodeCall.Ready _ :: rest => added || readiedAfterAdd added rest
  | added, _ :: rest => readiedAfterAdd added rest

/-- The target has a buildable component: it is a live `AHoudiniAssetActor`
whose `GetHoudiniAssetComponent()` is not null. -/
def UWorld.HasComponent (w : UWorld) (a : ActorPtr) : Prop :=
  ∃ c, w.GetHoudiniAssetComponent (some a) = some c

/-- In the order of initialization `I` the node behind `p` is the first
build-sequence node whose selectors match the target `a`. -/
def UAutomationGraph.FirstClaimsIn (g : UAutomationGraph) (w : UWorld) (I : List NodePtr)
    (p : NodePtr) (a : ActorPtr) : Prop :=
  g.Claims w p a ∧ ∃ pre post, I = pre ++ p :: post ∧ ∀ q ∈ pre, ¬ g.Claims w q a

/-- During `InitializeNodes` the node behind `p` is the first initialized
build-sequence node whose selectors match the target `a`: the node on which
`Add` is called with `a`. -/
def AHoudiniBuildManager.FirstClaims (e : FEnv) (m : AHoudiniBuildManager) (p : NodePtr)
    (a : ActorPtr) : Prop :=
  m.SequenceGraph.FirstClaimsIn e.World (m.InitializeNodesInitialized e) p a

/-- The two loops of the build-sequence branch of `InitializeNodes`, up to the
test `if (NodeInitialized)`. -/
def AHoudiniBuildManager.addMatchedActors (e : FEnv) (n : UAutomationGraphNode)
    (AddedActors : List ActorPtr) : FNodeInit :=
  AHoudiniBuildManager.addActorsByKey e (ActorsByAsset e.World) n.BuildInfo.AssetTypes
    (AHoudiniBuildManager.addActorsByKey e (ActorsByTag e.World) n.BuildInfo.ActorTags
      ⟨n, AddedActors, true⟩)

/-- Invariant of the loops of `InitializeNodes` that call `Add` on a reset
build-sequence node, `A` being the actors claimed before the node was visited:
the node is stored as `Uninitialized`, `NodeInitialized` tells that every actor
claimed since has a component, and the node has a work item iff one of them has. -/
structure AddInv (w : UWorld) (A : List ActorPtr) (s : FNodeInit) : Prop where
  state : s.Node.NodeState = EAutomationGraphNodeState.Uninitialized
  sub : ∀ a ∈ A, a ∈ s.AddedActors
  flag : s.NodeInitialized = true ↔ ∀ a ∈ s.AddedActors, a ∉ A → w.HasComponent a
  items : s.Node.WorkItems ≠ [] ↔ ∃ a ∈ s.AddedActors, a ∉ A ∧ w.HasComponent a

/-- Invariant of the traversal of `InitializeNodes` that started on the graph
`g0`, for the graph `g`, the claimed actors `A` and the nodes `I` initialized so
far: the claim invariant; every claimed actor is matched by an initialized
node; a node not yet initialized is as the reset left it; an initialized
build-sequence node is stored as `Standby` when every target it was the first
to claim has a component and as `Uninitialized` when one has none, and it has a
work item iff one of these targets has a component. -/
structure ReadyInv (w : UWorld) (g0 g : UAutomationGraph) (A : List ActorPtr)
    (I : List NodePtr) : Prop where
  claim : ClaimInv w g0 g A I
  origin : ∀ a ∈ A, ∃ q ∈ I, g0.Claims w q a
  fresh : ∀ p, p ∉ I →
    (g.node p).NodeState = EAutomationGraphNodeState.Uninitialized
      ∧ ((g.node p).Class = ENodeClass.HoudiniBuildSequenceNode → (g.node p).WorkItems = [])
  ready : ∀ p ∈ I, (g.node p).Class = ENodeClass.HoudiniBuildSequenceNode →
    ((∀ a, g0.FirstClaimsIn w I p a → w.HasComponent a) →
        (g.node p).NodeState = EAutomationGraphNodeState.Standby)
      ∧ ((∃ a, g0.FirstClaimsIn w I p a ∧ ¬ w.HasComponent a) →
        (g.node p).NodeState = EAutomationGraphNodeState.Uninitialized)
      ∧ ((g.node p).WorkItems ≠ [] ↔ ∃ a, g0.FirstClaimsIn w I p a ∧ w.HasComponent a)

/-! ## Vocabulary of the statements on the active set -/

/-- The stored state of `g1` is `Active` only where that of `g` is. -/
def UAutomationGraph.NoNewActive (g g1 : UAutomationGraph) : Prop :=
  ∀ p, (g1.node p).NodeState = EAutomationGraphNodeState.Active →
    (g.node p).NodeState = EAutomationGraphNodeState.Active

/-- The call of `Activate()`, made by a poll tick that read `e` and started
with the active set `ActiveNodes`, found its receiver stored as `Standby`, and
it returned true unless the receiver was a member of the active set. -/
def FActivateCall.IsRegular (e : FEnv) (ActiveNodes : List NodePtr) (c : FActivateCall) : Prop :=
  (c.Graph.node c.Node).NodeState = EAutomationGraphNodeState.Standby
    ∧ (c.Node ∈ ActiveNodes ∨ ((c.Graph.node c.Node).Activate e).1 = true)

/-- Every call of `Activate()` made by the poll ticks among the events, run
from the manager `m`, is regular. -/
def AHoudiniBuildManager.ActivationsRegular (m : AHoudiniBuildManager) : List FRunEvent → Prop
  | [] => True
  | FRunEvent.Poll e :: rest =>
    (∀ c ∈ (m.PollActiveNodesCalls e).2, c.IsRegular e m.ActiveNodes)
      ∧ (m.PollActiveNodesCalls e).1.ActivationsRegular rest
  | ev :: rest => (m.step ev).1.ActivationsRegular rest

/-- Invariant of one pass of `PollActiveNodes` over the active set `A0`: a node
to be removed is stored neither as `Standby` nor as `Active`, and a node stored
as `Active` is in the active set or to be added. -/
structure ActiveInv (A0 : List NodePtr) (s : FPollState) : Prop where
  removed : ∀ q ∈ s.ToRemove,
    (s.Graph.node q).NodeState ≠ EAutomationGraphNodeState.Standby
      ∧ (s.Graph.node q).NodeState ≠ EAutomationGraphNodeState.Active
  active : ∀ p, (s.Graph.node p).NodeState = EAutomationGraphNodeState.Active →
    p ∈ A0 ∨ p ∈ s.ToAdd

/-! ## Vocabulary of the statements on the rebuild -/

/-- The editor node the rebuild takes from an edge behind a pin of the given
direction: `GetStartNode()` for an input pin, `GetEndNode()` for an output pin. -/
def UEdNode_HoudiniBuildSequenceEdge.linkedNode (GraphEdge : UEdNode_HoudiniBuildSequenceEdge)
    (Direction : EEdGraphPinDirection) : Option Nat :=
  match Direction with
  | EEdGraphPinDirection.EGPD_Input => GraphEdge.StartNode
  | EEdGraphPinDirection.EGPD_Output => GraphEdge.EndNode
  | EEdGraphPinDirection.EGPD_MAX => none

/-- The editor node at index `i` carries the sequence node `k`. -/
def UEdGraph_HoudiniBuildSequenceGraph.Carries (ed : UEdGraph_HoudiniBuildSequenceGraph)
    (i k : Nat) : Prop :=
  ∃ n, ed.sequenceNode i = some n ∧ n.SequenceNode = some k

/-- The editor node at index `x` has a pin of the given direction that is
linked to a pin of the editor node at index `d`. -/
def UEdGraph_HoudiniBuildSequenceGraph.PinLinked (ed : UEdGraph_HoudiniBuildSequenceGraph)
    (x : Nat) (Direction : EEdGraphPinDirection) (d : Nat) : Prop :=
  ∃ nx P, ed.sequenceNode x = some nx ∧ some P ∈ nx.Pins ∧ P.Direction = Direction
    ∧ d ∈ P.LinkedTo

/-- Through the link to the editor node at index `d`, a pin of the given
direction of the editor node `x` reaches an edge whose node on the far side is
another editor node, with sequence node `p`. -/
def UEdGraph_HoudiniBuildSequenceGraph.LinkReaches (ed : UEdGraph_HoudiniBuildSequenceGraph)
    (x : Nat) (Direction : EEdGraphPinDirection) (d : Nat) (p : NodePtr) : Prop :=
  ∃ GraphEdge l nl, ed.sequenceEdge d = some GraphEdge
    ∧ GraphEdge.linkedNode Direction = some l ∧ l ≠ x
    ∧ ed.sequenceNode l = some nl ∧ nl.SequenceNode = p

/-- Through a pin of the given direction among `Pins`, the editor node `x`
reaches the sequence node `p` over an edge. -/
def UEdGraph_HoudiniBuildSequenceGraph.Reaches (ed : UEdGraph_HoudiniBuildSequenceGraph)
    (x : Nat) (Pins : List (Option UEdGraphPin)) (Direction : EEdGraphPinDirection)
    (p : NodePtr) : Prop :=
  ∃ P, some P ∈ Pins ∧ P.Direction = Direction ∧ ∃ d ∈ P.LinkedTo, ed.LinkReaches x Direction d p

/-- Well-formed edges: every edge has a start node and an end node that carry a
sequence node, is linked to an output pin of its start node and to an input pin
of its end node, and is linked to no output pin of another editor node and to
no input pin of another editor node. -/
structure UEdGraph_HoudiniBuildSequenceGraph.WellFormedEdges
    (ed : UEdGraph_HoudiniBuildSequenceGraph) : Prop where
  ends : ∀ d GraphEdge, ed.sequenceEdge d = some GraphEdge →
    ∃ a b ka kb, GraphEdge.StartNode = some a ∧ GraphEdge.EndNode = some b
      ∧ ed.Carries a ka ∧ ed.Carries b kb
      ∧ ed.PinLinked a EEdGraphPinDirection.EGPD_Output d
      ∧ ed.PinLinked b EEdGraphPinDirection.EGPD_Input d
  outLinks : ∀ d GraphEdge x, ed.sequenceEdge d = some GraphEdge →
    ed.PinLinked x EEdGraphPinDirection.EGPD_Output d → GraphEdge.StartNode = some x
  inLinks : ∀ d GraphEdge x, ed.sequenceEdge d = some GraphEdge →
    ed.PinLinked x EEdGraphPinDirection.EGPD_Input d → GraphEdge.EndNode = some x

/-- Every sequence node an editor node carries is a node object of the graph. -/
def UEdGraph_HoudiniBuildSequenceGraph.NodesIn (ed : UEdGraph_HoudiniBuildSequenceGraph)
    (g : UAutomationGraph) : Prop :=
  ∀ i k, ed.Carries i k → k < g.Nodes.length

/-! ## Example inputs for resets and initialization -/

/-- A manager whose graph has the cycle `0 → 1 → 0` with root 0: node 0 is a
build-sequence node that selects the actors with tag 1, node 1 a default node. -/
def exampleCycleManager : AHoudiniBuildManager :=
  { SequenceGraph :=
      { Nodes :=
          [{ Class := ENodeClass.HoudiniBuildSequenceNode,
             WorkItemClass := EWorkItemClass.Derived,
             BuildInfo := { ActorTags := [1] },
             ParentNodes := [some 1], ChildNodes := [some 1] },
           { ParentNodes := [some 0], ChildNodes := [some 0] }],
        RootNodes := [some 0] } }

/-- A manager whose graph is one build-sequence root that selects the actors
with tag 1; in `exampleWorld` these are actor 0, which has a component, and
actor 3, which has none. -/
def exampleMissingComponent : AHoudiniBuildManager :=
  { SequenceGraph :=
      { Nodes :=
          [{ Class := ENodeClass.HoudiniBuildSequenceNode,
             WorkItemClass := EWorkItemClass.Derived,
             BuildInfo := { ActorTags := [1] } }],
        RootNodes := [some 0] } }

/-- A world with three Houdini asset actors that have a component, with the
tags 1, 2 and 3. -/
def exampleThreeActors : UWorld :=
  { Actors :=
      [some (AActor.HoudiniAssetActor
          { Tags := [1], HoudiniAssetComponent := some { HoudiniAsset := some 7 } }),
       some (AActor.HoudiniAssetActor
          { Tags := [2], HoudiniAssetComponent := some { HoudiniAsset := some 8 } }),
       some (AActor.HoudiniAssetActor
          { Tags := [3], HoudiniAssetComponent := some { HoudiniAsset := some 9 } })] }

/-- The environment at clock reading `now`, in `exampleThreeActors`, every
derived `BuildInternal` succeeding. -/
def exampleThreeEnv (now : Int) : FEnv :=
  ⟨now, exampleThreeActors, fun _ => true⟩

/-- The graph of `exampleReactivation` with default timeouts and with a
build-sequence node as node 5: roots 0, 1 (default nodes) and 2 (build-sequence
node on the actor with tag 1); node 3 is a default child of 0; node 4 is a
build-sequence node on the actor with tag 2, child of 3 and 1; node 5 is a
build-sequence node on the actor with tag 3, child of 4 and 2. -/
def exampleSecondEntry : AHoudiniBuildManager :=
  { SequenceGraph :=
      { Nodes :=
          [{ ChildNodes := [some 3] },
           { ChildNodes := [some 4] },
           { Class := ENodeClass.HoudiniBuildSequenceNode,
             WorkItemClass := EWorkItemClass.Derived,
             BuildInfo := { ActorTags := [1] },
             ChildNodes := [some 5] },
           { ParentNodes := [some 0], ChildNodes := [some 4] },
           { Class := ENodeClass.HoudiniBuildSequenceNode,
             WorkItemClass := EWorkItemClass.Derived,
             BuildInfo := { ActorTags := [2] },
             ParentNodes := [some 3, some 1], ChildNodes := [some 5] },
           { Class := ENodeClass.HoudiniBuildSequenceNode,
             WorkItemClass := EWorkItemClass.Derived,
             BuildInfo := { ActorTags := [3] },
             ParentNodes := [some 4, some 2] }],
        RootNodes := [some 0, some 1, some 2] } }

/-- A run on `exampleSecondEntry`: `Run()`, two ticks, the completion of the
work items of the nodes 2 and 4, and a tick. -/
def exampleSecondEntryEvents3 : List FRunEvent :=
  [FRunEvent.Run (exampleThreeEnv 0),
   FRunEvent.Poll (exampleThreeEnv 100), FRunEvent.Poll (exampleThreeEnv 200),
   FRunEvent.PostProcess (some 2) 0 true, FRunEvent.PostProcess (some 4) 0 true,
   FRunEvent.Poll (exampleThreeEnv 300)]

/-- The run `exampleSecondEntryEvents3` followed by the completion of the work
item of node 5 and a tick. -/
def exampleSecondEntryEvents4 : List FRunEvent :=
  exampleSecondEntryEvents3
    ++ [FRunEvent.PostProcess (some 5) 0 true, FRunEvent.Poll (exampleThreeEnv 400)]

/-- The run `exampleSecondEntryEvents4` followed by the completion of the work
item of node 4, started a second time, and a tick. -/
def exampleSecondEntryEvents5 : List FRunEvent :=
  exampleSecondEntryEvents4
    ++ [FRunEvent.PostProcess (some 4) 0 true, FRunEvent.Poll (exampleThreeEnv 500)]

/-- A manager on the chain `0 → 1`: node 0 is a default node, node 1 a
build-sequence node on the actor with tag 1 whose work items are of the base
class `UHoudiniBuildWorkItem`, the default of the constructor, whose
`BuildInternal` returns false. -/
def exampleFailedStart : AHoudiniBuildManager :=
  { SequenceGraph :=
      { Nodes :=
          [{ ChildNodes := [some 1] },
           { Class := ENodeClass.HoudiniBuildSequenceNode,
             BuildInfo := { ActorTags := [1] },
             ParentNodes := [some 0] }],
        RootNodes := [some 0] } }

/-! # Theorems -/

/-! ## Graph arena lemmas -/

theorem node_setNode_cases (g : UAutomationGraph) (p q : NodePtr) (n : UAutomationGraphNode) :
    (g.setNode p n).node q = g.node q ∨ (q = p ∧ (g.setNode p n).node q = n) := by
  cases p with
  | none => left; rfl
  | some i =>
    cases q with
    | none => left; rfl
    | some j =>
      by_cases hij : i = j
      · subst hij
        by_cases hi : i < g.Nodes.length
        · right
          refine ⟨rfl, ?_⟩
          simp [UAutomationGraph.setNode, UAutomationGraph.node, List.getD_eq_getElem?_getD,
            List.getElem?_set, hi]
        · left
          have hi2 : g.Nodes.length ≤ i := Nat.le_of_not_lt hi
          simp [UAutomationGraph.setNode, UAutomationGraph.node, List.getD_eq_getElem?_getD,
            List.getElem?_set, hi, List.getElem?_eq_none hi2]
      · left
        simp [UAutomationGraph.setNode, UAutomationGraph.node, List.getD_eq_getElem?_getD,
          List.getElem?_set, hij]

theorem node_setNode_ne (g : UAutomationGraph) (p q : NodePtr) (n : UAutomationGraphNode)
    (h : q ≠ p) : (g.setNode p n).node q = g.node q := by
  rcases node_setNode_cases g p q n with h1 | ⟨h1, _⟩
  · exact h1
  · exact absurd h1 h

theorem setNode_RootNodes (g : UAutomationGraph) (p : NodePtr) (n : UAutomationGraphNode) :
    (g.setNode p n).RootNodes = g.RootNodes := by
  cases p <;> rfl

theorem setNode_length (g : UAutomationGraph) (p : NodePtr) (n : UAutomationGraphNode) :
    (g.setNode p n).Nodes.length = g.Nodes.length := by
  cases p <;> simp [UAutomationGraph.setNode]

/-! ## Node-level lemmas -/

theorem SetState_NodeState (e : FEnv) (s : EAutomationGraphNodeState) (n : UAutomationGraphNode) :
    (n.SetState e s).NodeState = s := by
  cases s <;> rfl

theorem SetState_WorkItems (e : FEnv) (s : EAutomationGraphNodeState) (n : UAutomationGraphNode) :
    (n.SetState e s).WorkItems = n.WorkItems := by
  cases s <;> rfl

theorem SetState_Class (e : FEnv) (s : EAutomationGraphNodeState) (n : UAutomationGraphNode) :
    (n.SetState e s).Class = n.Class := by
  cases s <;> rfl

theorem SetState_ParentNodes (e : FEnv) (s : EAutomationGraphNodeState) (n : UAutomationGraphNode) :
    (n.SetState e s).ParentNodes = n.ParentNodes := by
  cases s <;> rfl

theorem SetState_ChildNodes (e : FEnv) (s : EAutomationGraphNodeState) (n : UAutomationGraphNode) :
    (n.SetState e s).ChildNodes = n.ChildNodes := by
  cases s <;> rfl

theorem SetState_BuildInfo (e : FEnv) (s : EAutomationGraphNodeState) (n : UAutomationGraphNode) :
    (n.SetState e s).BuildInfo = n.BuildInfo := by
  cases s <;> rfl

theorem scanWorkItems_length (e : FEnv) (info : FHoudiniBuildSequenceInfo) :
    ∀ (ws : List (Option UHoudiniBuildWorkItem)) (k : Nat),
      (UHoudiniBuildSequenceNode.scanWorkItems e info ws k).WorkItems.length = ws.length
  | [], k => rfl
  | none :: rest, k => rfl
  | some w :: rest, k => by
    unfold UHoudiniBuildSequenceNode.scanWorkItems
    simp only []
    split <;> simp [scanWorkItems_length e info rest]

/-- The value returned by `GetState()` of a build-sequence node is the state it stores. -/
theorem BuildSequence_GetState_fst (e : FEnv) (n : UAutomationGraphNode) :
    (UHoudiniBuildSequenceNode.GetState e n).1 = (UHoudiniBuildSequenceNode.GetState e n).2.NodeState := by
  unfold UHoudiniBuildSequenceNode.GetState
  simp only []
  split
  · rfl
  · split
    · split
      · rfl
      · split <;> rfl
    · rfl

theorem BuildSequence_GetState_length (e : FEnv) (n : UAutomationGraphNode) :
    (UHoudiniBuildSequenceNode.GetState e n).2.WorkItems.length = n.WorkItems.length := by
  unfold UHoudiniBuildSequenceNode.GetState
  simp only []
  split
  · simp [SetState_WorkItems]
  · split
    · split
      · simp [SetState_WorkItems, scanWorkItems_length]
      · split <;> simp [SetState_WorkItems, scanWorkItems_length]
    · rfl

theorem BuildSequence_GetState_Class (e : FEnv) (n : UAutomationGraphNode) :
    (UHoudiniBuildSequenceNode.GetState e n).2.Class = n.Class := by
  unfold UHoudiniBuildSequenceNode.GetState
  simp only []
  split
  · simp [SetState_Class]
  · split
    · split
      · simp [SetState_Class]
      · split <;> simp [SetState_Class]
    · rfl

theorem BuildSequence_GetState_ParentNodes (e : FEnv) (n : UAutomationGraphNode) :
    (UHoudiniBuildSequenceNode.GetState e n).2.ParentNodes = n.ParentNodes := by
  unfold UHoudiniBuildSequenceNode.GetState
  simp only []
  split
  · simp [SetState_ParentNodes]
  · split
    · split
      · simp [SetState_ParentNodes]
      · split <;> simp [SetState_ParentNodes]
    · rfl

theorem BuildSequence_GetState_ChildNodes (e : FEnv) (n : UAutomationGraphNode) :
    (UHoudiniBuildSequenceNode.GetState e n).2.ChildNodes = n.ChildNodes := by
  unfold UHoudiniBuildSequenceNode.GetState
  simp only []
  split
  · simp [SetState_ChildNodes]
  · split
    · split
      · simp [SetState_ChildNodes]
      · split <;> simp [SetState_ChildNodes]
    · rfl

theorem GetState_of_BuildSequence (e : FEnv) (n : UAutomationGraphNode)
    (h : n.Class = ENodeClass.HoudiniBuildSequenceNode) :
    n.GetState e = UHoudiniBuildSequenceNode.GetState e n := by
  unfold UAutomationGraphNode.GetState
  rw [h]

theorem GetState_of_not_BuildSequence (e : FEnv) (n : UAutomationGraphNode)
    (h : n.Class ≠ ENodeClass.HoudiniBuildSequenceNode) :
    n.GetState e = (n.NodeState, n) := by
  unfold UAutomationGraphNode.GetState
  split
  · rename_i hh; exact absurd hh h
  · rfl

theorem GetState_fst (e : FEnv) (n : UAutomationGraphNode) :
    (n.GetState e).1 = (n.GetState e).2.NodeState := by
  unfold UAutomationGraphNode.GetState
  split
  · exact BuildSequence_GetState_fst e n
  · rfl

theorem GetState_Class (e : FEnv) (n : UAutomationGraphNode) :
    (n.GetState e).2.Class = n.Class := by
  unfold UAutomationGraphNode.GetState
  split
  · exact BuildSequence_GetState_Class e n
  · rfl

theorem GetState_ParentNodes (e : FEnv) (n : UAutomationGraphNode) :
    (n.GetState e).2.ParentNodes = n.ParentNodes := by
  unfold UAutomationGraphNode.GetState
  split
  · exact BuildSequence_GetState_ParentNodes e n
  · rfl

theorem GetState_ChildNodes (e : FEnv) (n : UAutomationGraphNode) :
    (n.GetState e).2.ChildNodes = n.ChildNodes := by
  unfold UAutomationGraphNode.GetState
  split
  · exact BuildSequence_GetState_ChildNodes e n
  · rfl

/-- A build-sequence node whose stored state is not `Active` and that has work
items answers `GetState()` with its stored state. -/
theorem BuildSequence_GetState_of_not_Active (e : FEnv) (n : UAutomationGraphNode)
    (hw : n.WorkItems.length ≠ 0) (hs : n.NodeState ≠ EAutomationGraphNodeState.Active) :
    (UHoudiniBuildSequenceNode.GetState e n).1 = n.NodeState := by
  unfold UHoudiniBuildSequenceNode.GetState
  simp [hw, hs]

/-- Once `GetState()` has answered `Finished`, asking again answers `Finished`. -/
theorem GetState_Finished_again (e : FEnv) (n : UAutomationGraphNode)
    (h : (n.GetState e).1 = EAutomationGraphNodeState.Finished) :
    ((n.GetState e).2.GetState e).1 = EAutomationGraphNodeState.Finished := by
  have hst : (n.GetState e).2.NodeState = EAutomationGraphNodeState.Finished := by
    rw [← GetState_fst]; exact h
  by_cases hc : n.Class = ENodeClass.HoudiniBuildSequenceNode
  · have hc2 : (n.GetState e).2.Class = ENodeClass.HoudiniBuildSequenceNode := by
      rw [GetState_Class]; exact hc
    have hlen : (n.GetState e).2.WorkItems.length ≠ 0 := by
      have h1 : n.GetState e = UHoudiniBuildSequenceNode.GetState e n :=
        GetState_of_BuildSequence e n hc
      rw [h1, BuildSequence_GetState_length]
      intro h0
      rw [h1] at h
      unfold UHoudiniBuildSequenceNode.GetState at h
      simp [h0, SetState_NodeState] at h
    have h2 : (n.GetState e).2.GetState e
        = UHoudiniBuildSequenceNode.GetState e (n.GetState e).2 :=
      GetState_of_BuildSequence e _ hc2
    rw [h2, BuildSequence_GetState_of_not_Active e _ hlen (by rw [hst]; decide), hst]
  · have hc2 : (n.GetState e).2.Class ≠ ENodeClass.HoudiniBuildSequenceNode := by
      rw [GetState_Class]; exact hc
    have h2 : (n.GetState e).2.GetState e = ((n.GetState e).2.NodeState, (n.GetState e).2) :=
      GetState_of_not_BuildSequence e _ hc2
    rw [h2]; exact hst

/-- The parent loop of `CanActivate` answers true exactly when `GetState()` of
every parent, asked on the graph the loop starts from, is `Finished`. -/
theorem CanActivate_parents_iff (e : FEnv) :
    ∀ (ps : List NodePtr) (g : UAutomationGraph),
      (UAutomationGraphNode.CanActivate.parents e ps g).1 = true
        ↔ ∀ p ∈ ps, ((g.node p).GetState e).1 = EAutomationGraphNodeState.Finished
  | [], g => by simp [UAutomationGraphNode.CanActivate.parents]
  | p :: ps, g => by
    unfold UAutomationGraphNode.CanActivate.parents
    simp only []
    by_cases hp : ((g.node p).GetState e).1 = EAutomationGraphNodeState.Finished
    · simp only [hp, ne_eq, not_true_eq_false, if_false, List.mem_cons, forall_eq_or_imp,
        true_and]
      rw [CanActivate_parents_iff e ps]
      have key : ∀ q, (((g.setNode p ((g.node p).GetState e).2).node q).GetState e).1
          = EAutomationGraphNodeState.Finished
          ↔ ((g.node q).GetState e).1 = EAutomationGraphNodeState.Finished := by
        intro q
        rcases node_setNode_cases g p q ((g.node p).GetState e).2 with h1 | ⟨h1, h2⟩
        · rw [h1]
        · rw [h2, h1]
          exact ⟨fun _ => hp, fun _ => GetState_Finished_again e _ hp⟩
      constructor
      · intro h q hq; exact (key q).1 (h q hq)
      · intro h q hq; exact (key q).2 (h q hq)
    · simp [hp]

/-- C1: `CanActivate()` returns true iff the node's stored state is neither
`Uninitialized` nor `Active` and `GetState()` of every parent is `Finished`; in
particular it returns true for a node in state `Standby` with no parents. -/
theorem C1_CanActivate_iff (e : FEnv) (g : UAutomationGraph) (self : NodePtr) :
    ((UAutomationGraphNode.CanActivate e g self).1 = true
      ↔ ((g.node self).NodeState ≠ EAutomationGraphNodeState.Uninitialized
          ∧ (g.node self).NodeState ≠ EAutomationGraphNodeState.Active
          ∧ ∀ p ∈ (g.node self).ParentNodes,
              ((g.node p).GetState e).1 = EAutomationGraphNodeState.Finished))
    ∧ ((g.node self).NodeState = EAutomationGraphNodeState.Standby
        → (g.node self).ParentNodes = []
        → (UAutomationGraphNode.CanActivate e g self).1 = true) := by
  have main : (UAutomationGraphNode.CanActivate e g self).1 = true
      ↔ ((g.node self).NodeState ≠ EAutomationGraphNodeState.Uninitialized
          ∧ (g.node self).NodeState ≠ EAutomationGraphNodeState.Active
          ∧ ∀ p ∈ (g.node self).ParentNodes,
              ((g.node p).GetState e).1 = EAutomationGraphNodeState.Finished) := by
    unfold UAutomationGraphNode.CanActivate
    simp only []
    by_cases h1 : (g.node self).NodeState = EAutomationGraphNodeState.Uninitialized
    · simp [h1]
    by_cases h2 : (g.node self).NodeState = EAutomationGraphNodeState.Active
    · simp [h2]
    simp only [h1, h2, or_self, if_false, ne_eq, not_false_eq_true, true_and]
    by_cases h3 : (g.node self).ParentNodes = []
    · simp [h3]
    · have : (g.node self).ParentNodes.isEmpty = false := by
        cases h : (g.node self).ParentNodes with
        | nil => exact absurd h h3
        | cons a b => rfl
      simp only [this, Bool.false_eq_true, if_false]
      exact CanActivate_parents_iff e _ g
  refine ⟨main, ?_⟩
  intro hs hp
  rw [main, hs, hp]
  simp

/-- A work item "reports Finished": it is a valid object and `GetBuildState()` returns `Finished`. -/
theorem scanWorkItems_NumFinished_le (e : FEnv) (info : FHoudiniBuildSequenceInfo) :
    ∀ (ws : List (Option UHoudiniBuildWorkItem)) (k : Nat),
      (UHoudiniBuildSequenceNode.scanWorkItems e info ws k).NumFinished ≤ k + ws.length
  | [], k => by simp [UHoudiniBuildSequenceNode.scanWorkItems]
  | none :: rest, k => by simp [UHoudiniBuildSequenceNode.scanWorkItems]
  | some w :: rest, k => by
    unfold UHoudiniBuildSequenceNode.scanWorkItems
    simp only []
    have h1 := scanWorkItems_NumFinished_le e info rest k
    have h2 := scanWorkItems_NumFinished_le e info rest (k + 1)
    split <;> simp <;> omega

theorem scanWorkItems_Exit (e : FEnv) (info : FHoudiniBuildSequenceInfo) :
    ∀ (ws : List (Option UHoudiniBuildWorkItem)) (k : Nat) (st : EAutomationGraphNodeState),
      (UHoudiniBuildSequenceNode.scanWorkItems e info ws k).Exit = some st →
        st = EAutomationGraphNodeState.Error ∨ st = EAutomationGraphNodeState.Expired
  | [], k, st => by simp [UHoudiniBuildSequenceNode.scanWorkItems]
  | none :: rest, k, st => by
    simp only [UHoudiniBuildSequenceNode.scanWorkItems, Option.some.injEq]
    intro h; left; exact h.symm
  | some w :: rest, k, st => by
    unfold UHoudiniBuildSequenceNode.scanWorkItems
    simp only []
    split
    · exact scanWorkItems_Exit e info rest k st
    · exact scanWorkItems_Exit e info rest (k + 1) st
    · simp only [Option.some.injEq]; intro h; right; exact h.symm
    · simp only [Option.some.injEq]; intro h; left; exact h.symm

/-- The scan ends without an early return and with every item counted exactly
when every item is a valid object that reports `Finished`. -/
theorem scanWorkItems_all_Finished (e : FEnv) (info : FHoudiniBuildSequenceInfo) :
    ∀ (ws : List (Option UHoudiniBuildWorkItem)) (k : Nat),
      ((UHoudiniBuildSequenceNode.scanWorkItems e info ws k).Exit = none
          ∧ (UHoudiniBuildSequenceNode.scanWorkItems e info ws k).NumFinished = k + ws.length)
        ↔ ∀ x ∈ ws, ∃ w, x = some w ∧ (w.GetBuildState e info).1 = EEHEBuildState.Finished
  | [], k => by simp [UHoudiniBuildSequenceNode.scanWorkItems]
  | none :: rest, k => by simp [UHoudiniBuildSequenceNode.scanWorkItems]
  | some w :: rest, k => by
    have hle := scanWorkItems_NumFinished_le e info rest k
    have ih := scanWorkItems_all_Finished e info rest (k + 1)
    unfold UHoudiniBuildSequenceNode.scanWorkItems
    simp only [List.mem_cons, forall_eq_or_imp, Option.some.injEq, exists_eq_left', List.length_cons]
    split
    · rename_i hb
      simp only [hb]
      constructor
      · rintro ⟨_, h⟩; omega
      · rintro ⟨h, _⟩; exact absurd h (by decide)
    · rename_i hb
      simp only [hb, true_and]
      rw [← ih]
      constructor
      · rintro ⟨h1, h2⟩; exact ⟨h1, by omega⟩
      · rintro ⟨h1, h2⟩; exact ⟨h1, by omega⟩
    · rename_i hb
      simp [hb]
    · rename_i h1 h2 h3
      constructor
      · rintro ⟨h, _⟩; simp at h
      · rintro ⟨h, _⟩; exact absurd h (by intro hh; exact h2 hh)

/-- C5 (amended): for an Active build-sequence node with at least one work
item, `GetState()` returns `Finished` iff every work item is a valid object
whose `GetBuildState()` reports `Finished`. -/
theorem C5_GetState_Finished_iff (e : FEnv) (n : UAutomationGraphNode)
    (hc : n.Class = ENodeClass.HoudiniBuildSequenceNode)
    (ha : n.NodeState = EAutomationGraphNodeState.Active)
    (hw : n.WorkItems ≠ []) :
    (n.GetState e).1 = EAutomationGraphNodeState.Finished
      ↔ ∀ x ∈ n.WorkItems, ∃ w, x = some w
          ∧ (w.GetBuildState e n.BuildInfo).1 = EEHEBuildState.Finished := by
  rw [GetState_of_BuildSequence e n hc, ← scanWorkItems_all_Finished e n.BuildInfo n.WorkItems 0]
  have hlen : n.WorkItems.length ≠ 0 := by
    intro h; exact hw (List.length_eq_zero.mp h)
  unfold UHoudiniBuildSequenceNode.GetState
  simp only [hlen, if_false, ha, if_true, Nat.zero_add]
  split
  · rename_i st hex
    rw [SetState_NodeState]
    have := scanWorkItems_Exit e n.BuildInfo n.WorkItems 0 st hex
    constructor
    · intro h; rcases this with h1 | h1 <;> subst h1 <;> simp at h
    · rintro ⟨h, _⟩; rw [hex] at h; exact absurd h (by simp)
  · rename_i hex
    split
    · rename_i hnum
      rw [SetState_NodeState]
      exact ⟨fun _ => ⟨hex, hnum⟩, fun _ => rfl⟩
    · rename_i hnum
      simp only [ha]
      constructor
      · intro h; exact absurd h (by decide)
      · rintro ⟨_, h⟩; exact absurd h hnum

/-- The scan returns early with `Expired` when it meets a Building item with a
valid target whose fail timeout has elapsed, every item before it being a valid
object with a valid target in state Building, Finished or Expired. -/
theorem scanWorkItems_Expired (e : FEnv) (info : FHoudiniBuildSequenceInfo)
    (w : UHoudiniBuildWorkItem) (post : List (Option UHoudiniBuildWorkItem))
    (hv : e.World.IsValid w.ToBuild = true)
    (hb : w.BuildState = EEHEBuildState.Building)
    (ht : e.Now - w.TimeStarted ≥ info.BuildFailTimeoutSec) :
    ∀ (pre : List (Option UHoudiniBuildWorkItem)) (k : Nat),
      (∀ x ∈ pre, ∃ v, x = some v ∧ e.World.IsValid v.ToBuild = true
          ∧ (v.BuildState = EEHEBuildState.Building ∨ v.BuildState = EEHEBuildState.Finished
              ∨ v.BuildState = EEHEBuildState.Expired)) →
      (UHoudiniBuildSequenceNode.scanWorkItems e info (pre ++ some w :: post) k).Exit
        = some EAutomationGraphNodeState.Expired
  | [], k, _ => by
    simp [UHoudiniBuildSequenceNode.scanWorkItems, UHoudiniBuildWorkItem.GetBuildState, hv, hb, ht]
  | none :: rest, k, h => by
    obtain ⟨v, hv1, _⟩ := h none (by simp)
    exact absurd hv1 (by simp)
  | some v :: rest, k, h => by
    obtain ⟨v1, hv1, hvalid, hst⟩ := h (some v) (by simp)
    simp only [Option.some.injEq] at hv1
    subst hv1
    have ih := fun k => scanWorkItems_Expired e info w post hv hb ht rest k
      (fun x hx => h x (List.mem_cons_of_mem _ hx))
    simp only [List.cons_append]
    unfold UHoudiniBuildSequenceNode.scanWorkItems
    simp only []
    split
    · exact ih k
    · exact ih (k + 1)
    · rfl
    · rename_i h1 h2 h3
      exfalso
      unfold UHoudiniBuildWorkItem.GetBuildState at h1 h2 h3
      simp only [hvalid, Bool.true_eq_false, if_false] at h1 h2 h3
      rcases hst with hs | hs | hs
      · simp only [hs, if_true] at h1 h2 h3
        by_cases hto : e.Now - v.TimeStarted ≥ info.BuildFailTimeoutSec
        · simp only [hto, if_true] at h3; exact h3 trivial
        · simp only [hto, if_false] at h1; exact h1 trivial
      · simp [hs] at h2
      · simp [hs] at h3

/-- C6 (amended): for an Active build-sequence node, if a work item with a
valid target is Building and the time elapsed since its `Build()` is at least
`BuildFailTimeoutSec`, and every work item registered before it is a valid
object with a valid target in state Building, Finished or Expired, then
`GetState()` returns `Expired`, whatever the items after it are. -/
theorem C6_GetState_Expired (e : FEnv) (n : UAutomationGraphNode)
    (pre post : List (Option UHoudiniBuildWorkItem)) (w : UHoudiniBuildWorkItem)
    (hc : n.Class = ENodeClass.HoudiniBuildSequenceNode)
    (ha : n.NodeState = EAutomationGraphNodeState.Active)
    (hw : n.WorkItems = pre ++ some w :: post)
    (hv : e.World.IsValid w.ToBuild = true)
    (hb : w.BuildState = EEHEBuildState.Building)
    (ht : e.Now - w.TimeStarted ≥ n.BuildInfo.BuildFailTimeoutSec)
    (hpre : ∀ x ∈ pre, ∃ v, x = some v ∧ e.World.IsValid v.ToBuild = true
        ∧ (v.BuildState = EEHEBuildState.Building ∨ v.BuildState = EEHEBuildState.Finished
            ∨ v.BuildState = EEHEBuildState.Expired)) :
    (n.GetState e).1 = EAutomationGraphNodeState.Expired := by
  rw [GetState_of_BuildSequence e n hc]
  have hlen : n.WorkItems.length ≠ 0 := by rw [hw]; simp
  have hex := scanWorkItems_Expired e n.BuildInfo w post hv hb ht pre 0 hpre
  rw [← hw] at hex
  unfold UHoudiniBuildSequenceNode.GetState
  simp only [hlen, if_false, ha, if_true, hex, SetState_NodeState]

/-! ## Sets -/

theorem mem_TSetAdd {α : Type} [DecidableEq α] (s : List α) (x y : α) :
    y ∈ TSetAdd s x ↔ y ∈ s ∨ y = x := by
  unfold TSetAdd
  split
  · rename_i h
    constructor
    · intro hy; exact Or.inl hy
    · rintro (hy | hy)
      · exact hy
      · rw [hy]; exact h
  · simp

theorem TSetAdd_of_not_mem {α : Type} [DecidableEq α] (s : List α) (x : α) (h : x ∉ s) :
    TSetAdd s x = s ++ [x] := by
  unfold TSetAdd
  simp [h]

theorem TSetAdd_nodup {α : Type} [DecidableEq α] (s : List α) (x : α) (h : s.Nodup) :
    (TSetAdd s x).Nodup := by
  unfold TSetAdd
  split
  · exact h
  · rename_i hx
    rw [List.nodup_append]
    refine ⟨h, List.nodup_singleton x, ?_⟩
    intro a ha hb
    simp only [List.mem_singleton] at hb
    exact hx (hb ▸ ha)

/-! ## The measure of the traversals -/

theorem sum_map_update (f f1 : Nat → Nat) (j c : Nat) :
    ∀ (l : List Nat), l.Nodup → j ∈ l → (∀ i ∈ l, i ≠ j → f1 i = f i) → f1 j + c = f j →
      (l.map f1).sum + c = (l.map f).sum
  | [], _, hj, _, _ => by simp at hj
  | a :: t, hnd, hj, hne, hjc => by
    rw [List.nodup_cons] at hnd
    by_cases haj : a = j
    · subst haj
      have ht : t.map f1 = t.map f := by
        apply List.map_congr_left
        intro i hi
        exact hne i (List.mem_cons_of_mem _ hi) (fun h => hnd.1 (h ▸ hi))
      simp only [List.map_cons, List.sum_cons, ht]
      omega
    · have hjt : j ∈ t := by
        rcases List.mem_cons.mp hj with h | h
        · exact absurd h.symm haj
        · exact h
      have ih := sum_map_update f f1 j c t hnd.2 hjt
        (fun i hi => hne i (List.mem_cons_of_mem _ hi)) hjc
      have ha : f1 a = f a := hne a (List.mem_cons_self _ _) haj
      simp only [List.map_cons, List.sum_cons, ha]
      omega

/-- Adding an unvisited node to `Visited` lowers the measure by the number of
its successor links. -/
theorem unvisitedWeight_TSetAdd (n : Nat) (next : NodePtr → List NodePtr)
    (hnext : ∀ p, (∀ i, p = some i → n ≤ i) → next p = [])
    (Visited : List NodePtr) (x : NodePtr) (hx : x ∉ Visited) :
    unvisitedWeight n next (TSetAdd Visited x) + (next x).length
      = unvisitedWeight n next Visited := by
  unfold unvisitedWeight
  by_cases hin : ∃ j, x = some j ∧ j < n
  · obtain ⟨j, hj, hjn⟩ := hin
    subst hj
    apply sum_map_update _ _ j _ _ (List.nodup_range n) (List.mem_range.mpr hjn)
    · intro i _ hij
      have : (some i : NodePtr) ≠ some j := fun h => hij (Option.some.inj h)
      simp [mem_TSetAdd, this]
    · simp [mem_TSetAdd, hx]
  · have hnx : next x = [] := by
      apply hnext
      intro i hi
      by_contra hlt
      exact hin ⟨i, hi, Nat.lt_of_not_le hlt⟩
    rw [hnx]
    simp only [List.length_nil, Nat.add_zero]
    congr 1
    apply List.map_congr_left
    intro i hi
    have : (some i : NodePtr) ≠ x := by
      intro h
      exact hin ⟨i, h.symm, List.mem_range.mp hi⟩
    simp [mem_TSetAdd, this]

theorem map_range_getD {α β : Type} (d : α) (f : α → β) (l : List α) :
    (List.range l.length).map (fun i => f (l.getD i d)) = l.map f := by
  apply List.ext_getElem
  · simp
  · intro i h1 h2
    simp only [List.length_map, List.length_range] at h1
    simp [List.getD_eq_getElem?_getD, List.getElem?_eq_getElem h1]

theorem unvisitedWeight_nil (g : UAutomationGraph) (f : UAutomationGraphNode → List NodePtr) :
    unvisitedWeight g.Nodes.length (fun p => f (g.node p)) []
      = (g.Nodes.map (fun n => (f n).length)).sum := by
  unfold unvisitedWeight
  simp only [List.not_mem_nil, if_false]
  have := map_range_getD (default : UAutomationGraphNode) (fun n => (f n).length) g.Nodes
  rw [← this]
  rfl

theorem node_out_of_range (g : UAutomationGraph) (p : NodePtr)
    (h : ∀ i, p = some i → g.Nodes.length ≤ i) : g.node p = default := by
  cases p with
  | none => rfl
  | some i =>
    have := h i rfl
    simp [UAutomationGraph.node, List.getD_eq_getElem?_getD, List.getElem?_eq_none this]

/-! ## The ancestor traversal of `CanCreateConnection` -/

/-- With enough fuel the loop returns exactly the ancestors of `A`, provided
its stack and visited set hold ancestors only and lose none. -/
theorem ancestorsLoop_spec (g : UAutomationGraph) (A : NodePtr) :
    ∀ (fuel : Nat) (stack visited : List NodePtr),
      stack.length + unvisitedWeight g.Nodes.length (fun p => (g.node p).ParentNodes) visited
        ≤ fuel →
      (∀ x ∈ stack, g.IsAncestor x A) →
      (∀ x ∈ visited, g.IsAncestor x A) →
      (∀ y ∈ (g.node A).ParentNodes, y ∈ visited ∨ y ∈ stack) →
      (∀ v ∈ visited, ∀ y ∈ (g.node v).ParentNodes, y ∈ visited ∨ y ∈ stack) →
      ∀ x, x ∈ UEdGraphSchema_HoudiniBuildSequenceGraph.ancestorsLoop g fuel stack visited
        ↔ g.IsAncestor x A := by
  have final : ∀ (visited : List NodePtr),
      (∀ x ∈ visited, g.IsAncestor x A) →
      (∀ y ∈ (g.node A).ParentNodes, y ∈ visited ∨ y ∈ ([] : List NodePtr)) →
      (∀ v ∈ visited, ∀ y ∈ (g.node v).ParentNodes, y ∈ visited ∨ y ∈ ([] : List NodePtr)) →
      ∀ x, x ∈ visited ↔ g.IsAncestor x A := by
    intro visited hv hA hcl x
    constructor
    · exact hv x
    · intro hx
      unfold UAutomationGraph.IsAncestor at hx
      induction hx with
      | single h =>
        rcases hA _ h with h1 | h1
        · exact h1
        · simp at h1
      | tail _ h ih =>
        rcases hcl _ ih _ h with h1 | h1
        · exact h1
        · simp at h1
  intro fuel
  induction fuel with
  | zero =>
    intro stack visited hfuel hs hv hA hcl
    have hst : stack = [] := by
      cases stack with
      | nil => rfl
      | cons a t => simp at hfuel
    subst hst
    simp only [UEdGraphSchema_HoudiniBuildSequenceGraph.ancestorsLoop]
    exact final visited hv hA hcl
  | succ fuel ih =>
    intro stack visited hfuel hs hv hA hcl
    cases stack with
    | nil =>
      simp only [UEdGraphSchema_HoudiniBuildSequenceGraph.ancestorsLoop]
      exact final visited hv hA hcl
    | cons a rest =>
      simp only [UEdGraphSchema_HoudiniBuildSequenceGraph.ancestorsLoop, List.elem_eq_mem, decide_eq_true_eq]
      by_cases hav : a ∈ visited
      · simp only [hav, if_true]
        apply ih rest visited
        · simp only [List.length_cons] at hfuel; omega
        · intro x hx; exact hs x (List.mem_cons_of_mem _ hx)
        · exact hv
        · intro y hy
          rcases hA y hy with h | h
          · exact Or.inl h
          · rcases List.mem_cons.mp h with h1 | h1
            · left; rw [h1]; exact hav
            · exact Or.inr h1
        · intro v hvv y hy
          rcases hcl v hvv y hy with h | h
          · exact Or.inl h
          · rcases List.mem_cons.mp h with h1 | h1
            · left; rw [h1]; exact hav
            · exact Or.inr h1
      · simp only [hav, if_false]
        have ha : g.IsAncestor a A := hs a (List.mem_cons_self _ _)
        apply ih
        · have hw := unvisitedWeight_TSetAdd g.Nodes.length (fun p => (g.node p).ParentNodes)
            (fun p hp => by simp [node_out_of_range g p hp]; rfl) visited a hav
          simp only [List.length_cons, List.length_append, List.length_reverse] at hfuel ⊢
          simp only at hw
          omega
        · intro x hx
          rcases List.mem_append.mp hx with h | h
          · exact Relation.TransGen.tail ha (List.mem_reverse.mp h)
          · exact hs x (List.mem_cons_of_mem _ h)
        · intro x hx
          rcases (mem_TSetAdd _ _ _).mp hx with h | h
          · exact hv x h
          · rw [h]; exact ha
        · intro y hy
          rcases hA y hy with h | h
          · left; exact (mem_TSetAdd _ _ _).mpr (Or.inl h)
          · rcases List.mem_cons.mp h with h1 | h1
            · left; exact (mem_TSetAdd _ _ _).mpr (Or.inr h1)
            · right; exact List.mem_append.mpr (Or.inr h1)
        · intro v hvv y hy
          rcases (mem_TSetAdd _ _ _).mp hvv with h | h
          · rcases hcl v h y hy with h1 | h1
            · left; exact (mem_TSetAdd _ _ _).mpr (Or.inl h1)
            · rcases List.mem_cons.mp h1 with h2 | h2
              · left; exact (mem_TSetAdd _ _ _).mpr (Or.inr h2)
              · right; exact List.mem_append.mpr (Or.inr h2)
          · right
            rw [h] at hy
            exact List.mem_append.mpr (Or.inl (List.mem_reverse.mpr hy))

/-- The set `Visited` of `CanCreateConnection` holds exactly the ancestors of `FromNode`. -/
theorem mem_visitedAncestors (g : UAutomationGraph) (A x : NodePtr) :
    x ∈ UEdGraphSchema_HoudiniBuildSequenceGraph.visitedAncestors g A ↔ g.IsAncestor x A := by
  unfold UEdGraphSchema_HoudiniBuildSequenceGraph.visitedAncestors
  apply ancestorsLoop_spec
  · unfold UEdGraphSchema_HoudiniBuildSequenceGraph.ancestorsFuel
    rw [unvisitedWeight_nil g (fun n => n.ParentNodes)]
    simp
  · intro y hy
    exact Relation.TransGen.single (List.mem_reverse.mp hy)
  · intro y hy; simp at hy
  · intro y hy; right; exact List.mem_reverse.mpr hy
  · intro v hv; simp at hv

/-! ## Connection proposals -/

theorem CanCreateConnection_rejects_iff (ed : UEdGraph_HoudiniBuildSequenceGraph)
    (g : UAutomationGraph) (a b : Nat)
    (FromEdNode ToEdNode : UEdNode_HoudiniBuildSequenceNode)
    (ha : ed.sequenceNode a = some FromEdNode) (hb : ed.sequenceNode b = some ToEdNode) :
    (UEdGraphSchema_HoudiniBuildSequenceGraph.CanCreateConnection ed g a b).Response
        = ECanCreateConnectionResponse.CONNECT_RESPONSE_DISALLOW
      ↔ (a = b
          ∨ ToEdNode.SequenceNode ∈ (g.node FromEdNode.SequenceNode).ChildNodes
          ∨ FromEdNode.SequenceNode ∈ (g.node ToEdNode.SequenceNode).ChildNodes
          ∨ g.IsAncestor ToEdNode.SequenceNode FromEdNode.SequenceNode) := by
  unfold UEdGraphSchema_HoudiniBuildSequenceGraph.CanCreateConnection
  simp only [ha, hb, List.elem_eq_mem, decide_eq_true_eq]
  by_cases h1 : a = b
  · simp [h1]
  simp only [h1, if_false, false_or]
  by_cases h2 : ToEdNode.SequenceNode ∈ (g.node FromEdNode.SequenceNode).ChildNodes
  · simp [h2]
  by_cases h3 : FromEdNode.SequenceNode ∈ (g.node ToEdNode.SequenceNode).ChildNodes
  · simp [h3]
  simp only [h2, h3, or_self, if_false, false_or]
  by_cases h4 : ToEdNode.SequenceNode
      ∈ UEdGraphSchema_HoudiniBuildSequenceGraph.visitedAncestors g FromEdNode.SequenceNode
  · simp only [h4, if_true, true_iff]
    exact (mem_visitedAncestors g _ _).1 h4
  · simp only [h4, if_false]
    constructor
    · intro h; exact absurd h (by decide)
    · intro h; exact absurd ((mem_visitedAncestors g _ _).2 h) h4

/-- C2 (amended): for two pins owned by editor nodes that carry the nodes `A`
and `B`, `CanCreateConnection` rejects the proposed connection `A → B` iff both
pins belong to the same editor node, or `B` is already a child of `A`, or `A`
is already a child of `B`, or `B` is an ancestor of `A` (reachable from `A` by
following parent links); this holds for every graph, acyclic or not. -/
theorem C2_CanCreateConnection_rejects_iff (ed : UEdGraph_HoudiniBuildSequenceGraph)
    (g : UAutomationGraph) (a b : Nat)
    (FromEdNode ToEdNode : UEdNode_HoudiniBuildSequenceNode)
    (ha : ed.sequenceNode a = some FromEdNode) (hb : ed.sequenceNode b = some ToEdNode) :
    (UEdGraphSchema_HoudiniBuildSequenceGraph.CanCreateConnection ed g a b).Response
        = ECanCreateConnectionResponse.CONNECT_RESPONSE_DISALLOW
      ↔ (a = b
          ∨ ToEdNode.SequenceNode ∈ (g.node FromEdNode.SequenceNode).ChildNodes
          ∨ FromEdNode.SequenceNode ∈ (g.node ToEdNode.SequenceNode).ChildNodes
          ∨ g.IsAncestor ToEdNode.SequenceNode FromEdNode.SequenceNode) := by
  exact CanCreateConnection_rejects_iff ed g a b FromEdNode ToEdNode ha hb

theorem CanCreateConnection_allowed (ed : UEdGraph_HoudiniBuildSequenceGraph)
    (g : UAutomationGraph) (a b : Nat)
    (FromEdNode ToEdNode : UEdNode_HoudiniBuildSequenceNode)
    (ha : ed.sequenceNode a = some FromEdNode) (hb : ed.sequenceNode b = some ToEdNode)
    (hok : (UEdGraphSchema_HoudiniBuildSequenceGraph.CanCreateConnection ed g a b).Response
        = ECanCreateConnectionResponse.CONNECT_RESPONSE_MAKE_WITH_CONVERSION_NODE) :
    a ≠ b ∧ ¬ g.IsAncestor ToEdNode.SequenceNode FromEdNode.SequenceNode := by
  have h := CanCreateConnection_rejects_iff ed g a b FromEdNode ToEdNode ha hb
  have hne : (UEdGraphSchema_HoudiniBuildSequenceGraph.CanCreateConnection ed g a b).Response
      ≠ ECanCreateConnectionResponse.CONNECT_RESPONSE_DISALLOW := by
    rw [hok]; decide
  constructor
  · intro hab; exact hne (h.2 (Or.inl hab))
  · intro hanc; exact hne (h.2 (Or.inr (Or.inr (Or.inr hanc))))

theorem setNode_ChildNodes_of_same (G : UAutomationGraph) (B x : NodePtr)
    (n : UAutomationGraphNode) (hn : n.ChildNodes = (G.node B).ChildNodes) :
    ((G.setNode B n).node x).ChildNodes = (G.node x).ChildNodes := by
  rcases node_setNode_cases G B x n with h2 | ⟨h2, h3⟩
  · rw [h2]
  · rw [h3, hn, h2]

theorem addConnection_childLink (g : UAutomationGraph) (A B x y : NodePtr)
    (h : (g.addConnection A B).childLink x y) : g.childLink x y ∨ (x = A ∧ y = B) := by
  unfold UAutomationGraph.childLink at h ⊢
  have key : ((g.addConnection A B).node x).ChildNodes
      = ((g.setNode A { g.node A with ChildNodes := (g.node A).ChildNodes ++ [B] }).node
          x).ChildNodes := by
    unfold UAutomationGraph.addConnection
    exact setNode_ChildNodes_of_same _ _ _ _ rfl
  rw [key] at h
  rcases node_setNode_cases g A x { g.node A with ChildNodes := (g.node A).ChildNodes ++ [B] }
    with h2 | ⟨h2, h3⟩
  · rw [h2] at h; exact Or.inl h
  · rw [h3] at h
    simp only [List.mem_append, List.mem_singleton] at h
    rcases h with h | h
    · left; rw [h2]; exact h
    · right; exact ⟨h2, h⟩

/-- A path in a relation extended by one pair either avoids the pair, or uses
it once, or gives a path back from the target of the pair to its source. -/
theorem transGen_add_pair {α : Type} (r r1 : α → α → Prop) (A B : α)
    (hr : ∀ x y, r1 x y → r x y ∨ (x = A ∧ y = B)) (x y : α)
    (h : Relation.TransGen r1 x y) :
    Relation.TransGen r x y
      ∨ (Relation.ReflTransGen r x A ∧ Relation.ReflTransGen r B y)
      ∨ Relation.ReflTransGen r B A := by
  induction h with
  | single h =>
    rcases hr _ _ h with h1 | ⟨h1, h2⟩
    · exact Or.inl (Relation.TransGen.single h1)
    · right; left; rw [h1, h2]; exact ⟨Relation.ReflTransGen.refl, Relation.ReflTransGen.refl⟩
  | tail _ h ih =>
    rcases hr _ _ h with h1 | ⟨h1, h2⟩
    · rcases ih with i1 | ⟨i1, i2⟩ | i3
      · exact Or.inl (Relation.TransGen.tail i1 h1)
      · right; left; exact ⟨i1, Relation.ReflTransGen.tail i2 h1⟩
      · exact Or.inr (Or.inr i3)
    · rcases ih with i1 | ⟨i1, i2⟩ | i3
      · right; left
        rw [h2]
        exact ⟨h1 ▸ i1.to_reflTransGen, Relation.ReflTransGen.refl⟩
      · right; right; rw [h1] at i2; exact i2
      · exact Or.inr (Or.inr i3)

theorem Mirrored_transGen (g : UAutomationGraph) (hm : g.Mirrored) (x y : NodePtr)
    (h : Relation.TransGen g.childLink x y) : Relation.TransGen g.parentLink y x := by
  induction h with
  | single h => exact Relation.TransGen.single ((hm _ _).1 h)
  | tail _ h ih => exact Relation.TransGen.head ((hm _ _).1 h) ih

/-- C3: on an acyclic graph whose parent lists and child lists mirror each
other, a connection `A → B` that `CanCreateConnection` allows leaves the graph
acyclic once added. -/
theorem C3_allowed_connection_keeps_acyclic (ed : UEdGraph_HoudiniBuildSequenceGraph)
    (g : UAutomationGraph) (a b : Nat)
    (FromEdNode ToEdNode : UEdNode_HoudiniBuildSequenceNode)
    (ha : ed.sequenceNode a = some FromEdNode) (hb : ed.sequenceNode b = some ToEdNode)
    (hown : ed.OwnsSequenceNodes) (hacyc : g.Acyclic) (hmir : g.Mirrored)
    (hok : (UEdGraphSchema_HoudiniBuildSequenceGraph.CanCreateConnection ed g a b).Response
        = ECanCreateConnectionResponse.CONNECT_RESPONSE_MAKE_WITH_CONVERSION_NODE) :
    (g.addConnection FromEdNode.SequenceNode ToEdNode.SequenceNode).Acyclic := by
  obtain ⟨hab, hanc⟩ := CanCreateConnection_allowed ed g a b FromEdNode ToEdNode ha hb hok
  have hAB : FromEdNode.SequenceNode ≠ ToEdNode.SequenceNode :=
    fun h => hab (hown a b FromEdNode ToEdNode ha hb h)
  have hback : ¬ Relation.ReflTransGen g.childLink ToEdNode.SequenceNode
      FromEdNode.SequenceNode := by
    intro h
    rcases Relation.reflTransGen_iff_eq_or_transGen.mp h with h1 | h1
    · exact hAB h1
    · exact hanc (Mirrored_transGen g hmir _ _ h1)
  intro v hv
  rcases transGen_add_pair g.childLink
      (g.addConnection FromEdNode.SequenceNode ToEdNode.SequenceNode).childLink
      FromEdNode.SequenceNode ToEdNode.SequenceNode
      (fun x y h => addConnection_childLink g _ _ x y h) v v hv with h | ⟨h1, h2⟩ | h
  · exact hacyc v h
  · exact hback (h2.trans h1)
  · exact hback h

/-! ## Rebuild -/

theorem rebuildNode_RootNodes_sub (ed : UEdGraph_HoudiniBuildSequenceGraph)
    (g : UAutomationGraph) (j : Nat) (p : NodePtr)
    (h : p ∈ (ed.rebuildNode g j).RootNodes) :
    p ∈ g.RootNodes ∨ ∃ n k, ed.sequenceNode j = some n ∧ n.SequenceNode = some k ∧ p = some k
        ∧ ((ed.rebuildNode g j).node (some k)).ParentNodes = [] := by
  unfold UEdGraph_HoudiniBuildSequenceGraph.rebuildNode at h ⊢
  cases hn : ed.sequenceNode j with
  | none => simp only [hn] at h; exact Or.inl h
  | some n =>
    cases hk : n.SequenceNode with
    | none => simp only [hn, hk] at h; exact Or.inl h
    | some k =>
      simp only [hn, hk] at h ⊢
      split at h
      · rename_i hempty
        simp only [List.mem_append, List.mem_singleton] at h
        rcases h with h | h
        · rw [setNode_RootNodes] at h; exact Or.inl h
        · right
          refine ⟨n, k, rfl, hk, h, ?_⟩
          simp only [hempty, if_true]
          exact List.isEmpty_iff.mp hempty
      · rw [setNode_RootNodes] at h; exact Or.inl h

/-- What one turn of the rebuild does to the node it is run for, and that it
touches no other node. -/
theorem rebuildNode_spec (ed : UEdGraph_HoudiniBuildSequenceGraph)
    (g : UAutomationGraph) (j : Nat) (n : UEdNode_HoudiniBuildSequenceNode) (k : Nat)
    (hn : ed.sequenceNode j = some n) (hk : n.SequenceNode = some k) :
    (∀ q, q ≠ some k → (ed.rebuildNode g j).node q = g.node q)
    ∧ (∀ q, q ≠ some k → (q ∈ (ed.rebuildNode g j).RootNodes ↔ q ∈ g.RootNodes))
    ∧ (((ed.rebuildNode g j).node (some k)).ParentNodes = []
        → some k ∈ (ed.rebuildNode g j).RootNodes)
    ∧ (some k ∈ (ed.rebuildNode g j).RootNodes
        → some k ∈ g.RootNodes ∨ ((ed.rebuildNode g j).node (some k)).ParentNodes = []) := by
  unfold UEdGraph_HoudiniBuildSequenceGraph.rebuildNode
  simp only [hn, hk]
  split
  · rename_i hempty
    refine ⟨?_, ?_, ?_, ?_⟩
    · intro q hq; exact node_setNode_ne _ _ _ _ hq
    · intro q hq
      simp only [List.mem_append, List.mem_singleton, setNode_RootNodes]
      constructor
      · rintro (h | h)
        · exact h
        · exact absurd h hq
      · intro h; exact Or.inl h
    · intro _; simp
    · intro _; right; exact List.isEmpty_iff.mp hempty
  · rename_i hempty
    refine ⟨?_, ?_, ?_, ?_⟩
    · intro q hq; exact node_setNode_ne _ _ _ _ hq
    · intro q _; rw [setNode_RootNodes]
    · intro h; exact absurd (List.isEmpty_iff.mpr h) hempty
    · intro h; rw [setNode_RootNodes] at h; exact Or.inl h

theorem rebuildNode_skip (ed : UEdGraph_HoudiniBuildSequenceGraph)
    (g : UAutomationGraph) (j : Nat)
    (h : ∀ n k, ed.sequenceNode j = some n → n.SequenceNode ≠ some k) :
    ed.rebuildNode g j = g := by
  unfold UEdGraph_HoudiniBuildSequenceGraph.rebuildNode
  cases hn : ed.sequenceNode j with
  | none => rfl
  | some n =>
    cases hk : n.SequenceNode with
    | none => simp only [hk]
    | some k => exact absurd hk (h n k hn)

/-- Invariant of the rebuild after the editor nodes of `done` have been
processed: the roots are sequence nodes of processed editor nodes, and a
processed sequence node is a root iff its parent list is empty. -/
theorem rebuild_fold_inv (ed : UEdGraph_HoudiniBuildSequenceGraph)
    (hown : ed.OwnsSequenceNodes) :
    ∀ (todo done : List Nat) (g : UAutomationGraph),
      (done ++ todo).Nodup →
      (∀ p ∈ g.RootNodes, ∃ i ∈ done, ∃ n, ed.sequenceNode i = some n ∧ n.SequenceNode = p) →
      (∀ i ∈ done, ∀ n k, ed.sequenceNode i = some n → n.SequenceNode = some k →
        (some k ∈ g.RootNodes ↔ (g.node (some k)).ParentNodes = [])) →
      (∀ p ∈ (todo.foldl ed.rebuildNode g).RootNodes,
          ∃ i ∈ done ++ todo, ∃ n, ed.sequenceNode i = some n ∧ n.SequenceNode = p)
      ∧ (∀ i ∈ done ++ todo, ∀ n k, ed.sequenceNode i = some n → n.SequenceNode = some k →
          (some k ∈ (todo.foldl ed.rebuildNode g).RootNodes
            ↔ ((todo.foldl ed.rebuildNode g).node (some k)).ParentNodes = []))
  | [], done, g, _, h1, h2 => by
    simp only [List.append_nil, List.foldl_nil]
    exact ⟨h1, h2⟩
  | j :: todo, done, g, hnd, h1, h2 => by
    have hnd2 : ((done ++ [j]) ++ todo).Nodup := by simpa using hnd
    have hj : j ∉ done := by
      intro hj
      have := List.nodup_append.mp hnd
      exact this.2.2 hj (List.mem_cons_self _ _)
    have step := rebuild_fold_inv ed hown todo (done ++ [j]) (ed.rebuildNode g j) hnd2
    simp only [List.foldl_cons]
    have e1 : done ++ j :: todo = (done ++ [j]) ++ todo := by simp
    rw [e1]
    apply step
    · intro p hp
      rcases rebuildNode_RootNodes_sub ed g j p hp with h | ⟨n, k, hn, hk, hpk, _⟩
      · obtain ⟨i, hi, n, hn, hp2⟩ := h1 p h
        exact ⟨i, List.mem_append.mpr (Or.inl hi), n, hn, hp2⟩
      · exact ⟨j, by simp, n, hn, by rw [hk, hpk]⟩
    · intro i hi n k hn hk
      by_cases hex : ∃ nj kj, ed.sequenceNode j = some nj ∧ nj.SequenceNode = some kj
      · obtain ⟨nj, kj, hnj, hkj⟩ := hex
        obtain ⟨s1, s2, s3, s4⟩ := rebuildNode_spec ed g j nj kj hnj hkj
        rcases List.mem_append.mp hi with hi | hi
        · have hij : i ≠ j := fun h => hj (h ▸ hi)
          have hne : (some k : NodePtr) ≠ some kj := by
            intro h
            apply hij
            apply hown i j n nj hn hnj
            rw [hk, hkj, h]
          rw [s1 _ hne, s2 _ hne]
          exact h2 i hi n k hn hk
        · simp only [List.mem_singleton] at hi
          subst hi
          rw [hnj] at hn
          simp only [Option.some.injEq] at hn
          subst hn
          rw [hkj] at hk
          simp only [Option.some.injEq] at hk
          subst hk
          constructor
          · intro h
            rcases s4 h with h3 | h3
            · exfalso
              obtain ⟨i2, hi2, n2, hn2, hp2⟩ := h1 _ h3
              have := hown i2 i n2 nj hn2 hnj (by rw [hp2, hkj])
              exact hj (this ▸ hi2)
            · exact h3
          · exact s3
      · have hskip := rebuildNode_skip ed g j (fun n k hn hk => hex ⟨n, k, hn, hk⟩)
        rw [hskip]
        rcases List.mem_append.mp hi with hi | hi
        · exact h2 i hi n k hn hk
        · simp only [List.mem_singleton] at hi
          subst hi
          exact absurd ⟨n, k, hn, hk⟩ hex

/-- C4: after `RebuildSequenceGraph`, the node of an editor node is in the
root set iff its rebuilt parent list is empty, and the root set holds nodes of
editor nodes only; every editor node owns its own node. -/
theorem C4_Rebuild_root_iff_no_parents (ed : UEdGraph_HoudiniBuildSequenceGraph)
    (g : UAutomationGraph) (hown : ed.OwnsSequenceNodes) :
    (∀ i n k, ed.sequenceNode i = some n → n.SequenceNode = some k →
      (some k ∈ (ed.RebuildSequenceGraph g).RootNodes
        ↔ ((ed.RebuildSequenceGraph g).node (some k)).ParentNodes = []))
    ∧ (∀ p ∈ (ed.RebuildSequenceGraph g).RootNodes,
        ∃ i n, ed.sequenceNode i = some n ∧ n.SequenceNode = p) := by
  have h := rebuild_fold_inv ed hown (List.range ed.Nodes.length) [] { g with RootNodes := [] }
    (by simpa using List.nodup_range _) (by intro p hp; simp at hp) (by intro i hi; simp at hi)
  simp only [List.nil_append] at h
  constructor
  · intro i n k hn hk
    have hi : i ∈ List.range ed.Nodes.length := by
      rw [List.mem_range]
      by_contra hlt
      unfold UEdGraph_HoudiniBuildSequenceGraph.sequenceNode at hn
      rw [List.getD_eq_default _ _ (Nat.le_of_not_lt hlt)] at hn
      simp at hn
    exact h.2 i hi n k hn hk
  · intro p hp
    obtain ⟨i, _, n, hn, hp2⟩ := h.1 p hp
    exact ⟨i, n, hn, hp2⟩

/-! ## The example inputs -/

theorem exampleEd_OwnsSequenceNodes : exampleEd.OwnsSequenceNodes := by
  intro i j ni nj hi hj h
  rcases i with _ | _ | _ | i <;> rcases j with _ | _ | _ | j <;>
    simp [UEdGraph_HoudiniBuildSequenceGraph.sequenceNode, exampleEd] at hi hj ⊢ <;>
    (subst hi; subst hj; simp at h)

theorem exampleTwoIsolated_ChildNodes (x : NodePtr) : (exampleTwoIsolated.node x).ChildNodes = [] := by
  rcases x with _ | _ | _ | i <;> rfl

theorem exampleTwoIsolated_ParentNodes (x : NodePtr) :
    (exampleTwoIsolated.node x).ParentNodes = [] := by
  rcases x with _ | _ | _ | i <;> rfl

theorem exampleTwoIsolated_Acyclic : exampleTwoIsolated.Acyclic := by
  intro a h
  obtain ⟨c, hc, _⟩ := Relation.TransGen.head'_iff.mp h
  unfold UAutomationGraph.childLink at hc
  rw [exampleTwoIsolated_ChildNodes] at hc
  simp at hc

theorem exampleTwoIsolated_Mirrored : exampleTwoIsolated.Mirrored := by
  intro a b
  rw [exampleTwoIsolated_ChildNodes, exampleTwoIsolated_ParentNodes]
  simp

theorem exampleChain_childLink (x y : NodePtr) (h : exampleChain.childLink x y) :
    x = some 0 ∧ y = some 1 := by
  unfold UAutomationGraph.childLink at h
  rcases x with _ | _ | _ | i
  · simp [UAutomationGraph.node] at h
    exact absurd h (by simp [default, instInhabitedUAutomationGraphNode])
  · simp [UAutomationGraph.node, exampleChain] at h
    exact ⟨rfl, h⟩
  · simp [UAutomationGraph.node, exampleChain] at h
  · simp [UAutomationGraph.node, exampleChain] at h
    exact absurd h (by simp [default, instInhabitedUAutomationGraphNode])

theorem exampleChain_Acyclic : exampleChain.Acyclic := by
  intro a h
  obtain ⟨c, hc, hca⟩ := Relation.TransGen.head'_iff.mp h
  obtain ⟨ha, hc1⟩ := exampleChain_childLink a c hc
  subst ha; subst hc1
  rcases Relation.ReflTransGen.cases_head hca with h1 | ⟨d, hd, _⟩
  · simp at h1
  · have := (exampleChain_childLink _ _ hd).1
    simp at this

/-! ## The traversal of `InitializeNodes`: what the invariant gives at the end -/

/-- With an empty stack, every node reachable from the roots has been visited. -/
theorem InitializeInv.visited_of_reachable {g : UAutomationGraph} {Visited : List NodePtr}
    {anc : NodePtr → List NodePtr} {rank : NodePtr → Nat}
    (h : InitializeInv g [] Visited anc rank) (v : NodePtr) (hv : g.ReachableFromRoots v) :
    v ∈ Visited := by
  obtain ⟨r, hr, hrv⟩ := hv
  induction hrv with
  | refl =>
    rcases h.roots r hr with h1 | ⟨d, hd, _⟩
    · exact h1
    · simp at hd
  | tail _ hstep ih =>
    rcases h.closed _ ih _ hstep with h1 | ⟨_, d, hd, _⟩
    · exact h1.1
    · simp at hd

/-- With an empty stack, the invariant excludes a cycle among the reachable nodes. -/
theorem InitializeInv.no_cycle {g : UAutomationGraph} {Visited : List NodePtr}
    {anc : NodePtr → List NodePtr} {rank : NodePtr → Nat}
    (h : InitializeInv g [] Visited anc rank) : ¬ g.HasReachableCycle := by
  rintro ⟨v, hreach, hcyc⟩
  -- the nodes on a cycle through `v`
  let C : NodePtr → Prop := fun x =>
    Relation.TransGen g.childLink v x ∧ Relation.TransGen g.childLink x v
  have hreachC : ∀ x, Relation.ReflTransGen g.childLink v x → g.ReachableFromRoots x := by
    intro x hx
    obtain ⟨r, hr, hrv⟩ := hreach
    exact ⟨r, hr, hrv.trans hx⟩
  have hvisC : ∀ x, Relation.ReflTransGen g.childLink v x → x ∈ Visited :=
    fun x hx => h.visited_of_reachable x (hreachC x hx)
  -- a node of the cycle of least rank
  have hex : ∃ n, ∃ x, C x ∧ rank x = n := ⟨rank v, v, ⟨hcyc, hcyc⟩, rfl⟩
  classical
  obtain ⟨v1, hC1, hmin⟩ : ∃ v1, C v1 ∧ ∀ y, C y → rank v1 ≤ rank y := by
    obtain ⟨x, hx, hxr⟩ := Nat.find_spec hex
    refine ⟨x, hx, ?_⟩
    intro y hy
    rw [hxr]
    exact Nat.find_min' hex ⟨y, hy, rfl⟩
  have key : ∀ x, Relation.ReflTransGen g.childLink v1 x →
      Relation.TransGen g.childLink x v1 → v1 ∈ anc x := by
    intro x hx
    induction hx with
    | refl => intro _; exact (h.noBack v1 (hvisC v1 hC1.1.to_reflTransGen)).1
    | tail hvy hyx ih =>
      rename_i y x
      intro hxv1
      have hyv1 : Relation.TransGen g.childLink y v1 := Relation.TransGen.head hyx hxv1
      have hy := ih hyv1
      have hvy2 : Relation.ReflTransGen g.childLink v y := hC1.1.to_reflTransGen.trans hvy
      have hyvis : y ∈ Visited := hvisC y hvy2
      have hCx : C x :=
        ⟨Relation.TransGen.tail' hvy2 hyx, hxv1.trans hC1.2⟩
      have hrk : rank v1 ≤ rank x := hmin x hCx
      rcases h.closed y hyvis x hyx with ⟨hxvis, h1 | h1⟩ | ⟨_, d, hd, _⟩
      · exact (h.between y hyvis v1 hy).2 x hxvis hrk h1
      · exact h1 hy
      · simp at hd
  have hcyc1 : Relation.TransGen g.childLink v1 v1 := hC1.2.trans hC1.1
  obtain ⟨y, hv1y, hyv1⟩ := Relation.TransGen.tail'_iff.mp hcyc1
  have hy := key y hv1y (Relation.TransGen.single hyv1)
  have hyvis : y ∈ Visited := hvisC y (hC1.1.to_reflTransGen.trans hv1y)
  exact (h.noBack y hyvis).2 v1 hyv1 hy

/-! ## The traversal of `InitializeNodes`: one turn -/

theorem pushChildren_some (A : List NodePtr) :
    ∀ (cs : List NodePtr) (stack st : List FEHEBuildSequenceDFSNode),
      AHoudiniBuildManager.pushChildren A cs stack = some st →
        st = (cs.map (fun c => (⟨c, A⟩ : FEHEBuildSequenceDFSNode))).reverse ++ stack
          ∧ ∀ c ∈ cs, c ∉ A
  | [], stack, st, h => by
    simp only [AHoudiniBuildManager.pushChildren, Option.some.injEq] at h
    simp [h]
  | c :: cs, stack, st, h => by
    simp only [AHoudiniBuildManager.pushChildren, List.elem_eq_mem, decide_eq_true_eq] at h
    by_cases hc : c ∈ A
    · simp [hc] at h
    · simp only [hc, if_false] at h
      obtain ⟨h1, h2⟩ := pushChildren_some A cs _ st h
      constructor
      · rw [h1]; simp
      · intro x hx
        rcases List.mem_cons.mp hx with hx | hx
        · rw [hx]; exact hc
        · exact h2 x hx

theorem pushChildren_none (A : List NodePtr) :
    ∀ (cs : List NodePtr) (stack : List FEHEBuildSequenceDFSNode),
      AHoudiniBuildManager.pushChildren A cs stack = none → ∃ c ∈ cs, c ∈ A
  | [], stack, h => by simp [AHoudiniBuildManager.pushChildren] at h
  | c :: cs, stack, h => by
    simp only [AHoudiniBuildManager.pushChildren, List.elem_eq_mem, decide_eq_true_eq] at h
    by_cases hc : c ∈ A
    · exact ⟨c, List.mem_cons_self _ _, hc⟩
    · simp only [hc, if_false] at h
      obtain ⟨x, hx, hxA⟩ := pushChildren_none A cs _ h
      exact ⟨x, List.mem_cons_of_mem _ hx, hxA⟩

/-- A popped entry whose node is already visited is dropped. -/
theorem InitializeInv.skip {g : UAutomationGraph} {d : FEHEBuildSequenceDFSNode}
    {rest : List FEHEBuildSequenceDFSNode} {Visited : List NodePtr}
    {anc : NodePtr → List NodePtr} {rank : NodePtr → Nat}
    (h : InitializeInv g (d :: rest) Visited anc rank) (hd : d.GraphNode ∈ Visited) :
    InitializeInv g rest Visited anc rank where
  nodup := h.nodup
  reachStack := fun x hx => h.reachStack x (List.mem_cons_of_mem _ hx)
  reachVisited := h.reachVisited
  path := fun x hx => h.path x (List.mem_cons_of_mem _ hx)
  roots := by
    intro r hr
    rcases h.roots r hr with h1 | ⟨x, hx, hxr⟩
    · exact Or.inl h1
    · rcases List.mem_cons.mp hx with h2 | h2
      · left; rw [← hxr, h2]; exact hd
      · exact Or.inr ⟨x, h2, hxr⟩
  closed := by
    intro v hv c hc
    rcases h.closed v hv c hc with h1 | ⟨h1, x, hx, hxc, hsub⟩
    · exact Or.inl h1
    · right
      refine ⟨h1, x, ?_, hxc, hsub⟩
      rcases List.mem_cons.mp hx with h2 | h2
      · exfalso; apply h1; rw [← hxc, h2]; exact hd
      · exact h2
  mono := (List.pairwise_cons.mp h.mono).2
  noBack := h.noBack
  later := fun x hx => h.later x (List.mem_cons_of_mem _ hx)
  between := h.between
  rankLt := h.rankLt

/-- A child found among the ancestors of the node being processed closes a
cycle that is reachable from the roots. -/
theorem InitializeInv.cycle {g : UAutomationGraph} {d : FEHEBuildSequenceDFSNode}
    {rest : List FEHEBuildSequenceDFSNode} {Visited : List NodePtr}
    {anc : NodePtr → List NodePtr} {rank : NodePtr → Nat}
    (h : InitializeInv g (d :: rest) Visited anc rank)
    (hc : ∃ c ∈ (g.node d.GraphNode).ChildNodes, c ∈ TSetAdd d.Ancestors d.GraphNode) :
    g.HasReachableCycle := by
  obtain ⟨c, hc1, hc2⟩ := hc
  have hreach := h.reachStack d (List.mem_cons_self _ _)
  rcases (mem_TSetAdd _ _ _).mp hc2 with h1 | h1
  · obtain ⟨hp, hv⟩ := h.path d (List.mem_cons_self _ _) c h1
    exact ⟨c, h.reachVisited c hv, Relation.TransGen.tail hp hc1⟩
  · subst h1
    exact ⟨d.GraphNode, hreach, Relation.TransGen.single hc1⟩

/-- A popped entry whose node is not yet visited, and none of whose children is
among its ancestors, is visited and its children are pushed. -/
theorem InitializeInv.visit {g : UAutomationGraph} {d : FEHEBuildSequenceDFSNode}
    {rest : List FEHEBuildSequenceDFSNode} {Visited : List NodePtr}
    {anc : NodePtr → List NodePtr} {rank : NodePtr → Nat}
    (h : InitializeInv g (d :: rest) Visited anc rank) (hd : d.GraphNode ∉ Visited)
    (hno : ∀ c ∈ (g.node d.GraphNode).ChildNodes, c ∉ TSetAdd d.Ancestors d.GraphNode) :
    InitializeInv g
      (((g.node d.GraphNode).ChildNodes.map
          (fun c => (⟨c, TSetAdd d.Ancestors d.GraphNode⟩ : FEHEBuildSequenceDFSNode))).reverse
        ++ rest)
      (TSetAdd Visited d.GraphNode)
      (Function.update anc d.GraphNode (TSetAdd d.Ancestors d.GraphNode))
      (Function.update rank d.GraphNode Visited.length) := by
  -- abbreviations
  generalize hx : d.GraphNode = x at *
  generalize hA1 : TSetAdd d.Ancestors x = A1 at *
  have hA0 : ∀ a ∈ d.Ancestors, a ∈ A1 := fun a ha => by
    rw [← hA1]; exact (mem_TSetAdd _ _ _).mpr (Or.inl ha)
  have hxA1 : x ∈ A1 := by rw [← hA1]; exact (mem_TSetAdd _ _ _).mpr (Or.inr rfl)
  have hA1cases : ∀ a ∈ A1, a ∈ d.Ancestors ∨ a = x := fun a ha => by
    rw [← hA1] at ha; exact (mem_TSetAdd _ _ _).mp ha
  have hdmem : d ∈ d :: rest := List.mem_cons_self _ _
  have hancOld : ∀ v, v ∈ Visited → Function.update anc x A1 v = anc v := fun v hv => by
    rw [Function.update_noteq]; intro hvx; exact hd (hvx ▸ hv)
  have hrankOld : ∀ v, v ∈ Visited → Function.update rank x Visited.length v = rank v :=
    fun v hv => by
      rw [Function.update_noteq]; intro hvx; exact hd (hvx ▸ hv)
  have hancNew : Function.update anc x A1 x = A1 := Function.update_same _ _ _
  have hrankNew : Function.update rank x Visited.length x = Visited.length :=
    Function.update_same _ _ _
  have hxV : x ∉ Visited := hd
  have hmemV : ∀ v, v ∈ TSetAdd Visited x ↔ v ∈ Visited ∨ v = x := fun v => mem_TSetAdd _ _ _
  have hrestSub : ∀ y ∈ rest, y.Ancestors ⊆ d.Ancestors :=
    (List.pairwise_cons.mp h.mono).1
  have hstackSub : ∀ y ∈ d :: rest, ∀ a ∈ y.Ancestors, a ∈ A1 := by
    intro y hy a ha
    rcases List.mem_cons.mp hy with h1 | h1
    · rw [h1] at ha; exact hA0 a ha
    · exact hA0 a (hrestSub y h1 ha)
  have hnew : ∀ y, y ∈ ((g.node x).ChildNodes.map
      (fun c => (⟨c, A1⟩ : FEHEBuildSequenceDFSNode))).reverse ++ rest ↔
      (∃ c ∈ (g.node x).ChildNodes, y = ⟨c, A1⟩) ∨ y ∈ rest := by
    intro y
    simp only [List.mem_append, List.mem_reverse, List.mem_map]
    constructor
    · rintro (⟨c, hc, hy⟩ | hy)
      · exact Or.inl ⟨c, hc, hy.symm⟩
      · exact Or.inr hy
    · rintro (⟨c, hc, hy⟩ | hy)
      · exact Or.inl ⟨c, hc, hy.symm⟩
      · exact Or.inr hy
  have hreachx : g.ReachableFromRoots x := hx ▸ h.reachStack d hdmem
  refine
    { nodup := ?_, reachStack := ?_, reachVisited := ?_, path := ?_, roots := ?_, closed := ?_,
      mono := ?_, noBack := ?_, later := ?_, between := ?_, rankLt := ?_ }
  · exact TSetAdd_nodup _ _ h.nodup
  · intro y hy
    rcases (hnew y).mp hy with ⟨c, hc, hyc⟩ | hy
    · rw [hyc]
      obtain ⟨r, hr, hrx⟩ := hreachx
      exact ⟨r, hr, hrx.tail hc⟩
    · exact h.reachStack y (List.mem_cons_of_mem _ hy)
  · intro v hv
    rcases (hmemV v).mp hv with h1 | h1
    · exact h.reachVisited v h1
    · rw [h1]; exact hreachx
  · intro y hy a ha
    rcases (hnew y).mp hy with ⟨c, hc, hyc⟩ | hy
    · rw [hyc] at ha ⊢
      simp only at ha ⊢
      rcases hA1cases a ha with h1 | h1
      · obtain ⟨hp, hv⟩ := h.path d hdmem a h1
        rw [hx] at hp
        exact ⟨hp.tail hc, (hmemV a).mpr (Or.inl hv)⟩
      · rw [h1]
        exact ⟨Relation.TransGen.single hc, (hmemV x).mpr (Or.inr rfl)⟩
    · obtain ⟨hp, hv⟩ := h.path y (List.mem_cons_of_mem _ hy) a ha
      exact ⟨hp, (hmemV a).mpr (Or.inl hv)⟩
  · intro r hr
    rcases h.roots r hr with h1 | ⟨y, hy, hyr⟩
    · exact Or.inl ((hmemV r).mpr (Or.inl h1))
    · rcases List.mem_cons.mp hy with h2 | h2
      · left; rw [← hyr, h2, hx]; exact (hmemV x).mpr (Or.inr rfl)
      · exact Or.inr ⟨y, (hnew y).mpr (Or.inr h2), hyr⟩
  · intro v hv c hc
    rcases (hmemV v).mp hv with hvold | hvx
    · rw [hancOld v hvold, hrankOld v hvold]
      rcases h.closed v hvold c hc with ⟨h1, h2⟩ | ⟨h1, y, hy, hyc, hsub⟩
      · left
        rw [hancOld c h1, hrankOld c h1]
        exact ⟨(hmemV c).mpr (Or.inl h1), h2⟩
      · by_cases hcx : c = x
        · left
          rw [hcx, hancNew]
          refine ⟨(hmemV x).mpr (Or.inr rfl), Or.inr ?_⟩
          intro a ha
          exact hstackSub y hy a (hsub ha)
        · right
          refine ⟨?_, y, ?_, hyc, hsub⟩
          · intro hcm
            rcases (hmemV c).mp hcm with h3 | h3
            · exact h1 h3
            · exact hcx h3
          · rcases List.mem_cons.mp hy with h2 | h2
            · exfalso; apply hcx; rw [← hyc, h2, hx]
            · exact (hnew y).mpr (Or.inr h2)
    · rw [hvx] at hc ⊢
      rw [hancNew, hrankNew]
      by_cases hcv : c ∈ TSetAdd Visited x
      · left
        refine ⟨hcv, Or.inl ?_⟩
        rcases (hmemV c).mp hcv with h1 | h1
        · rw [hrankOld c h1]; exact Nat.le_of_lt (h.rankLt c h1)
        · rw [h1, hrankNew]
      · right
        exact ⟨hcv, ⟨c, A1⟩, (hnew _).mpr (Or.inl ⟨c, hc, rfl⟩), rfl, fun a ha => ha⟩
  · rw [List.pairwise_append]
    refine ⟨?_, (List.pairwise_cons.mp h.mono).2, ?_⟩
    · rw [List.pairwise_reverse, List.pairwise_map]
      exact List.pairwise_of_forall (fun _ _ a ha => ha)
    · intro hi hhi lo hlo a ha
      simp only [List.mem_reverse, List.mem_map] at hhi
      obtain ⟨c, _, hc⟩ := hhi
      rw [← hc]
      exact hstackSub lo (List.mem_cons_of_mem _ hlo) a ha
  · intro v hv
    rcases (hmemV v).mp hv with hvold | hvx
    · rw [hancOld v hvold]; exact h.noBack v hvold
    · rw [hvx, hancNew]
      exact ⟨hxA1, fun c hc => hno c hc⟩
  · intro y hy a ha u hu hle
    have haA1 : a ∈ A1 := by
      rcases (hnew y).mp hy with ⟨c, _, hyc⟩ | hy
      · rw [hyc] at ha; exact ha
      · exact hstackSub y (List.mem_cons_of_mem _ hy) a ha
    rcases (hmemV u).mp hu with huold | hux
    · rw [hancOld u huold]
      rw [hrankOld u huold] at hle
      rcases (hnew y).mp hy with ⟨c, _, hyc⟩ | hy
      · rw [hyc] at ha
        rcases hA1cases a ha with h1 | h1
        · have hav := (h.path d hdmem a h1).2
          rw [hrankOld a hav] at hle
          exact h.later d hdmem a h1 u huold hle
        · exfalso
          rw [h1, hrankNew] at hle
          have := h.rankLt u huold
          omega
      · have hav := (h.path y (List.mem_cons_of_mem _ hy) a ha).2
        rw [hrankOld a hav] at hle
        exact h.later y (List.mem_cons_of_mem _ hy) a ha u huold hle
    · rw [hux, hancNew]; exact haA1
  · intro w hw a ha
    rcases (hmemV w).mp hw with hwold | hwx
    · rw [hancOld w hwold] at ha
      obtain ⟨hav, hbt⟩ := h.between w hwold a ha
      refine ⟨(hmemV a).mpr (Or.inl hav), ?_⟩
      intro u hu h1 h2
      rw [hrankOld a hav] at h1
      rw [hrankOld w hwold] at h2
      rcases (hmemV u).mp hu with huold | hux
      · rw [hancOld u huold]
        rw [hrankOld u huold] at h1 h2
        exact hbt u huold h1 h2
      · exfalso
        rw [hux, hrankNew] at h2
        have := h.rankLt w hwold
        omega
    · rw [hwx, hancNew] at ha
      rcases hA1cases a ha with h1 | h1
      · have hav := (h.path d hdmem a h1).2
        refine ⟨(hmemV a).mpr (Or.inl hav), ?_⟩
        intro u hu h2 _
        rw [hrankOld a hav] at h2
        rcases (hmemV u).mp hu with huold | hux
        · rw [hancOld u huold]
          rw [hrankOld u huold] at h2
          exact h.later d hdmem a h1 u huold h2
        · rw [hux, hancNew]; exact ha
      · refine ⟨(hmemV a).mpr (Or.inr h1), ?_⟩
        intro u hu h2 _
        rcases (hmemV u).mp hu with huold | hux
        · exfalso
          rw [h1, hrankNew, hrankOld u huold] at h2
          have := h.rankLt u huold
          omega
        · rw [hux, hancNew]; exact ha
  · intro v hv
    have hlen : (TSetAdd Visited x).length = Visited.length + 1 := by
      rw [TSetAdd_of_not_mem _ _ hxV]; simp
    rw [hlen]
    rcases (hmemV v).mp hv with hvold | hvx
    · rw [hrankOld v hvold]
      exact Nat.lt_succ_of_lt (h.rankLt v hvold)
    · rw [hvx, hrankNew]; exact Nat.lt_succ_self _

/-! ## Operations keep the structure of the graph -/

theorem NodeSameLinks_refl (n : UAutomationGraphNode) : n.SameLinks n :=
  ⟨rfl, rfl, rfl⟩

theorem NodeSameLinks_trans {a b c : UAutomationGraphNode}
    (h1 : a.SameLinks b) (h2 : b.SameLinks c) : a.SameLinks c :=
  ⟨h2.1.trans h1.1, h2.2.1.trans h1.2.1, h2.2.2.trans h1.2.2⟩

theorem GraphSameLinks_refl (g : UAutomationGraph) : g.SameLinks g :=
  ⟨rfl, fun _ => NodeSameLinks_refl _⟩

theorem GraphSameLinks_trans {a b c : UAutomationGraph}
    (h1 : a.SameLinks b) (h2 : b.SameLinks c) : a.SameLinks c :=
  ⟨h2.1.trans h1.1, fun p => NodeSameLinks_trans (h1.2 p) (h2.2 p)⟩

theorem SameLinks_setNode (g : UAutomationGraph) (p : NodePtr) (n : UAutomationGraphNode)
    (h : (g.node p).SameLinks n) : g.SameLinks (g.setNode p n) := by
  refine ⟨setNode_RootNodes g p n, ?_⟩
  intro q
  rcases node_setNode_cases g p q n with h1 | ⟨h1, h2⟩
  · rw [h1]; exact NodeSameLinks_refl _
  · rw [h2, h1]; exact h

theorem SameLinks_SetState (e : FEnv) (s : EAutomationGraphNodeState) (n : UAutomationGraphNode) :
    n.SameLinks (n.SetState e s) :=
  ⟨SetState_Class e s n, SetState_ParentNodes e s n, SetState_ChildNodes e s n⟩

theorem SameLinks_GetState (e : FEnv) (n : UAutomationGraphNode) :
    n.SameLinks (n.GetState e).2 :=
  ⟨GetState_Class e n, GetState_ParentNodes e n, GetState_ChildNodes e n⟩

theorem SameLinks_BuildSequence_GetState (e : FEnv) (n : UAutomationGraphNode) :
    n.SameLinks (UHoudiniBuildSequenceNode.GetState e n).2 :=
  ⟨BuildSequence_GetState_Class e n, BuildSequence_GetState_ParentNodes e n,
    BuildSequence_GetState_ChildNodes e n⟩

theorem SameLinks_Ready (e : FEnv) (n : UAutomationGraphNode) : n.SameLinks (n.Ready e) := by
  unfold UAutomationGraphNode.Ready
  split
  · exact NodeSameLinks_refl _
  · exact SameLinks_SetState e _ n

theorem SameLinks_Reset (e : FEnv) (n : UAutomationGraphNode) : n.SameLinks (n.Reset e) := by
  unfold UAutomationGraphNode.Reset
  split
  · unfold UHoudiniBuildSequenceNode.Reset
    exact NodeSameLinks_trans (show n.SameLinks { n with WorkItems := [] } from ⟨rfl, rfl, rfl⟩)
      (SameLinks_SetState e _ _)
  · exact SameLinks_SetState e _ n

theorem SameLinks_Add (e : FEnv) (a : Option ActorPtr) (n : UAutomationGraphNode) :
    n.SameLinks (UHoudiniBuildSequenceNode.Add e a n).2 := by
  have h1 := SameLinks_BuildSequence_GetState e n
  have h2 := SameLinks_BuildSequence_GetState e (UHoudiniBuildSequenceNode.GetState e n).2
  have h12 := NodeSameLinks_trans h1 h2
  unfold UHoudiniBuildSequenceNode.Add
  simp only []
  by_cases hu : (UHoudiniBuildSequenceNode.GetState e n).1
      = EAutomationGraphNodeState.Uninitialized
  · simp only [hu, ne_eq, not_true_eq_false, if_false, false_and]
    split
    · exact h1
    · exact ⟨h1.1, h1.2.1, h1.2.2⟩
  · simp only [hu, ne_eq, not_false_eq_true, if_true, true_and]
    split
    · exact h12
    · split
      · exact h12
      · exact ⟨h12.1, h12.2.1, h12.2.2⟩

theorem SameLinks_addActors (e : FEnv) :
    ∀ (l : List ActorPtr) (s : FNodeInit),
      s.Node.SameLinks (AHoudiniBuildManager.addActors e l s).Node
  | [], s => NodeSameLinks_refl _
  | a :: l, s => by
    unfold AHoudiniBuildManager.addActors
    split
    · exact SameLinks_addActors e l s
    · exact NodeSameLinks_trans (SameLinks_Add e (some a) s.Node) (SameLinks_addActors e l _)

theorem SameLinks_addActorsByKey {κ : Type} [DecidableEq κ] (e : FEnv)
    (m : List (κ × List ActorPtr)) :
    ∀ (ks : List κ) (s : FNodeInit),
      s.Node.SameLinks (AHoudiniBuildManager.addActorsByKey e m ks s).Node
  | [], s => NodeSameLinks_refl _
  | k :: ks, s => by
    unfold AHoudiniBuildManager.addActorsByKey
    split
    · exact SameLinks_addActorsByKey e m ks s
    · exact NodeSameLinks_trans (SameLinks_addActors e _ s) (SameLinks_addActorsByKey e m ks _)

theorem SameLinks_initializeNode (e : FEnv) (n : UAutomationGraphNode) (added : List ActorPtr) :
    n.SameLinks (AHoudiniBuildManager.initializeNode e n added).1 := by
  unfold AHoudiniBuildManager.initializeNode
  split
  · simp only []
    have h := NodeSameLinks_trans (SameLinks_addActorsByKey e (ActorsByTag e.World)
      n.BuildInfo.ActorTags ⟨n, added, true⟩) (SameLinks_addActorsByKey e (ActorsByAsset e.World)
        n.BuildInfo.AssetTypes _)
    split
    · exact NodeSameLinks_trans h (SameLinks_Ready e _)
    · exact h
  · unfold UAGN_ClearLandscapeLayers.Initialize
    simp only []
    have h : n.SameLinks (match e.World.firstLandscape with
        | some l => { n with TargetLandscape := some l }
        | none => n) := by
      split
      · exact ⟨rfl, rfl, rfl⟩
      · exact NodeSameLinks_refl _
    split
    · exact NodeSameLinks_trans h (SameLinks_SetState e _ _)
    · exact NodeSameLinks_trans h (SameLinks_SetState e _ _)
  · unfold UAGN_ConsoleCommandBase.Initialize
    split <;> exact SameLinks_SetState e _ _
  · exact SameLinks_Ready e n

theorem node_Reset (e : FEnv) (g : UAutomationGraph) (p : NodePtr) :
    (g.node p).SameLinks ((g.Reset e).node p) := by
  cases p with
  | none => exact NodeSameLinks_refl _
  | some i =>
    by_cases hi : i < g.Nodes.length
    · have : (g.Reset e).node (some i) = (g.node (some i)).Reset e := by
        simp [UAutomationGraph.Reset, UAutomationGraph.node, List.getD_eq_getElem?_getD,
          List.getElem?_eq_getElem hi]
      rw [this]
      exact SameLinks_Reset e _
    · have hi2 : g.Nodes.length ≤ i := Nat.le_of_not_lt hi
      have h1 : (g.Reset e).node (some i) = default := by
        apply node_out_of_range
        intro j hj
        simp only [Option.some.injEq] at hj
        subst hj
        simpa [UAutomationGraph.Reset] using hi2
      have h2 : g.node (some i) = default := by
        apply node_out_of_range
        intro j hj
        simp only [Option.some.injEq] at hj
        subst hj
        exact hi2
      rw [h1, h2]
      exact NodeSameLinks_refl _

theorem SameLinks_graph_Reset (e : FEnv) (g : UAutomationGraph) : g.SameLinks (g.Reset e) :=
  ⟨rfl, node_Reset e g⟩

theorem Reset_length (e : FEnv) (g : UAutomationGraph) :
    (g.Reset e).Nodes.length = g.Nodes.length := by
  simp [UAutomationGraph.Reset]

/-- Graphs of the same structure have the same child links, reachable nodes and cycles. -/
theorem SameLinks_childLink {g g1 : UAutomationGraph} (h : g.SameLinks g1) :
    g1.childLink = g.childLink := by
  funext a b
  unfold UAutomationGraph.childLink
  rw [(h.2 a).2.2]

theorem SameLinks_ReachableFromRoots {g g1 : UAutomationGraph} (h : g.SameLinks g1)
    (v : NodePtr) : g1.ReachableFromRoots v ↔ g.ReachableFromRoots v := by
  unfold UAutomationGraph.ReachableFromRoots
  rw [SameLinks_childLink h, h.1]

theorem SameLinks_HasReachableCycle {g g1 : UAutomationGraph} (h : g.SameLinks g1) :
    g1.HasReachableCycle ↔ g.HasReachableCycle := by
  unfold UAutomationGraph.HasReachableCycle
  simp only [SameLinks_ReachableFromRoots h, SameLinks_childLink h]

/-! ## The traversal of `InitializeNodes`: the loop -/

theorem initializeLoop_nil (e : FEnv) (fuel : Nat) (s : FInitializeNodes)
    (h : s.NodeStack = []) : AHoudiniBuildManager.initializeLoop e fuel s = s := by
  cases fuel with
  | zero => rfl
  | succ fuel => simp [AHoudiniBuildManager.initializeLoop, h]

theorem initializeLoop_skip (e : FEnv) (fuel : Nat) (s : FInitializeNodes)
    (d : FEHEBuildSequenceDFSNode) (rest : List FEHEBuildSequenceDFSNode)
    (h : s.NodeStack = d :: rest) (hd : d.GraphNode ∈ s.Visited) :
    AHoudiniBuildManager.initializeLoop e (fuel + 1) s
      = AHoudiniBuildManager.initializeLoop e fuel { s with NodeStack := rest } := by
  simp [AHoudiniBuildManager.initializeLoop, h, hd]

theorem initializeLoop_cycle (e : FEnv) (fuel : Nat) (s : FInitializeNodes)
    (d : FEHEBuildSequenceDFSNode) (rest : List FEHEBuildSequenceDFSNode)
    (h : s.NodeStack = d :: rest) (hd : d.GraphNode ∉ s.Visited)
    (hp : AHoudiniBuildManager.pushChildren (TSetAdd d.Ancestors d.GraphNode)
      ((s.Graph.setNode d.GraphNode
        (AHoudiniBuildManager.initializeNode e (s.Graph.node d.GraphNode) s.AddedActors).1).node
          d.GraphNode).ChildNodes rest = none) :
    AHoudiniBuildManager.initializeLoop e (fuel + 1) s
      = { Graph := (s.Graph.setNode d.GraphNode
            (AHoudiniBuildManager.initializeNode e (s.Graph.node d.GraphNode)
              s.AddedActors).1).Reset e,
          NodeStack := rest, Visited := TSetAdd s.Visited d.GraphNode,
          AddedActors := (AHoudiniBuildManager.initializeNode e (s.Graph.node d.GraphNode)
              s.AddedActors).2,
          Initialized := s.Initialized ++ [d.GraphNode], CycleError := true } := by
  simp [AHoudiniBuildManager.initializeLoop, h, hd, hp]

theorem initializeLoop_visit (e : FEnv) (fuel : Nat) (s : FInitializeNodes)
    (d : FEHEBuildSequenceDFSNode) (rest st : List FEHEBuildSequenceDFSNode)
    (h : s.NodeStack = d :: rest) (hd : d.GraphNode ∉ s.Visited)
    (hp : AHoudiniBuildManager.pushChildren (TSetAdd d.Ancestors d.GraphNode)
      ((s.Graph.setNode d.GraphNode
        (AHoudiniBuildManager.initializeNode e (s.Graph.node d.GraphNode) s.AddedActors).1).node
          d.GraphNode).ChildNodes rest = some st) :
    AHoudiniBuildManager.initializeLoop e (fuel + 1) s
      = AHoudiniBuildManager.initializeLoop e fuel
        { Graph := s.Graph.setNode d.GraphNode
            (AHoudiniBuildManager.initializeNode e (s.Graph.node d.GraphNode) s.AddedActors).1,
          NodeStack := st, Visited := TSetAdd s.Visited d.GraphNode,
          AddedActors := (AHoudiniBuildManager.initializeNode e (s.Graph.node d.GraphNode)
              s.AddedActors).2,
          Initialized := s.Initialized ++ [d.GraphNode], CycleError := false } := by
  simp [AHoudiniBuildManager.initializeLoop, h, hd, hp]

/-- What the loop of `InitializeNodes` returns, given enough fuel, from a state
that satisfies the invariant: it initializes no node twice; it stops on the
cycle error only if a cycle is reachable from the roots; and if it does not, no
cycle is reachable and the initialized nodes are the reachable ones. -/
theorem initializeLoop_spec (e : FEnv) (g0 : UAutomationGraph) :
    ∀ (fuel : Nat) (s : FInitializeNodes),
      g0.SameLinks s.Graph →
      s.CycleError = false →
      s.Initialized = s.Visited →
      (∃ anc rank, InitializeInv g0 s.NodeStack s.Visited anc rank) →
      s.NodeStack.length
          + unvisitedWeight g0.Nodes.length (fun p => (g0.node p).ChildNodes) s.Visited ≤ fuel →
      (AHoudiniBuildManager.initializeLoop e fuel s).Initialized.Nodup
      ∧ g0.SameLinks (AHoudiniBuildManager.initializeLoop e fuel s).Graph
      ∧ ((AHoudiniBuildManager.initializeLoop e fuel s).CycleError = true
          → g0.HasReachableCycle)
      ∧ ((AHoudiniBuildManager.initializeLoop e fuel s).CycleError = false
          → ¬ g0.HasReachableCycle
            ∧ ∀ v, v ∈ (AHoudiniBuildManager.initializeLoop e fuel s).Initialized
                ↔ g0.ReachableFromRoots v) := by
  have final : ∀ (s : FInitializeNodes), g0.SameLinks s.Graph → s.CycleError = false →
      s.Initialized = s.Visited → s.NodeStack = [] →
      (∃ anc rank, InitializeInv g0 s.NodeStack s.Visited anc rank) →
      s.Initialized.Nodup ∧ g0.SameLinks s.Graph ∧ (s.CycleError = true → g0.HasReachableCycle)
      ∧ (s.CycleError = false → ¬ g0.HasReachableCycle
            ∧ ∀ v, v ∈ s.Initialized ↔ g0.ReachableFromRoots v) := by
    intro s hg hce hiv hst ⟨anc, rank, hinv⟩
    rw [hst] at hinv
    refine ⟨hiv ▸ hinv.nodup, hg, ?_, ?_⟩
    · intro h; rw [hce] at h; exact absurd h (by decide)
    · intro _
      refine ⟨hinv.no_cycle, ?_⟩
      intro v
      rw [hiv]
      exact ⟨hinv.reachVisited v, hinv.visited_of_reachable v⟩
  intro fuel
  induction fuel with
  | zero =>
    intro s hg hce hiv hinv hfuel
    have hst : s.NodeStack = [] := by
      cases h : s.NodeStack with
      | nil => rfl
      | cons a t => rw [h] at hfuel; simp at hfuel
    rw [initializeLoop_nil e 0 s hst]
    exact final s hg hce hiv hst hinv
  | succ fuel ih =>
    intro s hg hce hiv hinv hfuel
    cases hst : s.NodeStack with
    | nil =>
      rw [initializeLoop_nil e _ s hst]
      exact final s hg hce hiv hst hinv
    | cons d rest =>
      obtain ⟨anc, rank, hI⟩ := hinv
      rw [hst] at hI hfuel
      by_cases hd : d.GraphNode ∈ s.Visited
      · rw [initializeLoop_skip e fuel s d rest hst hd]
        apply ih
        · exact hg
        · exact hce
        · exact hiv
        · exact ⟨anc, rank, hI.skip hd⟩
        · simp only [List.length_cons] at hfuel ⊢; omega
      · -- the node is initialized; its links are unchanged
        have hg1 : g0.SameLinks (s.Graph.setNode d.GraphNode
            (AHoudiniBuildManager.initializeNode e (s.Graph.node d.GraphNode)
              s.AddedActors).1) :=
          GraphSameLinks_trans hg (SameLinks_setNode _ _ _ (SameLinks_initializeNode e _ _))
        have hch : ((s.Graph.setNode d.GraphNode
            (AHoudiniBuildManager.initializeNode e (s.Graph.node d.GraphNode)
              s.AddedActors).1).node d.GraphNode).ChildNodes
            = (g0.node d.GraphNode).ChildNodes := (hg1.2 d.GraphNode).2.2
        have hvis : s.Initialized ++ [d.GraphNode] = TSetAdd s.Visited d.GraphNode := by
          rw [TSetAdd_of_not_mem _ _ hd, hiv]
        cases hp : AHoudiniBuildManager.pushChildren (TSetAdd d.Ancestors d.GraphNode)
            ((s.Graph.setNode d.GraphNode
              (AHoudiniBuildManager.initializeNode e (s.Graph.node d.GraphNode)
                s.AddedActors).1).node d.GraphNode).ChildNodes rest with
        | none =>
          rw [initializeLoop_cycle e fuel s d rest hst hd hp]
          simp only []
          refine ⟨?_, GraphSameLinks_trans hg1 (SameLinks_graph_Reset e _), ?_, ?_⟩
          · rw [hvis]; exact TSetAdd_nodup _ _ hI.nodup
          · intro _
            apply hI.cycle
            rw [← hch]
            exact pushChildren_none _ _ _ hp
          · intro h; exact absurd h (by decide)
        | some st =>
          rw [initializeLoop_visit e fuel s d rest st hst hd hp]
          obtain ⟨hst1, hno⟩ := pushChildren_some _ _ _ _ hp
          rw [hch] at hst1 hno
          apply ih
          · exact hg1
          · rfl
          · exact hvis
          · refine ⟨Function.update anc d.GraphNode (TSetAdd d.Ancestors d.GraphNode),
              Function.update rank d.GraphNode s.Visited.length, ?_⟩
            simp only []
            rw [hst1]
            exact hI.visit hd hno
          · simp only []
            have hw := unvisitedWeight_TSetAdd g0.Nodes.length
              (fun p => (g0.node p).ChildNodes)
              (fun p hp => by simp [node_out_of_range g0 p hp]; rfl) s.Visited d.GraphNode hd
            simp only at hw
            rw [hst1]
            simp only [List.length_cons, List.length_append, List.length_reverse,
              List.length_map] at hfuel ⊢
            omega

/-! ## `InitializeNodes` -/

theorem InitializeInv.start (g : UAutomationGraph) :
    InitializeInv g
      (g.RootNodes.map (fun r => (⟨r, []⟩ : FEHEBuildSequenceDFSNode))).reverse []
      (fun _ => []) (fun _ => 0) where
  nodup := List.nodup_nil
  reachStack := by
    intro d hd
    simp only [List.mem_reverse, List.mem_map] at hd
    obtain ⟨r, hr, hd⟩ := hd
    rw [← hd]
    exact ⟨r, hr, Relation.ReflTransGen.refl⟩
  reachVisited := by intro v hv; simp at hv
  path := by
    intro d hd a ha
    simp only [List.mem_reverse, List.mem_map] at hd
    obtain ⟨r, _, hd⟩ := hd
    rw [← hd] at ha
    simp at ha
  roots := by
    intro r hr
    right
    exact ⟨⟨r, []⟩, by simp only [List.mem_reverse, List.mem_map]; exact ⟨r, hr, rfl⟩, rfl⟩
  closed := by intro v hv; simp at hv
  mono := by
    rw [List.pairwise_reverse, List.pairwise_map]
    exact List.pairwise_of_forall (fun _ _ a ha => by simp at ha)
  noBack := by intro v hv; simp at hv
  later := by intro d _ a _ u hu; simp at hu
  between := by intro w hw; simp at hw
  rankLt := by intro v hv; simp at hv

/-- What the traversal of `InitializeNodes` records when it runs. -/
theorem runInitializeNodes_spec (e : FEnv) (m : AHoudiniBuildManager) (s : FInitializeNodes)
    (h : AHoudiniBuildManager.runInitializeNodes e m = some s) :
    s.Initialized.Nodup
    ∧ m.SequenceGraph.SameLinks s.Graph
    ∧ (s.CycleError = true → m.SequenceGraph.HasReachableCycle)
    ∧ (s.CycleError = false → ¬ m.SequenceGraph.HasReachableCycle
        ∧ ∀ v, v ∈ s.Initialized ↔ m.SequenceGraph.ReachableFromRoots v) := by
  unfold AHoudiniBuildManager.runInitializeNodes at h
  split at h
  · simp at h
  · split at h
    · simp at h
    · simp only [Option.some.injEq] at h
      have hreset := SameLinks_graph_Reset e m.SequenceGraph
      have hspec := initializeLoop_spec e (m.SequenceGraph.Reset e)
        (AHoudiniBuildManager.initializeFuel (m.SequenceGraph.Reset e))
        { Graph := m.SequenceGraph.Reset e,
          NodeStack := ((m.SequenceGraph.Reset e).RootNodes.map
            (fun r => (⟨r, []⟩ : FEHEBuildSequenceDFSNode))).reverse,
          Visited := [], AddedActors := [], Initialized := [], CycleError := false }
        (GraphSameLinks_refl _) rfl rfl
        ⟨_, _, InitializeInv.start (m.SequenceGraph.Reset e)⟩
        (by
          simp only [List.length_reverse, List.length_map]
          rw [unvisitedWeight_nil (m.SequenceGraph.Reset e) (fun n => n.ChildNodes)]
          exact Nat.le_refl _)
      rw [h] at hspec
      obtain ⟨h1, h2, h3, h4⟩ := hspec
      refine ⟨h1, GraphSameLinks_trans hreset h2, ?_, ?_⟩
      · intro hc; exact (SameLinks_HasReachableCycle hreset).1 (h3 hc)
      · intro hc
        obtain ⟨h5, h6⟩ := h4 hc
        refine ⟨fun hcyc => h5 ((SameLinks_HasReachableCycle hreset).2 hcyc), ?_⟩
        intro v
        rw [h6 v, SameLinks_ReachableFromRoots hreset]

theorem runInitializeNodes_isSome (e : FEnv) (m : AHoudiniBuildManager)
    (hw : e.World.IsEditorWorld = true) (hr : m.SequenceGraph.RootNodes ≠ []) :
    ∃ s, AHoudiniBuildManager.runInitializeNodes e m = some s := by
  unfold AHoudiniBuildManager.runInitializeNodes
  have : m.SequenceGraph.RootNodes.isEmpty = false := by
    cases h : m.SequenceGraph.RootNodes with
    | nil => exact absurd h hr
    | cons a t => rfl
  simp [hw, this]

theorem no_roots_no_cycle (g : UAutomationGraph) (h : g.RootNodes = []) :
    (¬ g.HasReachableCycle) ∧ ∀ v, ¬ g.ReachableFromRoots v := by
  have : ∀ v, ¬ g.ReachableFromRoots v := by
    rintro v ⟨r, hr, _⟩
    rw [h] at hr
    simp at hr
  exact ⟨fun ⟨v, hv, _⟩ => this v hv, this⟩

/-- In an editor world `InitializeNodes` stops on the cycle error exactly when a
cycle of child links is reachable from the root set. -/
theorem InitializeNodesCycleError_iff (e : FEnv) (m : AHoudiniBuildManager)
    (hw : e.World.IsEditorWorld = true) :
    m.InitializeNodesCycleError e = true ↔ m.SequenceGraph.HasReachableCycle := by
  unfold AHoudiniBuildManager.InitializeNodesCycleError
  by_cases hr : m.SequenceGraph.RootNodes = []
  · have : AHoudiniBuildManager.runInitializeNodes e m = none := by
      unfold AHoudiniBuildManager.runInitializeNodes
      simp [hw, hr]
    rw [this]
    simp only [Bool.false_eq_true, false_iff]
    exact (no_roots_no_cycle _ hr).1
  · obtain ⟨s, hs⟩ := runInitializeNodes_isSome e m hw hr
    rw [hs]
    obtain ⟨_, _, h3, h4⟩ := runInitializeNodes_spec e m s hs
    simp only []
    constructor
    · exact h3
    · intro hc
      by_contra hne
      have : s.CycleError = false := by
        cases h : s.CycleError with
        | true => exact absurd h hne
        | false => rfl
      exact (h4 this).1 hc

theorem count_eq_one_of_nodup {α : Type} [BEq α] [LawfulBEq α] :
    ∀ (l : List α) (a : α), l.Nodup → a ∈ l → l.count a = 1
  | [], a, _, h => by simp at h
  | b :: t, a, hnd, h => by
    rw [List.nodup_cons] at hnd
    rw [List.count_cons]
    by_cases hab : b = a
    · subst hab
      simp [List.count_eq_zero_of_not_mem hnd.1]
    · have hat : a ∈ t := by
        rcases List.mem_cons.mp h with h1 | h1
        · exact absurd h1.symm hab
        · exact h1
      have hbeq : (b == a) = false := by
        simp [hab]
      simp [hbeq, count_eq_one_of_nodup t a hnd.2 hat]

/-- C9: `InitializeNodes`, run in an editor world, aborts with the cycle error
iff the child links of the nodes reachable from the root set contain a cycle. -/
theorem C9_InitializeNodes_cycle_error_iff (e : FEnv) (m : AHoudiniBuildManager)
    (hw : e.World.IsEditorWorld = true) :
    m.InitializeNodesCycleError e = true ↔ m.SequenceGraph.HasReachableCycle :=
  InitializeNodesCycleError_iff e m hw

/-- C10: when no cycle is reachable from the root set, `InitializeNodes`, run in
an editor world, runs the initialization block exactly once for each node
reachable from the root set and never for another node. -/
theorem C10_InitializeNodes_once_per_reachable (e : FEnv) (m : AHoudiniBuildManager)
    (hw : e.World.IsEditorWorld = true) (hno : ¬ m.SequenceGraph.HasReachableCycle)
    (v : NodePtr) :
    (m.SequenceGraph.ReachableFromRoots v → (m.InitializeNodesInitialized e).count v = 1)
    ∧ (¬ m.SequenceGraph.ReachableFromRoots v → (m.InitializeNodesInitialized e).count v = 0) := by
  unfold AHoudiniBuildManager.InitializeNodesInitialized
  by_cases hr : m.SequenceGraph.RootNodes = []
  · have : AHoudiniBuildManager.runInitializeNodes e m = none := by
      unfold AHoudiniBuildManager.runInitializeNodes
      simp [hw, hr]
    rw [this]
    exact ⟨fun h => absurd h ((no_roots_no_cycle _ hr).2 v), fun _ => rfl⟩
  · obtain ⟨s, hs⟩ := runInitializeNodes_isSome e m hw hr
    rw [hs]
    obtain ⟨h1, _, h3, h4⟩ := runInitializeNodes_spec e m s hs
    have hce : s.CycleError = false := by
      cases h : s.CycleError with
      | true => exact absurd (h3 h) hno
      | false => rfl
    obtain ⟨_, hmem⟩ := h4 hce
    simp only []
    constructor
    · intro hv
      exact count_eq_one_of_nodup _ _ h1 ((hmem v).2 hv)
    · intro hv
      exact List.count_eq_zero_of_not_mem (fun h => hv ((hmem v).1 h))

/-! ## The scheduler: what the node operations do to the stored state -/

theorem node_setNode_same_or_default (g : UAutomationGraph) (p : NodePtr)
    (n : UAutomationGraphNode) : (g.setNode p n).node p = n ∨ g.node p = default := by
  cases p with
  | none => right; rfl
  | some i =>
    by_cases hi : i < g.Nodes.length
    · left
      simp [UAutomationGraph.setNode, UAutomationGraph.node, List.getD_eq_getElem?_getD,
        List.getElem?_set, hi]
    · right
      apply node_out_of_range
      intro j hj
      simp only [Option.some.injEq] at hj
      subst hj
      exact Nat.le_of_not_lt hi

theorem BuildSequence_GetState_no_new_Standby (e : FEnv) (n : UAutomationGraphNode)
    (h : (UHoudiniBuildSequenceNode.GetState e n).2.NodeState
      = EAutomationGraphNodeState.Standby) :
    n.NodeState = EAutomationGraphNodeState.Standby := by
  unfold UHoudiniBuildSequenceNode.GetState at h
  simp only [] at h
  split at h
  · simp [SetState_NodeState] at h
  · split at h
    · rename_i hact
      split at h
      · rename_i st hex
        simp only [SetState_NodeState] at h
        rcases scanWorkItems_Exit _ _ _ _ _ hex with h1 | h1 <;> rw [h1] at h <;> simp at h
      · split at h
        · simp [SetState_NodeState] at h
        · have h2 : n.NodeState = EAutomationGraphNodeState.Standby := h
          rw [h2] at hact
          exact absurd hact (by decide)
    · exact h

theorem GetState_no_new_Standby (e : FEnv) (n : UAutomationGraphNode)
    (h : (n.GetState e).2.NodeState = EAutomationGraphNodeState.Standby) :
    n.NodeState = EAutomationGraphNodeState.Standby := by
  by_cases hc : n.Class = ENodeClass.HoudiniBuildSequenceNode
  · rw [GetState_of_BuildSequence e n hc] at h
    exact BuildSequence_GetState_no_new_Standby e n h
  · rw [GetState_of_not_BuildSequence e n hc] at h
    exact h

theorem SameLinks_BuildSequence_Activate (e : FEnv) (n : UAutomationGraphNode) :
    n.SameLinks (UHoudiniBuildSequenceNode.Activate e n).2 := by
  have h1 := SameLinks_BuildSequence_GetState e n
  have h2 := NodeSameLinks_trans h1
    (SameLinks_BuildSequence_GetState e (UHoudiniBuildSequenceNode.GetState e n).2)
  unfold UHoudiniBuildSequenceNode.Activate
  simp only []
  split
  · exact h1
  · split
    · exact h2
    · have h3 := NodeSameLinks_trans h2 (SameLinks_SetState e EAutomationGraphNodeState.Active _)
      exact ⟨h3.1, h3.2.1, h3.2.2⟩

theorem BuildSequence_Activate_state (e : FEnv) (n : UAutomationGraphNode) :
    ((UHoudiniBuildSequenceNode.Activate e n).2.NodeState = EAutomationGraphNodeState.Standby
        → n.NodeState = EAutomationGraphNodeState.Standby)
    ∧ ((UHoudiniBuildSequenceNode.Activate e n).1 = true
        → (UHoudiniBuildSequenceNode.Activate e n).2.NodeState
            = EAutomationGraphNodeState.Active) := by
  unfold UHoudiniBuildSequenceNode.Activate
  simp only []
  split
  · exact ⟨fun h => BuildSequence_GetState_no_new_Standby e n h,
      fun h => absurd h (by simp)⟩
  · split
    · exact ⟨fun h => BuildSequence_GetState_no_new_Standby e n
          (BuildSequence_GetState_no_new_Standby e _ h),
        fun h => absurd h (by simp)⟩
    · constructor
      · intro h
        have : (UAutomationGraphNode.SetState e EAutomationGraphNodeState.Active
          (UHoudiniBuildSequenceNode.GetState e
            (UHoudiniBuildSequenceNode.GetState e n).2).2).NodeState
              = EAutomationGraphNodeState.Standby := h
        rw [SetState_NodeState] at this
        exact absurd this (by decide)
      · intro _
        exact SetState_NodeState e _ _

theorem SameLinks_ClearLandscape_Activate (e : FEnv) (n : UAutomationGraphNode) :
    n.SameLinks (UAGN_ClearLandscapeLayers.Activate e n).2 := by
  have hs : ∀ s m, n.SameLinks m → n.SameLinks (m.SetState e s) :=
    fun s m hm => NodeSameLinks_trans hm (SameLinks_SetState e s m)
  unfold UAGN_ClearLandscapeLayers.Activate
  split
  · exact SameLinks_SetState e _ _
  · split
    · exact SameLinks_SetState e _ _
    · simp only []
      split
      · exact hs _ _ (SameLinks_SetState e _ _)
      · split
        · exact hs _ _ (SameLinks_SetState e _ _)
        · split
          · exact hs _ _ (SameLinks_SetState e _ _)
          · exact hs _ _ (SameLinks_SetState e _ _)

theorem ClearLandscape_Activate_state (e : FEnv) (n : UAutomationGraphNode) :
    (UAGN_ClearLandscapeLayers.Activate e n).2.NodeState ≠ EAutomationGraphNodeState.Standby := by
  unfold UAGN_ClearLandscapeLayers.Activate
  split
  · rw [SetState_NodeState]; decide
  · split
    · rw [SetState_NodeState]; decide
    · simp only []
      split
      · rw [SetState_NodeState]; decide
      · split
        · rw [SetState_NodeState]; decide
        · split
          · rw [SetState_NodeState]; decide
          · rw [SetState_NodeState]; decide

theorem SameLinks_Activate (e : FEnv) (n : UAutomationGraphNode) :
    n.SameLinks (n.Activate e).2 := by
  unfold UAutomationGraphNode.Activate
  split
  · exact SameLinks_BuildSequence_Activate e n
  · exact SameLinks_ClearLandscape_Activate e n
  · unfold UAutomationGraphNode.ActivateBase
    split
    · exact NodeSameLinks_refl _
    · exact SameLinks_SetState e _ _

/-- `Activate()` never leaves a node in `Standby` that was not there before,
and not at all when it returns true. -/
theorem Activate_state (e : FEnv) (n : UAutomationGraphNode) :
    ((n.Activate e).2.NodeState = EAutomationGraphNodeState.Standby
        → n.NodeState = EAutomationGraphNodeState.Standby)
    ∧ ((n.Activate e).1 = true
        → (n.Activate e).2.NodeState ≠ EAutomationGraphNodeState.Standby) := by
  unfold UAutomationGraphNode.Activate
  split
  · have h := BuildSequence_Activate_state e n
    exact ⟨h.1, fun ht => by rw [h.2 ht]; decide⟩
  · have h := ClearLandscape_Activate_state e n
    exact ⟨fun hs => absurd hs h, fun _ => h⟩
  · unfold UAutomationGraphNode.ActivateBase
    split
    · exact ⟨fun h => h, fun h => absurd h (by simp)⟩
    · constructor
      · intro h; rw [SetState_NodeState] at h; exact absurd h (by decide)
      · intro _; rw [SetState_NodeState]; decide

/-! ## The scheduler: `CanActivate` on the graph -/

theorem NoNewStandby_refl (g : UAutomationGraph) : g.NoNewStandby g := fun _ h => h

theorem NoNewStandby_trans {a b c : UAutomationGraph} (h1 : a.NoNewStandby b)
    (h2 : b.NoNewStandby c) : a.NoNewStandby c := fun p h => h1 p (h2 p h)

theorem NoNewStandby_setNode (g : UAutomationGraph) (p : NodePtr) (n : UAutomationGraphNode)
    (h : n.NodeState = EAutomationGraphNodeState.Standby →
      (g.node p).NodeState = EAutomationGraphNodeState.Standby) :
    g.NoNewStandby (g.setNode p n) := by
  intro q hq
  rcases node_setNode_cases g p q n with h1 | ⟨h1, h2⟩
  · rw [h1] at hq; exact hq
  · rw [h2] at hq; rw [h1]; exact h hq

/-- The parent loop of `CanActivate` keeps the structure of the graph, makes
no node `Standby`, touches only the parents, and on the answer true leaves every
parent stored as `Finished`. -/
theorem CanActivate_parents_graph (e : FEnv) :
    ∀ (ps : List NodePtr) (g : UAutomationGraph),
      g.SameLinks (UAutomationGraphNode.CanActivate.parents e ps g).2
      ∧ g.NoNewStandby (UAutomationGraphNode.CanActivate.parents e ps g).2
      ∧ (∀ q, q ∉ ps → (UAutomationGraphNode.CanActivate.parents e ps g).2.node q = g.node q)
      ∧ ((UAutomationGraphNode.CanActivate.parents e ps g).1 = true →
          ∀ p ∈ ps, ((UAutomationGraphNode.CanActivate.parents e ps g).2.node p).NodeState
            = EAutomationGraphNodeState.Finished)
  | [], g => by
    simp only [UAutomationGraphNode.CanActivate.parents]
    exact ⟨GraphSameLinks_refl g, NoNewStandby_refl g, fun _ _ => trivial,
      fun _ p hp => by simp at hp⟩
  | p :: ps, g => by
    have hl : g.SameLinks (g.setNode p ((g.node p).GetState e).2) :=
      SameLinks_setNode _ _ _ (SameLinks_GetState e _)
    have hn : g.NoNewStandby (g.setNode p ((g.node p).GetState e).2) :=
      NoNewStandby_setNode _ _ _ (GetState_no_new_Standby e _)
    unfold UAutomationGraphNode.CanActivate.parents
    simp only []
    by_cases hp : ((g.node p).GetState e).1 = EAutomationGraphNodeState.Finished
    · simp only [hp, ne_eq, not_true_eq_false, if_false]
      obtain ⟨i1, i2, i3, i4⟩ :=
        CanActivate_parents_graph e ps (g.setNode p ((g.node p).GetState e).2)
      refine ⟨GraphSameLinks_trans hl i1, NoNewStandby_trans hn i2, ?_, ?_⟩
      · intro q hq
        rw [i3 q (fun h => hq (List.mem_cons_of_mem _ h))]
        exact node_setNode_ne _ _ _ _ (fun h => hq (h ▸ List.mem_cons_self _ _))
      · intro ht x hx
        by_cases hxps : x ∈ ps
        · exact i4 ht x hxps
        · have hxp : x = p := by
            rcases List.mem_cons.mp hx with h | h
            · exact h
            · exact absurd h hxps
          subst hxp
          rw [i3 x hxps]
          rcases node_setNode_same_or_default g x ((g.node x).GetState e).2 with h | h
          · rw [h, ← GetState_fst]; exact hp
          · exfalso
            rw [h, GetState_of_not_BuildSequence e default (by decide)] at hp
            revert hp
            decide
    · simp only [hp, ne_eq, not_false_eq_true, if_true]
      refine ⟨hl, hn, ?_, fun h => absurd h (by simp)⟩
      intro q hq
      exact node_setNode_ne _ _ _ _ (fun h => hq (h ▸ List.mem_cons_self _ _))

/-- The same for `CanActivate`: on the answer true every parent of the node is
stored as `Finished` in the graph it leaves. -/
theorem CanActivate_graph (e : FEnv) (g : UAutomationGraph) (self : NodePtr) :
    g.SameLinks (UAutomationGraphNode.CanActivate e g self).2
    ∧ g.NoNewStandby (UAutomationGraphNode.CanActivate e g self).2
    ∧ (∀ q, q ∉ (g.node self).ParentNodes →
        (UAutomationGraphNode.CanActivate e g self).2.node q = g.node q)
    ∧ ((UAutomationGraphNode.CanActivate e g self).1 = true →
        ∀ p ∈ ((UAutomationGraphNode.CanActivate e g self).2.node self).ParentNodes,
          ((UAutomationGraphNode.CanActivate e g self).2.node p).NodeState
            = EAutomationGraphNodeState.Finished) := by
  unfold UAutomationGraphNode.CanActivate
  simp only []
  split
  · exact ⟨GraphSameLinks_refl g, NoNewStandby_refl g, fun _ _ => rfl,
      fun h => absurd h (by simp)⟩
  · split
    · rename_i hempty
      refine ⟨GraphSameLinks_refl g, NoNewStandby_refl g, fun _ _ => rfl, ?_⟩
      intro _ p hp
      rw [List.isEmpty_iff.mp hempty] at hp
      simp at hp
    · obtain ⟨i1, i2, i3, i4⟩ := CanActivate_parents_graph e (g.node self).ParentNodes g
      refine ⟨i1, i2, i3, ?_⟩
      intro ht p hp
      rw [(i1.2 self).2.1] at hp
      exact i4 ht p hp

/-! ## The scheduler: one pass of `PollActiveNodes` -/

theorem PollInv.of_graph_step {g : UAutomationGraph} {s : FPollState} (h : PollInv g s)
    (g1 : UAutomationGraph) (hl : s.Graph.SameLinks g1) (hn : s.Graph.NoNewStandby g1) :
    PollInv g { s with Graph := g1 } where
  links := GraphSameLinks_trans h.links hl
  standby := NoNewStandby_trans h.standby hn
  added := fun n hn1 hst => h.added n hn1 (hn n hst)
  calls := h.calls
  callLinks := h.callLinks

theorem PollInv.remove {g : UAutomationGraph} {s : FPollState} (h : PollInv g s)
    (r : List NodePtr) : PollInv g { s with ToRemove := r } where
  links := h.links
  standby := h.standby
  added := h.added
  calls := h.calls
  callLinks := h.callLinks

/-- A call of `Activate()` made when all parents of the receiver are stored as
`Finished` keeps the invariant; when it returns true the receiver is not left in
`Standby`. -/
theorem PollInv.activate {g : UAutomationGraph} {s : FPollState} (h : PollInv g s)
    (e : FEnv) (Node : NodePtr)
    (hp : ∀ p ∈ (s.Graph.node Node).ParentNodes,
      (s.Graph.node p).NodeState = EAutomationGraphNodeState.Finished) :
    PollInv g (s.activate e Node).2
    ∧ ((s.activate e Node).1 = true →
        ((s.activate e Node).2.Graph.node Node).NodeState ≠ EAutomationGraphNodeState.Standby) := by
  have hl : s.Graph.SameLinks (s.Graph.setNode Node ((s.Graph.node Node).Activate e).2) :=
    SameLinks_setNode _ _ _ (SameLinks_Activate e _)
  have hn : s.Graph.NoNewStandby (s.Graph.setNode Node ((s.Graph.node Node).Activate e).2) :=
    NoNewStandby_setNode _ _ _ (Activate_state e _).1
  constructor
  · unfold FPollState.activate
    exact
      { links := GraphSameLinks_trans h.links hl
        standby := NoNewStandby_trans h.standby hn
        added := fun n hn1 hst => h.added n hn1 (hn n hst)
        calls := by
          intro c hc
          rcases List.mem_append.mp hc with h1 | h1
          · exact h.calls c h1
          · simp only [List.mem_singleton] at h1
            rw [h1]
            exact hp
        callLinks := by
          intro c hc
          rcases List.mem_append.mp hc with h1 | h1
          · exact h.callLinks c h1
          · simp only [List.mem_singleton] at h1
            rw [h1]
            exact h.links }
  · intro ht
    unfold FPollState.activate at ht ⊢
    simp only [] at ht ⊢
    rcases node_setNode_same_or_default s.Graph Node ((s.Graph.node Node).Activate e).2
      with h1 | h1
    · rw [h1]
      exact (Activate_state e _).2 ht
    · intro hst
      have := hn Node hst
      rw [h1] at this
      revert this
      decide

/-- The loop over the children of a finished node keeps the invariant. -/
theorem PollInv.pollChildren (e : FEnv) {g : UAutomationGraph} :
    ∀ (cs : List NodePtr) (s : FPollState), PollInv g s →
      PollInv g (AHoudiniBuildManager.pollChildren e cs s)
  | [], s, h => h
  | c :: cs, s, h => by
    obtain ⟨c1, c2, _, c4⟩ := CanActivate_graph e s.Graph c
    have h1 : PollInv g { s with Graph := (UAutomationGraphNode.CanActivate e s.Graph c).2 } :=
      h.of_graph_step _ c1 c2
    unfold AHoudiniBuildManager.pollChildren
    simp only []
    split
    · rename_i hcan
      obtain ⟨a1, a2⟩ := h1.activate e c (c4 hcan)
      split
      · rename_i hact
        apply PollInv.pollChildren e cs
        exact
          { links := a1.links
            standby := a1.standby
            added := by
              intro n hn
              rcases (mem_TSetAdd _ _ _).mp hn with h2 | h2
              · exact a1.added n h2
              · rw [h2]; exact a2 hact
            calls := a1.calls
            callLinks := a1.callLinks }
      · exact PollInv.pollChildren e cs _ a1
    · exact PollInv.pollChildren e cs _ h1

/-- The body of the loop over the active set keeps the invariant, for a node
that, if it started the pass in `Standby`, has no parents. -/
theorem PollInv.pollNode (e : FEnv) {g : UAutomationGraph} {s : FPollState} (h : PollInv g s)
    (CurrentNode : NodePtr)
    (hroot : (g.node CurrentNode).NodeState = EAutomationGraphNodeState.Standby →
      (g.node CurrentNode).ParentNodes = []) :
    PollInv g (AHoudiniBuildManager.pollNode e s CurrentNode) := by
  unfold AHoudiniBuildManager.pollNode
  split
  · exact h.remove _
  · rename_i i
    have hl : s.Graph.SameLinks
        (s.Graph.setNode (some i) ((s.Graph.node (some i)).GetState e).2) :=
      SameLinks_setNode _ _ _ (SameLinks_GetState e _)
    have hn : s.Graph.NoNewStandby
        (s.Graph.setNode (some i) ((s.Graph.node (some i)).GetState e).2) :=
      NoNewStandby_setNode _ _ _ (GetState_no_new_Standby e _)
    have h1 := h.of_graph_step _ hl hn
    simp only []
    split
    · exact h1
    · rename_i hst
      refine (h1.activate e (some i) ?_).1
      intro p hp
      exfalso
      have hs0 : (s.Graph.node (some i)).NodeState = EAutomationGraphNodeState.Standby := by
        apply GetState_no_new_Standby e
        rw [← GetState_fst]; exact hst
      have hg0 := hroot (h.standby _ hs0)
      rw [(h1.links.2 (some i)).2.1, hg0] at hp
      simp at hp
    · exact (PollInv.pollChildren e _ _ h1).remove _
    · exact h1.remove _
    · exact h1.remove _
    · exact h1.remove _

theorem PollInv.fold (e : FEnv) {g : UAutomationGraph} :
    ∀ (l : List NodePtr) (s : FPollState), PollInv g s →
      (∀ n ∈ l, (g.node n).NodeState = EAutomationGraphNodeState.Standby →
        (g.node n).ParentNodes = []) →
      PollInv g (l.foldl (AHoudiniBuildManager.pollNode e) s)
  | [], s, h, _ => h
  | n :: l, s, h, hr => by
    simp only [List.foldl_cons]
    exact PollInv.fold e l _ (h.pollNode e n (hr n (List.mem_cons_self _ _)))
      (fun x hx => hr x (List.mem_cons_of_mem _ hx))

theorem mem_TSetAppend {α : Type} [DecidableEq α] :
    ∀ (xs s : List α) (x : α), x ∈ TSetAppend s xs ↔ x ∈ s ∨ x ∈ xs
  | [], s, x => by simp [TSetAppend]
  | y :: xs, s, x => by
    have ih := mem_TSetAppend xs (TSetAdd s y) x
    unfold TSetAppend at ih ⊢
    simp only [List.foldl_cons]
    rw [ih, mem_TSetAdd]
    simp only [List.mem_cons]
    tauto

theorem mem_foldl_TSetRemove {α : Type} [DecidableEq α] :
    ∀ (rs s : List α) (x : α), x ∈ rs.foldl TSetRemove s ↔ x ∈ s ∧ x ∉ rs
  | [], s, x => by simp
  | r :: rs, s, x => by
    simp only [List.foldl_cons]
    rw [mem_foldl_TSetRemove rs]
    unfold TSetRemove
    simp only [List.mem_filter, decide_eq_true_eq, List.mem_cons, not_or]
    tauto

/-- A poll tick keeps the invariant of the active set and the structure of the
graph, and calls `Activate()` only on nodes whose parents are all `Finished`. -/
theorem PollActiveNodesCalls_spec (e : FEnv) (m : AHoudiniBuildManager)
    (h : m.StandbyHaveNoParents) :
    (m.PollActiveNodesCalls e).1.StandbyHaveNoParents
    ∧ m.SequenceGraph.SameLinks (m.PollActiveNodesCalls e).1.SequenceGraph
    ∧ CallsWithFinishedParents (m.PollActiveNodesCalls e).2
    ∧ (∀ c ∈ (m.PollActiveNodesCalls e).2, m.SequenceGraph.SameLinks c.Graph) := by
  unfold AHoudiniBuildManager.PollActiveNodesCalls
  split
  · exact ⟨h, GraphSameLinks_refl _, fun c hc => by simp at hc, fun c hc => by simp at hc⟩
  · have h0 : PollInv m.SequenceGraph
        { Graph := m.SequenceGraph, ToAdd := [], ToRemove := [], Calls := [] } :=
      { links := GraphSameLinks_refl _
        standby := NoNewStandby_refl _
        added := fun n hn => by simp at hn
        calls := fun c hc => by simp at hc
        callLinks := fun c hc => by simp at hc }
    have hf := PollInv.fold e m.ActiveNodes _ h0 h
    simp only []
    refine ⟨?_, hf.links, hf.calls, hf.callLinks⟩
    intro n hn hst
    simp only [] at hn hst ⊢
    rw [mem_foldl_TSetRemove, mem_TSetAppend] at hn
    rcases hn.1 with h1 | h1
    · rw [(hf.links.2 n).2.1]
      exact h n h1 (hf.standby n hst)
    · exact absurd hst (hf.added n h1)

/-! ## The scheduler: runs -/

theorem RootsHaveNoParents_of_SameLinks {g g1 : UAutomationGraph} (h : g.SameLinks g1)
    (hr : g.RootsHaveNoParents) : g1.RootsHaveNoParents := by
  intro r hr1
  rw [h.1] at hr1
  rw [(h.2 r).2.1]
  exact hr r hr1

theorem IsParentOfNone_of_SameLinks {g g1 : UAutomationGraph} (h : g.SameLinks g1)
    (D : NodePtr) (hp : g.IsParentOfNone D) : g1.IsParentOfNone D := by
  intro q
  rw [(h.2 q).2.1]
  exact hp q

theorem InitializeNodes_SameLinks (e : FEnv) (m : AHoudiniBuildManager) :
    m.SequenceGraph.SameLinks (m.InitializeNodes e).SequenceGraph := by
  unfold AHoudiniBuildManager.InitializeNodes
  cases h : AHoudiniBuildManager.runInitializeNodes e m with
  | none => exact GraphSameLinks_refl _
  | some s => exact (runInitializeNodes_spec e m s h).2.1

theorem InitializeNodes_ActiveNodes (e : FEnv) (m : AHoudiniBuildManager) :
    (m.InitializeNodes e).ActiveNodes = m.ActiveNodes := by
  unfold AHoudiniBuildManager.InitializeNodes
  cases AHoudiniBuildManager.runInitializeNodes e m <;> rfl

theorem Run_SameLinks (e : FEnv) (m : AHoudiniBuildManager) :
    m.SequenceGraph.SameLinks (m.Run e).SequenceGraph := by
  unfold AHoudiniBuildManager.Run
  split
  · exact GraphSameLinks_refl _
  · exact InitializeNodes_SameLinks e m

/-- After `Run()` the members of the active set were there before or are roots. -/
theorem Run_ActiveNodes (e : FEnv) (m : AHoudiniBuildManager) (n : NodePtr)
    (h : n ∈ (m.Run e).ActiveNodes) :
    n ∈ m.ActiveNodes ∨ (m.ActiveNodes = [] ∧ n ∈ m.SequenceGraph.RootNodes) := by
  unfold AHoudiniBuildManager.Run at h
  split at h
  · exact Or.inl h
  · rename_i hne
    simp only [] at h
    rw [mem_TSetAppend, InitializeNodes_ActiveNodes, (InitializeNodes_SameLinks e m).1] at h
    rcases h with h | h
    · exact Or.inl h
    · right
      refine ⟨?_, h⟩
      cases hA : m.ActiveNodes with
      | nil => rfl
      | cons a t => rw [hA] at hne; simp at hne

theorem PostProcess_node (g : UAutomationGraph) (Node : NodePtr) (Item : Nat) (b : Bool) :
    g.SameLinks (g.PostProcess Node Item b)
    ∧ ∀ p, ((g.PostProcess Node Item b).node p).NodeState = (g.node p).NodeState := by
  unfold UAutomationGraph.PostProcess
  simp only []
  constructor
  · exact SameLinks_setNode _ _ _ ⟨rfl, rfl, rfl⟩
  · intro p
    rcases node_setNode_cases g Node p
      { g.node Node with
        WorkItems := (g.node Node).WorkItems.set Item
          (((g.node Node).WorkItems.getD Item none).map
            (fun w => w.OnHoudiniAssetPostProcess b)) } with h | ⟨h1, h2⟩
    · rw [h]
    · rw [h2, h1]

/-- Every event keeps: the structure of the graph, its roots without parents,
and the active set free of `Standby` nodes that have parents; and every call of
`Activate()` it makes finds all parents of the receiver `Finished`. -/
theorem step_spec (m : AHoudiniBuildManager) (ev : FRunEvent)
    (hr : m.SequenceGraph.RootsHaveNoParents) (hs : m.StandbyHaveNoParents) :
    m.SequenceGraph.SameLinks (m.step ev).1.SequenceGraph
    ∧ (m.step ev).1.StandbyHaveNoParents
    ∧ CallsWithFinishedParents (m.step ev).2
    ∧ (∀ c ∈ (m.step ev).2, m.SequenceGraph.SameLinks c.Graph) := by
  cases ev with
  | Run e =>
    refine ⟨Run_SameLinks e m, ?_, fun c hc => by simp [AHoudiniBuildManager.step] at hc,
      fun c hc => by simp [AHoudiniBuildManager.step] at hc⟩
    intro n hn hst
    simp only [AHoudiniBuildManager.step] at hn hst ⊢
    rcases Run_ActiveNodes e m n hn with h1 | ⟨h1, h2⟩
    · have hact : ¬ m.ActiveNodes.isEmpty = true := by
        intro h
        rw [List.isEmpty_iff.mp h] at h1
        simp at h1
      have : m.Run e = m := by
        unfold AHoudiniBuildManager.Run
        simp [hact]
      rw [this] at hst ⊢
      exact hs n h1 hst
    · exact RootsHaveNoParents_of_SameLinks (Run_SameLinks e m) hr n
        (by rw [(Run_SameLinks e m).1]; exact h2)
  | Cancel =>
    refine ⟨GraphSameLinks_refl _, ?_, fun c hc => by simp [AHoudiniBuildManager.step] at hc,
      fun c hc => by simp [AHoudiniBuildManager.step] at hc⟩
    intro n hn
    simp [AHoudiniBuildManager.step, AHoudiniBuildManager.Cancel] at hn
  | Poll e =>
    obtain ⟨q1, q2, q3, q4⟩ := PollActiveNodesCalls_spec e m hs
    exact ⟨q2, q1, q3, q4⟩
  | PostProcess Node Item b =>
    obtain ⟨p1, p2⟩ := PostProcess_node m.SequenceGraph Node Item b
    refine ⟨p1, ?_, fun c hc => by simp [AHoudiniBuildManager.step] at hc,
      fun c hc => by simp [AHoudiniBuildManager.step] at hc⟩
    intro n hn hst
    simp only [AHoudiniBuildManager.step] at hn hst ⊢
    rw [p2] at hst
    rw [(p1.2 n).2.1]
    exact hs n hn hst
  | Reorder l =>
    simp only [AHoudiniBuildManager.step]
    split
    · rename_i hperm
      refine ⟨GraphSameLinks_refl _, ?_, fun c hc => by simp at hc, fun c hc => by simp at hc⟩
      intro n hn hst
      exact hs n (hperm.subset hn) hst
    · exact ⟨GraphSameLinks_refl _, hs, fun c hc => by simp at hc, fun c hc => by simp at hc⟩

theorem steps_spec :
    ∀ (events : List FRunEvent) (m : AHoudiniBuildManager),
      m.SequenceGraph.RootsHaveNoParents → m.StandbyHaveNoParents →
      m.SequenceGraph.SameLinks (m.steps events).1.SequenceGraph
      ∧ CallsWithFinishedParents (m.steps events).2
      ∧ (∀ c ∈ (m.steps events).2, m.SequenceGraph.SameLinks c.Graph)
  | [], m, _, _ => by
    simp only [AHoudiniBuildManager.steps]
    exact ⟨GraphSameLinks_refl _, fun c hc => by simp at hc, fun c hc => by simp at hc⟩
  | ev :: rest, m, hr, hs => by
    obtain ⟨s1, s2, s3, s4⟩ := step_spec m ev hr hs
    obtain ⟨r1, r2, r3⟩ := steps_spec rest (m.step ev).1
      (RootsHaveNoParents_of_SameLinks s1 hr) s2
    simp only [AHoudiniBuildManager.steps]
    refine ⟨GraphSameLinks_trans s1 r1, ?_, ?_⟩
    · intro c hc
      rcases List.mem_append.mp hc with h | h
      · exact s3 c h
      · exact r2 c h
    · intro c hc
      rcases List.mem_append.mp hc with h | h
      · exact s4 c h
      · exact GraphSameLinks_trans s1 (r3 c h)

/-! ## The scheduler: a node that is nobody's parent changes only by `Activate()` -/

theorem PollFrame_of_graph_step {D : NodePtr} {g : UAutomationGraph} {s : FPollState}
    (h : PollFrame D g s) (g1 : UAutomationGraph) (hD : g1.node D = s.Graph.node D) :
    PollFrame D g { s with Graph := g1 } := by
  rcases h with h | ⟨h1, h2⟩
  · exact Or.inl h
  · exact Or.inr ⟨hD.trans h1, h2⟩

theorem PollFrame_remove {D : NodePtr} {g : UAutomationGraph} {s : FPollState}
    (h : PollFrame D g s) (r : List NodePtr) : PollFrame D g { s with ToRemove := r } := h

theorem PollFrame_activate {D : NodePtr} {g : UAutomationGraph} {s : FPollState}
    (h : PollFrame D g s) (e : FEnv) (Node : NodePtr) :
    PollFrame D g (s.activate e Node).2
    ∧ (Node = D → ∃ c ∈ (s.activate e Node).2.Calls, c.Node = D) := by
  have hcall : Node = D → ∃ c ∈ (s.activate e Node).2.Calls, c.Node = D := by
    intro hN
    exact ⟨⟨Node, s.Graph⟩, by simp [FPollState.activate], hN⟩
  refine ⟨?_, hcall⟩
  by_cases hN : Node = D
  · exact Or.inl (hcall hN)
  · rcases h with ⟨c, hc, hcD⟩ | ⟨h1, h2⟩
    · exact Or.inl ⟨c, by simp [FPollState.activate, hc], hcD⟩
    · right
      refine ⟨?_, h2⟩
      unfold FPollState.activate
      simp only []
      rw [node_setNode_ne _ _ _ _ (fun hh => hN hh.symm)]
      exact h1

theorem PollFrame_pollChildren (e : FEnv) {D : NodePtr} {g : UAutomationGraph}
    (hpar : g.IsParentOfNone D) :
    ∀ (cs : List NodePtr) (s : FPollState), PollInv g s → PollFrame D g s →
      PollFrame D g (AHoudiniBuildManager.pollChildren e cs s)
  | [], s, _, hf => hf
  | c :: cs, s, h, hf => by
    obtain ⟨c1, c2, c3, c4⟩ := CanActivate_graph e s.Graph c
    have h1 : PollInv g { s with Graph := (UAutomationGraphNode.CanActivate e s.Graph c).2 } :=
      h.of_graph_step _ c1 c2
    have hDpar : D ∉ (s.Graph.node c).ParentNodes := by
      rw [(h.links.2 c).2.1]; exact hpar c
    have f1 : PollFrame D g
        { s with Graph := (UAutomationGraphNode.CanActivate e s.Graph c).2 } :=
      PollFrame_of_graph_step hf _ (c3 D hDpar)
    unfold AHoudiniBuildManager.pollChildren
    simp only []
    split
    · rename_i hcan
      obtain ⟨a1, a2⟩ := h1.activate e c (c4 hcan)
      obtain ⟨b1, b2⟩ := PollFrame_activate f1 e c
      split
      · rename_i hact
        apply PollFrame_pollChildren e hpar cs
        · exact
            { links := a1.links
              standby := a1.standby
              added := by
                intro n hn
                rcases (mem_TSetAdd _ _ _).mp hn with h2 | h2
                · exact a1.added n h2
                · rw [h2]; exact a2 hact
              calls := a1.calls
              callLinks := a1.callLinks }
        · by_cases hcD : c = D
          · exact Or.inl (b2 hcD)
          · rcases b1 with h3 | ⟨h3, h4⟩
            · exact Or.inl h3
            · right
              refine ⟨h3, ?_⟩
              intro hmem
              rcases (mem_TSetAdd _ _ _).mp hmem with h5 | h5
              · exact h4 h5
              · exact hcD h5.symm
      · exact PollFrame_pollChildren e hpar cs _ a1 b1
    · exact PollFrame_pollChildren e hpar cs _ h1 f1

theorem PollFrame_pollNode (e : FEnv) {D : NodePtr} {g : UAutomationGraph}
    (hpar : g.IsParentOfNone D) {s : FPollState} (h : PollInv g s) (hf : PollFrame D g s)
    (CurrentNode : NodePtr) (hne : CurrentNode ≠ D) :
    PollFrame D g (AHoudiniBuildManager.pollNode e s CurrentNode) := by
  unfold AHoudiniBuildManager.pollNode
  split
  · exact PollFrame_remove hf _
  · rename_i i
    have hl : s.Graph.SameLinks
        (s.Graph.setNode (some i) ((s.Graph.node (some i)).GetState e).2) :=
      SameLinks_setNode _ _ _ (SameLinks_GetState e _)
    have hn : s.Graph.NoNewStandby
        (s.Graph.setNode (some i) ((s.Graph.node (some i)).GetState e).2) :=
      NoNewStandby_setNode _ _ _ (GetState_no_new_Standby e _)
    have h1 := h.of_graph_step _ hl hn
    have f1 : PollFrame D g
        { s with Graph := s.Graph.setNode (some i) ((s.Graph.node (some i)).GetState e).2 } :=
      PollFrame_of_graph_step hf _ (node_setNode_ne _ _ _ _ (fun hh => hne hh.symm))
    simp only []
    split
    · exact f1
    · exact (PollFrame_activate f1 e (some i)).1
    · exact PollFrame_remove (PollFrame_pollChildren e hpar _ _ h1 f1) _
    · exact PollFrame_remove f1 _
    · exact PollFrame_remove f1 _
    · exact PollFrame_remove f1 _

theorem PollFrame_fold (e : FEnv) {D : NodePtr} {g : UAutomationGraph}
    (hpar : g.IsParentOfNone D) :
    ∀ (l : List NodePtr) (s : FPollState), PollInv g s → PollFrame D g s → D ∉ l →
      (∀ n ∈ l, (g.node n).NodeState = EAutomationGraphNodeState.Standby →
        (g.node n).ParentNodes = []) →
      PollFrame D g (l.foldl (AHoudiniBuildManager.pollNode e) s)
  | [], s, _, hf, _, _ => hf
  | n :: l, s, h, hf, hD, hr => by
    simp only [List.foldl_cons]
    apply PollFrame_fold e hpar l _ (h.pollNode e n (hr n (List.mem_cons_self _ _)))
    · exact PollFrame_pollNode e hpar h hf n (fun hh => hD (hh ▸ List.mem_cons_self _ _))
    · exact fun hh => hD (List.mem_cons_of_mem _ hh)
    · exact fun x hx => hr x (List.mem_cons_of_mem _ hx)

/-- A poll tick changes a node outside the active set that is nobody's parent
only by calling `Activate()` on it, and otherwise keeps it outside the active set. -/
theorem PollActiveNodesCalls_frame (e : FEnv) (m : AHoudiniBuildManager) (D : NodePtr)
    (h : m.StandbyHaveNoParents) (hpar : m.SequenceGraph.IsParentOfNone D)
    (hD : D ∉ m.ActiveNodes) :
    (∃ c ∈ (m.PollActiveNodesCalls e).2, c.Node = D)
    ∨ ((m.PollActiveNodesCalls e).1.SequenceGraph.node D = m.SequenceGraph.node D
        ∧ D ∉ (m.PollActiveNodesCalls e).1.ActiveNodes) := by
  unfold AHoudiniBuildManager.PollActiveNodesCalls
  split
  · exact Or.inr ⟨rfl, hD⟩
  · have h0 : PollInv m.SequenceGraph
        { Graph := m.SequenceGraph, ToAdd := [], ToRemove := [], Calls := [] } :=
      { links := GraphSameLinks_refl _
        standby := NoNewStandby_refl _
        added := fun n hn => by simp at hn
        calls := fun c hc => by simp at hc
        callLinks := fun c hc => by simp at hc }
    have f0 : PollFrame D m.SequenceGraph
        { Graph := m.SequenceGraph, ToAdd := [], ToRemove := [], Calls := [] } :=
      Or.inr ⟨rfl, by simp⟩
    rcases PollFrame_fold e hpar m.ActiveNodes _ h0 f0 hD h with hf | ⟨hf1, hf2⟩
    · exact Or.inl hf
    · right
      simp only []
      refine ⟨hf1, ?_⟩
      rw [mem_foldl_TSetRemove, mem_TSetAppend]
      rintro ⟨h1 | h1, _⟩
      · exact hD h1
      · exact hf2 h1

theorem step_frame (m : AHoudiniBuildManager) (ev : FRunEvent) (D : NodePtr)
    (hev : ev.withinRun) (hs : m.StandbyHaveNoParents)
    (hpar : m.SequenceGraph.IsParentOfNone D) (hD : D ∉ m.ActiveNodes) :
    (∃ c ∈ (m.step ev).2, c.Node = D)
    ∨ (((m.step ev).1.SequenceGraph.node D).NodeState = (m.SequenceGraph.node D).NodeState
        ∧ D ∉ (m.step ev).1.ActiveNodes) := by
  cases ev with
  | Run e => exact absurd hev (by simp [FRunEvent.withinRun])
  | Cancel => exact absurd hev (by simp [FRunEvent.withinRun])
  | Poll e =>
    rcases PollActiveNodesCalls_frame e m D hs hpar hD with h | ⟨h1, h2⟩
    · exact Or.inl h
    · right
      simp only [AHoudiniBuildManager.step]
      exact ⟨by rw [h1], h2⟩
  | PostProcess Node Item b =>
    right
    simp only [AHoudiniBuildManager.step]
    exact ⟨(PostProcess_node m.SequenceGraph Node Item b).2 D, hD⟩
  | Reorder l =>
    right
    simp only [AHoudiniBuildManager.step]
    split
    · rename_i hperm
      exact ⟨rfl, fun hh => hD (hperm.subset hh)⟩
    · exact ⟨rfl, hD⟩

/-- Within a run, a node outside the active set that is nobody's parent keeps
its stored state until `Activate()` is called on it. -/
theorem steps_frame (D : NodePtr) :
    ∀ (events : List FRunEvent) (m : AHoudiniBuildManager),
      (∀ ev ∈ events, ev.withinRun) →
      m.SequenceGraph.RootsHaveNoParents → m.StandbyHaveNoParents →
      m.SequenceGraph.IsParentOfNone D → D ∉ m.ActiveNodes →
      (∃ c ∈ (m.steps events).2, c.Node = D)
      ∨ ((m.steps events).1.SequenceGraph.node D).NodeState = (m.SequenceGraph.node D).NodeState
  | [], m, _, _, _, _, _ => Or.inr rfl
  | ev :: rest, m, hev, hr, hs, hpar, hD => by
    obtain ⟨s1, s2, _, _⟩ := step_spec m ev hr hs
    simp only [AHoudiniBuildManager.steps]
    rcases step_frame m ev D (hev ev (List.mem_cons_self _ _)) hs hpar hD with
      ⟨c, hc, hcD⟩ | ⟨h1, h2⟩
    · exact Or.inl ⟨c, List.mem_append.mpr (Or.inl hc), hcD⟩
    · rcases steps_frame D rest (m.step ev).1 (fun x hx => hev x (List.mem_cons_of_mem _ hx))
          (RootsHaveNoParents_of_SameLinks s1 hr) s2
          (IsParentOfNone_of_SameLinks s1 D hpar) h2 with ⟨c, hc, hcD⟩ | h3
      · exact Or.inl ⟨c, List.mem_append.mpr (Or.inr hc), hcD⟩
      · exact Or.inr (h3.trans h1)

theorem IsDiamond_D (g : UAutomationGraph) (h : g.IsDiamond) :
    some 3 ∉ g.RootNodes ∧ g.IsParentOfNone (some 3) := by
  obtain ⟨hr, hlen, pA, _, pB, _, pC, _, pD, _⟩ := h
  constructor
  · rw [hr]; decide
  · intro q
    rcases q with _ | i
    · have : g.node none = default := rfl
      rw [this]; decide
    · rcases i with _ | _ | _ | _ | i
      · rw [pA]; decide
      · rw [pB]; decide
      · rw [pC]; decide
      · rw [pD]; decide
      · have : g.node (some (i + 4)) = default := by
          apply node_out_of_range
          intro j hj
          simp only [Option.some.injEq] at hj
          omega
        rw [this]; decide

/-- Within a run started by `Run()` on a manager with an empty active set, a
node that is neither a root nor anybody's parent keeps the stored state `Run()`
left it in until `Activate()` is called on it, and that call finds all its
parents stored as `Finished`. -/
theorem run_keeps_node_until_parents_finished (m0 : AHoudiniBuildManager)
    (h0 : m0.ActiveNodes = []) (hroots : m0.SequenceGraph.RootsHaveNoParents)
    (e : FEnv) (events : List FRunEvent) (hev : ∀ ev ∈ events, ev.withinRun) (D : NodePtr)
    (hDroot : D ∉ m0.SequenceGraph.RootNodes) (hpar : m0.SequenceGraph.IsParentOfNone D) :
    (((m0.Run e).steps events).1.SequenceGraph.node D).NodeState
        = ((m0.Run e).SequenceGraph.node D).NodeState
    ∨ ∃ c ∈ ((m0.Run e).steps events).2, c.Node = D
        ∧ ∀ p ∈ (m0.SequenceGraph.node D).ParentNodes,
            (c.Graph.node p).NodeState = EAutomationGraphNodeState.Finished := by
  have hs0 : m0.StandbyHaveNoParents := by
    intro n hn; rw [h0] at hn; simp at hn
  obtain ⟨s1, s2, _, _⟩ := step_spec m0 (FRunEvent.Run e) hroots hs0
  simp only [AHoudiniBuildManager.step] at s1 s2
  have hr1 := RootsHaveNoParents_of_SameLinks s1 hroots
  have hD1 : D ∉ (m0.Run e).ActiveNodes := by
    intro hmem
    rcases Run_ActiveNodes e m0 D hmem with h | ⟨_, h⟩
    · rw [h0] at h; simp at h
    · exact hDroot h
  obtain ⟨_, t2, t3⟩ := steps_spec events (m0.Run e) hr1 s2
  rcases steps_frame D events (m0.Run e) hev hr1 s2 (IsParentOfNone_of_SameLinks s1 D hpar) hD1
    with ⟨c, hc, hcD⟩ | h
  · right
    refine ⟨c, hc, hcD, ?_⟩
    intro p hp
    apply t2 c hc p
    rw [hcD, ((GraphSameLinks_trans s1 (t3 c hc)).2 D).2.1]
    exact hp
  · exact Or.inl h

/-- C7: after any sequence of events on a manager that starts with an empty
active set and a graph whose roots have no parents, every call of `Activate()`
the scheduler makes finds all parents of the receiver stored as `Finished`; and
within a run on the diamond `A → B → D`, `A → C → D`, node `D` keeps the state
`Run()` left it in (Standby) until a call of `Activate()` made when `B` and `C`
are both `Finished`. -/
theorem C7_scheduler_activates_after_parents (m0 : AHoudiniBuildManager)
    (h0 : m0.ActiveNodes = []) (hroots : m0.SequenceGraph.RootsHaveNoParents) :
    (∀ (events : List FRunEvent), ∀ c ∈ (m0.steps events).2,
        ∀ p ∈ (c.Graph.node c.Node).ParentNodes,
          (c.Graph.node p).NodeState = EAutomationGraphNodeState.Finished)
    ∧ (∀ (e : FEnv) (events : List FRunEvent), (∀ ev ∈ events, ev.withinRun) →
        m0.SequenceGraph.IsDiamond →
        (((m0.Run e).steps events).1.SequenceGraph.node (some 3)).NodeState
            = ((m0.Run e).SequenceGraph.node (some 3)).NodeState
        ∨ ∃ c ∈ ((m0.Run e).steps events).2, c.Node = some 3
            ∧ (c.Graph.node (some 1)).NodeState = EAutomationGraphNodeState.Finished
            ∧ (c.Graph.node (some 2)).NodeState = EAutomationGraphNodeState.Finished) := by
  have hs0 : m0.StandbyHaveNoParents := by
    intro n hn; rw [h0] at hn; simp at hn
  constructor
  · intro events
    exact (steps_spec events m0 hroots hs0).2.1
  · intro e events hev hdia
    obtain ⟨hDroot, hpar⟩ := IsDiamond_D _ hdia
    rcases run_keeps_node_until_parents_finished m0 h0 hroots e events hev (some 3) hDroot hpar
      with h | ⟨c, hc, hcD, hp⟩
    · exact Or.inl h
    · right
      have hpD : (m0.SequenceGraph.node (some 3)).ParentNodes = [some 1, some 2] :=
        hdia.2.2.2.2.2.2.2.2.1
      rw [hpD] at hp
      exact ⟨c, hc, hcD, hp (some 1) (by simp), hp (some 2) (by simp)⟩

/-! ## Run, Cancel and the callbacks -/

theorem TSetAppend_nodup {α : Type} [DecidableEq α] :
    ∀ (xs s : List α), s.Nodup → (TSetAppend s xs).Nodup
  | [], s, h => by simpa [TSetAppend] using h
  | x :: xs, s, h => by
    have ih := TSetAppend_nodup xs (TSetAdd s x) (TSetAdd_nodup s x h)
    unfold TSetAppend at ih ⊢
    simpa using ih

theorem TSetAppend_of_nodup {α : Type} [DecidableEq α] :
    ∀ (xs s : List α), (s ++ xs).Nodup → TSetAppend s xs = s ++ xs
  | [], s, _ => by simp [TSetAppend]
  | x :: xs, s, h => by
    have hx : x ∉ s := by
      intro hx
      have := List.nodup_append.mp h
      exact this.2.2 hx (List.mem_cons_self _ _)
    have h2 : ((s ++ [x]) ++ xs).Nodup := by simpa using h
    have ih := TSetAppend_of_nodup xs (s ++ [x]) h2
    unfold TSetAppend at ih ⊢
    simp only [List.foldl_cons, TSetAdd_of_not_mem s x hx]
    rw [ih]; simp

/-- C13: `Run()` called while the active set is non-empty changes nothing of the
manager (active set, graph, poll timer); called with an empty active set it
leaves the graph `InitializeNodes` produces, and the active set is then the root
set of the graph: the same members, without duplicates, and the same list when
the root array has no duplicates. -/
theorem C13_Run_noop_or_restart (e : FEnv) (m : AHoudiniBuildManager) :
    (m.ActiveNodes ≠ [] → m.Run e = m)
    ∧ (m.ActiveNodes = [] →
        (m.Run e).SequenceGraph = (m.InitializeNodes e).SequenceGraph
        ∧ (∀ p, p ∈ (m.Run e).ActiveNodes ↔ p ∈ (m.Run e).SequenceGraph.RootNodes)
        ∧ (m.Run e).ActiveNodes.Nodup
        ∧ ((m.Run e).SequenceGraph.RootNodes.Nodup →
            (m.Run e).ActiveNodes = (m.Run e).SequenceGraph.RootNodes)) := by
  constructor
  · intro h
    unfold AHoudiniBuildManager.Run
    have : m.ActiveNodes.isEmpty = false := by
      cases hm : m.ActiveNodes with
      | nil => exact absurd hm h
      | cons a t => rfl
    simp [this]
  · intro h
    have hrun : m.Run e
        = { m.InitializeNodes e with
            ActiveNodes := TSetAppend (m.InitializeNodes e).ActiveNodes
              (m.InitializeNodes e).SequenceGraph.RootNodes } := by
      unfold AHoudiniBuildManager.Run
      simp [h]
    have hact : (m.InitializeNodes e).ActiveNodes = [] := by
      rw [InitializeNodes_ActiveNodes]; exact h
    rw [hrun, hact]
    refine ⟨rfl, ?_, ?_, ?_⟩
    · intro p
      simp only [mem_TSetAppend]
      simp
    · exact TSetAppend_nodup _ _ List.nodup_nil
    · intro hnd
      simp only
      rw [TSetAppend_of_nodup _ _ (by simpa using hnd)]
      simp

theorem steps_ActiveNodes_nil :
    ∀ (events : List FRunEvent) (m : AHoudiniBuildManager),
      (∀ ev ∈ events, ev.withinRun) → m.ActiveNodes = [] →
      (m.steps events).1.ActiveNodes = []
  | [], m, _, h => h
  | ev :: rest, m, hev, h => by
    simp only [AHoudiniBuildManager.steps]
    apply steps_ActiveNodes_nil rest _ (fun x hx => hev x (List.mem_cons_of_mem _ hx))
    have hw := hev ev (List.mem_cons_self _ _)
    cases ev with
    | Run e => exact absurd hw (by simp [FRunEvent.withinRun])
    | Cancel => exact absurd hw (by simp [FRunEvent.withinRun])
    | Poll e =>
      simp only [AHoudiniBuildManager.step, AHoudiniBuildManager.PollActiveNodesCalls]
      split
      · exact h
      · simp [h, TSetAppend]
    | PostProcess Node Item Succeeded => exact h
    | Reorder l =>
      simp only [AHoudiniBuildManager.step]
      split
      · rename_i hp
        rw [h] at hp
        simpa using hp
      · exact h

/-- C14: `Cancel()` empties the active set and leaves the graph, hence every
node's state, as it was; after it the active set stays empty under every
sequence of poll ticks, completion callbacks and reorderings of the set, so a
completion callback arriving late puts no node back. -/
theorem C14_Cancel_stays_empty (m : AHoudiniBuildManager) :
    m.Cancel.ActiveNodes = []
    ∧ m.Cancel.SequenceGraph = m.SequenceGraph
    ∧ ∀ (events : List FRunEvent), (∀ ev ∈ events, ev.withinRun) →
        (m.Cancel.steps events).1.ActiveNodes = [] :=
  ⟨rfl, rfl, fun events hev => steps_ActiveNodes_nil events m.Cancel hev rfl⟩

/-- C16: the completion callback sets a Building item to `Finished` on success
and to `Error` on failure, changing nothing else of the item, and leaves an item
in any other state as it is. -/
theorem C16_OnHoudiniAssetPostProcess (w : UHoudiniBuildWorkItem) (Succeeded : Bool) :
    (w.BuildState = EEHEBuildState.Building → Succeeded = true →
        w.OnHoudiniAssetPostProcess Succeeded = { w with BuildState := EEHEBuildState.Finished })
    ∧ (w.BuildState = EEHEBuildState.Building → Succeeded = false →
        w.OnHoudiniAssetPostProcess Succeeded = { w with BuildState := EEHEBuildState.Error })
    ∧ (w.BuildState ≠ EEHEBuildState.Building → w.OnHoudiniAssetPostProcess Succeeded = w) := by
  unfold UHoudiniBuildWorkItem.OnHoudiniAssetPostProcess
  refine ⟨?_, ?_, ?_⟩
  · intro h1 h2; simp [h1, h2]
  · intro h1 h2; simp [h1, h2]
  · intro h1; simp [h1]

/-- C19: on a node of the base class, `Activate()` in state `Standby` returns
true and leaves the node `Finished`; in every other state it returns false and
leaves the node as it is. -/
theorem C19_Activate_default_leaf (e : FEnv) (n : UAutomationGraphNode)
    (hc : n.Class = ENodeClass.AutomationGraphNode) :
    (n.NodeState = EAutomationGraphNodeState.Standby →
        (n.Activate e).1 = true
        ∧ (n.Activate e).2 = n.SetState e EAutomationGraphNodeState.Finished
        ∧ (n.Activate e).2.NodeState = EAutomationGraphNodeState.Finished)
    ∧ (n.NodeState ≠ EAutomationGraphNodeState.Standby → n.Activate e = (false, n)) := by
  have h : n.Activate e = n.ActivateBase e := by
    unfold UAutomationGraphNode.Activate
    rw [hc]
  rw [h]
  unfold UAutomationGraphNode.ActivateBase
  constructor
  · intro hs
    simp [hs, UAutomationGraphNode.SetState]
  · intro hs
    simp [hs]

/-! ## Work items and the state query of a build-sequence node -/

/-- The query `GetBuildState()` changes nothing of the item but its state, which
it sets to the state it returns. -/
theorem GetBuildState_snd (e : FEnv) (info : FHoudiniBuildSequenceInfo)
    (w : UHoudiniBuildWorkItem) :
    (w.GetBuildState e info).2 = { w with BuildState := (w.GetBuildState e info).1 } := by
  unfold UHoudiniBuildWorkItem.GetBuildState
  split
  · rfl
  · split
    · split <;> rfl
    · rfl

theorem GetBuildState_invalid (e : FEnv) (info : FHoudiniBuildSequenceInfo)
    (w : UHoudiniBuildWorkItem) (hv : e.World.IsValid w.ToBuild = false) :
    (w.GetBuildState e info).1 = EEHEBuildState.Error := by
  unfold UHoudiniBuildWorkItem.GetBuildState
  simp [hv]

theorem scanWorkItems_target (e : FEnv) (info : FHoudiniBuildSequenceInfo) :
    ∀ (ws : List (Option UHoudiniBuildWorkItem)) (k : Nat),
      (UHoudiniBuildSequenceNode.scanWorkItems e info ws k).WorkItems.map
          UHoudiniBuildWorkItem.target
        = ws.map UHoudiniBuildWorkItem.target
  | [], k => rfl
  | none :: rest, k => rfl
  | some w :: rest, k => by
    have ht : UHoudiniBuildWorkItem.target (some (w.GetBuildState e info).2)
        = UHoudiniBuildWorkItem.target (some w) := by
      rw [GetBuildState_snd]; rfl
    unfold UHoudiniBuildSequenceNode.scanWorkItems
    simp only []
    split <;> simp only [List.map_cons, ht, scanWorkItems_target e info rest]

/-- When `GetBuildState()` returns `Building` or `Finished`, that is the state
the item already had, and the item is unchanged. -/
theorem GetBuildState_unchanged (e : FEnv) (info : FHoudiniBuildSequenceInfo)
    (w : UHoudiniBuildWorkItem)
    (h : (w.GetBuildState e info).1 = EEHEBuildState.Building
      ∨ (w.GetBuildState e info).1 = EEHEBuildState.Finished) :
    (w.GetBuildState e info).2 = w := by
  unfold UHoudiniBuildWorkItem.GetBuildState at h ⊢
  split
  · rename_i hv; simp [hv] at h
  · rename_i hv
    simp only [hv, if_false] at h
    split
    · rename_i hb
      simp only [hb, if_true] at h
      split
      · rename_i ht; simp [ht] at h
      · rfl
    · rfl

/-- A scan that ends without an early return has changed no work item. -/
theorem scanWorkItems_Exit_none (e : FEnv) (info : FHoudiniBuildSequenceInfo) :
    ∀ (ws : List (Option UHoudiniBuildWorkItem)) (k : Nat),
      (UHoudiniBuildSequenceNode.scanWorkItems e info ws k).Exit = none →
      (UHoudiniBuildSequenceNode.scanWorkItems e info ws k).WorkItems = ws
  | [], k => fun _ => rfl
  | none :: rest, k => fun _ => rfl
  | some w :: rest, k => by
    unfold UHoudiniBuildSequenceNode.scanWorkItems
    simp only []
    split
    · rename_i hb
      intro hx
      simp only [scanWorkItems_Exit_none e info rest k hx,
        GetBuildState_unchanged e info w (Or.inl hb)]
    · rename_i hb
      intro hx
      simp only [scanWorkItems_Exit_none e info rest (k + 1) hx,
        GetBuildState_unchanged e info w (Or.inr hb)]
    · intro hx; exact absurd hx (by simp)
    · intro hx; exact absurd hx (by simp)

theorem BuildSequence_GetState_bFinishedWithError (e : FEnv) (n : UAutomationGraphNode) :
    (UHoudiniBuildSequenceNode.GetState e n).2.bFinishedWithError = false := by
  unfold UHoudiniBuildSequenceNode.GetState
  simp only []
  split
  · simp [UAutomationGraphNode.SetState]
  · split
    · split
      · rename_i st _
        cases st <;> rfl
      · split
        · rfl
        · rfl
    · rfl

/-- A build-sequence node with work items whose stored state is not `Active`
answers `GetState()` with its stored state and only clears `bFinishedWithError`. -/
theorem BuildSequence_GetState_not_Active (e : FEnv) (n : UAutomationGraphNode)
    (hw : n.WorkItems.length ≠ 0) (hs : n.NodeState ≠ EAutomationGraphNodeState.Active) :
    UHoudiniBuildSequenceNode.GetState e n
      = (n.NodeState, { n with bFinishedWithError := false }) := by
  unfold UHoudiniBuildSequenceNode.GetState
  simp [hw, hs]

theorem BuildSequence_GetState_no_items (e : FEnv) (n : UAutomationGraphNode)
    (hw : n.WorkItems.length = 0) :
    UHoudiniBuildSequenceNode.GetState e n
      = (EAutomationGraphNodeState.Uninitialized,
          ({ n with bFinishedWithError := false }).SetState e
            EAutomationGraphNodeState.Uninitialized) := by
  unfold UHoudiniBuildSequenceNode.GetState
  simp [hw, UAutomationGraphNode.SetState]

/-- The state `GetState()` returns for a node whose stored state is `Active` and
that has work items is `Active` or one of the terminal states. -/
theorem BuildSequence_GetState_Active_frozen (e : FEnv) (n : UAutomationGraphNode)
    (hw : n.WorkItems.length ≠ 0) (hs : n.NodeState = EAutomationGraphNodeState.Active) :
    (UHoudiniBuildSequenceNode.GetState e n).1.IsFrozen := by
  unfold UHoudiniBuildSequenceNode.GetState
  simp only [hw, if_false, hs, if_true]
  split
  · rename_i st hex
    rw [SetState_NodeState]
    rcases scanWorkItems_Exit e _ _ _ st hex with h | h
    · right; right; right; exact h
    · right; right; left; exact h
  · split
    · rw [SetState_NodeState]; right; left; rfl
    · left; rfl

/-- When `GetState()` returns `Active`, it has changed nothing of the node but `bFinishedWithError`. -/
theorem BuildSequence_GetState_eq_Active (e : FEnv) (n : UAutomationGraphNode)
    (h : (UHoudiniBuildSequenceNode.GetState e n).1 = EAutomationGraphNodeState.Active) :
    n.NodeState = EAutomationGraphNodeState.Active
    ∧ n.WorkItems.length ≠ 0
    ∧ (UHoudiniBuildSequenceNode.GetState e n).2 = { n with bFinishedWithError := false } := by
  by_cases hw : n.WorkItems.length = 0
  · rw [BuildSequence_GetState_no_items e n hw] at h
    simp at h
  · by_cases hs : n.NodeState = EAutomationGraphNodeState.Active
    · refine ⟨hs, hw, ?_⟩
      unfold UHoudiniBuildSequenceNode.GetState at h ⊢
      simp only [hw, if_false, hs, if_true] at h ⊢
      split
      · rename_i st hex
        simp only [hex, SetState_NodeState] at h
        rcases scanWorkItems_Exit e _ _ _ st hex with h1 | h1 <;> subst h1 <;> simp at h
      · rename_i hex
        simp only [hex] at h
        split
        · rename_i hnum
          simp only [hnum, if_true, SetState_NodeState] at h
          exact absurd h (by decide)
        · simp only [scanWorkItems_Exit_none e _ _ _ hex]
    · rw [BuildSequence_GetState_not_Active e n hw hs] at h
      exact absurd h hs

/-- Asking `GetState()` twice in a row at the same clock reading gives the
answer, and the node, of the first query. -/
theorem BuildSequence_GetState_idem (e : FEnv) (n : UAutomationGraphNode) :
    UHoudiniBuildSequenceNode.GetState e (UHoudiniBuildSequenceNode.GetState e n).2
      = UHoudiniBuildSequenceNode.GetState e n := by
  by_cases hw : n.WorkItems.length = 0
  · rw [BuildSequence_GetState_no_items e n hw]
    have hw2 : (({ n with bFinishedWithError := false } : UAutomationGraphNode).SetState e
        EAutomationGraphNodeState.Uninitialized).WorkItems.length = 0 := by
      rw [SetState_WorkItems]; exact hw
    rw [BuildSequence_GetState_no_items e _ hw2]
    simp [UAutomationGraphNode.SetState]
  · by_cases ha : (UHoudiniBuildSequenceNode.GetState e n).1 = EAutomationGraphNodeState.Active
    · obtain ⟨_, _, h3⟩ := BuildSequence_GetState_eq_Active e n ha
      rw [h3]
      rfl
    · have hw2 : (UHoudiniBuildSequenceNode.GetState e n).2.WorkItems.length ≠ 0 := by
        rw [BuildSequence_GetState_length]; exact hw
      have hs2 : (UHoudiniBuildSequenceNode.GetState e n).2.NodeState
          ≠ EAutomationGraphNodeState.Active := by
        rw [← BuildSequence_GetState_fst]; exact ha
      rw [BuildSequence_GetState_not_Active e _ hw2 hs2]
      have hb := BuildSequence_GetState_bFinishedWithError e n
      have hf := BuildSequence_GetState_fst e n
      generalize UHoudiniBuildSequenceNode.GetState e n = r at hb hf
      obtain ⟨r1, r2⟩ := r
      simp only at hb hf
      simp only [Prod.mk.injEq]
      refine ⟨hf.symm, ?_⟩
      cases r2
      simp only at hb
      simp [hb]

/-- The state `GetState()` reports is `Active` or terminal exactly when the
stored state is and the node has work items. -/
theorem BuildSequence_GetState_frozen_iff (e : FEnv) (n : UAutomationGraphNode) :
    (UHoudiniBuildSequenceNode.GetState e n).1.IsFrozen
      ↔ n.NodeState.IsFrozen ∧ n.WorkItems ≠ [] := by
  by_cases hw : n.WorkItems.length = 0
  · rw [BuildSequence_GetState_no_items e n hw]
    have : n.WorkItems = [] := List.length_eq_zero.mp hw
    simp [EAutomationGraphNodeState.IsFrozen, this]
  · have hne : n.WorkItems ≠ [] := fun h => hw (by rw [h]; rfl)
    by_cases hs : n.NodeState = EAutomationGraphNodeState.Active
    · constructor
      · intro _; exact ⟨Or.inl hs, hne⟩
      · intro _; exact BuildSequence_GetState_Active_frozen e n hw hs
    · rw [BuildSequence_GetState_not_Active e n hw hs]
      simp [hne]

/-- When `GetState()` reports `Uninitialized` or `Standby`, the work items are as before. -/
theorem BuildSequence_GetState_WorkItems (e : FEnv) (n : UAutomationGraphNode)
    (h : ¬ (UHoudiniBuildSequenceNode.GetState e n).1.IsFrozen) :
    (UHoudiniBuildSequenceNode.GetState e n).2.WorkItems = n.WorkItems := by
  by_cases hw : n.WorkItems.length = 0
  · rw [BuildSequence_GetState_no_items e n hw, SetState_WorkItems]
  · by_cases hs : n.NodeState = EAutomationGraphNodeState.Active
    · exact absurd (BuildSequence_GetState_Active_frozen e n hw hs) h
    · rw [BuildSequence_GetState_not_Active e n hw hs]

theorem BuildSequence_GetState_target (e : FEnv) (n : UAutomationGraphNode) :
    (UHoudiniBuildSequenceNode.GetState e n).2.WorkItems.map UHoudiniBuildWorkItem.target
      = n.WorkItems.map UHoudiniBuildWorkItem.target := by
  unfold UHoudiniBuildSequenceNode.GetState
  simp only []
  split
  · rw [SetState_WorkItems]
  · split
    · split
      · rw [SetState_WorkItems]; exact scanWorkItems_target e _ _ _
      · split
        · rw [SetState_WorkItems]; exact scanWorkItems_target e _ _ _
        · exact scanWorkItems_target e _ _ _
    · rfl

/-! ## Invalid targets, Add and Activate of a build-sequence node -/

/-- The scan returns early with `Error` at an item whose target is invalid when
no item before it reports `Expired`. -/
theorem scanWorkItems_invalid_target (e : FEnv) (info : FHoudiniBuildSequenceInfo)
    (w : UHoudiniBuildWorkItem) (post : List (Option UHoudiniBuildWorkItem))
    (hv : e.World.IsValid w.ToBuild = false) :
    ∀ (pre : List (Option UHoudiniBuildWorkItem)) (k : Nat),
      (∀ x ∈ pre, ∀ v, x = some v → (v.GetBuildState e info).1 ≠ EEHEBuildState.Expired) →
      (UHoudiniBuildSequenceNode.scanWorkItems e info (pre ++ some w :: post) k).Exit
        = some EAutomationGraphNodeState.Error
  | [], k, _ => by
    simp [UHoudiniBuildSequenceNode.scanWorkItems, GetBuildState_invalid e info w hv]
  | none :: rest, k, _ => rfl
  | some v :: rest, k, h => by
    have ih := fun k => scanWorkItems_invalid_target e info w post hv rest k
      (fun x hx => h x (List.mem_cons_of_mem _ hx))
    have hv1 := h (some v) (List.mem_cons_self _ _) v rfl
    simp only [List.cons_append]
    unfold UHoudiniBuildSequenceNode.scanWorkItems
    simp only []
    split
    · exact ih k
    · exact ih (k + 1)
    · rename_i hb; exact absurd hb hv1
    · rfl

/-- C15 (amended): a work item whose target actor has become invalid answers
the next `GetBuildState()` with `Error`, and `GetState()` of the owning Active
build-sequence node returns `Error` as well, provided no work item registered
before it reports `Expired`. -/
theorem C15_invalid_target_Error (e : FEnv) (n : UAutomationGraphNode)
    (pre post : List (Option UHoudiniBuildWorkItem)) (w : UHoudiniBuildWorkItem)
    (hc : n.Class = ENodeClass.HoudiniBuildSequenceNode)
    (ha : n.NodeState = EAutomationGraphNodeState.Active)
    (hw : n.WorkItems = pre ++ some w :: post)
    (hv : e.World.IsValid w.ToBuild = false)
    (hpre : ∀ x ∈ pre, ∀ v, x = some v →
      (v.GetBuildState e n.BuildInfo).1 ≠ EEHEBuildState.Expired) :
    (w.GetBuildState e n.BuildInfo).1 = EEHEBuildState.Error
    ∧ (n.GetState e).1 = EAutomationGraphNodeState.Error := by
  refine ⟨GetBuildState_invalid e _ w hv, ?_⟩
  rw [GetState_of_BuildSequence e n hc]
  have hlen : n.WorkItems.length ≠ 0 := by rw [hw]; simp
  have hex := scanWorkItems_invalid_target e n.BuildInfo w post hv pre 0 hpre
  rw [← hw] at hex
  unfold UHoudiniBuildSequenceNode.GetState
  simp only [hlen, if_false, ha, if_true, hex, SetState_NodeState]

/-- C17: for a build-sequence node, `GetState()` reports `Active` or a terminal
state exactly when the node stores such a state and has work items; then `Add`
returns false and leaves the node as the state query leaves it, with the same
work items bound to the same targets. When `GetState()` reports `Uninitialized`
or `Standby` and the target has a component, `Add` returns true and appends one
work item, bound to the target and in state `Standby`, to the work items. -/
theorem C17_Add_frozen_or_appends (e : FEnv) (AssetActor : Option ActorPtr)
    (n : UAutomationGraphNode) (hc : n.Class = ENodeClass.HoudiniBuildSequenceNode) :
    ((n.GetState e).1.IsFrozen ↔ n.NodeState.IsFrozen ∧ n.WorkItems ≠ [])
    ∧ ((n.GetState e).1.IsFrozen →
        (UHoudiniBuildSequenceNode.Add e AssetActor n).1 = false
        ∧ (UHoudiniBuildSequenceNode.Add e AssetActor n).2 = (n.GetState e).2
        ∧ (UHoudiniBuildSequenceNode.Add e AssetActor n).2.WorkItems.length = n.WorkItems.length
        ∧ (UHoudiniBuildSequenceNode.Add e AssetActor n).2.WorkItems.map
              UHoudiniBuildWorkItem.target
            = n.WorkItems.map UHoudiniBuildWorkItem.target)
    ∧ ((n.GetState e).1 = EAutomationGraphNodeState.Uninitialized
          ∨ (n.GetState e).1 = EAutomationGraphNodeState.Standby →
        (e.World.GetHoudiniAssetComponent AssetActor).isSome = true →
        (UHoudiniBuildSequenceNode.Add e AssetActor n).1 = true
        ∧ (UHoudiniBuildSequenceNode.Add e AssetActor n).2.WorkItems
            = n.WorkItems
              ++ [some { ToBuild := AssetActor, BuildState := EEHEBuildState.Standby }]) := by
  rw [GetState_of_BuildSequence e n hc]
  refine ⟨BuildSequence_GetState_frozen_iff e n, ?_, ?_⟩
  · intro hf
    have h1 : (UHoudiniBuildSequenceNode.GetState e n).1
        ≠ EAutomationGraphNodeState.Uninitialized := by
      intro h; rw [h] at hf
      simp [EAutomationGraphNodeState.IsFrozen] at hf
    have h2 : (UHoudiniBuildSequenceNode.GetState e n).1
        ≠ EAutomationGraphNodeState.Standby := by
      intro h; rw [h] at hf
      simp [EAutomationGraphNodeState.IsFrozen] at hf
    have hadd : UHoudiniBuildSequenceNode.Add e AssetActor n
        = (false, (UHoudiniBuildSequenceNode.GetState e n).2) := by
      unfold UHoudiniBuildSequenceNode.Add
      simp [h1, h2, BuildSequence_GetState_idem]
    rw [hadd]
    exact ⟨rfl, rfl, BuildSequence_GetState_length e n, BuildSequence_GetState_target e n⟩
  · intro hs hcomp
    have hnf : ¬ (UHoudiniBuildSequenceNode.GetState e n).1.IsFrozen := by
      intro hf
      rcases hs with h | h <;> rw [h] at hf <;>
        simp [EAutomationGraphNodeState.IsFrozen] at hf
    have hwi := BuildSequence_GetState_WorkItems e n hnf
    have hinit : UHoudiniBuildWorkItem.Initialize e AssetActor {}
        = (true, { ToBuild := AssetActor, BuildState := EEHEBuildState.Standby }) := by
      unfold UWorld.GetHoudiniAssetComponent at hcomp
      unfold UHoudiniBuildWorkItem.Initialize
      cases ha : e.World.assetActor AssetActor with
      | none => simp [ha] at hcomp
      | some a =>
        simp only [ha] at hcomp ⊢
        cases hk : a.HoudiniAssetComponent with
        | none => simp [hk] at hcomp
        | some c => rfl
    have hadd : UHoudiniBuildSequenceNode.Add e AssetActor n
        = (true, { (UHoudiniBuildSequenceNode.GetState e n).2 with
            WorkItems := (UHoudiniBuildSequenceNode.GetState e n).2.WorkItems
              ++ [some { ToBuild := AssetActor, BuildState := EEHEBuildState.Standby }] }) := by
      unfold UHoudiniBuildSequenceNode.Add
      rcases hs with h | h
      · simp [h, hinit]
      · simp [h, hinit, BuildSequence_GetState_idem]
    rw [hadd]
    exact ⟨rfl, by simp only [hwi]⟩

/-- A call of `Build()` that returns true leaves the item `Building`. -/
theorem Build_true_Building (e : FEnv) (c : EWorkItemClass) (w : UHoudiniBuildWorkItem)
    (h : (w.Build e c).1 = true) : (w.Build e c).2.BuildState = EEHEBuildState.Building := by
  unfold UHoudiniBuildWorkItem.Build at h ⊢
  split
  · rename_i h1; simp [h1] at h
  · rename_i h1
    simp only [h1, if_false] at h
    split
    · rename_i h2; exact h2
    · rename_i h2
      simp only [h2, if_false] at h
      split
      · rename_i h3; simp [h3] at h
      · rename_i a h3
        simp only [h3] at h
        split
        · rename_i h4; simp [h4] at h
        · rfl

theorem buildWorkItems_all (e : FEnv) (c : EWorkItemClass) :
    ∀ (ws : List (Option UHoudiniBuildWorkItem)),
      (∀ y ∈ ws, UHoudiniBuildWorkItem.BuildSucceeds e c y) →
      UHoudiniBuildSequenceNode.buildWorkItems e c ws
        = (true, ws.map (UHoudiniBuildWorkItem.afterBuild e c))
  | [], _ => rfl
  | none :: rest, h => by
    obtain ⟨w, hw, _⟩ := h none (List.mem_cons_self _ _)
    exact absurd hw (by simp)
  | some w :: rest, h => by
    obtain ⟨w1, hw1, hb⟩ := h (some w) (List.mem_cons_self _ _)
    simp only [Option.some.injEq] at hw1
    subst hw1
    have ih := buildWorkItems_all e c rest (fun y hy => h y (List.mem_cons_of_mem _ hy))
    unfold UHoudiniBuildSequenceNode.buildWorkItems
    simp [hb, ih, UHoudiniBuildWorkItem.afterBuild]

theorem buildWorkItems_first_failure (e : FEnv) (c : EWorkItemClass)
    (x : Option UHoudiniBuildWorkItem) (post : List (Option UHoudiniBuildWorkItem))
    (hx : ¬ UHoudiniBuildWorkItem.BuildSucceeds e c x) :
    ∀ (pre : List (Option UHoudiniBuildWorkItem)),
      (∀ y ∈ pre, UHoudiniBuildWorkItem.BuildSucceeds e c y) →
      UHoudiniBuildSequenceNode.buildWorkItems e c (pre ++ x :: post)
        = (false, pre.map (UHoudiniBuildWorkItem.afterBuild e c)
            ++ UHoudiniBuildWorkItem.afterBuild e c x :: post)
  | [], _ => by
    cases x with
    | none => rfl
    | some w =>
      have hb : (w.Build e c).1 = false := by
        cases hbb : (w.Build e c).1 with
        | false => rfl
        | true => exact absurd ⟨w, rfl, hbb⟩ hx
      simp only [List.nil_append, List.map_nil]
      unfold UHoudiniBuildSequenceNode.buildWorkItems
      simp [hb, UHoudiniBuildWorkItem.afterBuild]
  | none :: rest, h => by
    obtain ⟨w, hw, _⟩ := h none (List.mem_cons_self _ _)
    exact absurd hw (by simp)
  | some w :: rest, h => by
    obtain ⟨w1, hw1, hb⟩ := h (some w) (List.mem_cons_self _ _)
    simp only [Option.some.injEq] at hw1
    subst hw1
    have ih := buildWorkItems_first_failure e c x post hx rest
      (fun y hy => h y (List.mem_cons_of_mem _ hy))
    simp only [List.cons_append]
    unfold UHoudiniBuildSequenceNode.buildWorkItems
    simp [hb, ih, UHoudiniBuildWorkItem.afterBuild]

theorem afterBuild_IsBuilding (e : FEnv) (c : EWorkItemClass)
    (l : List (Option UHoudiniBuildWorkItem))
    (h : ∀ y ∈ l, UHoudiniBuildWorkItem.BuildSucceeds e c y) :
    ∀ y ∈ l.map (UHoudiniBuildWorkItem.afterBuild e c), UHoudiniBuildWorkItem.IsBuilding y := by
  intro y hy
  obtain ⟨x, hx, hxy⟩ := List.mem_map.mp hy
  obtain ⟨w, hw, hb⟩ := h x hx
  subst hw
  subst hxy
  exact ⟨_, rfl, Build_true_Building e c w hb⟩

/-- On a build-sequence node that reports `Standby`, `Activate()` stores
`Active` and runs the loop over the work items. -/
theorem BuildSequence_Activate_of_Standby (e : FEnv) (n : UAutomationGraphNode)
    (hs : (UHoudiniBuildSequenceNode.GetState e n).1 = EAutomationGraphNodeState.Standby) :
    (UHoudiniBuildSequenceNode.Activate e n).1
        = (UHoudiniBuildSequenceNode.buildWorkItems e n.WorkItemClass n.WorkItems).1
    ∧ (UHoudiniBuildSequenceNode.Activate e n).2.WorkItems
        = (UHoudiniBuildSequenceNode.buildWorkItems e n.WorkItemClass n.WorkItems).2
    ∧ (UHoudiniBuildSequenceNode.Activate e n).2.NodeState = EAutomationGraphNodeState.Active := by
  have hnf : ¬ (UHoudiniBuildSequenceNode.GetState e n).1.IsFrozen := by
    rw [hs]; simp [EAutomationGraphNodeState.IsFrozen]
  have hw : n.WorkItems.length ≠ 0 := by
    intro h0
    rw [BuildSequence_GetState_no_items e n h0] at hs
    simp at hs
  have hst : n.NodeState ≠ EAutomationGraphNodeState.Active := by
    intro h
    exact hnf (BuildSequence_GetState_Active_frozen e n hw h)
  have hg := BuildSequence_GetState_not_Active e n hw hst
  have hact : UHoudiniBuildSequenceNode.Activate e n
      = ((UHoudiniBuildSequenceNode.buildWorkItems e n.WorkItemClass n.WorkItems).1,
          { (({ n with bFinishedWithError := false } : UAutomationGraphNode).SetState e
              EAutomationGraphNodeState.Active) with
            WorkItems :=
              (UHoudiniBuildSequenceNode.buildWorkItems e n.WorkItemClass n.WorkItems).2 }) := by
    have hidem := BuildSequence_GetState_idem e n
    unfold UHoudiniBuildSequenceNode.Activate
    simp only [hidem, hs]
    rw [hg]
    simp [UAutomationGraphNode.SetState]
  rw [hact]
  exact ⟨rfl, rfl, rfl⟩

/-- C18: on a build-sequence node that reports `Standby`, `Activate()` leaves
the node `Active` and calls `Build()` on the work items in registration order.
If the item at some position is the first on which the call fails, `Activate()`
returns false, the items before it have been built and are `Building`, and the
items after it are untouched; if the call succeeds on every item, `Activate()`
returns true and every item is `Building`. -/
theorem C18_Activate_build_sequence (e : FEnv) (n : UAutomationGraphNode)
    (hc : n.Class = ENodeClass.HoudiniBuildSequenceNode)
    (hs : (n.GetState e).1 = EAutomationGraphNodeState.Standby) :
    (n.Activate e).2.NodeState = EAutomationGraphNodeState.Active
    ∧ (∀ (pre post : List (Option UHoudiniBuildWorkItem)) (x : Option UHoudiniBuildWorkItem),
        n.WorkItems = pre ++ x :: post →
        (∀ y ∈ pre, UHoudiniBuildWorkItem.BuildSucceeds e n.WorkItemClass y) →
        ¬ UHoudiniBuildWorkItem.BuildSucceeds e n.WorkItemClass x →
        (n.Activate e).1 = false
        ∧ (n.Activate e).2.WorkItems
            = pre.map (UHoudiniBuildWorkItem.afterBuild e n.WorkItemClass)
              ++ UHoudiniBuildWorkItem.afterBuild e n.WorkItemClass x :: post
        ∧ ∀ y ∈ pre.map (UHoudiniBuildWorkItem.afterBuild e n.WorkItemClass),
            UHoudiniBuildWorkItem.IsBuilding y)
    ∧ ((∀ y ∈ n.WorkItems, UHoudiniBuildWorkItem.BuildSucceeds e n.WorkItemClass y) →
        (n.Activate e).1 = true
        ∧ (n.Activate e).2.WorkItems.length = n.WorkItems.length
        ∧ ∀ y ∈ (n.Activate e).2.WorkItems, UHoudiniBuildWorkItem.IsBuilding y) := by
  rw [GetState_of_BuildSequence e n hc] at hs
  have ha : n.Activate e = UHoudiniBuildSequenceNode.Activate e n := by
    unfold UAutomationGraphNode.Activate
    rw [hc]
  rw [ha]
  obtain ⟨a1, a2, a3⟩ := BuildSequence_Activate_of_Standby e n hs
  refine ⟨a3, ?_, ?_⟩
  · intro pre post x hw hpre hx
    have hb := buildWorkItems_first_failure e n.WorkItemClass x post hx pre hpre
    rw [← hw] at hb
    rw [a1, a2, hb]
    exact ⟨rfl, rfl, afterBuild_IsBuilding e _ pre hpre⟩
  · intro hall
    have hb := buildWorkItems_all e n.WorkItemClass n.WorkItems hall
    rw [a1, a2, hb]
    exact ⟨rfl, by simp, afterBuild_IsBuilding e _ _ hall⟩

/-- C20, the code at a failing input: a build-sequence node that has Finished
reports `Finished`, and `Activate()` on it returns true, stores `Active` and
restarts its Finished work item, which is `Building` again. -/
theorem C20_Activate_from_Finished :
    exampleFinishedSequenceNode.Class = ENodeClass.HoudiniBuildSequenceNode
    ∧ (exampleFinishedSequenceNode.GetState (exampleEnv 5)).1
        = EAutomationGraphNodeState.Finished
    ∧ (exampleFinishedSequenceNode.Activate (exampleEnv 5)).1 = true
    ∧ (exampleFinishedSequenceNode.Activate (exampleEnv 5)).2.NodeState
        = EAutomationGraphNodeState.Active
    ∧ (exampleFinishedSequenceNode.Activate (exampleEnv 5)).2.WorkItems
        = [some { ToBuild := some 0, TimeStarted := 5, BuildState := EEHEBuildState.Building,
                  DelegateBound := true }] := by
  decide

/-! ## The lookup indices of `InitializeNodes` -/

theorem TMapFind_FindOrAddAdd {κ ν : Type} [DecidableEq κ] [DecidableEq ν] (k : κ) (v : ν)
    (k1 : κ) :
    ∀ (m : List (κ × List ν)),
      TMapFind (TMapFindOrAddAdd m k v) k1
        = if k = k1 then some (TSetAdd ((TMapFind m k).getD []) v) else TMapFind m k1
  | [] => by
    simp only [TMapFindOrAddAdd, TMapFind]
    split <;> simp [TSetAdd]
  | (k2, s) :: rest => by
    have ih := TMapFind_FindOrAddAdd k v k1 rest
    unfold TMapFindOrAddAdd
    by_cases h2 : k2 = k
    · subst h2
      simp only [if_true, TMapFind]
      by_cases h1 : k2 = k1
      · simp [h1]
      · simp [h1]
    · simp only [h2, if_false, TMapFind]
      by_cases h1 : k2 = k1
      · subst h1
        have : ¬ k = k2 := fun h => h2 h.symm
        simp [this]
      · simp only [h1, if_false, ih]

theorem TMapHas_FindOrAddAdd {κ ν : Type} [DecidableEq κ] [DecidableEq ν]
    (m : List (κ × List ν)) (k : κ) (v : ν) (k1 : κ) (v1 : ν) :
    TMapHas (TMapFindOrAddAdd m k v) k1 v1 ↔ TMapHas m k1 v1 ∨ (k1 = k ∧ v1 = v) := by
  unfold TMapHas
  rw [TMapFind_FindOrAddAdd]
  by_cases h : k = k1
  · subst h
    simp only [if_true, Option.some.injEq, exists_eq_left', mem_TSetAdd, true_and]
    cases hf : TMapFind m k with
    | none => simp
    | some s => simp
  · have h2 : ¬ k1 = k := fun hh => h hh.symm
    simp [h, h2]

theorem TMapHas_nil {κ ν : Type} [DecidableEq κ] (k : κ) (v : ν) :
    ¬ TMapHas ([] : List (κ × List ν)) k v := by
  simp [TMapHas, TMapFind]

theorem TMapHas_foldl_tags (a : ActorPtr) (t : FName) (a1 : ActorPtr) :
    ∀ (tags : List FName) (m : List (FName × List ActorPtr)),
      TMapHas (tags.foldl (fun m1 ActorTag => TMapFindOrAddAdd m1 ActorTag a) m) t a1
        ↔ TMapHas m t a1 ∨ (t ∈ tags ∧ a1 = a)
  | [], m => by simp
  | x :: tags, m => by
    simp only [List.foldl_cons]
    rw [TMapHas_foldl_tags a t a1 tags, TMapHas_FindOrAddAdd]
    simp only [List.mem_cons]
    tauto

theorem TMapHas_foldl_range {κ : Type} [DecidableEq κ] (t : κ) (a : Nat)
    (F : List (κ × List Nat) → Nat → List (κ × List Nat)) (Q : Nat → Prop)
    (hF : ∀ m i, (TMapHas (F m i) t a ↔ TMapHas m t a ∨ (a = i ∧ Q i))) :
    ∀ n, TMapHas ((List.range n).foldl F []) t a ↔ a < n ∧ Q a := by
  intro n
  induction n with
  | zero => simp [TMapHas_nil]
  | succ n ih =>
    rw [List.range_succ, List.foldl_append]
    simp only [List.foldl_cons, List.foldl_nil]
    rw [hF, ih]
    constructor
    · rintro (⟨h1, h2⟩ | ⟨h1, h2⟩)
      · exact ⟨by omega, h2⟩
      · subst h1; exact ⟨by omega, h2⟩
    · rintro ⟨h1, h2⟩
      by_cases han : a = n
      · exact Or.inr ⟨han, han ▸ h2⟩
      · exact Or.inl ⟨by omega, h2⟩

theorem getD_some_lt {α : Type} (l : List (Option α)) (i : Nat) (x : α)
    (h : l.getD i none = some x) : i < l.length := by
  by_contra hlt
  rw [List.getD_eq_default _ _ (Nat.le_of_not_lt hlt)] at h
  exact absurd h (by simp)

/-- The index `ActorsByTag` holds an actor under a tag exactly when the actor is
an `AHoudiniAssetActor` of the world that carries the tag. -/
theorem TMapHas_ActorsByTag (w : UWorld) (t : FName) (a : Nat) :
    TMapHas (ActorsByTag w) t a
      ↔ ∃ actor, w.Actors.getD a none = some (AActor.HoudiniAssetActor actor) ∧ t ∈ actor.Tags := by
  unfold ActorsByTag
  refine (TMapHas_foldl_range t a _
    (fun i => ∃ actor, w.Actors.getD i none = some (AActor.HoudiniAssetActor actor)
      ∧ t ∈ actor.Tags) ?_ _).trans ?_
  · intro m i
    simp only []
    split
    · rename_i actor hactor
      rw [TMapHas_foldl_tags]
      constructor
      · rintro (h | ⟨h1, h2⟩)
        · exact Or.inl h
        · exact Or.inr ⟨h2, actor, hactor, h1⟩
      · rintro (h | ⟨h1, actor1, h2, h3⟩)
        · exact Or.inl h
        · rw [hactor] at h2
          simp only [Option.some.injEq, AActor.HoudiniAssetActor.injEq] at h2
          subst h2
          exact Or.inr ⟨h3, h1⟩
    · rename_i hno
      constructor
      · intro h; exact Or.inl h
      · rintro (h | ⟨_, actor1, h2, _⟩)
        · exact h
        · exact absurd h2 (hno actor1)
  · constructor
    · rintro ⟨_, h⟩; exact h
    · rintro ⟨actor, h1, h2⟩
      exact ⟨getD_some_lt _ _ _ h1, actor, h1, h2⟩

/-- The index `ActorsByAsset` holds an actor under an asset exactly when the
actor is an `AHoudiniAssetActor` of the world whose component has that asset. -/
theorem TMapHas_ActorsByAsset (w : UWorld) (t : AssetPtr) (a : Nat) :
    TMapHas (ActorsByAsset w) t a
      ↔ ∃ actor c, w.Actors.getD a none = some (AActor.HoudiniAssetActor actor)
          ∧ actor.HoudiniAssetComponent = some c ∧ c.HoudiniAsset = some t := by
  unfold ActorsByAsset
  refine (TMapHas_foldl_range t a _
    (fun i => ∃ actor c, w.Actors.getD i none = some (AActor.HoudiniAssetActor actor)
      ∧ actor.HoudiniAssetComponent = some c ∧ c.HoudiniAsset = some t) ?_ _).trans ?_
  · intro m i
    simp only []
    split
    · rename_i actor hactor
      split
      · rename_i c hc
        split
        · rename_i asset hasset
          rw [TMapHas_FindOrAddAdd]
          constructor
          · rintro (h | ⟨h1, h2⟩)
            · exact Or.inl h
            · exact Or.inr ⟨h2, actor, c, hactor, hc, h1 ▸ hasset⟩
          · rintro (h | ⟨h1, actor1, c1, h2, h3, h4⟩)
            · exact Or.inl h
            · rw [hactor] at h2
              simp only [Option.some.injEq, AActor.HoudiniAssetActor.injEq] at h2
              subst h2
              rw [hc] at h3
              simp only [Option.some.injEq] at h3
              subst h3
              rw [hasset] at h4
              simp only [Option.some.injEq] at h4
              exact Or.inr ⟨h4.symm, h1⟩
        · rename_i hasset
          constructor
          · intro h; exact Or.inl h
          · rintro (h | ⟨h1, actor1, c1, h2, h3, h4⟩)
            · exact h
            · rw [hactor] at h2
              simp only [Option.some.injEq, AActor.HoudiniAssetActor.injEq] at h2
              subst h2
              rw [hc] at h3
              simp only [Option.some.injEq] at h3
              subst h3
              rw [hasset] at h4
              exact absurd h4 (by simp)
      · rename_i hc
        constructor
        · intro h; exact Or.inl h
        · rintro (h | ⟨h1, actor1, c1, h2, h3, h4⟩)
          · exact h
          · rw [hactor] at h2
            simp only [Option.some.injEq, AActor.HoudiniAssetActor.injEq] at h2
            subst h2
            rw [hc] at h3
            exact absurd h3 (by simp)
    · rename_i hno
      constructor
      · intro h; exact Or.inl h
      · rintro (h | ⟨_, actor1, c1, h2, _⟩)
        · exact h
        · exact absurd h2 (hno actor1)
  · constructor
    · rintro ⟨_, h⟩; exact h
    · rintro ⟨actor, c, h1, h2⟩
      exact ⟨getD_some_lt _ _ _ h1, actor, c, h1, h2⟩

/-! ## Initialization of one node: what it adds -/

theorem BuildSequence_GetState_BuildInfo (e : FEnv) (n : UAutomationGraphNode) :
    (UHoudiniBuildSequenceNode.GetState e n).2.BuildInfo = n.BuildInfo := by
  unfold UHoudiniBuildSequenceNode.GetState
  simp only []
  split
  · simp [SetState_BuildInfo]
  · split
    · split
      · simp [SetState_BuildInfo]
      · split <;> simp [SetState_BuildInfo]
    · rfl

theorem BuildSequence_GetState_targets (e : FEnv) (n : UAutomationGraphNode) :
    (UHoudiniBuildSequenceNode.GetState e n).2.targets = n.targets :=
  BuildSequence_GetState_target e n

theorem Initialize_ToBuild (e : FEnv) (p : Option ActorPtr) (w : UHoudiniBuildWorkItem)
    (h : (w.Initialize e p).1 ≠ false) : (w.Initialize e p).2.ToBuild = p := by
  unfold UHoudiniBuildWorkItem.Initialize at h ⊢
  split
  · rename_i h1; simp [h1] at h
  · rename_i a h1
    simp only [h1] at h
    split
    · rename_i h2; simp [h2] at h
    · rfl

/-- The call `Add(AssetActor)` keeps the selectors of the node and either keeps
the targets of its work items or appends the actor to them. -/
theorem Add_spec (e : FEnv) (a : ActorPtr) (n : UAutomationGraphNode) :
    (UHoudiniBuildSequenceNode.Add e (some a) n).2.BuildInfo = n.BuildInfo
    ∧ ((UHoudiniBuildSequenceNode.Add e (some a) n).2.targets = n.targets
      ∨ (UHoudiniBuildSequenceNode.Add e (some a) n).2.targets = n.targets ++ [some a]) := by
  have t1 := BuildSequence_GetState_targets e n
  have t2 := BuildSequence_GetState_targets e (UHoudiniBuildSequenceNode.GetState e n).2
  have b1 := BuildSequence_GetState_BuildInfo e n
  have b2 := BuildSequence_GetState_BuildInfo e (UHoudiniBuildSequenceNode.GetState e n).2
  have hnew : ∀ (r : UAutomationGraphNode),
      (UHoudiniBuildWorkItem.Initialize e (some a) {}).1 ≠ false →
      ({ r with WorkItems := r.WorkItems
          ++ [some (UHoudiniBuildWorkItem.Initialize e (some a) {}).2] } :
            UAutomationGraphNode).targets = r.targets ++ [some a] := by
    intro r h
    simp only [UAutomationGraphNode.targets, List.map_append, List.map_cons, List.map_nil,
      UHoudiniBuildWorkItem.target, Initialize_ToBuild e (some a) {} h]
  unfold UHoudiniBuildSequenceNode.Add
  simp only []
  by_cases hu : (UHoudiniBuildSequenceNode.GetState e n).1
      = EAutomationGraphNodeState.Uninitialized
  · simp only [hu, ne_eq, not_true_eq_false, if_false, false_and]
    split
    · exact ⟨b1, Or.inl t1⟩
    · rename_i hi
      refine ⟨b1, Or.inr ?_⟩
      rw [hnew _ (by simpa using hi), t1]
  · simp only [hu, ne_eq, not_false_eq_true, if_true, true_and]
    split
    · exact ⟨b2.trans b1, Or.inl (t2.trans t1)⟩
    · split
      · exact ⟨b2.trans b1, Or.inl (t2.trans t1)⟩
      · rename_i hi
        refine ⟨b2.trans b1, Or.inr ?_⟩
        rw [hnew _ (by simpa using hi), t2, t1]

theorem TargetsExtend_refl (A A1 : List ActorPtr) (P : ActorPtr → Prop)
    (t : List (Option ActorPtr)) : TargetsExtend A A1 P t t :=
  ⟨[], by simp, List.nodup_nil, fun x hx => by simp at hx⟩

theorem TargetsExtend_trans {A A1 A2 : List ActorPtr} {P : ActorPtr → Prop}
    {t t1 t2 : List (Option ActorPtr)} (hs1 : ∀ a ∈ A, a ∈ A1) (hs2 : ∀ a ∈ A1, a ∈ A2)
    (h1 : TargetsExtend A A1 P t t1) (h2 : TargetsExtend A1 A2 P t1 t2) :
    TargetsExtend A A2 P t t2 := by
  obtain ⟨n1, e1, d1, p1⟩ := h1
  obtain ⟨n2, e2, d2, p2⟩ := h2
  refine ⟨n1 ++ n2, by rw [e2, e1, List.append_assoc], ?_, ?_⟩
  · rw [List.nodup_append]
    refine ⟨d1, d2, ?_⟩
    intro x hx1 hx2
    obtain ⟨a, ha, _, ha1, _⟩ := p1 x hx1
    obtain ⟨b, hb, hb1, _, _⟩ := p2 x hx2
    rw [ha] at hb
    simp only [Option.some.injEq] at hb
    subst hb
    exact hb1 ha1
  · intro x hx
    rcases List.mem_append.mp hx with h | h
    · obtain ⟨a, ha, h3, h4, h5⟩ := p1 x h
      exact ⟨a, ha, h3, hs2 a h4, h5⟩
    · obtain ⟨a, ha, h3, h4, h5⟩ := p2 x h
      exact ⟨a, ha, fun hh => h3 (hs1 a hh), h4, h5⟩

/-- The inner loop over the actors found under one key: the node keeps its
class and selectors, every actor of the list ends up claimed, and the targets
of the node grow by distinct actors that were not claimed before. -/
theorem addActors_spec (e : FEnv) (P : ActorPtr → Prop) :
    ∀ (l : List ActorPtr) (s : FNodeInit), (∀ a ∈ l, P a) →
      (AHoudiniBuildManager.addActors e l s).Node.BuildInfo = s.Node.BuildInfo
      ∧ (∀ a, a ∈ (AHoudiniBuildManager.addActors e l s).AddedActors
          ↔ a ∈ s.AddedActors ∨ a ∈ l)
      ∧ TargetsExtend s.AddedActors (AHoudiniBuildManager.addActors e l s).AddedActors P
          s.Node.targets (AHoudiniBuildManager.addActors e l s).Node.targets
  | [], s, _ => by
    unfold AHoudiniBuildManager.addActors
    exact ⟨rfl, fun a => by simp, TargetsExtend_refl _ _ _ _⟩
  | a :: l, s, hP => by
    have hPl : ∀ x ∈ l, P x := fun x hx => hP x (List.mem_cons_of_mem _ hx)
    unfold AHoudiniBuildManager.addActors
    split
    · rename_i hmem
      have hmem2 : a ∈ s.AddedActors := by simpa using hmem
      obtain ⟨i1, i2, i3⟩ := addActors_spec e P l s hPl
      refine ⟨i1, ?_, i3⟩
      intro x
      rw [i2]
      simp only [List.mem_cons]
      constructor
      · rintro (h | h)
        · exact Or.inl h
        · exact Or.inr (Or.inr h)
      · rintro (h | h | h)
        · exact Or.inl h
        · subst h; exact Or.inl hmem2
        · exact Or.inr h
    · rename_i hmem
      have hmem2 : a ∉ s.AddedActors := by simpa using hmem
      obtain ⟨a1, a2⟩ := Add_spec e a s.Node
      obtain ⟨i1, i2, i3⟩ := addActors_spec e P l
        ⟨(UHoudiniBuildSequenceNode.Add e (some a) s.Node).2, TSetAdd s.AddedActors a,
          s.NodeInitialized && (UHoudiniBuildSequenceNode.Add e (some a) s.Node).1⟩ hPl
      simp only at i1 i2 i3
      refine ⟨i1.trans a1, ?_, ?_⟩
      · intro x
        rw [i2, mem_TSetAdd]
        simp only [List.mem_cons]
        tauto
      · have hstep : TargetsExtend s.AddedActors (TSetAdd s.AddedActors a) P s.Node.targets
            (UHoudiniBuildSequenceNode.Add e (some a) s.Node).2.targets := by
          rcases a2 with h | h
          · rw [h]; exact TargetsExtend_refl _ _ _ _
          · rw [h]
            refine ⟨[some a], rfl, List.nodup_singleton _, ?_⟩
            intro x hx
            simp only [List.mem_singleton] at hx
            exact ⟨a, hx, hmem2, (mem_TSetAdd _ _ _).2 (Or.inr rfl),
              hP a (List.mem_cons_self _ _)⟩
        refine TargetsExtend_trans ?_ ?_ hstep i3
        · intro x hx; exact (mem_TSetAdd _ _ _).2 (Or.inl hx)
        · intro x hx; exact (i2 x).2 (Or.inl hx)

/-- One of the two outer loops over the keys of the selectors. -/
theorem addActorsByKey_spec {κ : Type} [DecidableEq κ] (e : FEnv)
    (m : List (κ × List ActorPtr)) (P : ActorPtr → Prop) :
    ∀ (ks : List κ) (s : FNodeInit), (∀ k ∈ ks, ∀ a, TMapHas m k a → P a) →
      (AHoudiniBuildManager.addActorsByKey e m ks s).Node.BuildInfo = s.Node.BuildInfo
      ∧ (∀ a, a ∈ (AHoudiniBuildManager.addActorsByKey e m ks s).AddedActors
          ↔ a ∈ s.AddedActors ∨ ∃ k ∈ ks, TMapHas m k a)
      ∧ TargetsExtend s.AddedActors (AHoudiniBuildManager.addActorsByKey e m ks s).AddedActors P
          s.Node.targets (AHoudiniBuildManager.addActorsByKey e m ks s).Node.targets
  | [], s, _ => by
    unfold AHoudiniBuildManager.addActorsByKey
    exact ⟨rfl, fun a => by simp, TargetsExtend_refl _ _ _ _⟩
  | k :: ks, s, hP => by
    have hPl : ∀ k1 ∈ ks, ∀ a, TMapHas m k1 a → P a :=
      fun k1 hk1 => hP k1 (List.mem_cons_of_mem _ hk1)
    unfold AHoudiniBuildManager.addActorsByKey
    split
    · rename_i hfind
      obtain ⟨i1, i2, i3⟩ := addActorsByKey_spec e m P ks s hPl
      refine ⟨i1, ?_, i3⟩
      intro x
      rw [i2]
      simp only [List.mem_cons, exists_eq_or_imp]
      have : ¬ TMapHas m k x := by
        rintro ⟨l, hl, _⟩
        rw [hfind] at hl
        exact absurd hl (by simp)
      tauto
    · rename_i actors hfind
      have hPa : ∀ a ∈ actors, P a :=
        fun a ha => hP k (List.mem_cons_self _ _) a ⟨actors, hfind, ha⟩
      obtain ⟨a1, a2, a3⟩ := addActors_spec e P actors s hPa
      obtain ⟨i1, i2, i3⟩ := addActorsByKey_spec e m P ks
        (AHoudiniBuildManager.addActors e actors s) hPl
      refine ⟨i1.trans a1, ?_, ?_⟩
      · intro x
        rw [i2, a2]
        simp only [List.mem_cons, exists_eq_or_imp]
        have : TMapHas m k x ↔ x ∈ actors := by
          constructor
          · rintro ⟨l, hl, hx⟩
            rw [hfind] at hl
            simp only [Option.some.injEq] at hl
            subst hl
            exact hx
          · intro hx; exact ⟨actors, hfind, hx⟩
        tauto
      · refine TargetsExtend_trans ?_ ?_ a3 i3
        · intro x hx; exact (a2 x).2 (Or.inl hx)
        · intro x hx; exact (i2 x).2 (Or.inl hx)

/-! ## Initialization of one node and the claim invariant -/

theorem Ready_WorkItems (e : FEnv) (n : UAutomationGraphNode) :
    (n.Ready e).WorkItems = n.WorkItems := by
  unfold UAutomationGraphNode.Ready
  split
  · rfl
  · exact SetState_WorkItems e _ n

theorem Ready_BuildInfo (e : FEnv) (n : UAutomationGraphNode) :
    (n.Ready e).BuildInfo = n.BuildInfo := by
  unfold UAutomationGraphNode.Ready
  split
  · rfl
  · exact SetState_BuildInfo e _ n

theorem initializeNode_BuildInfo (e : FEnv) (n : UAutomationGraphNode) (A : List ActorPtr) :
    (AHoudiniBuildManager.initializeNode e n A).1.BuildInfo = n.BuildInfo := by
  unfold AHoudiniBuildManager.initializeNode
  split
  · simp only []
    have h1 := (addActorsByKey_spec e (ActorsByTag e.World) (fun _ => True)
      n.BuildInfo.ActorTags ⟨n, A, true⟩ (fun _ _ _ _ => trivial)).1
    have h2 := (addActorsByKey_spec e (ActorsByAsset e.World) (fun _ => True)
      n.BuildInfo.AssetTypes
      (AHoudiniBuildManager.addActorsByKey e (ActorsByTag e.World) n.BuildInfo.ActorTags
        ⟨n, A, true⟩) (fun _ _ _ _ => trivial)).1
    split
    · rw [Ready_BuildInfo, h2, h1]
    · rw [h2, h1]
  · unfold UAGN_ClearLandscapeLayers.Initialize
    simp only []
    split <;> rw [SetState_BuildInfo] <;> split <;> rfl
  · unfold UAGN_ConsoleCommandBase.Initialize
    split <;> exact SetState_BuildInfo e _ _
  · exact Ready_BuildInfo e n

/-- The initialization block keeps the actors claimed so far; run on a
build-sequence node it claims every actor the selectors of the node match, and
the targets of the node grow by distinct matched actors not claimed before. -/
theorem initializeNode_claims (e : FEnv) (n : UAutomationGraphNode) (A : List ActorPtr) :
    (∀ a ∈ A, a ∈ (AHoudiniBuildManager.initializeNode e n A).2)
    ∧ (n.Class = ENodeClass.HoudiniBuildSequenceNode →
        (∀ a, e.World.SelectorsMatch n.BuildInfo a →
          a ∈ (AHoudiniBuildManager.initializeNode e n A).2)
        ∧ TargetsExtend A (AHoudiniBuildManager.initializeNode e n A).2
            (e.World.SelectorsMatch n.BuildInfo) n.targets
            (AHoudiniBuildManager.initializeNode e n A).1.targets) := by
  have hP1 : ∀ k ∈ n.BuildInfo.ActorTags, ∀ a, TMapHas (ActorsByTag e.World) k a →
      e.World.SelectorsMatch n.BuildInfo a := by
    intro k hk a ha
    obtain ⟨actor, h1, h2⟩ := (TMapHas_ActorsByTag e.World k a).1 ha
    exact ⟨actor, h1, Or.inl ⟨k, hk, h2⟩⟩
  have hP2 : ∀ k ∈ n.BuildInfo.AssetTypes, ∀ a, TMapHas (ActorsByAsset e.World) k a →
      e.World.SelectorsMatch n.BuildInfo a := by
    intro k hk a ha
    obtain ⟨actor, c, h1, h2, h3⟩ := (TMapHas_ActorsByAsset e.World k a).1 ha
    exact ⟨actor, h1, Or.inr ⟨c, k, h2, h3, hk⟩⟩
  obtain ⟨_, a2, a3⟩ := addActorsByKey_spec e (ActorsByTag e.World)
    (e.World.SelectorsMatch n.BuildInfo) n.BuildInfo.ActorTags ⟨n, A, true⟩ hP1
  obtain ⟨_, b2, b3⟩ := addActorsByKey_spec e (ActorsByAsset e.World)
    (e.World.SelectorsMatch n.BuildInfo) n.BuildInfo.AssetTypes
    (AHoudiniBuildManager.addActorsByKey e (ActorsByTag e.World) n.BuildInfo.ActorTags
      ⟨n, A, true⟩) hP2
  simp only at a2 a3
  have hsub : ∀ a ∈ A, a ∈ (AHoudiniBuildManager.addActorsByKey e (ActorsByAsset e.World)
      n.BuildInfo.AssetTypes
      (AHoudiniBuildManager.addActorsByKey e (ActorsByTag e.World) n.BuildInfo.ActorTags
        ⟨n, A, true⟩)).AddedActors :=
    fun a ha => (b2 a).2 (Or.inl ((a2 a).2 (Or.inl ha)))
  have hall : ∀ a, e.World.SelectorsMatch n.BuildInfo a →
      a ∈ (AHoudiniBuildManager.addActorsByKey e (ActorsByAsset e.World)
        n.BuildInfo.AssetTypes
        (AHoudiniBuildManager.addActorsByKey e (ActorsByTag e.World) n.BuildInfo.ActorTags
          ⟨n, A, true⟩)).AddedActors := by
    rintro a ⟨actor, h1, h2 | h2⟩
    · obtain ⟨t, ht, hta⟩ := h2
      exact (b2 a).2 (Or.inl ((a2 a).2
        (Or.inr ⟨t, ht, (TMapHas_ActorsByTag e.World t a).2 ⟨actor, h1, hta⟩⟩)))
    · obtain ⟨c, asset, hc, hasset, hmem⟩ := h2
      exact (b2 a).2 (Or.inr ⟨asset, hmem,
        (TMapHas_ActorsByAsset e.World asset a).2 ⟨actor, c, h1, hc, hasset⟩⟩)
  have hext := TargetsExtend_trans (fun a ha => (a2 a).2 (Or.inl ha))
    (fun a ha => (b2 a).2 (Or.inl ha)) a3 b3
  constructor
  · intro a ha
    unfold AHoudiniBuildManager.initializeNode
    split
    · simp only []
      split <;> exact hsub a ha
    · exact ha
    · exact ha
    · exact ha
  · intro hc
    unfold AHoudiniBuildManager.initializeNode
    simp only [hc]
    split
    · refine ⟨hall, ?_⟩
      simp only [UAutomationGraphNode.targets, Ready_WorkItems]
      exact hext
    · exact ⟨hall, hext⟩

theorem default_Reset (e : FEnv) : (default : UAutomationGraphNode).Reset e = default := rfl

/-- Behind every pointer the reset graph holds the reset node. -/
theorem Reset_node (e : FEnv) (g : UAutomationGraph) (p : NodePtr) :
    (g.Reset e).node p = (g.node p).Reset e := by
  cases p with
  | none => exact (default_Reset e).symm
  | some i =>
    by_cases hi : i < g.Nodes.length
    · simp [UAutomationGraph.Reset, UAutomationGraph.node, List.getD_eq_getElem?_getD,
        List.getElem?_eq_getElem hi]
    · have hi2 : g.Nodes.length ≤ i := Nat.le_of_not_lt hi
      have h1 : (g.Reset e).node (some i) = default := by
        apply node_out_of_range
        intro j hj
        simp only [Option.some.injEq] at hj
        subst hj
        simpa [UAutomationGraph.Reset] using hi2
      have h2 : g.node (some i) = default := by
        apply node_out_of_range
        intro j hj
        simp only [Option.some.injEq] at hj
        subst hj
        exact hi2
      rw [h1, h2]
      exact (default_Reset e).symm

/-- After a reset no work item of a build-sequence node is bound to a target. -/
theorem Reset_not_BoundAt (e : FEnv) (g : UAutomationGraph) (p : NodePtr) (j : Nat)
    (a : ActorPtr) : ¬ (g.Reset e).BoundAt p j a := by
  rintro ⟨hc, hb⟩
  rw [Reset_node] at hc hb
  have hc2 : (g.node p).Class = ENodeClass.HoudiniBuildSequenceNode := by
    rw [← (SameLinks_Reset e (g.node p)).1]; exact hc
  have : ((g.node p).Reset e).targets = [] := by
    unfold UAutomationGraphNode.Reset
    rw [hc2]
    simp [UHoudiniBuildSequenceNode.Reset, UAutomationGraphNode.targets, SetState_WorkItems]
  rw [this] at hb
  simp at hb

theorem Reset_BuildInfo (e : FEnv) (n : UAutomationGraphNode) :
    (n.Reset e).BuildInfo = n.BuildInfo := by
  unfold UAutomationGraphNode.Reset
  split
  · unfold UHoudiniBuildSequenceNode.Reset
    rw [SetState_BuildInfo]
  · exact SetState_BuildInfo e _ n

theorem ClaimInv_start (e : FEnv) (g : UAutomationGraph) :
    ClaimInv e.World g (g.Reset e) [] [] where
  info := fun p => by
    rw [Reset_node]
    exact ⟨(SameLinks_Reset e (g.node p)).1, Reset_BuildInfo e _⟩
  bound := fun p j a h => absurd h (Reset_not_BoundAt e g p j a)
  once := fun p j _ _ a h => absurd h (Reset_not_BoundAt e g p j a)
  claimed := fun q hq => by simp at hq

theorem append_singleton_eq_split {α : Type} (I pre post : List α) (x p : α)
    (h : I ++ [x] = pre ++ p :: post) :
    (post = [] ∧ p = x ∧ pre = I) ∨ ∃ post1, post = post1 ++ [x] ∧ I = pre ++ p :: post1 := by
  rcases List.eq_nil_or_concat post with hp | ⟨L, b, hp⟩
  · subst hp
    have h2 : I ++ [x] = pre ++ [p] := h
    obtain ⟨h3, h4⟩ := List.append_inj' h2 rfl
    simp only [List.cons.injEq, and_true] at h4
    exact Or.inl ⟨rfl, h4.symm, h3.symm⟩
  · rw [List.concat_eq_append] at hp
    subst hp
    have h2 : I ++ [x] = (pre ++ p :: L) ++ [b] := by
      rw [h]; simp
    obtain ⟨h3, h4⟩ := List.append_inj' h2 rfl
    simp only [List.cons.injEq, and_true] at h4
    subst h4
    exact Or.inr ⟨L, rfl, h3⟩

/-! ## The claim invariant along the traversal -/

/-- Running the initialization block on a node not yet initialized keeps the
claim invariant. -/
theorem ClaimInv_visit (e : FEnv) (g0 g : UAutomationGraph) (A : List ActorPtr)
    (I : List NodePtr) (p : NodePtr) (h : ClaimInv e.World g0 g A I) (hp : p ∉ I) :
    ClaimInv e.World g0
      (g.setNode p (AHoudiniBuildManager.initializeNode e (g.node p) A).1)
      (AHoudiniBuildManager.initializeNode e (g.node p) A).2 (I ++ [p]) := by
  obtain ⟨hsub, hbs⟩ := initializeNode_claims e (g.node p) A
  have hclass := (SameLinks_initializeNode e (g.node p) A).1
  have hinfo := initializeNode_BuildInfo e (g.node p) A
  -- a bound work item of the new graph is an old one, or a new one of `p`
  have hcases : ∀ q j a,
      (g.setNode p (AHoudiniBuildManager.initializeNode e (g.node p) A).1).BoundAt q j a →
      g.BoundAt q j a
      ∨ (q = p ∧ (g.node p).Class = ENodeClass.HoudiniBuildSequenceNode
          ∧ (g.node p).targets.length ≤ j
          ∧ (g.setNode p (AHoudiniBuildManager.initializeNode e (g.node p) A).1).node q
              = (AHoudiniBuildManager.initializeNode e (g.node p) A).1) := by
    intro q j a hb
    rcases node_setNode_cases g p q (AHoudiniBuildManager.initializeNode e (g.node p) A).1 with
      h1 | ⟨h1, h2⟩
    · left
      unfold UAutomationGraph.BoundAt at hb ⊢
      rw [h1] at hb
      exact hb
    · subst h1
      have hb2 := hb
      unfold UAutomationGraph.BoundAt at hb2
      rw [h2] at hb2
      have hc : (g.node q).Class = ENodeClass.HoudiniBuildSequenceNode := by
        rw [← hclass]; exact hb2.1
      obtain ⟨_, new, hnew, _, _⟩ := hbs hc
      by_cases hj : j < (g.node q).targets.length
      · left
        refine ⟨hc, ?_⟩
        have := hb2.2
        rw [hnew, List.getElem?_append_left hj] at this
        exact this
      · right
        exact ⟨rfl, hc, Nat.le_of_not_lt hj, h2⟩
  have hold : ∀ q j a, g.BoundAt q j a → q ≠ p := by
    intro q j a hb hq
    exact hp (hq ▸ (h.bound q j a hb).2.1)
  constructor
  · intro q
    rcases node_setNode_cases g p q (AHoudiniBuildManager.initializeNode e (g.node p) A).1 with
      h1 | ⟨h1, h2⟩
    · rw [h1]; exact h.info q
    · rw [h2, h1, hclass, hinfo]; exact h.info p
  · intro q j a hb
    rcases hcases q j a hb with h1 | ⟨h1, hc, hj, h2⟩
    · obtain ⟨b1, b2, b3, b4⟩ := h.bound q j a h1
      refine ⟨hsub a b1, List.mem_append.mpr (Or.inl b2), b3, ?_⟩
      intro pre post hsplit
      rcases append_singleton_eq_split I pre post p q hsplit with ⟨_, h3, _⟩ | ⟨post1, _, h3⟩
      · exact absurd h3 (hold q j a h1)
      · exact b4 pre post1 h3
    · subst h1
      obtain ⟨hall, new, hnew, _, hprop⟩ := hbs hc
      have hb2 := hb.2
      rw [h2, hnew, List.getElem?_append_right hj] at hb2
      obtain ⟨a1, ha1, hnA, hA1, hmatch⟩ := hprop (some a) (List.getElem?_mem hb2)
      simp only [Option.some.injEq] at ha1
      subst ha1
      have hclaim : g0.Claims e.World q a := by
        refine ⟨?_, ?_⟩
        · rw [← (h.info q).1]; exact hc
        · rw [← (h.info q).2]; exact hmatch
      refine ⟨hA1, List.mem_append.mpr (Or.inr (List.mem_singleton.mpr rfl)), hclaim, ?_⟩
      intro pre post hsplit
      rcases append_singleton_eq_split I pre post q q hsplit with ⟨_, _, h3⟩ | ⟨post1, _, h3⟩
      · subst h3
        intro q1 hq1 hcl
        exact hnA (h.claimed q1 hq1 a hcl)
      · exact absurd (by rw [h3]; simp) hp
  · intro q j q1 k a hb hb1
    rcases hcases q j a hb with h1 | ⟨h1, hc, hj, h2⟩
    · rcases hcases q1 k a hb1 with h3 | ⟨h3, hc3, hk, h4⟩
      · exact h.once q j q1 k a h1 h3
      · subst h3
        exfalso
        obtain ⟨_, new, hnew, _, hprop⟩ := hbs hc3
        have hb2 := hb1.2
        rw [h4, hnew, List.getElem?_append_right hk] at hb2
        obtain ⟨a1, ha1, hnA, _, _⟩ := hprop (some a) (List.getElem?_mem hb2)
        simp only [Option.some.injEq] at ha1
        subst ha1
        exact hnA (h.bound q j a h1).1
    · subst h1
      obtain ⟨_, new, hnew, hnd, hprop⟩ := hbs hc
      have hb2 := hb.2
      rw [h2, hnew, List.getElem?_append_right hj] at hb2
      rcases hcases q1 k a hb1 with h3 | ⟨h3, _, hk, h4⟩
      · exfalso
        obtain ⟨a1, ha1, hnA, _, _⟩ := hprop (some a) (List.getElem?_mem hb2)
        simp only [Option.some.injEq] at ha1
        subst ha1
        exact hnA (h.bound q1 k a h3).1
      · subst h3
        have hb3 := hb1.2
        rw [h4, hnew, List.getElem?_append_right hk] at hb3
        refine ⟨rfl, ?_⟩
        have hlt : j - (g.node q1).targets.length < new.length := by
          by_contra hge
          rw [List.getElem?_eq_none (Nat.le_of_not_lt hge)] at hb2
          exact absurd hb2 (by simp)
        have := List.getElem?_inj hlt hnd (hb2.trans hb3.symm)
        omega
  · intro q hq a hcl
    rcases List.mem_append.mp hq with h1 | h1
    · exact hsub a (h.claimed q h1 a hcl)
    · simp only [List.mem_singleton] at h1
      subst h1
      have hc : (g.node q).Class = ENodeClass.HoudiniBuildSequenceNode := by
        rw [(h.info q).1]; exact hcl.1
      refine (hbs hc).1 a ?_
      rw [(h.info q).2]; exact hcl.2

/-- A property of the graph, the claimed actors and the initialized nodes that
the initialization block keeps holds throughout the traversal of
`InitializeNodes`; when the traversal stops on a cycle it held just before the
graph was reset. -/
theorem initializeLoop_invariant (e : FEnv)
    (P : UAutomationGraph → List ActorPtr → List NodePtr → Prop)
    (hstep : ∀ g A I p, P g A I → p ∉ I →
      P (g.setNode p (AHoudiniBuildManager.initializeNode e (g.node p) A).1)
        (AHoudiniBuildManager.initializeNode e (g.node p) A).2 (I ++ [p])) :
    ∀ (fuel : Nat) (s : FInitializeNodes),
      s.Initialized = s.Visited → s.CycleError = false →
      P s.Graph s.AddedActors s.Initialized →
      ((AHoudiniBuildManager.initializeLoop e fuel s).CycleError = false →
        P (AHoudiniBuildManager.initializeLoop e fuel s).Graph
          (AHoudiniBuildManager.initializeLoop e fuel s).AddedActors
          (AHoudiniBuildManager.initializeLoop e fuel s).Initialized)
      ∧ ((AHoudiniBuildManager.initializeLoop e fuel s).CycleError = true →
        ∃ g A, P g A (AHoudiniBuildManager.initializeLoop e fuel s).Initialized
          ∧ (AHoudiniBuildManager.initializeLoop e fuel s).Graph = g.Reset e)
  | 0, s, _, hc, hP => by
    simp only [AHoudiniBuildManager.initializeLoop]
    exact ⟨fun _ => hP, fun h => by rw [hc] at h; exact absurd h (by decide)⟩
  | fuel + 1, s, hI, hc, hP => by
    cases hst : s.NodeStack with
    | nil =>
      rw [initializeLoop_nil e _ s hst]
      exact ⟨fun _ => hP, fun h => by rw [hc] at h; exact absurd h (by decide)⟩
    | cons d rest =>
      by_cases hd : d.GraphNode ∈ s.Visited
      · rw [initializeLoop_skip e fuel s d rest hst hd]
        exact initializeLoop_invariant e P hstep fuel { s with NodeStack := rest } hI hc hP
      · have hdI : d.GraphNode ∉ s.Initialized := by rw [hI]; exact hd
        have hP1 := hstep s.Graph s.AddedActors s.Initialized d.GraphNode hP hdI
        cases hpush : AHoudiniBuildManager.pushChildren (TSetAdd d.Ancestors d.GraphNode)
            ((s.Graph.setNode d.GraphNode
              (AHoudiniBuildManager.initializeNode e (s.Graph.node d.GraphNode)
                s.AddedActors).1).node d.GraphNode).ChildNodes rest with
        | none =>
          rw [initializeLoop_cycle e fuel s d rest hst hd hpush]
          exact ⟨fun h => absurd h (by simp), fun _ => ⟨_, _, hP1, rfl⟩⟩
        | some st =>
          rw [initializeLoop_visit e fuel s d rest st hst hd hpush]
          apply initializeLoop_invariant e P hstep fuel _ _ rfl hP1
          simp only [hI, TSetAdd_of_not_mem _ _ hd]

/-- The invariant principle of the traversal, for a whole call of `InitializeNodes`. -/
theorem runInitializeNodes_invariant (e : FEnv) (m : AHoudiniBuildManager)
    (P : UAutomationGraph → List ActorPtr → List NodePtr → Prop)
    (hstart : P (m.SequenceGraph.Reset e) [] [])
    (hstep : ∀ g A I p, P g A I → p ∉ I →
      P (g.setNode p (AHoudiniBuildManager.initializeNode e (g.node p) A).1)
        (AHoudiniBuildManager.initializeNode e (g.node p) A).2 (I ++ [p]))
    (s : FInitializeNodes) (h : AHoudiniBuildManager.runInitializeNodes e m = some s) :
    (s.CycleError = false → P s.Graph s.AddedActors s.Initialized)
    ∧ (s.CycleError = true → ∃ g A, P g A s.Initialized ∧ s.Graph = g.Reset e) := by
  unfold AHoudiniBuildManager.runInitializeNodes at h
  split at h
  · simp at h
  · split at h
    · simp at h
    · simp only [Option.some.injEq] at h
      have hinv := initializeLoop_invariant e P hstep
        (AHoudiniBuildManager.initializeFuel (m.SequenceGraph.Reset e))
        { Graph := m.SequenceGraph.Reset e,
          NodeStack := ((m.SequenceGraph.Reset e).RootNodes.map
            (fun r => (⟨r, []⟩ : FEHEBuildSequenceDFSNode))).reverse,
          Visited := [], AddedActors := [], Initialized := [], CycleError := false }
        rfl rfl hstart
      rw [h] at hinv
      exact hinv

/-- C11: after `InitializeNodes` (in the editor world, on a graph with roots) a
target is bound to at most one work item over all build-sequence nodes of the
graph, and the node that holds this work item was initialized, has selectors
that match the target, and is the first such node in the order of initialization:
no node initialized before it has selectors that match the target. -/
theorem C11_InitializeNodes_first_claim_wins (e : FEnv) (m : AHoudiniBuildManager)
    (hw : e.World.IsEditorWorld = true) (hr : m.SequenceGraph.RootNodes ≠ [])
    (a : ActorPtr) :
    (∀ p j q k, (m.InitializeNodes e).SequenceGraph.BoundAt p j a →
        (m.InitializeNodes e).SequenceGraph.BoundAt q k a → p = q ∧ j = k)
    ∧ (∀ p j, (m.InitializeNodes e).SequenceGraph.BoundAt p j a →
        p ∈ m.InitializeNodesInitialized e
        ∧ m.SequenceGraph.Claims e.World p a
        ∧ ∀ pre post, m.InitializeNodesInitialized e = pre ++ p :: post →
            ∀ q ∈ pre, ¬ m.SequenceGraph.Claims e.World q a) := by
  obtain ⟨s, hs⟩ := runInitializeNodes_isSome e m hw hr
  have hinv := runInitializeNodes_invariant e m (ClaimInv e.World m.SequenceGraph)
    (ClaimInv_start e m.SequenceGraph)
    (fun g A I p hP hp => ClaimInv_visit e m.SequenceGraph g A I p hP hp) s hs
  have hg : (m.InitializeNodes e).SequenceGraph = s.Graph := by
    unfold AHoudiniBuildManager.InitializeNodes
    rw [hs]
  have hi : m.InitializeNodesInitialized e = s.Initialized := by
    unfold AHoudiniBuildManager.InitializeNodesInitialized
    rw [hs]
  rw [hg, hi]
  cases hc : s.CycleError with
  | false =>
    have hP := hinv.1 hc
    exact ⟨fun p j q k h1 h2 => hP.once p j q k a h1 h2,
      fun p j h1 => (hP.bound p j a h1).2⟩
  | true =>
    obtain ⟨g, _, _, hgr⟩ := hinv.2 hc
    rw [hgr]
    exact ⟨fun p j _ _ h1 => absurd h1 (Reset_not_BoundAt e g p j a),
      fun p j h1 => absurd h1 (Reset_not_BoundAt e g p j a)⟩

/-! ## Graphs of default leaf nodes -/

theorem setNode_node_self (g : UAutomationGraph) (p : NodePtr) : g.setNode p (g.node p) = g := by
  cases p with
  | none => rfl
  | some i =>
    unfold UAutomationGraph.setNode UAutomationGraph.node
    have : g.Nodes.set i (g.Nodes.getD i default) = g.Nodes := by
      apply List.ext_getElem?
      intro k
      rw [List.getElem?_set]
      split
      · rename_i hik
        subst hik
        split
        · rename_i hi
          simp [List.getD_eq_getElem?_getD, List.getElem?_eq_getElem hi]
        · rename_i hi
          simp [List.getElem?_eq_none (Nat.le_of_not_lt hi)]
      · rfl
    simp only [this]

theorem node_setNode_self (g : UAutomationGraph) (p : NodePtr) (n : UAutomationGraphNode)
    (h : g.IsNode p) : (g.setNode p n).node p = n := by
  obtain ⟨i, rfl, hi⟩ := h
  simp [UAutomationGraph.setNode, UAutomationGraph.node, List.getD_eq_getElem?_getD,
    List.getElem?_set, hi]

theorem IsNode_of_length {g g1 : UAutomationGraph} (h : g1.Nodes.length = g.Nodes.length)
    (p : NodePtr) (hp : g.IsNode p) : g1.IsNode p := by
  obtain ⟨i, rfl, hi⟩ := hp
  exact ⟨i, rfl, by rw [h]; exact hi⟩

theorem node_not_IsNode (g : UAutomationGraph) (p : NodePtr) (h : ¬ g.IsNode p) :
    g.node p = default := by
  apply node_out_of_range
  intro i hi
  by_contra hlt
  exact h ⟨i, hi, Nat.lt_of_not_le hlt⟩

theorem node_mem_of_IsNode (g : UAutomationGraph) (p : NodePtr) (h : g.IsNode p) :
    g.node p ∈ g.Nodes := by
  obtain ⟨i, rfl, hi⟩ := h
  simp only [UAutomationGraph.node, List.getD_eq_getElem _ _ hi]
  exact List.getElem_mem hi

/-- In a graph of default leaf nodes the node read behind any pointer is of the base class. -/
theorem IsLeafDag_class {g : UAutomationGraph} (h : g.IsLeafDag) (p : NodePtr) :
    (g.node p).Class = ENodeClass.AutomationGraphNode := by
  by_cases hp : g.IsNode p
  · exact h.leaf _ (node_mem_of_IsNode g p hp)
  · rw [node_not_IsNode g p hp]; rfl

theorem IsLeafDag_parent_IsNode {g : UAutomationGraph} (h : g.IsLeafDag) (v p : NodePtr)
    (hp : p ∈ (g.node v).ParentNodes) : g.IsNode p ∧ v ∈ (g.node p).ChildNodes := by
  have hc : v ∈ (g.node p).ChildNodes := (h.mirrored p v).2 hp
  refine ⟨?_, hc⟩
  by_contra hn
  rw [node_not_IsNode g p hn] at hc
  exact absurd hc (by simp [default, instInhabitedUAutomationGraphNode])

theorem IsLeafDag_child_IsNode {g : UAutomationGraph} (h : g.IsLeafDag) (c v : NodePtr)
    (hv : v ∈ (g.node c).ChildNodes) : g.IsNode v ∧ c ∈ (g.node v).ParentNodes := by
  have hp : c ∈ (g.node v).ParentNodes := (h.mirrored c v).1 hv
  refine ⟨?_, hp⟩
  by_contra hn
  rw [node_not_IsNode g v hn] at hp
  exact absurd hp (by simp [default, instInhabitedUAutomationGraphNode])

/-- Induction along the parent links of a graph without cycles: a property that
holds for a node whenever it holds for all its parents holds for every node. -/
theorem IsLeafDag_induction {g : UAutomationGraph} (h : g.IsLeafDag) (Q : NodePtr → Prop)
    (hQ : ∀ v, g.IsNode v → (∀ p ∈ (g.node v).ParentNodes, Q p) → Q v) :
    ∀ v, g.IsNode v → Q v := by
  let R : Fin g.Nodes.length → Fin g.Nodes.length → Prop :=
    fun i j => g.childLink (some i.val) (some j.val)
  have hlift : ∀ i j, Relation.TransGen R i j →
      Relation.TransGen g.childLink (some i.val) (some j.val) := by
    intro i j hij
    exact Relation.TransGen.lift (fun k : Fin g.Nodes.length => (some k.val : NodePtr))
      (fun a b hab => hab) hij
  haveI : IsTrans (Fin g.Nodes.length) (Relation.TransGen R) :=
    ⟨fun _ _ _ h1 h2 => Relation.TransGen.trans h1 h2⟩
  haveI : IsIrrefl (Fin g.Nodes.length) (Relation.TransGen R) :=
    ⟨fun i hi => h.acyclic _ (hlift i i hi)⟩
  have hwf : WellFounded (Relation.TransGen R) := Finite.wellFounded_of_trans_of_irrefl _
  have key : ∀ j : Fin g.Nodes.length, Q (some j.val) := by
    intro j
    induction j using hwf.induction with
    | _ j ih =>
      apply hQ _ ⟨j.val, rfl, j.isLt⟩
      intro p hp
      obtain ⟨⟨i, hi1, hi2⟩, hc⟩ := IsLeafDag_parent_IsNode h _ p hp
      subst hi1
      exact ih ⟨i, hi2⟩ (Relation.TransGen.single hc)
  rintro v ⟨i, rfl, hi⟩
  exact key ⟨i, hi⟩

/-- In a graph without cycles whose roots are the nodes without parents every
node is reachable from the root set. -/
theorem IsLeafDag_reachable {g : UAutomationGraph} (h : g.IsLeafDag) :
    ∀ v, g.IsNode v → g.ReachableFromRoots v := by
  apply IsLeafDag_induction h
  intro v hv ih
  cases hp : (g.node v).ParentNodes with
  | nil => exact ⟨v, (h.roots v).2 ⟨hv, hp⟩, Relation.ReflTransGen.refl⟩
  | cons p rest =>
    have hpm : p ∈ (g.node v).ParentNodes := by rw [hp]; exact List.mem_cons_self _ _
    obtain ⟨r, hr, hrp⟩ := ih p hpm
    exact ⟨r, hr, hrp.tail (IsLeafDag_parent_IsNode h v p hpm).2⟩

theorem IsLeafDag_no_cycle {g : UAutomationGraph} (h : g.IsLeafDag) :
    ¬ g.HasReachableCycle := by
  rintro ⟨v, _, hv⟩
  exact h.acyclic v hv

/-! ## `Run()` on a graph of default leaf nodes -/

theorem initializeNode_leaf (e : FEnv) (n : UAutomationGraphNode) (A : List ActorPtr)
    (hc : n.Class = ENodeClass.AutomationGraphNode) :
    AHoudiniBuildManager.initializeNode e n A = (n.Ready e, A) := by
  unfold AHoudiniBuildManager.initializeNode
  rw [hc]

theorem Reset_leaf (e : FEnv) (n : UAutomationGraphNode)
    (hc : n.Class = ENodeClass.AutomationGraphNode) :
    (n.Reset e).NodeState = EAutomationGraphNodeState.Uninitialized := by
  unfold UAutomationGraphNode.Reset
  rw [hc]
  rfl

/-- After `InitializeNodes` on a graph of default leaf nodes (in the editor
world) the graph has the same structure and every node is in Standby. -/
theorem InitializeNodes_leaf (e : FEnv) (m : AHoudiniBuildManager)
    (hw : e.World.IsEditorWorld = true) (hg : m.SequenceGraph.IsLeafDag) :
    (m.InitializeNodes e).SequenceGraph.Nodes.length = m.SequenceGraph.Nodes.length
    ∧ ∀ p, m.SequenceGraph.IsNode p →
        ((m.InitializeNodes e).SequenceGraph.node p).NodeState
          = EAutomationGraphNodeState.Standby := by
  by_cases hr : m.SequenceGraph.RootNodes = []
  · have hnone : ∀ p, ¬ m.SequenceGraph.IsNode p := by
      intro p hp
      obtain ⟨r, hr1, _⟩ := IsLeafDag_reachable hg p hp
      rw [hr] at hr1
      exact absurd hr1 (by simp)
    have : AHoudiniBuildManager.runInitializeNodes e m = none := by
      unfold AHoudiniBuildManager.runInitializeNodes
      simp [hw, hr]
    unfold AHoudiniBuildManager.InitializeNodes
    rw [this]
    exact ⟨rfl, fun p hp => absurd hp (hnone p)⟩
  · obtain ⟨s, hs⟩ := runInitializeNodes_isSome e m hw hr
    obtain ⟨_, _, s3, s4⟩ := runInitializeNodes_spec e m s hs
    have hcyc : s.CycleError = false := by
      cases hc : s.CycleError with
      | false => rfl
      | true => exact absurd (s3 hc) (IsLeafDag_no_cycle hg)
    have hinit := (s4 hcyc).2
    have hinv := (runInitializeNodes_invariant e m
      (fun g _ I => g.Nodes.length = m.SequenceGraph.Nodes.length
        ∧ (∀ p, (g.node p).Class = ENodeClass.AutomationGraphNode)
        ∧ ∀ p, m.SequenceGraph.IsNode p →
            (p ∈ I → (g.node p).NodeState = EAutomationGraphNodeState.Standby)
            ∧ (p ∉ I → (g.node p).NodeState = EAutomationGraphNodeState.Uninitialized))
      (by
        refine ⟨Reset_length e _, ?_, ?_⟩
        · intro p
          rw [Reset_node, (SameLinks_Reset e _).1]
          exact IsLeafDag_class hg p
        · intro p _
          refine ⟨fun h => absurd h (by simp), fun _ => ?_⟩
          rw [Reset_node]
          exact Reset_leaf e _ (IsLeafDag_class hg p))
      (by
        rintro g A I p ⟨h1, h2, h3⟩ hp
        rw [initializeNode_leaf e (g.node p) A (h2 p)]
        simp only
        refine ⟨by rw [setNode_length]; exact h1, ?_, ?_⟩
        · intro q
          rcases node_setNode_cases g p q ((g.node p).Ready e) with h4 | ⟨_, h4⟩
          · rw [h4]; exact h2 q
          · rw [h4, (SameLinks_Ready e _).1]; exact h2 p
        · intro q hq
          by_cases hqp : q = p
          · subst hqp
            rw [node_setNode_self g q _ (IsNode_of_length h1 q hq)]
            refine ⟨fun _ => ?_, fun h => absurd (List.mem_append.mpr
              (Or.inr (List.mem_singleton.mpr rfl))) h⟩
            have hu := (h3 q hq).2 hp
            unfold UAutomationGraphNode.Ready
            rw [hu]
            rfl
          · rw [node_setNode_ne g p q _ hqp]
            refine ⟨fun h => (h3 q hq).1 ?_, fun h => (h3 q hq).2 ?_⟩
            · rcases List.mem_append.mp h with h5 | h5
              · exact h5
              · exact absurd (List.mem_singleton.mp h5) hqp
            · exact fun h5 => h (List.mem_append.mpr (Or.inl h5)))
      s hs).1 hcyc
    have hgr : (m.InitializeNodes e).SequenceGraph = s.Graph := by
      unfold AHoudiniBuildManager.InitializeNodes
      rw [hs]
    rw [hgr]
    refine ⟨hinv.1, fun p hp => (hinv.2.2 p hp).1 ?_⟩
    exact (hinit p).2 (IsLeafDag_reachable hg p hp)

/-- After `Run()` on a manager with an empty active set whose graph is a graph
of default leaf nodes, the run is in its starting state: every node in Standby
and the roots in the active set. -/
theorem Run_LeafRun (e : FEnv) (m : AHoudiniBuildManager)
    (hw : e.World.IsEditorWorld = true) (h0 : m.ActiveNodes = [])
    (hg : m.SequenceGraph.IsLeafDag) :
    LeafRun m.SequenceGraph (m.Run e).SequenceGraph (m.Run e).ActiveNodes := by
  have hrun : m.Run e
      = { m.InitializeNodes e with
          ActiveNodes := TSetAppend (m.InitializeNodes e).ActiveNodes
            (m.InitializeNodes e).SequenceGraph.RootNodes } := by
    unfold AHoudiniBuildManager.Run
    simp [h0]
  have hact : (m.InitializeNodes e).ActiveNodes = [] := by
    rw [InitializeNodes_ActiveNodes]; exact h0
  have hl := InitializeNodes_SameLinks e m
  obtain ⟨hlen, hst⟩ := InitializeNodes_leaf e m hw hg
  have hmem : ∀ c, c ∈ (m.Run e).ActiveNodes ↔ c ∈ m.SequenceGraph.RootNodes := by
    intro c
    rw [hrun, hact]
    simp only [mem_TSetAppend, hl.1]
    simp
  have hgraph : (m.Run e).SequenceGraph = (m.InitializeNodes e).SequenceGraph := by
    rw [hrun]
  rw [hgraph]
  refine ⟨hg, hl, hlen, fun p hp => Or.inl (hst p hp), ?_, ?_, ?_, ?_⟩
  · rw [hrun, hact]
    exact TSetAppend_nodup _ _ List.nodup_nil
  · intro c hc
    exact ((hg.roots c).1 ((hmem c).1 hc)).1
  · intro c hc _
    exact ((hg.roots c).1 ((hmem c).1 hc)).2
  · intro v hv _
    cases hp : (m.SequenceGraph.node v).ParentNodes with
    | nil => exact Or.inl ((hmem v).2 ((hg.roots v).2 ⟨hv, hp⟩))
    | cons p rest =>
      right
      have hpm : p ∈ (m.SequenceGraph.node v).ParentNodes := by
        rw [hp]; exact List.mem_cons_self _ _
      exact ⟨p, List.mem_cons_self _ _,
        Or.inl (hst p (IsLeafDag_parent_IsNode hg v p hpm).1)⟩

/-! ## The operations of the scheduler on default leaf nodes -/

theorem GetState_leaf (e : FEnv) (n : UAutomationGraphNode)
    (hc : n.Class = ENodeClass.AutomationGraphNode) : n.GetState e = (n.NodeState, n) :=
  GetState_of_not_BuildSequence e n (by rw [hc]; decide)

theorem Activate_leaf (e : FEnv) (n : UAutomationGraphNode)
    (hc : n.Class = ENodeClass.AutomationGraphNode) : n.Activate e = n.ActivateBase e := by
  unfold UAutomationGraphNode.Activate
  rw [hc]

theorem CanActivate_parents_leaf (e : FEnv) :
    ∀ (ps : List NodePtr) (g : UAutomationGraph),
      (∀ p, (g.node p).Class = ENodeClass.AutomationGraphNode) →
      (UAutomationGraphNode.CanActivate.parents e ps g).2 = g
  | [], g, _ => rfl
  | p :: ps, g, h => by
    unfold UAutomationGraphNode.CanActivate.parents
    simp only [GetState_leaf e _ (h p), setNode_node_self]
    split
    · rfl
    · exact CanActivate_parents_leaf e ps g h

/-- On a graph of default nodes `CanActivate()` changes nothing, and it returns
true exactly when the node is neither Uninitialized nor Active and all its
parents are stored as Finished. -/
theorem CanActivate_leaf (e : FEnv) (g : UAutomationGraph) (self : NodePtr)
    (hc : ∀ p, (g.node p).Class = ENodeClass.AutomationGraphNode) :
    (UAutomationGraphNode.CanActivate e g self).2 = g
    ∧ ((UAutomationGraphNode.CanActivate e g self).1 = true
        ↔ ((g.node self).NodeState ≠ EAutomationGraphNodeState.Uninitialized
          ∧ (g.node self).NodeState ≠ EAutomationGraphNodeState.Active
          ∧ ∀ p ∈ (g.node self).ParentNodes,
              (g.node p).NodeState = EAutomationGraphNodeState.Finished)) := by
  have hpar := CanActivate_parents_iff e (g.node self).ParentNodes g
  have hpar2 := CanActivate_parents_leaf e (g.node self).ParentNodes g hc
  have hget : ∀ p, ((g.node p).GetState e).1 = (g.node p).NodeState := by
    intro p; rw [GetState_leaf e _ (hc p)]
  simp only [hget] at hpar
  unfold UAutomationGraphNode.CanActivate
  simp only []
  by_cases h1 : (g.node self).NodeState = EAutomationGraphNodeState.Uninitialized
      ∨ (g.node self).NodeState = EAutomationGraphNodeState.Active
  · rw [if_pos h1]
    refine ⟨rfl, ?_⟩
    constructor
    · intro h; exact absurd h (by simp)
    · rintro ⟨h2, h3, _⟩
      rcases h1 with h1 | h1
      · exact absurd h1 h2
      · exact absurd h1 h3
  · rw [if_neg h1]
    have h2 : (g.node self).NodeState ≠ EAutomationGraphNodeState.Uninitialized :=
      fun h => h1 (Or.inl h)
    have h3 : (g.node self).NodeState ≠ EAutomationGraphNodeState.Active :=
      fun h => h1 (Or.inr h)
    split
    · rename_i hemp
      refine ⟨rfl, ?_⟩
      have : (g.node self).ParentNodes = [] := List.isEmpty_iff.mp hemp
      simp [h2, h3, this]
    · refine ⟨hpar2, ?_⟩
      rw [hpar]
      exact ⟨fun h => ⟨h2, h3, h⟩, fun h => h.2.2⟩

/-- Writing the Finished version of a node of the graph: that node is Finished
afterwards, the other nodes are as before, the structure and the size of the
graph are kept. -/
theorem finish_spec (e : FEnv) (g0 G : UAutomationGraph) (v : NodePtr)
    (hl : g0.SameLinks G) (hlen : G.Nodes.length = g0.Nodes.length) (hv : g0.IsNode v) :
    ((G.setNode v ((G.node v).SetState e EAutomationGraphNodeState.Finished)).node v).NodeState
        = EAutomationGraphNodeState.Finished
    ∧ (∀ p, p ≠ v →
        (G.setNode v ((G.node v).SetState e EAutomationGraphNodeState.Finished)).node p
          = G.node p)
    ∧ g0.SameLinks (G.setNode v ((G.node v).SetState e EAutomationGraphNodeState.Finished))
    ∧ (G.setNode v ((G.node v).SetState e EAutomationGraphNodeState.Finished)).Nodes.length
        = g0.Nodes.length
    ∧ (∀ p, (G.node p).NodeState = EAutomationGraphNodeState.Finished →
        ((G.setNode v ((G.node v).SetState e EAutomationGraphNodeState.Finished)).node
          p).NodeState = EAutomationGraphNodeState.Finished) := by
  have h1 : ((G.setNode v ((G.node v).SetState e EAutomationGraphNodeState.Finished)).node
      v).NodeState = EAutomationGraphNodeState.Finished := by
    rw [node_setNode_self G v _ (IsNode_of_length hlen v hv), SetState_NodeState]
  have h2 : ∀ p, p ≠ v →
      (G.setNode v ((G.node v).SetState e EAutomationGraphNodeState.Finished)).node p
        = G.node p := fun p hp => node_setNode_ne G v p _ hp
  refine ⟨h1, h2, ?_, ?_, ?_⟩
  · exact GraphSameLinks_trans hl (SameLinks_setNode G v _ (SameLinks_SetState e _ _))
  · rw [setNode_length]; exact hlen
  · intro p hp
    by_cases hpv : p = v
    · rw [hpv]; exact h1
    · rw [h2 p hpv]; exact hp

/-! ## One pass of `PollActiveNodes` over default leaf nodes -/

theorem TickInv_start (g0 gs : UAutomationGraph) (L : List NodePtr) (hR : LeafRun g0 gs L) :
    TickInv g0 gs [] gs [] [] where
  links := hR.links
  length := hR.length
  states := fun _ => Or.inl rfl
  finished := fun c hc => by simp at hc
  remove := fun c => by simp
  add := fun a ha => by simp at ha
  changed := fun p h1 h2 => by rw [h1] at h2; exact absurd h2 (by decide)
  blocked := fun c hc => by simp at hc

/-- A node stored as Standby during the pass was in Standby when the pass started. -/
theorem TickInv_Standby {g0 gs G : UAutomationGraph} {done ToAdd ToRemove : List NodePtr}
    (h : TickInv g0 gs done G ToAdd ToRemove) (p : NodePtr)
    (hs : (G.node p).NodeState = EAutomationGraphNodeState.Standby) :
    (gs.node p).NodeState = EAutomationGraphNodeState.Standby := by
  rcases h.states p with h1 | ⟨_, h1⟩
  · rw [← h1]; exact hs
  · rw [hs] at h1; exact absurd h1 (by decide)

/-- During the pass every node of the graph is stored as Standby or as Finished. -/
theorem TickInv_state {g0 gs G : UAutomationGraph} {L done ToAdd ToRemove : List NodePtr}
    (hR : LeafRun g0 gs L) (h : TickInv g0 gs done G ToAdd ToRemove) (p : NodePtr)
    (hp : g0.IsNode p) :
    (G.node p).NodeState = EAutomationGraphNodeState.Standby
      ∨ (G.node p).NodeState = EAutomationGraphNodeState.Finished := by
  rcases h.states p with h1 | ⟨_, h1⟩
  · rw [h1]; exact hR.states p hp
  · exact Or.inr h1

/-- A child that is activated during the pass joins `ToAdd`. -/
theorem TickInv_activate_child {g0 gs G : UAutomationGraph} {done ToAdd ToRemove : List NodePtr}
    (e : FEnv) (h : TickInv g0 gs done G ToAdd ToRemove) (v : NodePtr) (hv : g0.IsNode v)
    (hs : (G.node v).NodeState = EAutomationGraphNodeState.Standby)
    (hp : (g0.node v).ParentNodes ≠ []) :
    TickInv g0 gs done (G.setNode v ((G.node v).SetState e EAutomationGraphNodeState.Finished))
      (TSetAdd ToAdd v) ToRemove := by
  obtain ⟨f1, f2, f3, f4, f5⟩ := finish_spec e g0 G v h.links h.length hv
  have hne : ∀ p, (G.node p).NodeState = EAutomationGraphNodeState.Finished → p ≠ v := by
    intro p hpf hpv
    rw [hpv, hs] at hpf
    exact absurd hpf (by decide)
  have hgs := TickInv_Standby h v hs
  constructor
  · exact f3
  · exact f4
  · intro p
    by_cases hpv : p = v
    · rw [hpv]; exact Or.inr ⟨hgs, f1⟩
    · rw [f2 p hpv]; exact h.states p
  · intro c hc
    exact f5 c (h.finished c hc)
  · exact h.remove
  · intro a ha
    rcases (mem_TSetAdd _ _ _).1 ha with h1 | h1
    · obtain ⟨a1, a2, a3, a4⟩ := h.add a h1
      exact ⟨a1, f5 a a2, a3, a4⟩
    · rw [h1]; exact ⟨hgs, f1, hp, hv⟩
  · intro p h1 h2
    by_cases hpv : p = v
    · exact Or.inr ((mem_TSetAdd _ _ _).2 (Or.inr hpv))
    · rw [f2 p hpv] at h2
      rcases h.changed p h1 h2 with h3 | h3
      · exact Or.inl h3
      · exact Or.inr ((mem_TSetAdd _ _ _).2 (Or.inl h3))
  · intro c hc hcf w hw
    rcases h.blocked c hc hcf w hw with h1 | h1
    · exact Or.inl (f5 w h1)
    · exact Or.inr h1

/-- A member of the active set that is polled in Standby is activated. -/
theorem TickInv_activate_root {g0 gs G : UAutomationGraph} {done ToAdd ToRemove : List NodePtr}
    (e : FEnv) (h : TickInv g0 gs done G ToAdd ToRemove) (x : NodePtr) (hx : g0.IsNode x)
    (hs : (G.node x).NodeState = EAutomationGraphNodeState.Standby) :
    TickInv g0 gs (done ++ [x])
      (G.setNode x ((G.node x).SetState e EAutomationGraphNodeState.Finished))
      ToAdd ToRemove := by
  obtain ⟨f1, f2, f3, f4, f5⟩ := finish_spec e g0 G x h.links h.length hx
  have hgs := TickInv_Standby h x hs
  constructor
  · exact f3
  · exact f4
  · intro p
    by_cases hpv : p = x
    · rw [hpv]; exact Or.inr ⟨hgs, f1⟩
    · rw [f2 p hpv]; exact h.states p
  · intro c hc
    rcases List.mem_append.mp hc with h1 | h1
    · exact f5 c (h.finished c h1)
    · rw [List.mem_singleton.mp h1]; exact f1
  · intro c
    rw [h.remove c]
    simp only [List.mem_append, List.mem_singleton]
    constructor
    · rintro ⟨h1, h2⟩; exact ⟨Or.inl h1, h2⟩
    · rintro ⟨h1 | h1, h2⟩
      · exact ⟨h1, h2⟩
      · rw [h1, hgs] at h2; exact absurd h2 (by decide)
  · intro a ha
    obtain ⟨a1, a2, a3, a4⟩ := h.add a ha
    exact ⟨a1, f5 a a2, a3, a4⟩
  · intro p h1 h2
    by_cases hpv : p = x
    · exact Or.inl (List.mem_append.mpr (Or.inr (List.mem_singleton.mpr hpv)))
    · rw [f2 p hpv] at h2
      rcases h.changed p h1 h2 with h3 | h3
      · exact Or.inl (List.mem_append.mpr (Or.inl h3))
      · exact Or.inr h3
  · intro c hc hcf w hw
    rcases List.mem_append.mp hc with h1 | h1
    · rcases h.blocked c h1 hcf w hw with h2 | h2
      · exact Or.inl (f5 w h2)
      · exact Or.inr h2
    · rw [List.mem_singleton.mp h1, hgs] at hcf
      exact absurd hcf (by decide)

/-- A member of the active set that is polled Finished joins `ToRemove`, once
each of its children is Finished or waits for a parent that was in Standby when
the pass started. -/
theorem TickInv_remove {g0 gs G : UAutomationGraph} {done ToAdd ToRemove : List NodePtr}
    (h : TickInv g0 gs done G ToAdd ToRemove) (c : NodePtr)
    (hf : (gs.node c).NodeState = EAutomationGraphNodeState.Finished)
    (hb : ∀ v ∈ (g0.node c).ChildNodes,
      (G.node v).NodeState = EAutomationGraphNodeState.Finished
        ∨ ∃ q ∈ (g0.node v).ParentNodes,
            (gs.node q).NodeState = EAutomationGraphNodeState.Standby) :
    TickInv g0 gs (done ++ [c]) G ToAdd (TSetAdd ToRemove c) := by
  have hG : (G.node c).NodeState = EAutomationGraphNodeState.Finished := by
    rcases h.states c with h1 | ⟨h1, _⟩
    · rw [h1]; exact hf
    · rw [hf] at h1; exact absurd h1 (by decide)
  constructor
  · exact h.links
  · exact h.length
  · exact h.states
  · intro x hx
    rcases List.mem_append.mp hx with h1 | h1
    · exact h.finished x h1
    · rw [List.mem_singleton.mp h1]; exact hG
  · intro x
    rw [mem_TSetAdd, h.remove x]
    simp only [List.mem_append, List.mem_singleton]
    constructor
    · rintro (⟨h1, h2⟩ | h1)
      · exact ⟨Or.inl h1, h2⟩
      · rw [h1]; exact ⟨Or.inr rfl, hf⟩
    · rintro ⟨h1 | h1, h2⟩
      · exact Or.inl ⟨h1, h2⟩
      · exact Or.inr h1
  · exact h.add
  · intro p h1 h2
    rcases h.changed p h1 h2 with h3 | h3
    · exact Or.inl (List.mem_append.mpr (Or.inl h3))
    · exact Or.inr h3
  · intro x hx hxf w hw
    rcases List.mem_append.mp hx with h1 | h1
    · exact h.blocked x h1 hxf w hw
    · rw [List.mem_singleton.mp h1] at hw
      exact hb w hw

/-! ## The loops of `PollActiveNodes` over default leaf nodes -/

theorem TickInv_class {g0 gs G : UAutomationGraph} {L done ToAdd ToRemove : List NodePtr}
    (hR : LeafRun g0 gs L) (h : TickInv g0 gs done G ToAdd ToRemove) (p : NodePtr) :
    (G.node p).Class = ENodeClass.AutomationGraphNode := by
  rw [(h.links.2 p).1]
  exact IsLeafDag_class hR.dag p

/-- The loop over the children of a Finished member of the active set. -/
theorem TickInv_pollChildren (e : FEnv) {g0 gs : UAutomationGraph} {L done : List NodePtr}
    (hR : LeafRun g0 gs L) (c : NodePtr) :
    ∀ (cs : List NodePtr) (s : FPollState),
      TickInv g0 gs done s.Graph s.ToAdd s.ToRemove →
      (∀ v ∈ cs, v ∈ (g0.node c).ChildNodes) →
      TickInv g0 gs done (AHoudiniBuildManager.pollChildren e cs s).Graph
          (AHoudiniBuildManager.pollChildren e cs s).ToAdd
          (AHoudiniBuildManager.pollChildren e cs s).ToRemove
      ∧ (AHoudiniBuildManager.pollChildren e cs s).ToRemove = s.ToRemove
      ∧ (∀ p, (s.Graph.node p).NodeState = EAutomationGraphNodeState.Finished →
          ((AHoudiniBuildManager.pollChildren e cs s).Graph.node p).NodeState
            = EAutomationGraphNodeState.Finished)
      ∧ (∀ v ∈ cs,
          ((AHoudiniBuildManager.pollChildren e cs s).Graph.node v).NodeState
              = EAutomationGraphNodeState.Finished
            ∨ ∃ q ∈ (g0.node v).ParentNodes,
                (gs.node q).NodeState = EAutomationGraphNodeState.Standby)
  | [], s, h, _ => by
    unfold AHoudiniBuildManager.pollChildren
    exact ⟨h, rfl, fun _ hp => hp, fun v hv => by simp at hv⟩
  | v :: rest, s, h, hcs => by
    have hrest : ∀ w ∈ rest, w ∈ (g0.node c).ChildNodes :=
      fun w hw => hcs w (List.mem_cons_of_mem _ hw)
    obtain ⟨hvIs, hvpar⟩ := IsLeafDag_child_IsNode hR.dag c v (hcs v (List.mem_cons_self _ _))
    have hpne : (g0.node v).ParentNodes ≠ [] := by
      intro hnil
      rw [hnil] at hvpar
      exact absurd hvpar (by simp)
    obtain ⟨c1, c2⟩ := CanActivate_leaf e s.Graph v (fun p => TickInv_class hR h p)
    have hact := Activate_leaf e (s.Graph.node v) (TickInv_class hR h v)
    unfold AHoudiniBuildManager.pollChildren
    simp only [c1]
    by_cases hcan : (UAutomationGraphNode.CanActivate e s.Graph v).1 = true
    · simp only [hcan, if_true]
      rcases TickInv_state hR h v hvIs with hs | hs
      · -- the child is in Standby: it is activated and added
        have hA : (FPollState.activate e { s with Graph := s.Graph } v)
            = (true, { s with
                Graph := s.Graph.setNode v
                  ((s.Graph.node v).SetState e EAutomationGraphNodeState.Finished),
                Calls := s.Calls ++ [⟨v, s.Graph⟩] }) := by
          unfold FPollState.activate
          simp only [hact]
          unfold UAutomationGraphNode.ActivateBase
          simp [hs]
        rw [hA]
        simp only [if_true]
        have h2 := TickInv_activate_child e h v hvIs hs hpne
        obtain ⟨f1, _, _, _, f5⟩ := finish_spec e g0 s.Graph v h.links h.length hvIs
        obtain ⟨i1, i2, i3, i4⟩ := TickInv_pollChildren e hR c rest
          { Graph := s.Graph.setNode v
              ((s.Graph.node v).SetState e EAutomationGraphNodeState.Finished),
            ToAdd := TSetAdd s.ToAdd v, ToRemove := s.ToRemove,
            Calls := s.Calls ++ [⟨v, s.Graph⟩] } h2 hrest
        refine ⟨i1, i2, fun p hp => i3 p (f5 p hp), ?_⟩
        intro w hw
        rcases List.mem_cons.mp hw with h3 | h3
        · rw [h3]; exact Or.inl (i3 v f1)
        · exact i4 w h3
      · -- the child is Finished already: the call returns false
        have hA : (FPollState.activate e { s with Graph := s.Graph } v)
            = (false, { s with Calls := s.Calls ++ [⟨v, s.Graph⟩] }) := by
          unfold FPollState.activate
          simp only [hact]
          unfold UAutomationGraphNode.ActivateBase
          simp [hs, setNode_node_self]
        rw [hA]
        simp only [Bool.false_eq_true, if_false]
        obtain ⟨i1, i2, i3, i4⟩ := TickInv_pollChildren e hR c rest
          { s with Calls := s.Calls ++ [⟨v, s.Graph⟩] } h hrest
        refine ⟨i1, i2, i3, ?_⟩
        intro w hw
        rcases List.mem_cons.mp hw with h3 | h3
        · rw [h3]; exact Or.inl (i3 v hs)
        · exact i4 w h3
    · simp only [hcan, if_false]
      obtain ⟨i1, i2, i3, i4⟩ := TickInv_pollChildren e hR c rest
        { s with Graph := s.Graph } h hrest
      refine ⟨i1, i2, i3, ?_⟩
      intro w hw
      rcases List.mem_cons.mp hw with h3 | h3
      · rw [h3]
        rcases TickInv_state hR h v hvIs with hs | hs
        · right
          have hno : ¬ ∀ p ∈ (s.Graph.node v).ParentNodes,
              (s.Graph.node p).NodeState = EAutomationGraphNodeState.Finished := by
            intro hall
            exact hcan (c2.2 ⟨by rw [hs]; decide, by rw [hs]; decide, hall⟩)
          simp only [not_forall] at hno
          obtain ⟨q, hq, hqf⟩ := hno
          have hq0 : q ∈ (g0.node v).ParentNodes := by
            rw [← (h.links.2 v).2.1]; exact hq
          refine ⟨q, hq0, ?_⟩
          rcases TickInv_state hR h q (IsLeafDag_parent_IsNode hR.dag v q hq0).1 with h4 | h4
          · exact TickInv_Standby h q h4
          · exact absurd h4 hqf
        · exact Or.inl (i3 v hs)
      · exact i4 w h3

/-! ## A poll tick over default leaf nodes -/

/-- The body of the loop over the active set, for a member not yet polled. -/
theorem TickInv_pollNode (e : FEnv) {g0 gs : UAutomationGraph} {L done : List NodePtr}
    (hR : LeafRun g0 gs L) (s : FPollState)
    (h : TickInv g0 gs done s.Graph s.ToAdd s.ToRemove) (c : NodePtr) (hc : c ∈ L)
    (hnd : c ∉ done) :
    TickInv g0 gs (done ++ [c]) (AHoudiniBuildManager.pollNode e s c).Graph
      (AHoudiniBuildManager.pollNode e s c).ToAdd
      (AHoudiniBuildManager.pollNode e s c).ToRemove := by
  have hcIs := hR.valid c hc
  have hget := GetState_leaf e (s.Graph.node c) (TickInv_class hR h c)
  have hact := Activate_leaf e (s.Graph.node c) (TickInv_class hR h c)
  obtain ⟨i, hci, hi⟩ := hcIs
  subst hci
  unfold AHoudiniBuildManager.pollNode
  simp only [hget, setNode_node_self]
  rcases TickInv_state hR h (some i) ⟨i, rfl, hi⟩ with hs | hs
  · simp only [hs]
    unfold FPollState.activate
    simp only [hact]
    unfold UAutomationGraphNode.ActivateBase
    simp only [hs, ne_eq, not_true_eq_false, if_false]
    exact TickInv_activate_root e h (some i) ⟨i, rfl, hi⟩ hs
  · simp only [hs]
    have hgs : (gs.node (some i)).NodeState = EAutomationGraphNodeState.Finished := by
      rcases hR.states (some i) ⟨i, rfl, hi⟩ with h1 | h1
      · exfalso
        rcases h.changed (some i) h1 hs with h2 | h2
        · exact hnd h2
        · exact (h.add (some i) h2).2.2.1 (hR.standby (some i) hc h1)
      · exact h1
    have hch : ∀ v ∈ (s.Graph.node (some i)).ChildNodes, v ∈ (g0.node (some i)).ChildNodes := by
      intro v hv
      rw [← (h.links.2 (some i)).2.2]; exact hv
    obtain ⟨i1, _, _, i4⟩ := TickInv_pollChildren e hR (some i)
      (s.Graph.node (some i)).ChildNodes { s with Graph := s.Graph } h hch
    apply TickInv_remove i1 (some i) hgs
    intro v hv
    apply i4 v
    rw [(h.links.2 (some i)).2.2]; exact hv

/-- The loop over the active set. -/
theorem TickInv_fold (e : FEnv) {g0 gs : UAutomationGraph} {L : List NodePtr}
    (hR : LeafRun g0 gs L) :
    ∀ (l done : List NodePtr) (s : FPollState),
      TickInv g0 gs done s.Graph s.ToAdd s.ToRemove →
      (∀ c ∈ l, c ∈ L) → l.Nodup → (∀ c ∈ l, c ∉ done) →
      TickInv g0 gs (done ++ l) (l.foldl (AHoudiniBuildManager.pollNode e) s).Graph
        (l.foldl (AHoudiniBuildManager.pollNode e) s).ToAdd
        (l.foldl (AHoudiniBuildManager.pollNode e) s).ToRemove
  | [], done, s, h, _, _, _ => by simpa using h
  | c :: l, done, s, h, hL, hnd, hdone => by
    rw [List.nodup_cons] at hnd
    have h1 := TickInv_pollNode e hR s h c (hL c (List.mem_cons_self _ _))
      (hdone c (List.mem_cons_self _ _))
    have h2 := TickInv_fold e hR l (done ++ [c]) (AHoudiniBuildManager.pollNode e s c) h1
      (fun x hx => hL x (List.mem_cons_of_mem _ hx)) hnd.2
      (by
        intro x hx hxd
        rcases List.mem_append.mp hxd with h3 | h3
        · exact hdone x (List.mem_cons_of_mem _ hx) h3
        · rw [List.mem_singleton.mp h3] at hx
          exact hnd.1 hx)
    simp only [List.foldl_cons]
    rw [List.append_assoc] at h2
    exact h2

theorem foldl_TSetRemove_nodup {α : Type} [DecidableEq α] :
    ∀ (rs s : List α), s.Nodup → (rs.foldl TSetRemove s).Nodup
  | [], s, h => h
  | r :: rs, s, h => by
    simp only [List.foldl_cons]
    exact foldl_TSetRemove_nodup rs _ (List.Nodup.filter _ h)

theorem runWeight_le_two (g : UAutomationGraph) (L : List NodePtr) (i : Nat) :
    runWeight g L i ≤ 2 := by
  unfold runWeight
  split
  · exact Nat.le_refl _
  · split <;> omega

/-- A poll tick past the rate limit keeps the run well-formed, raises the
weight of no node and lowers the weight of every member of the active set. -/
theorem PollActiveNodes_LeafRun (e : FEnv) (g0 : UAutomationGraph) (m : AHoudiniBuildManager)
    (hR : LeafRun g0 m.SequenceGraph m.ActiveNodes)
    (ht : e.Now - m.LastTimePolled ≥ kBuildPollRateSec) :
    LeafRun g0 (m.PollActiveNodesCalls e).1.SequenceGraph
        (m.PollActiveNodesCalls e).1.ActiveNodes
    ∧ (m.PollActiveNodesCalls e).1.LastTimePolled = e.Now
    ∧ (∀ i, runWeight (m.PollActiveNodesCalls e).1.SequenceGraph
          (m.PollActiveNodesCalls e).1.ActiveNodes i
        ≤ runWeight m.SequenceGraph m.ActiveNodes i)
    ∧ (∀ i, some i ∈ m.ActiveNodes →
        runWeight (m.PollActiveNodesCalls e).1.SequenceGraph
          (m.PollActiveNodesCalls e).1.ActiveNodes i
        < runWeight m.SequenceGraph m.ActiveNodes i) := by
  have hT := TickInv_fold e hR m.ActiveNodes []
    { Graph := m.SequenceGraph, ToAdd := [], ToRemove := [], Calls := [] }
    (TickInv_start g0 m.SequenceGraph m.ActiveNodes hR) (fun _ hc => hc) hR.nodup
    (fun _ _ h => by simp at h)
  simp only [List.nil_append] at hT
  have hnot : ¬ e.Now - m.LastTimePolled < kBuildPollRateSec := not_lt.mpr ht
  unfold AHoudiniBuildManager.PollActiveNodesCalls
  simp only [hnot, if_false]
  generalize hs : m.ActiveNodes.foldl (AHoudiniBuildManager.pollNode e)
    { Graph := m.SequenceGraph, ToAdd := [], ToRemove := [], Calls := [] } = s at hT
  have hmem : ∀ x, x ∈ s.ToRemove.foldl TSetRemove (TSetAppend m.ActiveNodes s.ToAdd)
      ↔ (x ∈ m.ActiveNodes ∨ x ∈ s.ToAdd)
        ∧ ¬ (x ∈ m.ActiveNodes
          ∧ (m.SequenceGraph.node x).NodeState = EAutomationGraphNodeState.Finished) := by
    intro x
    rw [mem_foldl_TSetRemove, mem_TSetAppend, hT.remove x]
  have hX : ∀ q, g0.IsNode q →
      (m.SequenceGraph.node q).NodeState = EAutomationGraphNodeState.Standby →
      (s.Graph.node q).NodeState = EAutomationGraphNodeState.Standby
        ∨ q ∈ s.ToRemove.foldl TSetRemove (TSetAppend m.ActiveNodes s.ToAdd) := by
    intro q hq hqs
    rcases TickInv_state hR hT q hq with h1 | h1
    · exact Or.inl h1
    · right
      rw [hmem]
      refine ⟨hT.changed q hqs h1, ?_⟩
      rintro ⟨_, h2⟩
      rw [hqs] at h2
      exact absurd h2 (by decide)
  refine ⟨?_, trivial, ?_, ?_⟩
  · constructor
    · exact hR.dag
    · exact hT.links
    · exact hT.length
    · exact fun p hp => TickInv_state hR hT p hp
    · exact foldl_TSetRemove_nodup _ _ (TSetAppend_nodup _ _ hR.nodup)
    · intro c hc
      rcases ((hmem c).1 hc).1 with h1 | h1
      · exact hR.valid c h1
      · exact (hT.add c h1).2.2.2
    · intro c hc hcs
      rcases ((hmem c).1 hc).1 with h1 | h1
      · exact hR.standby c h1 (TickInv_Standby hT c hcs)
      · rw [(hT.add c h1).2.1] at hcs
        exact absurd hcs (by decide)
    · intro v hv hvs
      have hvgs := TickInv_Standby hT v hvs
      rcases hR.waiting v hv hvgs with h1 | ⟨p, hp, h1⟩
      · rw [hT.finished v h1] at hvs
        exact absurd hvs (by decide)
      · have hpIs := (IsLeafDag_parent_IsNode hR.dag v p hp).1
        have hfrom : ∀ q ∈ (g0.node v).ParentNodes,
            (m.SequenceGraph.node q).NodeState = EAutomationGraphNodeState.Standby →
            ∃ p ∈ (g0.node v).ParentNodes,
              (s.Graph.node p).NodeState = EAutomationGraphNodeState.Standby
                ∨ p ∈ s.ToRemove.foldl TSetRemove (TSetAppend m.ActiveNodes s.ToAdd) :=
          fun q hq hqs => ⟨q, hq, hX q (IsLeafDag_parent_IsNode hR.dag v q hq).1 hqs⟩
        right
        rcases hR.states p hpIs with h2 | h2
        · exact hfrom p hp h2
        · rcases h1 with h1 | h1
          · rw [h1] at h2; exact absurd h2 (by decide)
          · rcases hT.blocked p h1 h2 v (IsLeafDag_parent_IsNode hR.dag v p hp).2 with h3 | h3
            · rw [h3] at hvs; exact absurd hvs (by decide)
            · obtain ⟨q, hq, hqs⟩ := h3
              exact hfrom q hq hqs
  · intro i
    by_cases hgs : (m.SequenceGraph.node (some i)).NodeState = EAutomationGraphNodeState.Standby
    · have : runWeight m.SequenceGraph m.ActiveNodes i = 2 := by
        unfold runWeight; simp [hgs]
      rw [this]
      exact runWeight_le_two _ _ i
    · have hG : (s.Graph.node (some i)).NodeState ≠ EAutomationGraphNodeState.Standby :=
        fun h => hgs (TickInv_Standby hT _ h)
      unfold runWeight
      simp only [hgs, hG, if_false]
      by_cases hin : some i ∈ s.ToRemove.foldl TSetRemove (TSetAppend m.ActiveNodes s.ToAdd)
      · have : some i ∈ m.ActiveNodes := by
          rcases ((hmem _).1 hin).1 with h1 | h1
          · exact h1
          · exact absurd (hT.add _ h1).1 hgs
        simp [hin, this]
      · simp [hin]
  · intro i hi
    have hfin := hT.finished (some i) hi
    have hG : (s.Graph.node (some i)).NodeState ≠ EAutomationGraphNodeState.Standby := by
      rw [hfin]; decide
    rcases hR.states (some i) (hR.valid _ hi) with h1 | h1
    · unfold runWeight
      simp only [h1, hG, if_true, if_false]
      split <;> omega
    · have hout : some i ∉ s.ToRemove.foldl TSetRemove (TSetAppend m.ActiveNodes s.ToAdd) := by
        intro hin
        exact ((hmem _).1 hin).2 ⟨hi, h1⟩
      have hgs : (m.SequenceGraph.node (some i)).NodeState
          ≠ EAutomationGraphNodeState.Standby := by
        rw [h1]; decide
      unfold runWeight
      simp [hgs, hG, hout, hi]

/-! ## Runs over graphs of default leaf nodes reach the end -/

theorem TicksPastRateLimit_withinRun :
    ∀ (events : List FRunEvent) (last : Int), TicksPastRateLimit last events →
      ∀ ev ∈ events, ev.withinRun
  | [], _, _ => fun ev hev => by simp at hev
  | FRunEvent.Poll e :: rest, last, h => by
    intro ev hev
    rcases List.mem_cons.mp hev with h1 | h1
    · rw [h1]; trivial
    · exact TicksPastRateLimit_withinRun rest e.Now h.2 ev h1
  | FRunEvent.Reorder l :: rest, last, h => by
    intro ev hev
    rcases List.mem_cons.mp hev with h1 | h1
    · rw [h1]; trivial
    · exact TicksPastRateLimit_withinRun rest last h ev h1
  | FRunEvent.Run e :: rest, last, h => by
    simp [TicksPastRateLimit] at h
  | FRunEvent.Cancel :: rest, last, h => by
    simp [TicksPastRateLimit] at h
  | FRunEvent.PostProcess a b c :: rest, last, h => by
    simp [TicksPastRateLimit] at h

theorem LeafRun_reorder {g0 g : UAutomationGraph} {L : List NodePtr} (l : List NodePtr)
    (hR : LeafRun g0 g L) (hp : l.Perm L) :
    LeafRun g0 g l ∧ ∀ i, runWeight g l i = runWeight g L i := by
  have hm : ∀ x, x ∈ l ↔ x ∈ L := fun x => hp.mem_iff
  constructor
  · constructor
    · exact hR.dag
    · exact hR.links
    · exact hR.length
    · exact hR.states
    · exact hp.nodup_iff.mpr hR.nodup
    · exact fun c hc => hR.valid c ((hm c).1 hc)
    · exact fun c hc => hR.standby c ((hm c).1 hc)
    · intro v hv hs
      rcases hR.waiting v hv hs with h1 | ⟨p, hp1, h1⟩
      · exact Or.inl ((hm v).2 h1)
      · refine Or.inr ⟨p, hp1, ?_⟩
        rcases h1 with h1 | h1
        · exact Or.inl h1
        · exact Or.inr ((hm p).2 h1)
  · intro i
    unfold runWeight
    simp only [hm]

/-- A poll tick past the rate limit on a non-empty active set lowers the total weight. -/
theorem PollActiveNodes_weight (e : FEnv) (g0 : UAutomationGraph) (m : AHoudiniBuildManager)
    (hR : LeafRun g0 m.SequenceGraph m.ActiveNodes)
    (ht : e.Now - m.LastTimePolled ≥ kBuildPollRateSec) (hne : m.ActiveNodes ≠ []) :
    runWeightSum (m.PollActiveNodesCalls e).1.SequenceGraph
        (m.PollActiveNodesCalls e).1.ActiveNodes g0.Nodes.length + 1
      ≤ runWeightSum m.SequenceGraph m.ActiveNodes g0.Nodes.length := by
  obtain ⟨_, _, h3, h4⟩ := PollActiveNodes_LeafRun e g0 m hR ht
  apply Nat.succ_le_of_lt
  unfold runWeightSum
  apply List.sum_lt_sum
  · exact fun i _ => h3 i
  · obtain ⟨c, hc⟩ := List.exists_mem_of_ne_nil _ hne
    obtain ⟨i, hci, hi⟩ := hR.valid c hc
    subst hci
    exact ⟨i, List.mem_range.mpr hi, h4 i hc⟩

theorem PollActiveNodes_nil (e : FEnv) (m : AHoudiniBuildManager) (h : m.ActiveNodes = []) :
    (m.PollActiveNodesCalls e).1.ActiveNodes = [] := by
  unfold AHoudiniBuildManager.PollActiveNodesCalls
  split
  · exact h
  · simp [h, TSetAppend]

/-- Along ticks past the rate limit and reorderings the run stays well-formed,
and either the active set has become empty or the total weight has dropped by
the number of ticks. -/
theorem steps_LeafRun (g0 : UAutomationGraph) :
    ∀ (events : List FRunEvent) (m : AHoudiniBuildManager),
      LeafRun g0 m.SequenceGraph m.ActiveNodes →
      TicksPastRateLimit m.LastTimePolled events →
      LeafRun g0 (m.steps events).1.SequenceGraph (m.steps events).1.ActiveNodes
      ∧ ((m.steps events).1.ActiveNodes = []
        ∨ runWeightSum (m.steps events).1.SequenceGraph (m.steps events).1.ActiveNodes
              g0.Nodes.length + countPolls events
          ≤ runWeightSum m.SequenceGraph m.ActiveNodes g0.Nodes.length)
  | [], m, hR, _ => by
    simp only [AHoudiniBuildManager.steps, countPolls]
    exact ⟨hR, Or.inr (Nat.le_refl _)⟩
  | FRunEvent.Poll e :: rest, m, hR, ht => by
    obtain ⟨p1, p2, _, _⟩ := PollActiveNodes_LeafRun e g0 m hR ht.1
    have ht2 : TicksPastRateLimit (m.PollActiveNodesCalls e).1.LastTimePolled rest := by
      rw [p2]; exact ht.2
    obtain ⟨i1, i2⟩ := steps_LeafRun g0 rest (m.PollActiveNodesCalls e).1 p1 ht2
    simp only [AHoudiniBuildManager.steps, AHoudiniBuildManager.step, countPolls]
    refine ⟨i1, ?_⟩
    by_cases hne : m.ActiveNodes = []
    · left
      exact steps_ActiveNodes_nil rest _ (TicksPastRateLimit_withinRun rest _ ht2)
        (PollActiveNodes_nil e m hne)
    · rcases i2 with i2 | i2
      · exact Or.inl i2
      · right
        have := PollActiveNodes_weight e g0 m hR ht.1 hne
        omega
  | FRunEvent.Reorder l :: rest, m, hR, ht => by
    have hstep : (m.step (FRunEvent.Reorder l)).1
        = if l.Perm m.ActiveNodes then { m with ActiveNodes := l } else m := by
      simp only [AHoudiniBuildManager.step]
      split <;> rfl
    simp only [AHoudiniBuildManager.steps, countPolls, hstep]
    split
    · rename_i hp
      obtain ⟨r1, r2⟩ := LeafRun_reorder l hR hp
      obtain ⟨i1, i2⟩ := steps_LeafRun g0 rest { m with ActiveNodes := l } r1 ht
      refine ⟨i1, ?_⟩
      rcases i2 with i2 | i2
      · exact Or.inl i2
      · right
        have hsum : runWeightSum m.SequenceGraph l g0.Nodes.length
            = runWeightSum m.SequenceGraph m.ActiveNodes g0.Nodes.length := by
          unfold runWeightSum
          rw [List.map_congr_left (fun i _ => r2 i)]
        simp only at i2
        omega
    · exact steps_LeafRun g0 rest m hR ht
  | FRunEvent.Run e :: rest, m, _, ht => by
    simp [TicksPastRateLimit] at ht
  | FRunEvent.Cancel :: rest, m, _, ht => by
    simp [TicksPastRateLimit] at ht
  | FRunEvent.PostProcess a b c :: rest, m, _, ht => by
    simp [TicksPastRateLimit] at ht

/-- In a well-formed run whose active set is empty every node is Finished. -/
theorem LeafRun_done {g0 g : UAutomationGraph} (hR : LeafRun g0 g []) :
    ∀ v, g0.IsNode v → (g.node v).NodeState = EAutomationGraphNodeState.Finished := by
  apply IsLeafDag_induction hR.dag
  intro v hv ih
  rcases hR.states v hv with h1 | h1
  · exfalso
    rcases hR.waiting v hv h1 with h2 | ⟨p, hp, h2 | h2⟩
    · simp at h2
    · rw [ih p hp] at h2
      exact absurd h2 (by decide)
    · simp at h2
  · exact h1

theorem runWeightSum_le (g : UAutomationGraph) (L : List NodePtr) (n : Nat) :
    runWeightSum g L n ≤ 2 * n := by
  unfold runWeightSum
  have := List.sum_le_card_nsmul ((List.range n).map (runWeight g L)) 2
    (by
      intro x hx
      obtain ⟨i, _, hi⟩ := List.mem_map.mp hx
      rw [← hi]
      exact runWeight_le_two g L i)
  simpa [Nat.mul_comm] using this

/-- C12: on a manager with an empty active set whose graph is a graph of default
leaf nodes (roots the nodes without parents, mirrored links, no cycle), in the
editor world, there is a number of poll ticks such that after `Run()` and at
least that many ticks, each past the rate limit and in whatever order the
active set is polled, every node is Finished and the active set is empty. On
the chain `A → B` of two default nodes: after `Run()` both are in Standby and
`A` is in the active set; the first tick leaves `A` Finished; the second
leaves `B` Finished and alone in the active set; the third leaves the active
set empty with both nodes Finished. -/
theorem C12_leaf_graph_run_finishes (e : FEnv) (m : AHoudiniBuildManager)
    (hw : e.World.IsEditorWorld = true) (h0 : m.ActiveNodes = [])
    (hg : m.SequenceGraph.IsLeafDag) :
    (∃ K, ∀ events, TicksPastRateLimit (m.Run e).LastTimePolled events →
        K ≤ countPolls events →
        (∀ p, m.SequenceGraph.IsNode p →
          (((m.Run e).steps events).1.SequenceGraph.node p).NodeState
            = EAutomationGraphNodeState.Finished)
        ∧ ((m.Run e).steps events).1.ActiveNodes = [])
    ∧ ((exampleChainManager.Run (exampleEnv 0)).SequenceGraph.Nodes.map
          (fun n => n.NodeState)
          = [EAutomationGraphNodeState.Standby, EAutomationGraphNodeState.Standby]
      ∧ (exampleChainManager.Run (exampleEnv 0)).ActiveNodes = [some 0]
      ∧ (((exampleChainManager.Run (exampleEnv 0)).steps
            (exampleChainTicks.take 1)).1.SequenceGraph.Nodes.map (fun n => n.NodeState)
          = [EAutomationGraphNodeState.Finished, EAutomationGraphNodeState.Standby])
      ∧ ((exampleChainManager.Run (exampleEnv 0)).steps
            (exampleChainTicks.take 1)).1.ActiveNodes = [some 0]
      ∧ (((exampleChainManager.Run (exampleEnv 0)).steps
            (exampleChainTicks.take 2)).1.SequenceGraph.Nodes.map (fun n => n.NodeState)
          = [EAutomationGraphNodeState.Finished, EAutomationGraphNodeState.Finished])
      ∧ ((exampleChainManager.Run (exampleEnv 0)).steps
            (exampleChainTicks.take 2)).1.ActiveNodes = [some 1]
      ∧ (((exampleChainManager.Run (exampleEnv 0)).steps
            exampleChainTicks).1.SequenceGraph.Nodes.map (fun n => n.NodeState)
          = [EAutomationGraphNodeState.Finished, EAutomationGraphNodeState.Finished])
      ∧ ((exampleChainManager.Run (exampleEnv 0)).steps exampleChainTicks).1.ActiveNodes
          = []) := by
  refine ⟨⟨2 * m.SequenceGraph.Nodes.length + 1, ?_⟩, by decide⟩
  intro events ht hK
  have hR0 := Run_LeafRun e m hw h0 hg
  obtain ⟨s1, s2⟩ := steps_LeafRun m.SequenceGraph events (m.Run e) hR0 ht
  have hempty : ((m.Run e).steps events).1.ActiveNodes = [] := by
    rcases s2 with s2 | s2
    · exact s2
    · exfalso
      have := runWeightSum_le (m.Run e).SequenceGraph (m.Run e).ActiveNodes
        m.SequenceGraph.Nodes.length
      omega
  refine ⟨?_, hempty⟩
  rw [hempty] at s1
  exact LeafRun_done s1

/-! ## Witnesses and counterexamples -/

/-- Witness of C1 on the chain `0 → 1` of default nodes in Standby: node 0, with
no parents, can activate; node 1, whose parent is not Finished, cannot. -/
theorem C1_CanActivate_witness :
    (UAutomationGraphNode.CanActivate (exampleEnv 0) exampleChain (some 0)).1 = true
    ∧ (UAutomationGraphNode.CanActivate (exampleEnv 0) exampleChain (some 1)).1 = false := by
  constructor
  · exact (C1_CanActivate_iff (exampleEnv 0) exampleChain (some 0)).2 rfl rfl
  · decide

/-- Counterexample to C2 as stated: in the acyclic chain `0 → 1` the proposal
`0 → 1` is rejected (the nodes are already connected) although node 1 is not an
ancestor of node 0. -/
theorem C2_counterexample :
    exampleChain.Acyclic
    ∧ (UEdGraphSchema_HoudiniBuildSequenceGraph.CanCreateConnection exampleEd exampleChain 0 1)
        = ⟨ECanCreateConnectionResponse.CONNECT_RESPONSE_DISALLOW,
            EConnectionMessage.PinError_AlreadyConnected⟩
    ∧ ¬ exampleChain.IsAncestor (some 1) (some 0) := by
  refine ⟨exampleChain_Acyclic, by decide, ?_⟩
  intro h
  obtain ⟨c, hc, _⟩ := Relation.TransGen.head'_iff.mp h
  simp [UAutomationGraph.parentLink, UAutomationGraph.node, exampleChain] at hc

/-- Witness of C2 (amended) on the chain `0 → 1`, for the proposal `1 → 0`. -/
theorem C2_CanCreateConnection_rejects_witness :
    (UEdGraphSchema_HoudiniBuildSequenceGraph.CanCreateConnection exampleEd exampleChain 1 0).Response
        = ECanCreateConnectionResponse.CONNECT_RESPONSE_DISALLOW
      ↔ (1 = 0
          ∨ some 0 ∈ (exampleChain.node (some 1)).ChildNodes
          ∨ some 1 ∈ (exampleChain.node (some 0)).ChildNodes
          ∨ exampleChain.IsAncestor (some 0) (some 1)) :=
  C2_CanCreateConnection_rejects_iff exampleEd exampleChain 1 0 _ _ rfl rfl

/-- Witness of C3: on two unconnected nodes the proposal `0 → 1` is allowed, and
the graph with that connection is acyclic. -/
theorem C3_allowed_connection_witness :
    (UEdGraphSchema_HoudiniBuildSequenceGraph.CanCreateConnection exampleEd exampleTwoIsolated 0 1)
        = ⟨ECanCreateConnectionResponse.CONNECT_RESPONSE_MAKE_WITH_CONVERSION_NODE,
            EConnectionMessage.PinConnect⟩
    ∧ (exampleTwoIsolated.addConnection (some 0) (some 1)).Acyclic :=
  ⟨by decide,
    C3_allowed_connection_keeps_acyclic exampleEd exampleTwoIsolated 0 1 _ _ rfl rfl
      exampleEd_OwnsSequenceNodes exampleTwoIsolated_Acyclic exampleTwoIsolated_Mirrored
      (by decide)⟩

/-- Witness of C4: rebuilding the editor graph with one edge `0 → 1` makes node 0
the only root; node 0 has no parents and node 1 has parent 0. -/
theorem C4_Rebuild_witness :
    exampleEd.RebuildSequenceGraph exampleTwoIsolated
      = { Nodes := [{ ChildNodes := [some 1] }, { ParentNodes := [some 0] }],
          RootNodes := [some 0] }
    ∧ (some 0 ∈ (exampleEd.RebuildSequenceGraph exampleTwoIsolated).RootNodes
        ↔ ((exampleEd.RebuildSequenceGraph exampleTwoIsolated).node (some 0)).ParentNodes = [])
    ∧ (some 1 ∈ (exampleEd.RebuildSequenceGraph exampleTwoIsolated).RootNodes
        ↔ ((exampleEd.RebuildSequenceGraph exampleTwoIsolated).node (some 1)).ParentNodes = []) :=
  ⟨by decide,
    (C4_Rebuild_root_iff_no_parents exampleEd exampleTwoIsolated exampleEd_OwnsSequenceNodes).1
      0 _ 0 rfl rfl,
    (C4_Rebuild_root_iff_no_parents exampleEd exampleTwoIsolated exampleEd_OwnsSequenceNodes).1
      1 _ 1 rfl rfl⟩

/-- Counterexample to C5 as stated: an Active build-sequence node with no work
items; all of its zero work items report Finished, and `GetState()` returns
`Uninitialized`. -/
theorem C5_counterexample :
    exampleActiveNoItems.Class = ENodeClass.HoudiniBuildSequenceNode
    ∧ exampleActiveNoItems.NodeState = EAutomationGraphNodeState.Active
    ∧ (∀ x ∈ exampleActiveNoItems.WorkItems, ∃ w, x = some w
        ∧ (w.GetBuildState (exampleEnv 0) exampleActiveNoItems.BuildInfo).1
            = EEHEBuildState.Finished)
    ∧ (exampleActiveNoItems.GetState (exampleEnv 0)).1
        = EAutomationGraphNodeState.Uninitialized := by
  refine ⟨rfl, rfl, ?_, by decide⟩
  intro x hx
  simp [exampleActiveNoItems] at hx

/-- Witness of C5 (amended): an Active build-sequence node whose two work items
are Finished reports `Finished`. -/
theorem C5_GetState_Finished_witness :
    (exampleActiveAllFinished.GetState (exampleEnv 0)).1 = EAutomationGraphNodeState.Finished :=
  (C5_GetState_Finished_iff (exampleEnv 0) exampleActiveAllFinished rfl rfl (by decide)).2
    (by decide)

/-- Counterexample to C6 as stated: the second work item is Building and its fail
timeout has elapsed, the first work item has failed, and `GetState()` returns
`Error`. -/
theorem C6_counterexample :
    exampleActiveErrorFirst.Class = ENodeClass.HoudiniBuildSequenceNode
    ∧ exampleActiveErrorFirst.NodeState = EAutomationGraphNodeState.Active
    ∧ some exampleBuildingItem ∈ exampleActiveErrorFirst.WorkItems
    ∧ exampleBuildingItem.BuildState = EEHEBuildState.Building
    ∧ (exampleEnv 60000).Now - exampleBuildingItem.TimeStarted
        ≥ exampleActiveErrorFirst.BuildInfo.BuildFailTimeoutSec
    ∧ (exampleActiveErrorFirst.GetState (exampleEnv 60000)).1
        = EAutomationGraphNodeState.Error := by
  decide

/-- Witness of C6 (amended): a Finished item, then a Building item whose fail
timeout has elapsed, then a failed item: `GetState()` returns `Expired`. -/
theorem C6_GetState_Expired_witness :
    (exampleActiveExpiredFirst.GetState (exampleEnv 60000)).1
      = EAutomationGraphNodeState.Expired :=
  C6_GetState_Expired (exampleEnv 60000) exampleActiveExpiredFirst
    [some { ToBuild := some 0, BuildState := EEHEBuildState.Finished }]
    [some { ToBuild := some 0, BuildState := EEHEBuildState.Error }]
    exampleBuildingItem rfl rfl rfl (by decide) rfl (by decide) (by decide)

/-- Witness of C9: on the cycle `0 → 1 → 0` with root 0, `InitializeNodes` stops
on the cycle error and a cycle is reachable; on the diamond it does not stop. -/
theorem C9_InitializeNodes_cycle_witness :
    AHoudiniBuildManager.InitializeNodesCycleError (exampleEnv 0) { SequenceGraph := exampleCycle }
      = true
    ∧ exampleCycle.HasReachableCycle
    ∧ AHoudiniBuildManager.InitializeNodesCycleError (exampleEnv 0)
        { SequenceGraph := exampleDiamond } = false :=
  ⟨by decide,
    (C9_InitializeNodes_cycle_error_iff (exampleEnv 0) { SequenceGraph := exampleCycle } rfl).1
      (by decide),
    by decide⟩

theorem exampleDiamond_no_cycle : ¬ exampleDiamond.HasReachableCycle := by
  intro h
  have := (InitializeNodesCycleError_iff (exampleEnv 0) { SequenceGraph := exampleDiamond }
    rfl).2 h
  revert this
  decide

theorem exampleDiamond_reaches_D : exampleDiamond.ReachableFromRoots (some 3) := by
  refine ⟨some 0, by decide, ?_⟩
  have h01 : exampleDiamond.childLink (some 0) (some 1) := by
    unfold UAutomationGraph.childLink; decide
  have h13 : exampleDiamond.childLink (some 1) (some 3) := by
    unfold UAutomationGraph.childLink; decide
  exact (Relation.ReflTransGen.single h01).tail h13

/-- Witness of C10 on the diamond: the initialization block runs on `A`, `C`,
`D`, `B` in that order, once on `D`. -/
theorem C10_InitializeNodes_diamond_witness :
    AHoudiniBuildManager.InitializeNodesInitialized (exampleEnv 0)
        { SequenceGraph := exampleDiamond } = [some 0, some 2, some 3, some 1]
    ∧ (AHoudiniBuildManager.InitializeNodesInitialized (exampleEnv 0)
        { SequenceGraph := exampleDiamond }).count (some 3) = 1 :=
  ⟨by decide,
    (C10_InitializeNodes_once_per_reachable (exampleEnv 0) { SequenceGraph := exampleDiamond }
      rfl exampleDiamond_no_cycle (some 3)).1 exampleDiamond_reaches_D⟩

theorem exampleBuildDiamond_IsDiamond : exampleBuildDiamond.SequenceGraph.IsDiamond := by
  unfold UAutomationGraph.IsDiamond
  decide

theorem exampleBuildDiamond_roots : exampleBuildDiamond.SequenceGraph.RootsHaveNoParents := by
  unfold UAutomationGraph.RootsHaveNoParents
  decide

theorem exampleDiamondEventsBC_withinRun : ∀ ev ∈ exampleDiamondEventsBC, ev.withinRun := by
  intro ev hev
  simp only [exampleDiamondEventsBC, exampleDiamondEventsB, List.cons_append, List.nil_append,
    List.mem_cons, List.mem_singleton, List.not_mem_nil, or_false] at hev
  rcases hev with h | h | h | h | h | h <;> rw [h] <;> exact trivial

/-- Witness of C7 on the diamond whose nodes `B` and `C` are build-sequence
nodes: once `B` is Finished and `C` still Active, `D` is still Standby and no
call of `Activate()` has been made on it; after `C` has finished, `D` has been
activated, by a call that found `B` and `C` Finished. -/
theorem C7_diamond_witness :
    (((exampleBuildDiamond.Run (exampleBuildEnv 0)).steps exampleDiamondEventsB).1.SequenceGraph.Nodes.map
        (fun n => n.NodeState)
      = [EAutomationGraphNodeState.Finished, EAutomationGraphNodeState.Finished,
          EAutomationGraphNodeState.Active, EAutomationGraphNodeState.Standby])
    ∧ (((exampleBuildDiamond.Run (exampleBuildEnv 0)).steps exampleDiamondEventsB).2.map
        (fun c => c.Node) = [some 0, some 1, some 2])
    ∧ (((exampleBuildDiamond.Run (exampleBuildEnv 0)).steps exampleDiamondEventsBC).2.map
        (fun c => c.Node) = [some 0, some 1, some 2, some 3])
    ∧ ((((exampleBuildDiamond.Run (exampleBuildEnv 0)).steps
          exampleDiamondEventsBC).1.SequenceGraph.node (some 3)).NodeState
          = ((exampleBuildDiamond.Run (exampleBuildEnv 0)).SequenceGraph.node (some 3)).NodeState
        ∨ ∃ c ∈ ((exampleBuildDiamond.Run (exampleBuildEnv 0)).steps exampleDiamondEventsBC).2,
            c.Node = some 3
            ∧ (c.Graph.node (some 1)).NodeState = EAutomationGraphNodeState.Finished
            ∧ (c.Graph.node (some 2)).NodeState = EAutomationGraphNodeState.Finished) :=
  ⟨by decide, by decide, by decide,
    (C7_scheduler_activates_after_parents exampleBuildDiamond rfl exampleBuildDiamond_roots).2
      (exampleBuildEnv 0) exampleDiamondEventsBC exampleDiamondEventsBC_withinRun
      exampleBuildDiamond_IsDiamond⟩

/-- The run that C8 fails on: at the third tick node 4, whose work item has
timed out, is found `Expired` by the `CanActivate()` of its child 5 and is then
activated again through its finished parent 3, so that the tick leaves it
`Active` in the active set; after its work item completes, the fourth tick
activates its child 5. -/
theorem C8_failing_run :
    ((exampleReactivation.steps exampleReactivationEvents3).2.map
        (fun c => (c.Node, (c.Graph.node (some 4)).NodeState))
      = [(some 0, EAutomationGraphNodeState.Standby), (some 1, EAutomationGraphNodeState.Standby),
         (some 2, EAutomationGraphNodeState.Standby), (some 3, EAutomationGraphNodeState.Standby),
         (some 4, EAutomationGraphNodeState.Standby), (some 4, EAutomationGraphNodeState.Expired)])
    ∧ (exampleReactivation.steps exampleReactivationEvents3).1.ActiveNodes = [some 4]
    ∧ ((exampleReactivation.steps exampleReactivationEvents3).1.SequenceGraph.node
        (some 4)).NodeState = EAutomationGraphNodeState.Active
    ∧ (exampleReactivation.steps exampleReactivationEvents4).2.map (fun c => c.Node)
        = [some 0, some 1, some 2, some 3, some 4, some 4, some 5]
    ∧ ((exampleReactivation.steps exampleReactivationEvents4).1.SequenceGraph.node
        (some 5)).NodeState = EAutomationGraphNodeState.Finished
    ∧ (exampleReactivation.steps exampleReactivationEvents4).1.ActiveNodes = [some 5] := by
  decide

/-! ## Witnesses and counterexamples: Run, Cancel, work items, Add and Activate -/

/-- Witness of C13 on the chain `0 → 1`: with node 1 in the active set `Run()`
changes nothing; with an empty active set the active set becomes the root set. -/
theorem C13_Run_witness :
    ({ exampleChainManager with ActiveNodes := [some 1] } : AHoudiniBuildManager).Run
        (exampleEnv 0)
      = { exampleChainManager with ActiveNodes := [some 1] }
    ∧ (exampleChainManager.Run (exampleEnv 0)).ActiveNodes = [some 0] := by
  constructor
  · exact (C13_Run_noop_or_restart (exampleEnv 0) _).1 (by decide)
  · rw [((C13_Run_noop_or_restart (exampleEnv 0) exampleChainManager).2 rfl).2.2.2 (by decide)]
    decide

/-- Witness of C14 on the diamond with two build-sequence nodes: after `Run()`
and two ticks the nodes 1 and 2 are Active and in the active set; after
`Cancel()` the completion callback of node 1 and a tick leave the set empty. -/
theorem C14_Cancel_witness :
    ((exampleBuildDiamond.Run (exampleBuildEnv 0)).steps
        [FRunEvent.Poll (exampleBuildEnv 100), FRunEvent.Poll (exampleBuildEnv 200)]).1.ActiveNodes
      = [some 1, some 2]
    ∧ ((((exampleBuildDiamond.Run (exampleBuildEnv 0)).steps
          [FRunEvent.Poll (exampleBuildEnv 100),
           FRunEvent.Poll (exampleBuildEnv 200)]).1.Cancel.steps
        [FRunEvent.PostProcess (some 1) 0 true, FRunEvent.Poll (exampleBuildEnv 300)]).1.ActiveNodes
      = []) := by
  refine ⟨by decide, (C14_Cancel_stays_empty _).2.2 _ ?_⟩
  intro ev hev
  simp only [List.mem_cons, List.mem_singleton, List.not_mem_nil, or_false] at hev
  rcases hev with h | h <;> subst h <;> trivial

/-- Counterexample to C15 as stated: the item on actor 3 is Building and its
target has no component, yet the target itself is valid, `GetBuildState()`
answers `Building` and the owning Active node reports `Active`; and on a node
whose first item has run out of time the item on a destroyed target does not
make the node report `Error`: it reports `Expired`. -/
theorem C15_counterexample :
    exampleItemWithoutComponent.BuildState = EEHEBuildState.Building
    ∧ exampleWorld.GetHoudiniAssetComponent exampleItemWithoutComponent.ToBuild = none
    ∧ (exampleItemWithoutComponent.GetBuildState (exampleEnv 100)
          exampleActiveWithoutComponent.BuildInfo).1 = EEHEBuildState.Building
    ∧ exampleActiveWithoutComponent.NodeState = EAutomationGraphNodeState.Active
    ∧ (exampleActiveWithoutComponent.GetState (exampleEnv 100)).1
        = EAutomationGraphNodeState.Active
    ∧ exampleWorld.GetHoudiniAssetComponent exampleItemDestroyed.ToBuild = none
    ∧ some exampleItemDestroyed ∈ exampleActiveBuildingThenDestroyed.WorkItems
    ∧ (exampleActiveBuildingThenDestroyed.GetState (exampleEnv 60000)).1
        = EAutomationGraphNodeState.Expired := by
  decide

/-- Witness of C15 (amended): the item on the destroyed actor 9 reports `Error`
and so does its Active node, whose first item is still Building in time. -/
theorem C15_invalid_target_witness :
    (exampleItemDestroyed.GetBuildState (exampleEnv 100)
        exampleActiveBuildingThenDestroyed.BuildInfo).1 = EEHEBuildState.Error
    ∧ (exampleActiveBuildingThenDestroyed.GetState (exampleEnv 100)).1
        = EAutomationGraphNodeState.Error :=
  C15_invalid_target_Error (exampleEnv 100) exampleActiveBuildingThenDestroyed
    [some exampleBuildingItem] [] exampleItemDestroyed rfl rfl rfl (by decide)
    (by
      intro x hx v hv
      simp only [List.mem_singleton] at hx
      subst hx
      simp only [Option.some.injEq] at hv
      subst hv
      decide)

/-- Witness of C16 on an item that is Building: success makes it `Finished`. -/
theorem C16_OnHoudiniAssetPostProcess_witness :
    exampleBuildingItem.OnHoudiniAssetPostProcess true
      = { exampleBuildingItem with BuildState := EEHEBuildState.Finished } :=
  (C16_OnHoudiniAssetPostProcess exampleBuildingItem true).1 rfl rfl

/-- Witness of C17: `Add` is refused on a node that has Finished and appends a
work item in Standby to a node in Standby. -/
theorem C17_Add_witness :
    (UHoudiniBuildSequenceNode.Add (exampleEnv 0) (some 1) exampleFinishedSequenceNode).1 = false
    ∧ (UHoudiniBuildSequenceNode.Add (exampleEnv 0) (some 1) exampleReadySequenceNode).2.WorkItems
        = exampleReadySequenceNode.WorkItems
          ++ [some { ToBuild := some 1, BuildState := EEHEBuildState.Standby }] :=
  ⟨((C17_Add_frozen_or_appends (exampleEnv 0) (some 1) exampleFinishedSequenceNode rfl).2.1
      (Or.inr (Or.inl (by decide)))).1,
    ((C17_Add_frozen_or_appends (exampleEnv 0) (some 1) exampleReadySequenceNode rfl).2.2
      (by decide) (by decide)).2⟩

/-- Witness of C18: of three work items in Standby the second, whose target has
no component, fails to start: `Activate()` returns false, the node is `Active`,
the first item is `Building` and the third is still in Standby. -/
theorem C18_Activate_witness :
    (exampleStandbySequenceNode.Activate (exampleEnv 7)).1 = false
    ∧ (exampleStandbySequenceNode.Activate (exampleEnv 7)).2.NodeState
        = EAutomationGraphNodeState.Active
    ∧ (exampleStandbySequenceNode.Activate (exampleEnv 7)).2.WorkItems
        = [some { ToBuild := some 0, TimeStarted := 7, BuildState := EEHEBuildState.Building,
                  DelegateBound := true },
           some { ToBuild := some 3, BuildState := EEHEBuildState.Standby },
           some { ToBuild := some 1, BuildState := EEHEBuildState.Standby }] := by
  have h := C18_Activate_build_sequence (exampleEnv 7) exampleStandbySequenceNode rfl (by decide)
  obtain ⟨h1, h2, h3⟩ := h.2.1
    [some { ToBuild := some 0, BuildState := EEHEBuildState.Standby }]
    [some { ToBuild := some 1, BuildState := EEHEBuildState.Standby }]
    (some { ToBuild := some 3, BuildState := EEHEBuildState.Standby }) rfl
    (by
      intro y hy
      simp only [List.mem_singleton] at hy
      subst hy
      exact ⟨_, rfl, by decide⟩)
    (by
      rintro ⟨w, hw, hb⟩
      simp only [Option.some.injEq] at hw
      subst hw
      revert hb
      decide)
  refine ⟨h1, h.1, ?_⟩
  rw [h2]
  decide

/-- Witness of C19 on the nodes of the chain `0 → 1`, which are in Standby, and
on a node that is Uninitialized. -/
theorem C19_Activate_witness :
    ((exampleChain.node (some 0)).Activate (exampleEnv 0)).1 = true
    ∧ ((exampleChain.node (some 0)).Activate (exampleEnv 0)).2.NodeState
        = EAutomationGraphNodeState.Finished
    ∧ (exampleTwoIsolated.node (some 0)).Activate (exampleEnv 0)
        = (false, exampleTwoIsolated.node (some 0)) :=
  ⟨((C19_Activate_default_leaf (exampleEnv 0) (exampleChain.node (some 0)) rfl).1 rfl).1,
    ((C19_Activate_default_leaf (exampleEnv 0) (exampleChain.node (some 0)) rfl).1 rfl).2.2,
    (C19_Activate_default_leaf (exampleEnv 0) (exampleTwoIsolated.node (some 0)) rfl).2
      (by decide)⟩

/-! ## Witnesses: target claiming and runs over default leaf nodes -/

/-- Witness of C11 on the chain of two build-sequence nodes, of which node 0
selects the tags 1 and 2 and node 1 the tag 2: actor 1, which carries tag 2, is
claimed by both nodes; it is bound to work item 1 of node 0, the node
initialized first, and to no other work item. -/
theorem C11_first_claim_witness :
    exampleClaimChain.InitializeNodesInitialized (exampleBuildEnv 0) = [some 0, some 1]
    ∧ exampleClaimChain.SequenceGraph.Claims exampleBuildWorld (some 0) 1
    ∧ exampleClaimChain.SequenceGraph.Claims exampleBuildWorld (some 1) 1
    ∧ (exampleClaimChain.InitializeNodes (exampleBuildEnv 0)).SequenceGraph.BoundAt (some 0) 1 1
    ∧ ∀ p j, (exampleClaimChain.InitializeNodes (exampleBuildEnv 0)).SequenceGraph.BoundAt p j 1 →
        p = some 0 ∧ j = 1 := by
  have hb : (exampleClaimChain.InitializeNodes (exampleBuildEnv 0)).SequenceGraph.BoundAt
      (some 0) 1 1 := by
    unfold UAutomationGraph.BoundAt
    decide
  refine ⟨by decide, ?_, ?_, hb, ?_⟩
  · exact ⟨rfl, _, rfl, Or.inl ⟨2, by decide, by decide⟩⟩
  · exact ⟨rfl, _, rfl, Or.inl ⟨2, by decide, by decide⟩⟩
  · intro p j h
    exact (C11_InitializeNodes_first_claim_wins (exampleBuildEnv 0) exampleClaimChain rfl
      (by decide) 1).1 p j (some 0) 1 h hb

theorem exampleChain_parentLink (x y : NodePtr) (h : y ∈ (exampleChain.node x).ParentNodes) :
    x = some 1 ∧ y = some 0 := by
  rcases x with _ | _ | _ | i
  · simp [UAutomationGraph.node] at h
    exact absurd h (by simp [default, instInhabitedUAutomationGraphNode])
  · simp [UAutomationGraph.node, exampleChain] at h
  · simp [UAutomationGraph.node, exampleChain] at h
    exact ⟨rfl, h⟩
  · simp [UAutomationGraph.node, exampleChain] at h
    exact absurd h (by simp [default, instInhabitedUAutomationGraphNode])

theorem exampleChain_IsLeafDag : exampleChain.IsLeafDag where
  leaf := by
    intro n hn
    simp only [exampleChain, List.mem_cons, List.mem_singleton, List.not_mem_nil,
      or_false] at hn
    rcases hn with h | h <;> rw [h]
  roots := by
    intro p
    rcases p with _ | _ | _ | i
    · simp [exampleChain, UAutomationGraph.IsNode]
    · simp [exampleChain, UAutomationGraph.IsNode, UAutomationGraph.node]
    · simp [exampleChain, UAutomationGraph.IsNode, UAutomationGraph.node]
    · simp [exampleChain, UAutomationGraph.IsNode]
  mirrored := by
    intro a b
    constructor
    · intro h
      obtain ⟨ha, hb⟩ := exampleChain_childLink a b h
      rw [ha, hb]
      decide
    · intro h
      obtain ⟨hb, ha⟩ := exampleChain_parentLink b a h
      rw [ha, hb]
      decide
  acyclic := exampleChain_Acyclic

/-- Witness of C12 on the chain `A → B` of two default nodes: the graph is a
graph of default leaf nodes, and there is a number of ticks after which both
nodes are Finished and the active set is empty. -/
theorem C12_leaf_graph_witness :
    exampleChain.IsLeafDag
    ∧ ∃ K, ∀ events,
        TicksPastRateLimit (exampleChainManager.Run (exampleEnv 0)).LastTimePolled events →
        K ≤ countPolls events →
        (∀ p, exampleChainManager.SequenceGraph.IsNode p →
          (((exampleChainManager.Run (exampleEnv 0)).steps events).1.SequenceGraph.node
            p).NodeState = EAutomationGraphNodeState.Finished)
        ∧ ((exampleChainManager.Run (exampleEnv 0)).steps events).1.ActiveNodes = [] :=
  ⟨exampleChain_IsLeafDag,
    (C12_leaf_graph_run_finishes (exampleEnv 0) exampleChainManager rfl rfl
      exampleChain_IsLeafDag).1⟩

/-! ## Reset and build-sequence nodes without work items -/

/-- A build-sequence node that has no work items or is stored as
`Uninitialized` reports `Uninitialized`, and the query leaves it stored so with
the same work items. -/
theorem BuildSequence_GetState_unready (e : FEnv) (n : UAutomationGraphNode)
    (h : n.WorkItems = [] ∨ n.NodeState = EAutomationGraphNodeState.Uninitialized) :
    (UHoudiniBuildSequenceNode.GetState e n).1 = EAutomationGraphNodeState.Uninitialized
    ∧ (UHoudiniBuildSequenceNode.GetState e n).2.NodeState
        = EAutomationGraphNodeState.Uninitialized
    ∧ (UHoudiniBuildSequenceNode.GetState e n).2.WorkItems = n.WorkItems := by
  by_cases hw : n.WorkItems.length = 0
  · rw [BuildSequence_GetState_no_items e n hw]
    exact ⟨rfl, SetState_NodeState e _ _, SetState_WorkItems e _ _⟩
  · have hs : n.NodeState = EAutomationGraphNodeState.Uninitialized := by
      rcases h with h | h
      · rw [h] at hw; exact absurd rfl hw
      · exact h
    rw [BuildSequence_GetState_not_Active e n hw (by rw [hs]; decide)]
    exact ⟨hs, hs, rfl⟩

theorem BuildSequence_Activate_unready (e : FEnv) (n : UAutomationGraphNode)
    (h : n.WorkItems = [] ∨ n.NodeState = EAutomationGraphNodeState.Uninitialized) :
    UHoudiniBuildSequenceNode.Activate e n = (false, (UHoudiniBuildSequenceNode.GetState e n).2) := by
  unfold UHoudiniBuildSequenceNode.Activate
  simp only [(BuildSequence_GetState_unready e n h).1, if_true]

theorem BuildSequence_Add_unready (e : FEnv) (a : Option ActorPtr) (n : UAutomationGraphNode)
    (h : n.WorkItems = [] ∨ n.NodeState = EAutomationGraphNodeState.Uninitialized) :
    (UHoudiniBuildSequenceNode.Add e a n).2.NodeState = EAutomationGraphNodeState.Uninitialized
    ∧ ((UHoudiniBuildSequenceNode.Add e a n).1 = false →
        (UHoudiniBuildSequenceNode.Add e a n).2.WorkItems = n.WorkItems)
    ∧ ((UHoudiniBuildSequenceNode.Add e a n).1 = true →
        (UHoudiniBuildSequenceNode.Add e a n).2.WorkItems
          = n.WorkItems ++ [some (UHoudiniBuildWorkItem.Initialize e a {}).2])
    ∧ (UHoudiniBuildSequenceNode.Add e a n).1 = (UHoudiniBuildWorkItem.Initialize e a {}).1 := by
  obtain ⟨h1, h2, h3⟩ := BuildSequence_GetState_unready e n h
  unfold UHoudiniBuildSequenceNode.Add
  simp only [h1, ne_eq, not_true_eq_false, if_false, false_and]
  by_cases hi : (UHoudiniBuildWorkItem.Initialize e a {}).1 = false
  · simp only [hi, if_true]
    exact ⟨h2, fun _ => h3, fun hh => absurd hh (by simp), trivial⟩
  · simp only [hi, if_false]
    refine ⟨h2, fun hh => absurd hh (by simp), fun _ => by simp [h3], ?_⟩
    cases hb : (UHoudiniBuildWorkItem.Initialize e a {}).1
    · exact absurd hb hi
    · rfl

/-- As long as no `Ready()` has come after an `Add`, a reset build-sequence node
has no work items or is stored as `Uninitialized`; it has no work items as long
as no `Add` was made. -/
theorem calls_unready :
    ∀ (cs : List FNodeCall) (added : Bool) (n : UAutomationGraphNode),
      (n.WorkItems = [] ∨ n.NodeState = EAutomationGraphNodeState.Uninitialized) →
      (added = false → n.WorkItems = []) →
      FNodeCall.readiedAfterAdd added cs = false →
      ((UHoudiniBuildSequenceNode.calls n cs).WorkItems = []
        ∨ (UHoudiniBuildSequenceNode.calls n cs).NodeState
            = EAutomationGraphNodeState.Uninitialized)
  | [], _, n, h, _, _ => h
  | FNodeCall.GetState e :: rest, added, n, h, ha, hr => by
    obtain ⟨_, h2, h3⟩ := BuildSequence_GetState_unready e n h
    have hfold : UHoudiniBuildSequenceNode.calls n (FNodeCall.GetState e :: rest)
        = UHoudiniBuildSequenceNode.calls (UHoudiniBuildSequenceNode.GetState e n).2 rest := rfl
    rw [hfold]
    exact calls_unready rest added _ (Or.inr h2) (fun hh => by rw [h3]; exact ha hh) hr
  | FNodeCall.Add e a :: rest, added, n, h, _, hr => by
    have hfold : UHoudiniBuildSequenceNode.calls n (FNodeCall.Add e a :: rest)
        = UHoudiniBuildSequenceNode.calls (UHoudiniBuildSequenceNode.Add e a n).2 rest := rfl
    rw [hfold]
    exact calls_unready rest true _ (Or.inr (BuildSequence_Add_unready e a n h).1)
      (fun hh => absurd hh (by decide)) hr
  | FNodeCall.Ready e :: rest, added, n, h, ha, hr => by
    simp only [FNodeCall.readiedAfterAdd, Bool.or_eq_false_iff] at hr
    have hw : (n.Ready e).WorkItems = [] := by rw [Ready_WorkItems]; exact ha hr.1
    have hfold : UHoudiniBuildSequenceNode.calls n (FNodeCall.Ready e :: rest)
        = UHoudiniBuildSequenceNode.calls (n.Ready e) rest := rfl
    rw [hfold]
    exact calls_unready rest added _ (Or.inl hw) (fun _ => hw) hr.2
  | FNodeCall.Activate e :: rest, added, n, h, ha, hr => by
    obtain ⟨_, h2, h3⟩ := BuildSequence_GetState_unready e n h
    have hact : UHoudiniBuildSequenceNode.call n (FNodeCall.Activate e)
        = (UHoudiniBuildSequenceNode.GetState e n).2 := by
      simp only [UHoudiniBuildSequenceNode.call, BuildSequence_Activate_unready e n h]
    have hfold : UHoudiniBuildSequenceNode.calls n (FNodeCall.Activate e :: rest)
        = UHoudiniBuildSequenceNode.calls (UHoudiniBuildSequenceNode.GetState e n).2 rest := by
      simp only [UHoudiniBuildSequenceNode.calls, List.foldl_cons, hact]
    rw [hfold]
    exact calls_unready rest added _ (Or.inr h2) (fun hh => by rw [h3]; exact ha hh) hr

theorem calls_Class :
    ∀ (cs : List FNodeCall) (n : UAutomationGraphNode),
      (UHoudiniBuildSequenceNode.calls n cs).Class = n.Class
  | [], _ => rfl
  | c :: rest, n => by
    have hfold : UHoudiniBuildSequenceNode.calls n (c :: rest)
        = UHoudiniBuildSequenceNode.calls (UHoudiniBuildSequenceNode.call n c) rest := rfl
    rw [hfold, calls_Class rest]
    cases c with
    | GetState e => exact (SameLinks_BuildSequence_GetState e n).1
    | Add e a => exact (SameLinks_Add e a n).1
    | Ready e => exact (SameLinks_Ready e n).1
    | Activate e => exact (SameLinks_BuildSequence_Activate e n).1

theorem Reset_of_BuildSequence (e : FEnv) (n : UAutomationGraphNode)
    (hc : n.Class = ENodeClass.HoudiniBuildSequenceNode) :
    n.Reset e = UHoudiniBuildSequenceNode.Reset e n := by
  unfold UAutomationGraphNode.Reset
  rw [hc]

theorem Reset_NodeState (e : FEnv) (n : UAutomationGraphNode) :
    (n.Reset e).NodeState = EAutomationGraphNodeState.Uninitialized := by
  unfold UAutomationGraphNode.Reset UHoudiniBuildSequenceNode.Reset
  split <;> exact SetState_NodeState e _ _

theorem BuildSequence_Reset_WorkItems (e : FEnv) (n : UAutomationGraphNode) :
    (UHoudiniBuildSequenceNode.Reset e n).WorkItems = [] := by
  unfold UHoudiniBuildSequenceNode.Reset
  rw [SetState_WorkItems]

/-- C21: `Reset()` on a build-sequence node, whatever its state and work items,
leaves it without work items, stored as `Uninitialized` and reporting
`Uninitialized` from `GetState()`; after it, and after any further calls of
`GetState()`, `Add`, `Ready()` and `Activate()` among which no `Ready()` comes
after an `Add`, `Activate()` returns false. `Reset()` on a node of the base
class stores `Uninitialized`, which is what its `GetState()` reports. -/
theorem C21_Reset (e : FEnv) (n l : UAutomationGraphNode)
    (hn : n.Class = ENodeClass.HoudiniBuildSequenceNode)
    (hl : l.Class = ENodeClass.AutomationGraphNode) :
    (n.Reset e).WorkItems = []
    ∧ (n.Reset e).NodeState = EAutomationGraphNodeState.Uninitialized
    ∧ (∀ e1, ((n.Reset e).GetState e1).1 = EAutomationGraphNodeState.Uninitialized)
    ∧ (∀ e1, ((n.Reset e).Activate e1).1 = false)
    ∧ (∀ cs e1, FNodeCall.readiedAfterAdd false cs = false →
        ((UHoudiniBuildSequenceNode.calls (n.Reset e) cs).Activate e1).1 = false)
    ∧ (l.Reset e).NodeState = EAutomationGraphNodeState.Uninitialized
    ∧ (∀ e1, ((l.Reset e).GetState e1).1 = EAutomationGraphNodeState.Uninitialized) := by
  have hr : n.Reset e = UHoudiniBuildSequenceNode.Reset e n := Reset_of_BuildSequence e n hn
  have hw : (n.Reset e).WorkItems = [] := by rw [hr]; exact BuildSequence_Reset_WorkItems e n
  have hc : (n.Reset e).Class = ENodeClass.HoudiniBuildSequenceNode := by
    rw [(SameLinks_Reset e n).1]; exact hn
  have hlc : (l.Reset e).Class = ENodeClass.AutomationGraphNode := by
    rw [(SameLinks_Reset e l).1]; exact hl
  have hact : ∀ (e1 : FEnv) (x : UAutomationGraphNode),
      x.Class = ENodeClass.HoudiniBuildSequenceNode →
      (x.WorkItems = [] ∨ x.NodeState = EAutomationGraphNodeState.Uninitialized) →
      (x.Activate e1).1 = false := by
    intro e1 x hx h
    unfold UAutomationGraphNode.Activate
    rw [hx]
    simp only [BuildSequence_Activate_unready e1 x h]
  refine ⟨hw, Reset_NodeState e n, ?_, ?_, ?_, Reset_NodeState e l, ?_⟩
  · intro e1
    rw [GetState_of_BuildSequence e1 _ hc]
    exact (BuildSequence_GetState_unready e1 _ (Or.inl hw)).1
  · intro e1
    exact hact e1 _ hc (Or.inl hw)
  · intro cs e1 hcs
    refine hact e1 _ ?_ (calls_unready cs false _ (Or.inl hw) (fun _ => hw) hcs)
    rw [calls_Class]; exact hc
  · intro e1
    rw [GetState_of_not_BuildSequence e1 _ (by rw [hlc]; decide)]
    exact Reset_NodeState e l

/-- C29: a build-sequence node without work items reports `Uninitialized` from
`GetState()` whatever state is stored, also right after `Ready()`; the query
stores `Uninitialized`; and `Activate()` on it returns false and leaves it
stored as `Uninitialized`, not `Active`. -/
theorem C29_no_work_items (e : FEnv) (n : UAutomationGraphNode)
    (hc : n.Class = ENodeClass.HoudiniBuildSequenceNode) (hw : n.WorkItems = []) :
    (n.GetState e).1 = EAutomationGraphNodeState.Uninitialized
    ∧ (n.GetState e).2.NodeState = EAutomationGraphNodeState.Uninitialized
    ∧ (∀ e1, (n.Ready e1).NodeState = EAutomationGraphNodeState.Active
        ∨ (n.Ready e1).NodeState = EAutomationGraphNodeState.Standby)
    ∧ (∀ e1, ((n.Ready e1).GetState e).1 = EAutomationGraphNodeState.Uninitialized)
    ∧ (n.Activate e).1 = false
    ∧ (n.Activate e).2.NodeState = EAutomationGraphNodeState.Uninitialized := by
  have hg := BuildSequence_GetState_unready e n (Or.inl hw)
  refine ⟨?_, ?_, ?_, ?_, ?_, ?_⟩
  · rw [GetState_of_BuildSequence e n hc]; exact hg.1
  · rw [GetState_of_BuildSequence e n hc]; exact hg.2.1
  · intro e1
    unfold UAutomationGraphNode.Ready
    split
    · left; assumption
    · right; exact SetState_NodeState e1 _ _
  · intro e1
    rw [GetState_of_BuildSequence e _ (by rw [(SameLinks_Ready e1 n).1]; exact hc)]
    exact (BuildSequence_GetState_unready e _ (Or.inl (by rw [Ready_WorkItems]; exact hw))).1
  · unfold UAutomationGraphNode.Activate
    rw [hc]
    simp only [BuildSequence_Activate_unready e n (Or.inl hw)]
  · unfold UAutomationGraphNode.Activate
    rw [hc]
    simp only [BuildSequence_Activate_unready e n (Or.inl hw)]
    exact hg.2.1

/-! ## The cycle abort of InitializeNodes -/

theorem Reset_WorkItems (e : FEnv) (n : UAutomationGraphNode)
    (hc : n.Class = ENodeClass.HoudiniBuildSequenceNode) : (n.Reset e).WorkItems = [] := by
  rw [Reset_of_BuildSequence e n hc]
  exact BuildSequence_Reset_WorkItems e n

/-- Behind every pointer a reset graph holds a node stored as `Uninitialized`
that reports `Uninitialized`, without work items when it is a build-sequence node. -/
theorem graph_Reset_node (e : FEnv) (g : UAutomationGraph) (p : NodePtr) :
    ((g.Reset e).node p).NodeState = EAutomationGraphNodeState.Uninitialized
    ∧ (∀ e1, (((g.Reset e).node p).GetState e1).1 = EAutomationGraphNodeState.Uninitialized)
    ∧ (((g.Reset e).node p).Class = ENodeClass.HoudiniBuildSequenceNode →
        ((g.Reset e).node p).WorkItems = []) := by
  rw [Reset_node]
  have hs := Reset_NodeState e (g.node p)
  have hw : ((g.node p).Reset e).Class = ENodeClass.HoudiniBuildSequenceNode →
      ((g.node p).Reset e).WorkItems = [] := by
    intro hc
    apply Reset_WorkItems
    rw [← (SameLinks_Reset e (g.node p)).1]; exact hc
  refine ⟨hs, ?_, hw⟩
  intro e1
  by_cases hc : ((g.node p).Reset e).Class = ENodeClass.HoudiniBuildSequenceNode
  · rw [GetState_of_BuildSequence e1 _ hc]
    exact (BuildSequence_GetState_unready e1 _ (Or.inl (hw hc))).1
  · rw [GetState_of_not_BuildSequence e1 _ hc]
    exact hs

/-- When the traversal of `InitializeNodes` stops on a cycle, the graph it
leaves is a reset graph. -/
theorem InitializeNodes_cycle_Reset (e : FEnv) (m : AHoudiniBuildManager)
    (h : AHoudiniBuildManager.InitializeNodesCycleError e m = true) :
    ∃ g : UAutomationGraph, (m.InitializeNodes e).SequenceGraph = g.Reset e := by
  unfold AHoudiniBuildManager.InitializeNodesCycleError at h
  unfold AHoudiniBuildManager.InitializeNodes
  cases hrun : AHoudiniBuildManager.runInitializeNodes e m with
  | none => rw [hrun] at h; exact absurd h (by decide)
  | some s =>
    rw [hrun] at h
    simp only at h ⊢
    obtain ⟨g, _, _, hg⟩ := (runInitializeNodes_invariant e m (fun _ _ _ => True) trivial
      (fun _ _ _ _ _ _ => trivial) s hrun).2 h
    exact ⟨g, hg⟩

/-- C24: when `InitializeNodes` stops on a cycle, every node of the graph it
leaves is stored as `Uninitialized` and reports `Uninitialized`, and every
build-sequence node has no work items; this covers the nodes on which the
initialization block had run, and the links and the root set are kept. -/
theorem C24_cycle_abort_resets (e : FEnv) (m : AHoudiniBuildManager)
    (h : AHoudiniBuildManager.InitializeNodesCycleError e m = true) :
    (∀ p, ((m.InitializeNodes e).SequenceGraph.node p).NodeState
          = EAutomationGraphNodeState.Uninitialized
        ∧ (∀ e1, (((m.InitializeNodes e).SequenceGraph.node p).GetState e1).1
            = EAutomationGraphNodeState.Uninitialized)
        ∧ (((m.InitializeNodes e).SequenceGraph.node p).Class
              = ENodeClass.HoudiniBuildSequenceNode →
            ((m.InitializeNodes e).SequenceGraph.node p).WorkItems = []))
    ∧ m.SequenceGraph.SameLinks (m.InitializeNodes e).SequenceGraph := by
  obtain ⟨g, hg⟩ := InitializeNodes_cycle_Reset e m h
  refine ⟨?_, InitializeNodes_SameLinks e m⟩
  intro p
  rw [hg]
  exact graph_Reset_node e g p

/-! ## Initialization of one build-sequence node: its state -/

theorem Initialize_iff_HasComponent (e : FEnv) (a : ActorPtr) (w : UHoudiniBuildWorkItem) :
    (w.Initialize e (some a)).1 = true ↔ e.World.HasComponent a := by
  unfold UHoudiniBuildWorkItem.Initialize UWorld.HasComponent UWorld.GetHoudiniAssetComponent
  cases h1 : e.World.assetActor (some a) with
  | none => simp
  | some actor =>
    cases h2 : actor.HoudiniAssetComponent with
    | none => simp [h2]
    | some c => simp [h2]

/-- On a build-sequence node that has no work items or is stored as
`Uninitialized`, `Add` succeeds exactly for the targets that have a component. -/
theorem Add_iff_HasComponent (e : FEnv) (a : ActorPtr) (n : UAutomationGraphNode)
    (h : n.WorkItems = [] ∨ n.NodeState = EAutomationGraphNodeState.Uninitialized) :
    (UHoudiniBuildSequenceNode.Add e (some a) n).1 = true ↔ e.World.HasComponent a := by
  rw [(BuildSequence_Add_unready e (some a) n h).2.2.2]
  exact Initialize_iff_HasComponent e a {}

theorem AddInv_addActors (e : FEnv) (A : List ActorPtr) :
    ∀ (l : List ActorPtr) (s : FNodeInit), AddInv e.World A s →
      AddInv e.World A (AHoudiniBuildManager.addActors e l s)
  | [], s, h => by
    unfold AHoudiniBuildManager.addActors
    exact h
  | a :: l, s, h => by
    unfold AHoudiniBuildManager.addActors
    split
    · exact AddInv_addActors e A l s h
    · rename_i hmem
      have hmem2 : a ∉ s.AddedActors := by simpa using hmem
      have haA : a ∉ A := fun ha => hmem2 (h.sub a ha)
      have hadd := BuildSequence_Add_unready e (some a) s.Node (Or.inr h.state)
      have hiff := Add_iff_HasComponent e a s.Node (Or.inr h.state)
      apply AddInv_addActors e A l
      constructor
      · exact hadd.1
      · intro x hx
        exact (mem_TSetAdd _ _ _).2 (Or.inl (h.sub x hx))
      · simp only [Bool.and_eq_true, h.flag, hiff]
        constructor
        · rintro ⟨h1, h2⟩ x hx hxA
          rcases (mem_TSetAdd _ _ _).1 hx with hx | hx
          · exact h1 x hx hxA
          · rw [hx]; exact h2
        · intro h1
          exact ⟨fun x hx hxA => h1 x ((mem_TSetAdd _ _ _).2 (Or.inl hx)) hxA,
            h1 a ((mem_TSetAdd _ _ _).2 (Or.inr rfl)) haA⟩
      · simp only []
        by_cases hc : e.World.HasComponent a
        · have ht := hiff.2 hc
          rw [hadd.2.2.1 ht]
          constructor
          · intro _
            exact ⟨a, (mem_TSetAdd _ _ _).2 (Or.inr rfl), haA, hc⟩
          · intro _
            simp
        · have hf : (UHoudiniBuildSequenceNode.Add e (some a) s.Node).1 = false := by
            cases hb : (UHoudiniBuildSequenceNode.Add e (some a) s.Node).1
            · rfl
            · exact absurd (hiff.1 hb) hc
          rw [hadd.2.1 hf, h.items]
          constructor
          · rintro ⟨x, hx, hxA, hxc⟩
            exact ⟨x, (mem_TSetAdd _ _ _).2 (Or.inl hx), hxA, hxc⟩
          · rintro ⟨x, hx, hxA, hxc⟩
            rcases (mem_TSetAdd _ _ _).1 hx with hx | hx
            · exact ⟨x, hx, hxA, hxc⟩
            · rw [hx] at hxc; exact absurd hxc hc

theorem AddInv_addActorsByKey {κ : Type} [DecidableEq κ] (e : FEnv) (A : List ActorPtr)
    (m : List (κ × List ActorPtr)) :
    ∀ (ks : List κ) (s : FNodeInit), AddInv e.World A s →
      AddInv e.World A (AHoudiniBuildManager.addActorsByKey e m ks s)
  | [], s, h => by
    unfold AHoudiniBuildManager.addActorsByKey
    exact h
  | k :: ks, s, h => by
    unfold AHoudiniBuildManager.addActorsByKey
    split
    · exact AddInv_addActorsByKey e A m ks s h
    · exact AddInv_addActorsByKey e A m ks _ (AddInv_addActors e A _ s h)

theorem initializeNode_of_BuildSequence (e : FEnv) (n : UAutomationGraphNode)
    (A : List ActorPtr) (hc : n.Class = ENodeClass.HoudiniBuildSequenceNode) :
    AHoudiniBuildManager.initializeNode e n A
      = (if (AHoudiniBuildManager.addMatchedActors e n A).NodeInitialized then
          (AHoudiniBuildManager.addMatchedActors e n A).Node.Ready e
        else (AHoudiniBuildManager.addMatchedActors e n A).Node,
        (AHoudiniBuildManager.addMatchedActors e n A).AddedActors) := by
  unfold AHoudiniBuildManager.initializeNode AHoudiniBuildManager.addMatchedActors
  rw [hc]
  simp only []
  split <;> rfl

theorem initializeNode_of_not_BuildSequence (e : FEnv) (n : UAutomationGraphNode)
    (A : List ActorPtr) (hc : n.Class ≠ ENodeClass.HoudiniBuildSequenceNode) :
    (AHoudiniBuildManager.initializeNode e n A).2 = A := by
  unfold AHoudiniBuildManager.initializeNode
  split
  · rename_i h; exact absurd h hc
  · rfl
  · rfl
  · rfl

/-- The actors claimed after the loops are those claimed before and those the
selectors of the node match. -/
theorem addMatchedActors_AddedActors (e : FEnv) (n : UAutomationGraphNode)
    (A : List ActorPtr) (a : ActorPtr) :
    a ∈ (AHoudiniBuildManager.addMatchedActors e n A).AddedActors
      ↔ a ∈ A ∨ e.World.SelectorsMatch n.BuildInfo a := by
  unfold AHoudiniBuildManager.addMatchedActors
  rw [(addActorsByKey_spec e (ActorsByAsset e.World) (fun _ => True) n.BuildInfo.AssetTypes _
      (fun _ _ _ _ => trivial)).2.1 a,
    (addActorsByKey_spec e (ActorsByTag e.World) (fun _ => True) n.BuildInfo.ActorTags _
      (fun _ _ _ _ => trivial)).2.1 a]
  simp only [TMapHas_ActorsByTag, TMapHas_ActorsByAsset]
  unfold UWorld.SelectorsMatch
  constructor
  · rintro ((h | ⟨k, hk, actor, h1, h2⟩) | ⟨k, hk, actor, c, h1, h2, h3⟩)
    · exact Or.inl h
    · exact Or.inr ⟨actor, h1, Or.inl ⟨k, hk, h2⟩⟩
    · exact Or.inr ⟨actor, h1, Or.inr ⟨c, k, h2, h3, hk⟩⟩
  · rintro (h | ⟨actor, h1, ⟨k, hk, h2⟩ | ⟨c, k, h2, h3, hk⟩⟩)
    · exact Or.inl (Or.inl h)
    · exact Or.inl (Or.inr ⟨k, hk, actor, h1, h2⟩)
    · exact Or.inr ⟨k, hk, actor, c, h1, h2, h3⟩

theorem AddInv_addMatchedActors (e : FEnv) (n : UAutomationGraphNode) (A : List ActorPtr)
    (hw : n.WorkItems = []) (hs : n.NodeState = EAutomationGraphNodeState.Uninitialized) :
    AddInv e.World A (AHoudiniBuildManager.addMatchedActors e n A) := by
  unfold AHoudiniBuildManager.addMatchedActors
  apply AddInv_addActorsByKey
  apply AddInv_addActorsByKey
  constructor
  · exact hs
  · exact fun a ha => ha
  · simp only [true_iff]
    intro a ha hna; exact absurd ha hna
  · simp only [hw, ne_eq, not_true_eq_false, false_iff]
    rintro ⟨a, ha, hna, _⟩
    exact hna ha

/-- The initialization block on a reset build-sequence node, `A` being the
actors claimed before: the node ends stored as `Standby` when every newly
claimed target has a component, and stays `Uninitialized` when one has none; it
has a work item iff a newly claimed target has a component; the state it
reports is the stored one when it has a work item and `Uninitialized` otherwise. -/
theorem initializeNode_ready (e : FEnv) (n : UAutomationGraphNode) (A : List ActorPtr)
    (hc : n.Class = ENodeClass.HoudiniBuildSequenceNode)
    (hw : n.WorkItems = []) (hs : n.NodeState = EAutomationGraphNodeState.Uninitialized) :
    ((∀ a, e.World.SelectorsMatch n.BuildInfo a → a ∉ A → e.World.HasComponent a) →
      (AHoudiniBuildManager.initializeNode e n A).1.NodeState
        = EAutomationGraphNodeState.Standby)
    ∧ ((∃ a, e.World.SelectorsMatch n.BuildInfo a ∧ a ∉ A ∧ ¬ e.World.HasComponent a) →
      (AHoudiniBuildManager.initializeNode e n A).1.NodeState
        = EAutomationGraphNodeState.Uninitialized)
    ∧ ((AHoudiniBuildManager.initializeNode e n A).1.WorkItems ≠ []
        ↔ ∃ a, e.World.SelectorsMatch n.BuildInfo a ∧ a ∉ A ∧ e.World.HasComponent a) := by
  have hinv := AddInv_addMatchedActors e n A hw hs
  have hmem := addMatchedActors_AddedActors e n A
  have hflag : (AHoudiniBuildManager.addMatchedActors e n A).NodeInitialized = true
      ↔ ∀ a, e.World.SelectorsMatch n.BuildInfo a → a ∉ A → e.World.HasComponent a := by
    rw [hinv.flag]
    constructor
    · intro h a ha hna; exact h a ((hmem a).2 (Or.inr ha)) hna
    · intro h a ha hna
      rcases (hmem a).1 ha with h1 | h1
      · exact absurd h1 hna
      · exact h a h1 hna
  have hitems : (AHoudiniBuildManager.addMatchedActors e n A).Node.WorkItems ≠ []
      ↔ ∃ a, e.World.SelectorsMatch n.BuildInfo a ∧ a ∉ A ∧ e.World.HasComponent a := by
    rw [hinv.items]
    constructor
    · rintro ⟨a, ha, hna, hca⟩
      rcases (hmem a).1 ha with h1 | h1
      · exact absurd h1 hna
      · exact ⟨a, h1, hna, hca⟩
    · rintro ⟨a, ha, hna, hca⟩
      exact ⟨a, (hmem a).2 (Or.inr ha), hna, hca⟩
  rw [initializeNode_of_BuildSequence e n A hc]
  simp only []
  refine ⟨?_, ?_, ?_⟩
  · intro h
    rw [if_pos (hflag.2 h)]
    unfold UAutomationGraphNode.Ready
    rw [if_neg (by rw [hinv.state]; decide)]
    exact SetState_NodeState e _ _
  · rintro ⟨a, ha, hna, hca⟩
    have hf : ¬ (AHoudiniBuildManager.addMatchedActors e n A).NodeInitialized = true :=
      fun h => hca (hflag.1 h a ha hna)
    rw [if_neg hf]
    exact hinv.state
  · rw [← hitems]
    split
    · rw [Ready_WorkItems]
    · rfl

/-! ## The states of the build-sequence nodes along the traversal -/

theorem FirstClaimsIn_append (g0 : UAutomationGraph) (w : UWorld) (I : List NodePtr)
    (p q : NodePtr) (a : ActorPtr) (hq : q ∈ I) (hp : p ∉ I) :
    g0.FirstClaimsIn w (I ++ [p]) q a ↔ g0.FirstClaimsIn w I q a := by
  unfold UAutomationGraph.FirstClaimsIn
  constructor
  · rintro ⟨hc, pre, post, hsplit, hpre⟩
    refine ⟨hc, ?_⟩
    rcases append_singleton_eq_split I pre post p q hsplit with ⟨_, h2, _⟩ | ⟨post1, _, h3⟩
    · exact absurd (h2 ▸ hq) hp
    · exact ⟨pre, post1, h3, hpre⟩
  · rintro ⟨hc, pre, post, hsplit, hpre⟩
    exact ⟨hc, pre, post ++ [p], by rw [hsplit]; simp, hpre⟩

theorem FirstClaimsIn_last (g0 : UAutomationGraph) (w : UWorld) (I : List NodePtr)
    (p : NodePtr) (a : ActorPtr) (hp : p ∉ I) :
    g0.FirstClaimsIn w (I ++ [p]) p a ↔ g0.Claims w p a ∧ ∀ q ∈ I, ¬ g0.Claims w q a := by
  unfold UAutomationGraph.FirstClaimsIn
  constructor
  · rintro ⟨hc, pre, post, hsplit, hpre⟩
    refine ⟨hc, ?_⟩
    rcases append_singleton_eq_split I pre post p p hsplit with ⟨_, _, h3⟩ | ⟨post1, _, h3⟩
    · rw [← h3]; exact hpre
    · exact absurd (by rw [h3]; simp) hp
  · rintro ⟨hc, hpre⟩
    exact ⟨hc, I, [], rfl, hpre⟩

theorem ReadyInv_start (e : FEnv) (g : UAutomationGraph) :
    ReadyInv e.World g (g.Reset e) [] [] where
  claim := ClaimInv_start e g
  origin := fun a ha => by simp at ha
  fresh := fun p _ => ⟨(graph_Reset_node e g p).1, (graph_Reset_node e g p).2.2⟩
  ready := fun p hp => by simp at hp

/-- Running the initialization block on a node not yet initialized keeps the invariant. -/
theorem ReadyInv_visit (e : FEnv) (g0 g : UAutomationGraph) (A : List ActorPtr)
    (I : List NodePtr) (p : NodePtr) (h : ReadyInv e.World g0 g A I) (hp : p ∉ I) :
    ReadyInv e.World g0
      (g.setNode p (AHoudiniBuildManager.initializeNode e (g.node p) A).1)
      (AHoudiniBuildManager.initializeNode e (g.node p) A).2 (I ++ [p]) := by
  have hclass := (SameLinks_initializeNode e (g.node p) A).1
  constructor
  · exact ClaimInv_visit e g0 g A I p h.claim hp
  · intro a ha
    by_cases hc : (g.node p).Class = ENodeClass.HoudiniBuildSequenceNode
    · rw [initializeNode_of_BuildSequence e _ A hc] at ha
      rcases (addMatchedActors_AddedActors e (g.node p) A a).1 ha with h1 | h1
      · obtain ⟨q, hq, hcl⟩ := h.origin a h1
        exact ⟨q, List.mem_append.mpr (Or.inl hq), hcl⟩
      · refine ⟨p, by simp, ?_, ?_⟩
        · rw [← (h.claim.info p).1]; exact hc
        · rw [← (h.claim.info p).2]; exact h1
    · rw [initializeNode_of_not_BuildSequence e _ A hc] at ha
      obtain ⟨q, hq, hcl⟩ := h.origin a ha
      exact ⟨q, List.mem_append.mpr (Or.inl hq), hcl⟩
  · intro q hq
    have hqp : q ≠ p := fun hh => hq (by rw [hh]; simp)
    have hqI : q ∉ I := fun hh => hq (List.mem_append.mpr (Or.inl hh))
    rw [node_setNode_ne g p q _ hqp]
    exact h.fresh q hqI
  · intro q hq hcq
    by_cases hqp : q = p
    · subst hqp
      have hin : g.IsNode q := by
        by_contra hin
        have hin2 : ¬ (g.setNode q (AHoudiniBuildManager.initializeNode e (g.node q) A).1).IsNode
            q := fun hh => hin (IsNode_of_length (setNode_length g q _).symm q hh)
        rw [node_not_IsNode _ q hin2] at hcq
        exact absurd hcq (by decide)
      rw [node_setNode_self g q _ hin] at hcq ⊢
      have hc : (g.node q).Class = ENodeClass.HoudiniBuildSequenceNode := by
        rw [← hclass]; exact hcq
      obtain ⟨hs, hw⟩ := h.fresh q hp
      have hnew : ∀ a, g0.FirstClaimsIn e.World (I ++ [q]) q a
          ↔ e.World.SelectorsMatch (g.node q).BuildInfo a ∧ a ∉ A := by
        intro a
        rw [FirstClaimsIn_last g0 e.World I q a hp]
        unfold UAutomationGraph.Claims
        rw [← (h.claim.info q).1, ← (h.claim.info q).2]
        constructor
        · rintro ⟨⟨_, hm⟩, hpre⟩
          refine ⟨hm, ?_⟩
          intro ha
          obtain ⟨q1, hq1, hcl⟩ := h.origin a ha
          exact hpre q1 hq1 hcl
        · rintro ⟨hm, hna⟩
          refine ⟨⟨hc, hm⟩, ?_⟩
          intro q1 hq1 hcl
          exact hna (h.claim.claimed q1 hq1 a hcl)
      obtain ⟨r1, r2, r3⟩ := initializeNode_ready e (g.node q) A hc (hw hc) hs
      refine ⟨?_, ?_, ?_⟩
      · intro hall
        exact r1 (fun a hm hna => hall a ((hnew a).2 ⟨hm, hna⟩))
      · rintro ⟨a, hf, hca⟩
        exact r2 ⟨a, ((hnew a).1 hf).1, ((hnew a).1 hf).2, hca⟩
      · rw [r3]
        constructor
        · rintro ⟨a, hm, hna, hca⟩
          exact ⟨a, (hnew a).2 ⟨hm, hna⟩, hca⟩
        · rintro ⟨a, hf, hca⟩
          exact ⟨a, ((hnew a).1 hf).1, ((hnew a).1 hf).2, hca⟩
    · have hqI : q ∈ I := by
        rcases List.mem_append.mp hq with h1 | h1
        · exact h1
        · exact absurd (List.mem_singleton.mp h1) hqp
      rw [node_setNode_ne g p q _ hqp] at hcq ⊢
      simp only [FirstClaimsIn_append g0 e.World I p q _ hqI hp]
      exact h.ready q hqI hcq

/-! ## The states of the build-sequence nodes after InitializeNodes -/

/-- What `InitializeNodes` leaves behind a build-sequence node it initialized,
when it does not stop on a cycle. -/
theorem InitializeNodes_sequence_node (e : FEnv) (m : AHoudiniBuildManager) (p : NodePtr)
    (hcyc : AHoudiniBuildManager.InitializeNodesCycleError e m = false)
    (hp : p ∈ m.InitializeNodesInitialized e)
    (hc : (m.SequenceGraph.node p).Class = ENodeClass.HoudiniBuildSequenceNode) :
    ((m.InitializeNodes e).SequenceGraph.node p).Class = ENodeClass.HoudiniBuildSequenceNode
    ∧ ((∀ a, m.FirstClaims e p a → e.World.HasComponent a) →
        ((m.InitializeNodes e).SequenceGraph.node p).NodeState
          = EAutomationGraphNodeState.Standby)
    ∧ ((∃ a, m.FirstClaims e p a ∧ ¬ e.World.HasComponent a) →
        ((m.InitializeNodes e).SequenceGraph.node p).NodeState
          = EAutomationGraphNodeState.Uninitialized)
    ∧ (((m.InitializeNodes e).SequenceGraph.node p).WorkItems ≠ []
        ↔ ∃ a, m.FirstClaims e p a ∧ e.World.HasComponent a) := by
  unfold AHoudiniBuildManager.FirstClaims
  unfold AHoudiniBuildManager.InitializeNodesCycleError at hcyc
  unfold AHoudiniBuildManager.InitializeNodesInitialized at hp ⊢
  unfold AHoudiniBuildManager.InitializeNodes
  cases hrun : AHoudiniBuildManager.runInitializeNodes e m with
  | none => rw [hrun] at hp; simp at hp
  | some s =>
    rw [hrun] at hp hcyc
    simp only at hp hcyc ⊢
    have hinv := (runInitializeNodes_invariant e m (ReadyInv e.World m.SequenceGraph)
      (ReadyInv_start e m.SequenceGraph)
      (fun g A I q hP hq => ReadyInv_visit e m.SequenceGraph g A I q hP hq) s hrun).1 hcyc
    have hcl : (s.Graph.node p).Class = ENodeClass.HoudiniBuildSequenceNode := by
      rw [(hinv.claim.info p).1]; exact hc
    exact ⟨hcl, hinv.ready p hp hcl⟩

/-- The state a build-sequence node reports when it is not stored as `Active`:
the stored state when it has a work item, `Uninitialized` when it has none. -/
theorem GetState_of_stored (e : FEnv) (n : UAutomationGraphNode)
    (hc : n.Class = ENodeClass.HoudiniBuildSequenceNode)
    (hs : n.NodeState ≠ EAutomationGraphNodeState.Active) :
    (n.WorkItems ≠ [] → (n.GetState e).1 = n.NodeState)
    ∧ (n.WorkItems = [] → (n.GetState e).1 = EAutomationGraphNodeState.Uninitialized) := by
  rw [GetState_of_BuildSequence e n hc]
  constructor
  · intro hw
    have hl : n.WorkItems.length ≠ 0 := fun h => hw (List.length_eq_zero.mp h)
    rw [BuildSequence_GetState_not_Active e n hl hs]
  · intro hw
    exact (BuildSequence_GetState_unready e n (Or.inl hw)).1

/-- `Add` fails on a target without a component, whatever the node. -/
theorem Add_without_component (e : FEnv) (a : ActorPtr) (n : UAutomationGraphNode)
    (h : ¬ e.World.HasComponent a) : (UHoudiniBuildSequenceNode.Add e (some a) n).1 = false := by
  have hi : (UHoudiniBuildWorkItem.Initialize e (some a) {}).1 = false := by
    cases hb : (UHoudiniBuildWorkItem.Initialize e (some a) {}).1
    · rfl
    · exact absurd ((Initialize_iff_HasComponent e a {}).1 hb) h
  unfold UHoudiniBuildSequenceNode.Add
  simp only [hi, if_true]
  split <;> (split <;> rfl)

/-- C22 (amended): a build-sequence node that `InitializeNodes` initializes
without stopping on a cycle, and for which every target passed to `Add` (every
target the node is the first to claim) has a component, so that no `Add` call
fails, is stored as `Standby`; its `GetState()` is `Standby` when at least one
`Add` call was made, and `Uninitialized` when none was: then the node has no
work item. -/
theorem C22_InitializeNodes_Standby (e : FEnv) (m : AHoudiniBuildManager) (p : NodePtr)
    (hcyc : AHoudiniBuildManager.InitializeNodesCycleError e m = false)
    (hp : p ∈ m.InitializeNodesInitialized e)
    (hc : (m.SequenceGraph.node p).Class = ENodeClass.HoudiniBuildSequenceNode)
    (hall : ∀ a, m.FirstClaims e p a → e.World.HasComponent a) :
    ((m.InitializeNodes e).SequenceGraph.node p).NodeState = EAutomationGraphNodeState.Standby
    ∧ ((∃ a, m.FirstClaims e p a) →
        ∀ e1, (((m.InitializeNodes e).SequenceGraph.node p).GetState e1).1
          = EAutomationGraphNodeState.Standby)
    ∧ ((¬ ∃ a, m.FirstClaims e p a) →
        ((m.InitializeNodes e).SequenceGraph.node p).WorkItems = []
        ∧ ∀ e1, (((m.InitializeNodes e).SequenceGraph.node p).GetState e1).1
          = EAutomationGraphNodeState.Uninitialized) := by
  obtain ⟨hcl, h1, _, h3⟩ := InitializeNodes_sequence_node e m p hcyc hp hc
  have hs := h1 hall
  have hna : ((m.InitializeNodes e).SequenceGraph.node p).NodeState
      ≠ EAutomationGraphNodeState.Active := by rw [hs]; decide
  refine ⟨hs, ?_, ?_⟩
  · rintro ⟨a, ha⟩ e1
    rw [(GetState_of_stored e1 _ hcl hna).1 (h3.2 ⟨a, ha, hall a ha⟩)]
    exact hs
  · intro hnone
    have hw : ((m.InitializeNodes e).SequenceGraph.node p).WorkItems = [] := by
      by_contra hw
      obtain ⟨a, ha, _⟩ := h3.1 hw
      exact hnone ⟨a, ha⟩
    exact ⟨hw, fun e1 => (GetState_of_stored e1 _ hcl hna).2 hw⟩

/-- C23 (amended): when `InitializeNodes`, not stopping on a cycle, calls `Add`
on a build-sequence node with a target that has no component (the node is the
first initialized node whose selectors match the target), the call fails and
the node is not readied: when initialization completes it is stored as
`Uninitialized` and its `GetState()` is `Uninitialized`, not `Error`. -/
theorem C23_failed_Add_Uninitialized (e : FEnv) (m : AHoudiniBuildManager) (p : NodePtr)
    (a : ActorPtr)
    (hcyc : AHoudiniBuildManager.InitializeNodesCycleError e m = false)
    (hf : m.FirstClaims e p a) (hno : ¬ e.World.HasComponent a) :
    (∀ n, (UHoudiniBuildSequenceNode.Add e (some a) n).1 = false)
    ∧ ((m.InitializeNodes e).SequenceGraph.node p).NodeState
        = EAutomationGraphNodeState.Uninitialized
    ∧ ∀ e1, (((m.InitializeNodes e).SequenceGraph.node p).GetState e1).1
        = EAutomationGraphNodeState.Uninitialized := by
  have hp : p ∈ m.InitializeNodesInitialized e := by
    obtain ⟨_, pre, post, hsplit, _⟩ := hf
    rw [hsplit]; simp
  obtain ⟨hcl, _, h2, _⟩ := InitializeNodes_sequence_node e m p hcyc hp hf.1.1
  have hs := h2 ⟨a, hf, hno⟩
  refine ⟨fun n => Add_without_component e a n hno, hs, ?_⟩
  intro e1
  rw [GetState_of_BuildSequence e1 _ hcl]
  exact (BuildSequence_GetState_unready e1 _ (Or.inr hs)).1

/-! ## The scheduler: nodes stored as Active and the active set -/

theorem GetState_no_new_Active (e : FEnv) (n : UAutomationGraphNode)
    (h : (n.GetState e).2.NodeState = EAutomationGraphNodeState.Active) :
    n.NodeState = EAutomationGraphNodeState.Active := by
  by_cases hc : n.Class = ENodeClass.HoudiniBuildSequenceNode
  · rw [GetState_of_BuildSequence e n hc, ← BuildSequence_GetState_fst] at h
    exact (BuildSequence_GetState_eq_Active e n h).1
  · rw [GetState_of_not_BuildSequence e n hc] at h
    exact h

theorem NoNewActive_refl (g : UAutomationGraph) : g.NoNewActive g := fun _ h => h

theorem NoNewActive_trans {a b c : UAutomationGraph} (h1 : a.NoNewActive b)
    (h2 : b.NoNewActive c) : a.NoNewActive c := fun p h => h1 p (h2 p h)

theorem NoNewActive_setNode (g : UAutomationGraph) (p : NodePtr) (n : UAutomationGraphNode)
    (h : n.NodeState = EAutomationGraphNodeState.Active →
      (g.node p).NodeState = EAutomationGraphNodeState.Active) :
    g.NoNewActive (g.setNode p n) := by
  intro q hq
  rcases node_setNode_cases g p q n with h1 | ⟨h1, h2⟩
  · rw [h1] at hq; exact hq
  · rw [h2] at hq; rw [h1]; exact h hq

theorem CanActivate_parents_no_new_Active (e : FEnv) :
    ∀ (ps : List NodePtr) (g : UAutomationGraph),
      g.NoNewActive (UAutomationGraphNode.CanActivate.parents e ps g).2
  | [], g => NoNewActive_refl g
  | p :: ps, g => by
    have hn : g.NoNewActive (g.setNode p ((g.node p).GetState e).2) :=
      NoNewActive_setNode _ _ _ (GetState_no_new_Active e _)
    unfold UAutomationGraphNode.CanActivate.parents
    simp only []
    split
    · exact hn
    · exact NoNewActive_trans hn (CanActivate_parents_no_new_Active e ps _)

theorem CanActivate_no_new_Active (e : FEnv) (g : UAutomationGraph) (self : NodePtr) :
    g.NoNewActive (UAutomationGraphNode.CanActivate e g self).2 := by
  unfold UAutomationGraphNode.CanActivate
  simp only []
  split
  · exact NoNewActive_refl g
  · split
    · exact NoNewActive_refl g
    · exact CanActivate_parents_no_new_Active e _ g

theorem ActiveInv_of_graph_step {A0 : List NodePtr} {s : FPollState} (h : ActiveInv A0 s)
    (g1 : UAutomationGraph) (hs : s.Graph.NoNewStandby g1) (ha : s.Graph.NoNewActive g1) :
    ActiveInv A0 { s with Graph := g1 } where
  removed := fun q hq =>
    ⟨fun hh => (h.removed q hq).1 (hs q hh), fun hh => (h.removed q hq).2 (ha q hh)⟩
  active := fun p hp => h.active p (ha p hp)

/-- A regular call of `Activate()` keeps the invariant, provided the receiver
is added to `ToAdd` when it is not in the active set. -/
theorem ActiveInv_activate {A0 : List NodePtr} {s : FPollState} (h : ActiveInv A0 s)
    (e : FEnv) (Node : NodePtr) (T : List NodePtr)
    (hst : (s.Graph.node Node).NodeState = EAutomationGraphNodeState.Standby)
    (hT : ∀ p ∈ s.ToAdd, p ∈ T) (hin : Node ∈ A0 ∨ Node ∈ T) :
    ActiveInv A0 { (s.activate e Node).2 with ToAdd := T } := by
  unfold FPollState.activate
  constructor
  · intro q hq
    have hq2 : q ∈ s.ToRemove := hq
    have hne : q ≠ Node := by
      intro hh
      rw [hh] at hq2
      exact (h.removed Node hq2).1 hst
    simp only []
    rw [node_setNode_ne _ _ _ _ hne]
    exact h.removed q hq2
  · intro p hp
    simp only [] at hp ⊢
    rcases node_setNode_cases s.Graph Node p ((s.Graph.node Node).Activate e).2 with h1 | ⟨h1, _⟩
    · rw [h1] at hp
      rcases h.active p hp with h2 | h2
      · exact Or.inl h2
      · exact Or.inr (hT p h2)
    · rw [h1]; exact hin

theorem activate_Calls (e : FEnv) (s : FPollState) (Node : NodePtr) :
    (s.activate e Node).2.Calls = s.Calls ++ [⟨Node, s.Graph⟩] := rfl

theorem activate_fst (e : FEnv) (s : FPollState) (Node : NodePtr) :
    (s.activate e Node).1 = ((s.Graph.node Node).Activate e).1 := rfl

theorem pollChildren_Calls_sub (e : FEnv) :
    ∀ (cs : List NodePtr) (s : FPollState) (c : FActivateCall), c ∈ s.Calls →
      c ∈ (AHoudiniBuildManager.pollChildren e cs s).Calls
  | [], s, c, h => h
  | x :: cs, s, c, h => by
    unfold AHoudiniBuildManager.pollChildren
    simp only []
    split
    · split
      · apply pollChildren_Calls_sub e cs
        simp only [activate_Calls]
        exact List.mem_append.mpr (Or.inl h)
      · apply pollChildren_Calls_sub e cs
        simp only [activate_Calls]
        exact List.mem_append.mpr (Or.inl h)
    · exact pollChildren_Calls_sub e cs _ c h

theorem pollNode_Calls_sub (e : FEnv) (s : FPollState) (x : NodePtr) (c : FActivateCall)
    (h : c ∈ s.Calls) : c ∈ (AHoudiniBuildManager.pollNode e s x).Calls := by
  unfold AHoudiniBuildManager.pollNode
  split
  · exact h
  · simp only []
    split
    · exact h
    · simp only [activate_Calls]
      exact List.mem_append.mpr (Or.inl h)
    · exact pollChildren_Calls_sub e _ _ c h
    · exact h
    · exact h
    · exact h

theorem fold_pollNode_Calls_sub (e : FEnv) :
    ∀ (l : List NodePtr) (s : FPollState) (c : FActivateCall), c ∈ s.Calls →
      c ∈ (l.foldl (AHoudiniBuildManager.pollNode e) s).Calls
  | [], _, _, h => h
  | x :: l, s, c, h => by
    simp only [List.foldl_cons]
    exact fold_pollNode_Calls_sub e l _ c (pollNode_Calls_sub e s x c h)

/-! ## The scheduler: one pass over the active set, regular calls -/

theorem pollChildren_ToRemove (e : FEnv) :
    ∀ (cs : List NodePtr) (s : FPollState) (R : List NodePtr),
      AHoudiniBuildManager.pollChildren e cs { s with ToRemove := R }
        = { AHoudiniBuildManager.pollChildren e cs s with ToRemove := R }
  | [], _, _ => rfl
  | x :: cs, s, R => by
    unfold AHoudiniBuildManager.pollChildren
    simp only []
    split
    · have hfst : (FPollState.activate e
          { s with ToRemove := R, Graph := (UAutomationGraphNode.CanActivate e s.Graph x).2 } x).1
          = (FPollState.activate e
          { s with Graph := (UAutomationGraphNode.CanActivate e s.Graph x).2 } x).1 := rfl
      rw [hfst]
      split
      · exact pollChildren_ToRemove e cs
          { (FPollState.activate e
              { s with Graph := (UAutomationGraphNode.CanActivate e s.Graph x).2 } x).2 with
            ToAdd := TSetAdd (FPollState.activate e
              { s with Graph := (UAutomationGraphNode.CanActivate e s.Graph x).2 } x).2.ToAdd x } R
      · exact pollChildren_ToRemove e cs
          (FPollState.activate e
            { s with Graph := (UAutomationGraphNode.CanActivate e s.Graph x).2 } x).2 R
    · exact pollChildren_ToRemove e cs
        { s with Graph := (UAutomationGraphNode.CanActivate e s.Graph x).2 } R

theorem pollChildren_ToRemove_eq (e : FEnv) (cs : List NodePtr) (s : FPollState) :
    (AHoudiniBuildManager.pollChildren e cs s).ToRemove = s.ToRemove := by
  have h := pollChildren_ToRemove e cs s s.ToRemove
  have h2 : (AHoudiniBuildManager.pollChildren e cs
      { s with ToRemove := s.ToRemove }).ToRemove = s.ToRemove := by rw [h]
  exact h2

/-- The loop over the children of a finished node keeps the invariant when the
calls it makes are regular. -/
theorem ActiveInv_pollChildren (e : FEnv) (A0 : List NodePtr) :
    ∀ (cs : List NodePtr) (s : FPollState), ActiveInv A0 s →
      (∀ c ∈ (AHoudiniBuildManager.pollChildren e cs s).Calls, c.IsRegular e A0) →
      ActiveInv A0 (AHoudiniBuildManager.pollChildren e cs s)
  | [], s, h, _ => h
  | x :: cs, s, h, hreg => by
    have h1 : ActiveInv A0 { s with Graph := (UAutomationGraphNode.CanActivate e s.Graph x).2 } :=
      ActiveInv_of_graph_step h _ (CanActivate_graph e s.Graph x).2.1
        (CanActivate_no_new_Active e s.Graph x)
    unfold AHoudiniBuildManager.pollChildren at hreg ⊢
    simp only [] at hreg ⊢
    split
    · rename_i hcan
      simp only [hcan, if_true] at hreg
      split
      · rename_i hact
        simp only [hact, if_true] at hreg
        have hcall := hreg ⟨x, (UAutomationGraphNode.CanActivate e s.Graph x).2⟩
          (pollChildren_Calls_sub e cs _ _ (by
            simp only [activate_Calls]
            exact List.mem_append.mpr (Or.inr (List.mem_singleton.mpr rfl))))
        apply ActiveInv_pollChildren e A0 cs _ _ hreg
        exact ActiveInv_activate h1 e x (TSetAdd s.ToAdd x) hcall.1
          (fun p hp => (mem_TSetAdd _ _ _).2 (Or.inl hp))
          (Or.inr ((mem_TSetAdd _ _ _).2 (Or.inr rfl)))
      · rename_i hact
        simp only [hact] at hreg
        have hcall := hreg ⟨x, (UAutomationGraphNode.CanActivate e s.Graph x).2⟩
          (pollChildren_Calls_sub e cs _ _ (by
            simp only [activate_Calls]
            exact List.mem_append.mpr (Or.inr (List.mem_singleton.mpr rfl))))
        apply ActiveInv_pollChildren e A0 cs _ _ hreg
        have hx : x ∈ A0 := by
          rcases hcall.2 with h2 | h2
          · exact h2
          · exact absurd h2 hact
        exact ActiveInv_activate h1 e x s.ToAdd hcall.1 (fun p hp => hp) (Or.inl hx)
    · rename_i hcan
      simp only [hcan] at hreg
      exact ActiveInv_pollChildren e A0 cs _ h1 hreg

/-- The state stored behind a pointer after the query `GetState()` through it
is the state the query reported. -/
theorem stored_after_GetState (e : FEnv) (g : UAutomationGraph) (p : NodePtr) :
    ((g.setNode p ((g.node p).GetState e).2).node p).NodeState = ((g.node p).GetState e).1 := by
  rcases node_setNode_same_or_default g p ((g.node p).GetState e).2 with h | h
  · rw [h, GetState_fst]
  · rcases node_setNode_cases g p p ((g.node p).GetState e).2 with h1 | ⟨_, h1⟩
    · rw [h1, h, GetState_of_not_BuildSequence e default (by decide)]
    · rw [h1, GetState_fst]

theorem ActiveInv_remove {A0 : List NodePtr} {s : FPollState} (h : ActiveInv A0 s)
    (x : NodePtr)
    (hx : (s.Graph.node x).NodeState ≠ EAutomationGraphNodeState.Standby
      ∧ (s.Graph.node x).NodeState ≠ EAutomationGraphNodeState.Active) :
    ActiveInv A0 { s with ToRemove := TSetAdd s.ToRemove x } where
  removed := fun q hq => by
    rcases (mem_TSetAdd _ _ _).1 hq with h1 | h1
    · exact h.removed q h1
    · rw [h1]; exact hx
  active := h.active

/-- The body of the loop over the active set keeps the invariant when the calls
it makes are regular. -/
theorem ActiveInv_pollNode (e : FEnv) {A0 : List NodePtr} {s : FPollState}
    (h : ActiveInv A0 s) (x : NodePtr) (hx : x ∈ A0)
    (hreg : ∀ c ∈ (AHoudiniBuildManager.pollNode e s x).Calls, c.IsRegular e A0) :
    ActiveInv A0 (AHoudiniBuildManager.pollNode e s x) := by
  unfold AHoudiniBuildManager.pollNode at hreg ⊢
  split
  · exact ActiveInv_remove h none
      ⟨by show (default : UAutomationGraphNode).NodeState ≠ _; decide,
        by show (default : UAutomationGraphNode).NodeState ≠ _; decide⟩
  · rename_i i
    have h1 : ActiveInv A0
        { s with Graph := s.Graph.setNode (some i) ((s.Graph.node (some i)).GetState e).2 } :=
      ActiveInv_of_graph_step h _
        (NoNewStandby_setNode _ _ _ (GetState_no_new_Standby e _))
        (NoNewActive_setNode _ _ _ (GetState_no_new_Active e _))
    have hst := stored_after_GetState e s.Graph (some i)
    simp only [] at hreg ⊢
    split
    · exact h1
    · rename_i hr
      simp only [hr] at hreg
      have hcall := hreg ⟨some i, s.Graph.setNode (some i) ((s.Graph.node (some i)).GetState e).2⟩
        (by
          simp only [activate_Calls]
          exact List.mem_append.mpr (Or.inr (List.mem_singleton.mpr rfl)))
      exact ActiveInv_activate h1 e (some i) s.ToAdd hcall.1 (fun p hp => hp) (Or.inl hx)
    · rename_i hr
      simp only [hr] at hreg
      have h2 := ActiveInv_remove h1 (some i)
        ⟨by simp only []; rw [hst, hr]; decide, by simp only []; rw [hst, hr]; decide⟩
      have h3 := ActiveInv_pollChildren e A0 _ _ h2 (by
        rw [pollChildren_ToRemove]
        exact hreg)
      rw [pollChildren_ToRemove] at h3
      simp only [pollChildren_ToRemove_eq]
      exact h3
    · rename_i hr
      exact ActiveInv_remove h1 (some i)
        ⟨by simp only []; rw [hst, hr]; decide, by simp only []; rw [hst, hr]; decide⟩
    · rename_i hr
      exact ActiveInv_remove h1 (some i)
        ⟨by simp only []; rw [hst, hr]; decide, by simp only []; rw [hst, hr]; decide⟩
    · rename_i hr
      exact ActiveInv_remove h1 (some i)
        ⟨by simp only []; rw [hst, hr]; decide, by simp only []; rw [hst, hr]; decide⟩

/-! ## The scheduler: nodes stored as Active stay in the active set -/

theorem ActiveInv_fold (e : FEnv) (A0 : List NodePtr) :
    ∀ (l : List NodePtr) (s : FPollState), ActiveInv A0 s → (∀ x ∈ l, x ∈ A0) →
      (∀ c ∈ (l.foldl (AHoudiniBuildManager.pollNode e) s).Calls, c.IsRegular e A0) →
      ActiveInv A0 (l.foldl (AHoudiniBuildManager.pollNode e) s)
  | [], _, h, _, _ => h
  | x :: l, s, h, hl, hreg => by
    simp only [List.foldl_cons] at hreg ⊢
    apply ActiveInv_fold e A0 l _ _ (fun y hy => hl y (List.mem_cons_of_mem _ hy)) hreg
    apply ActiveInv_pollNode e h x (hl x (List.mem_cons_self _ _))
    intro c hc
    exact hreg c (fold_pollNode_Calls_sub e l _ c hc)

/-- A poll tick whose calls of `Activate()` are regular keeps every node stored
as `Active` in the active set. -/
theorem PollActiveNodes_keeps_Active (e : FEnv) (m : AHoudiniBuildManager)
    (h : ∀ p, (m.SequenceGraph.node p).NodeState = EAutomationGraphNodeState.Active →
      p ∈ m.ActiveNodes)
    (hreg : ∀ c ∈ (m.PollActiveNodesCalls e).2, c.IsRegular e m.ActiveNodes) :
    ∀ p, ((m.PollActiveNodesCalls e).1.SequenceGraph.node p).NodeState
        = EAutomationGraphNodeState.Active →
      p ∈ (m.PollActiveNodesCalls e).1.ActiveNodes := by
  unfold AHoudiniBuildManager.PollActiveNodesCalls at hreg ⊢
  split
  · exact h
  · rename_i hrate
    simp only [hrate, if_false] at hreg
    have h0 : ActiveInv m.ActiveNodes
        { Graph := m.SequenceGraph, ToAdd := [], ToRemove := [], Calls := [] } :=
      { removed := fun q hq => by simp at hq
        active := fun p hp => Or.inl (h p hp) }
    have hf := ActiveInv_fold e m.ActiveNodes m.ActiveNodes _ h0 (fun x hx => hx) hreg
    intro p hp
    simp only [] at hp ⊢
    rw [mem_foldl_TSetRemove, mem_TSetAppend]
    refine ⟨hf.active p hp, ?_⟩
    intro hrem
    exact (hf.removed p hrem).2 hp

/-- Poll ticks whose calls of `Activate()` are regular, completion callbacks
and reorderings of the active set keep every node stored as `Active` in the
active set. -/
theorem steps_keep_Active :
    ∀ (evs : List FRunEvent) (m : AHoudiniBuildManager),
      (∀ p, (m.SequenceGraph.node p).NodeState = EAutomationGraphNodeState.Active →
        p ∈ m.ActiveNodes) →
      (∀ ev ∈ evs, ev.withinRun) → m.ActivationsRegular evs →
      ∀ p, ((m.steps evs).1.SequenceGraph.node p).NodeState = EAutomationGraphNodeState.Active →
        p ∈ (m.steps evs).1.ActiveNodes
  | [], _, h, _, _ => h
  | ev :: evs, m, h, hw, hreg => by
    have hw2 : ∀ x ∈ evs, x.withinRun := fun x hx => hw x (List.mem_cons_of_mem _ hx)
    have hev := hw ev (List.mem_cons_self _ _)
    unfold AHoudiniBuildManager.steps
    simp only []
    cases ev with
    | Run e => exact absurd hev (by simp [FRunEvent.withinRun])
    | Cancel => exact absurd hev (by simp [FRunEvent.withinRun])
    | Poll e =>
      exact steps_keep_Active evs _ (PollActiveNodes_keeps_Active e m h hreg.1) hw2 hreg.2
    | PostProcess Node Item Succeeded =>
      apply steps_keep_Active evs _ _ hw2 hreg
      intro p hp
      simp only [AHoudiniBuildManager.step] at hp ⊢
      rw [(PostProcess_node m.SequenceGraph Node Item Succeeded).2 p] at hp
      exact h p hp
    | Reorder l =>
      apply steps_keep_Active evs _ _ hw2 hreg
      intro p hp
      simp only [AHoudiniBuildManager.step] at hp ⊢
      split
      · rename_i hperm
        simp only [hperm, if_true] at hp
        exact hperm.symm.subset (h p hp)
      · rename_i hperm
        simp only [hperm, if_false] at hp
        exact h p hp

/-! ## No node is stored as Active after InitializeNodes -/

theorem BuildSequence_GetState_no_new_Active (e : FEnv) (n : UAutomationGraphNode)
    (h : (UHoudiniBuildSequenceNode.GetState e n).2.NodeState
      = EAutomationGraphNodeState.Active) :
    n.NodeState = EAutomationGraphNodeState.Active := by
  rw [← BuildSequence_GetState_fst] at h
  exact (BuildSequence_GetState_eq_Active e n h).1

theorem Add_no_new_Active (e : FEnv) (a : Option ActorPtr) (n : UAutomationGraphNode)
    (h : (UHoudiniBuildSequenceNode.Add e a n).2.NodeState = EAutomationGraphNodeState.Active) :
    n.NodeState = EAutomationGraphNodeState.Active := by
  have g1 := BuildSequence_GetState_no_new_Active e n
  have g2 := BuildSequence_GetState_no_new_Active e (UHoudiniBuildSequenceNode.GetState e n).2
  unfold UHoudiniBuildSequenceNode.Add at h
  simp only [] at h
  by_cases hu : (UHoudiniBuildSequenceNode.GetState e n).1
      = EAutomationGraphNodeState.Uninitialized
  · simp only [hu, ne_eq, not_true_eq_false, if_false, false_and] at h
    split at h
    · exact g1 h
    · exact g1 h
  · simp only [hu, ne_eq, not_false_eq_true, if_true, true_and] at h
    split at h
    · exact g1 (g2 h)
    · split at h
      · exact g1 (g2 h)
      · exact g1 (g2 h)

theorem addActors_not_Active (e : FEnv) :
    ∀ (l : List ActorPtr) (s : FNodeInit),
      s.Node.NodeState ≠ EAutomationGraphNodeState.Active →
      (AHoudiniBuildManager.addActors e l s).Node.NodeState ≠ EAutomationGraphNodeState.Active
  | [], _, h => h
  | a :: l, s, h => by
    unfold AHoudiniBuildManager.addActors
    split
    · exact addActors_not_Active e l s h
    · exact addActors_not_Active e l _ (fun hh => h (Add_no_new_Active e (some a) s.Node hh))

theorem addActorsByKey_not_Active {κ : Type} [DecidableEq κ] (e : FEnv)
    (m : List (κ × List ActorPtr)) :
    ∀ (ks : List κ) (s : FNodeInit),
      s.Node.NodeState ≠ EAutomationGraphNodeState.Active →
      (AHoudiniBuildManager.addActorsByKey e m ks s).Node.NodeState
        ≠ EAutomationGraphNodeState.Active
  | [], _, h => h
  | k :: ks, s, h => by
    unfold AHoudiniBuildManager.addActorsByKey
    split
    · exact addActorsByKey_not_Active e m ks s h
    · exact addActorsByKey_not_Active e m ks _ (addActors_not_Active e _ s h)

theorem Ready_not_Active (e : FEnv) (n : UAutomationGraphNode)
    (h : n.NodeState ≠ EAutomationGraphNodeState.Active) :
    (n.Ready e).NodeState ≠ EAutomationGraphNodeState.Active := by
  unfold UAutomationGraphNode.Ready
  rw [if_neg h, SetState_NodeState]
  decide

theorem initializeNode_not_Active (e : FEnv) (n : UAutomationGraphNode) (A : List ActorPtr)
    (h : n.NodeState ≠ EAutomationGraphNodeState.Active) :
    (AHoudiniBuildManager.initializeNode e n A).1.NodeState
      ≠ EAutomationGraphNodeState.Active := by
  by_cases hc : n.Class = ENodeClass.HoudiniBuildSequenceNode
  · rw [initializeNode_of_BuildSequence e n A hc]
    have hs : (AHoudiniBuildManager.addMatchedActors e n A).Node.NodeState
        ≠ EAutomationGraphNodeState.Active := by
      unfold AHoudiniBuildManager.addMatchedActors
      exact addActorsByKey_not_Active e _ _ _ (addActorsByKey_not_Active e _ _ _ h)
    simp only []
    split
    · exact Ready_not_Active e _ hs
    · exact hs
  · unfold AHoudiniBuildManager.initializeNode
    split
    · rename_i hh; exact absurd hh hc
    · unfold UAGN_ClearLandscapeLayers.Initialize
      simp only []
      split <;> (rw [SetState_NodeState]; decide)
    · unfold UAGN_ConsoleCommandBase.Initialize
      split <;> (rw [SetState_NodeState]; decide)
    · exact Ready_not_Active e n h

/-- After `InitializeNodes` in the editor world, on a graph with roots, no node
is stored as `Active`. -/
theorem InitializeNodes_not_Active (e : FEnv) (m : AHoudiniBuildManager)
    (hw : e.World.IsEditorWorld = true) (hr : m.SequenceGraph.RootNodes ≠ []) (p : NodePtr) :
    ((m.InitializeNodes e).SequenceGraph.node p).NodeState
      ≠ EAutomationGraphNodeState.Active := by
  obtain ⟨s, hs⟩ := runInitializeNodes_isSome e m hw hr
  have hinv := runInitializeNodes_invariant e m
    (fun g _ _ => ∀ q, (g.node q).NodeState ≠ EAutomationGraphNodeState.Active)
    (fun q => by rw [(graph_Reset_node e m.SequenceGraph q).1]; decide)
    (fun g A _ x hP _ q => by
      rcases node_setNode_cases g x q (AHoudiniBuildManager.initializeNode e (g.node x) A).1
        with h1 | ⟨_, h1⟩
      · rw [h1]; exact hP q
      · rw [h1]; exact initializeNode_not_Active e _ A (hP x)) s hs
  have hg : (m.InitializeNodes e).SequenceGraph = s.Graph := by
    unfold AHoudiniBuildManager.InitializeNodes
    rw [hs]
  rw [hg]
  cases hc : s.CycleError with
  | false => exact hinv.1 hc p
  | true =>
    obtain ⟨g, _, _, hgr⟩ := hinv.2 hc
    rw [hgr, (graph_Reset_node e g p).1]
    decide

/-- C28 (amended): after `Run()` in the editor world on a graph with roots,
called with an empty active set, and any number of poll ticks, completion
callbacks and reorderings of the active set, every node stored as `Active`, and
so every node that reports `Active`, is a member of the active set, provided
every call of `Activate()` the ticks made found its receiver stored as
`Standby` and returned true unless the receiver was in the active set. -/
theorem C28_Active_nodes_in_active_set (e0 : FEnv) (m : AHoudiniBuildManager)
    (evs : List FRunEvent)
    (hw : e0.World.IsEditorWorld = true) (hr : m.SequenceGraph.RootNodes ≠ [])
    (hidle : m.ActiveNodes = [])
    (hrun : ∀ ev ∈ evs, ev.withinRun)
    (hreg : (m.Run e0).ActivationsRegular evs) (p : NodePtr) :
    ((((m.Run e0).steps evs).1.SequenceGraph.node p).NodeState
        = EAutomationGraphNodeState.Active →
      p ∈ ((m.Run e0).steps evs).1.ActiveNodes)
    ∧ (∀ e, ((((m.Run e0).steps evs).1.SequenceGraph.node p).GetState e).1
        = EAutomationGraphNodeState.Active →
      p ∈ ((m.Run e0).steps evs).1.ActiveNodes) := by
  have hstart : ∀ q, ((m.Run e0).SequenceGraph.node q).NodeState
      = EAutomationGraphNodeState.Active → q ∈ (m.Run e0).ActiveNodes := by
    intro q hq
    exfalso
    unfold AHoudiniBuildManager.Run at hq
    rw [hidle] at hq
    simp only [List.isEmpty_nil, not_true_eq_false, if_false] at hq
    exact InitializeNodes_not_Active e0 m hw hr q hq
  have hstored := steps_keep_Active evs (m.Run e0) hstart hrun hreg p
  refine ⟨hstored, ?_⟩
  intro e he
  apply hstored
  apply GetState_no_new_Active e
  rw [← GetState_fst]
  exact he

/-! ## Witnesses and counterexamples: Reset and the states after InitializeNodes -/

/-- Witness of C21 on a Finished build-sequence node with a Finished work item
and on a Finished default node: after `Reset()` the build-sequence node has no
work items and `Activate()` returns false, also after `Ready()` followed by
`Add`; after `Add` followed by `Ready()` it returns true. -/
theorem C21_Reset_witness :
    (exampleFinishedSequenceNode.Reset (exampleEnv 5)).WorkItems = []
    ∧ ((exampleFinishedSequenceNode.Reset (exampleEnv 5)).Activate (exampleEnv 6)).1 = false
    ∧ ((UHoudiniBuildSequenceNode.calls (exampleFinishedSequenceNode.Reset (exampleEnv 5))
        [FNodeCall.Ready (exampleEnv 6), FNodeCall.Add (exampleEnv 7) (some 0)]).Activate
          (exampleEnv 8)).1 = false
    ∧ ((UHoudiniBuildSequenceNode.calls (exampleFinishedSequenceNode.Reset (exampleEnv 5))
        [FNodeCall.Add (exampleEnv 6) (some 0), FNodeCall.Ready (exampleEnv 7)]).Activate
          (exampleEnv 8)).1 = true
    ∧ (({ NodeState := EAutomationGraphNodeState.Finished } : UAutomationGraphNode).Reset
        (exampleEnv 5)).NodeState = EAutomationGraphNodeState.Uninitialized := by
  have h := C21_Reset (exampleEnv 5) exampleFinishedSequenceNode
    { NodeState := EAutomationGraphNodeState.Finished } rfl rfl
  exact ⟨h.1, h.2.2.2.1 _, h.2.2.2.2.1 _ _ rfl, by decide, h.2.2.2.2.2.1⟩

/-- Witness of C29 on an Active build-sequence node without work items. -/
theorem C29_no_work_items_witness :
    (exampleActiveNoItems.GetState (exampleEnv 5)).1 = EAutomationGraphNodeState.Uninitialized
    ∧ (exampleActiveNoItems.GetState (exampleEnv 5)).2.NodeState
        = EAutomationGraphNodeState.Uninitialized
    ∧ (exampleActiveNoItems.Activate (exampleEnv 5)).1 = false := by
  have h := C29_no_work_items (exampleEnv 5) exampleActiveNoItems rfl rfl
  exact ⟨h.1, h.2.1, h.2.2.2.2.1⟩

/-- Witness of C24 on the cycle `0 → 1 → 0`: the build-sequence node 0 is
initialized before the cycle is found at node 1, and after the abort it is
stored as `Uninitialized` without work items. -/
theorem C24_cycle_abort_witness :
    AHoudiniBuildManager.InitializeNodesCycleError (exampleBuildEnv 0) exampleCycleManager = true
    ∧ exampleCycleManager.InitializeNodesInitialized (exampleBuildEnv 0) = [some 0, some 1]
    ∧ ((exampleCycleManager.InitializeNodes (exampleBuildEnv 0)).SequenceGraph.node
        (some 0)).NodeState = EAutomationGraphNodeState.Uninitialized
    ∧ ((exampleCycleManager.InitializeNodes (exampleBuildEnv 0)).SequenceGraph.node
        (some 0)).WorkItems = [] := by
  have h := (C24_cycle_abort_resets (exampleBuildEnv 0) exampleCycleManager (by decide)).1 (some 0)
  exact ⟨by decide, by decide, h.1, h.2.2 (by decide)⟩

/-- Counterexample to C22 as stated, on the chain `0 → 1` of build-sequence
nodes in a world where every actor has a component: node 0 claims both actors,
so that node 1, which selects tag 2, is initialized with no matched target left.
No `Add` call is made on it and none fails, it is readied and stored as
`Standby`, yet its `GetState()` is `Uninitialized`. -/
theorem C22_counterexample :
    AHoudiniBuildManager.InitializeNodesCycleError (exampleBuildEnv 0) exampleClaimChain = false
    ∧ exampleClaimChain.InitializeNodesInitialized (exampleBuildEnv 0) = [some 0, some 1]
    ∧ (exampleClaimChain.SequenceGraph.node (some 1)).Class
        = ENodeClass.HoudiniBuildSequenceNode
    ∧ (exampleBuildWorld.GetHoudiniAssetComponent (some 0)).isSome = true
    ∧ (exampleBuildWorld.GetHoudiniAssetComponent (some 1)).isSome = true
    ∧ exampleBuildWorld.Actors.length = 2
    ∧ ((exampleClaimChain.InitializeNodes (exampleBuildEnv 0)).SequenceGraph.node
        (some 0)).targets = [some 0, some 1]
    ∧ ((exampleClaimChain.InitializeNodes (exampleBuildEnv 0)).SequenceGraph.node
        (some 1)).WorkItems = []
    ∧ ((exampleClaimChain.InitializeNodes (exampleBuildEnv 0)).SequenceGraph.node
        (some 1)).NodeState = EAutomationGraphNodeState.Standby
    ∧ (((exampleClaimChain.InitializeNodes (exampleBuildEnv 0)).SequenceGraph.node
        (some 1)).GetState (exampleBuildEnv 0)).1 = EAutomationGraphNodeState.Uninitialized := by
  decide

theorem exampleBuildWorld_HasComponent (a : Nat)
    (h : ∃ actor, exampleBuildWorld.Actors.getD a none = some (AActor.HoudiniAssetActor actor)) :
    exampleBuildWorld.HasComponent a := by
  obtain ⟨actor, hactor⟩ := h
  have hlt : a < 2 := by
    by_contra hge
    have : exampleBuildWorld.Actors.getD a none = none :=
      List.getD_eq_default _ _ (Nat.le_of_not_lt hge)
    rw [this] at hactor
    exact absurd hactor (by simp)
  have h01 : a = 0 ∨ a = 1 := by omega
  rcases h01 with h0 | h1
  · subst h0; exact ⟨{ HoudiniAsset := some 7 }, rfl⟩
  · subst h1; exact ⟨{ HoudiniAsset := some 8 }, rfl⟩

/-- Witness of C22 (amended) on the chain `0 → 1` of build-sequence nodes: node
0 is the first to claim actor 0, every actor has a component, and the
`GetState()` of node 0 is `Standby`. -/
theorem C22_InitializeNodes_witness :
    exampleClaimChain.FirstClaims (exampleBuildEnv 0) (some 0) 0
    ∧ ((exampleClaimChain.InitializeNodes (exampleBuildEnv 0)).SequenceGraph.node
        (some 0)).NodeState = EAutomationGraphNodeState.Standby
    ∧ (((exampleClaimChain.InitializeNodes (exampleBuildEnv 0)).SequenceGraph.node
        (some 0)).GetState (exampleBuildEnv 1)).1 = EAutomationGraphNodeState.Standby := by
  have hI : exampleClaimChain.InitializeNodesInitialized (exampleBuildEnv 0)
      = [some 0, some 1] := by decide
  have hfirst : exampleClaimChain.FirstClaims (exampleBuildEnv 0) (some 0) 0 := by
    refine ⟨⟨by decide, ⟨{ Tags := [1], HoudiniAssetComponent := some { HoudiniAsset := some 7 } },
      rfl, Or.inl ⟨1, by decide, by decide⟩⟩⟩, [], [some 1], ?_, ?_⟩
    · rw [hI]; rfl
    · intro q hq; simp at hq
  have h := C22_InitializeNodes_Standby (exampleBuildEnv 0) exampleClaimChain (some 0)
    (by decide) (by rw [hI]; simp) (by decide)
    (fun a ha => exampleBuildWorld_HasComponent a (by
      obtain ⟨⟨_, actor, hactor, _⟩, _⟩ := ha
      exact ⟨actor, hactor⟩))
  exact ⟨hfirst, h.1, h.2.1 ⟨0, hfirst⟩ _⟩

/-- Counterexample to C23 as stated, on one build-sequence root that selects tag
1 in `exampleWorld`: `Add` succeeds for actor 0 and fails for actor 3, which has
no component; when initialization completes the node holds the work item on
actor 0, is stored as `Uninitialized` and reports `Uninitialized`, not `Error`. -/
theorem C23_counterexample :
    AHoudiniBuildManager.InitializeNodesCycleError (exampleEnv 0) exampleMissingComponent = false
    ∧ exampleMissingComponent.InitializeNodesInitialized (exampleEnv 0) = [some 0]
    ∧ exampleWorld.GetHoudiniAssetComponent (some 3) = none
    ∧ (UHoudiniBuildSequenceNode.Add (exampleEnv 0) (some 3)
        ((exampleMissingComponent.SequenceGraph.Reset (exampleEnv 0)).node (some 0))).1 = false
    ∧ ((exampleMissingComponent.InitializeNodes (exampleEnv 0)).SequenceGraph.node
        (some 0)).targets = [some 0]
    ∧ ((exampleMissingComponent.InitializeNodes (exampleEnv 0)).SequenceGraph.node
        (some 0)).NodeState = EAutomationGraphNodeState.Uninitialized
    ∧ (((exampleMissingComponent.InitializeNodes (exampleEnv 0)).SequenceGraph.node
        (some 0)).GetState (exampleEnv 0)).1 = EAutomationGraphNodeState.Uninitialized
    ∧ (((exampleMissingComponent.InitializeNodes (exampleEnv 0)).SequenceGraph.node
        (some 0)).GetState (exampleEnv 0)).1 ≠ EAutomationGraphNodeState.Error := by
  decide

/-- Witness of C23 (amended) on the same input: node 0 is the first to claim
actor 3, which has no component, and ends `Uninitialized`. -/
theorem C23_failed_Add_witness :
    exampleMissingComponent.FirstClaims (exampleEnv 0) (some 0) 3
    ∧ ¬ exampleWorld.HasComponent 3
    ∧ ((exampleMissingComponent.InitializeNodes (exampleEnv 0)).SequenceGraph.node
        (some 0)).NodeState = EAutomationGraphNodeState.Uninitialized
    ∧ (((exampleMissingComponent.InitializeNodes (exampleEnv 0)).SequenceGraph.node
        (some 0)).GetState (exampleEnv 1)).1 = EAutomationGraphNodeState.Uninitialized := by
  have hI : exampleMissingComponent.InitializeNodesInitialized (exampleEnv 0)
      = [some 0] := by decide
  have hfirst : exampleMissingComponent.FirstClaims (exampleEnv 0) (some 0) 3 := by
    refine ⟨⟨by decide, ⟨{ Tags := [1], HoudiniAssetComponent := none },
      rfl, Or.inl ⟨1, by decide, by decide⟩⟩⟩, [], [], ?_, ?_⟩
    · rw [hI]; rfl
    · intro q hq; simp at hq
  have hno : ¬ exampleWorld.HasComponent 3 := by
    rintro ⟨c, hc⟩
    have hnone : exampleWorld.GetHoudiniAssetComponent (some 3) = none := by decide
    rw [hnone] at hc
    exact absurd hc (by simp)
  have h := C23_failed_Add_Uninitialized (exampleEnv 0) exampleMissingComponent (some 0) 3
    (by decide) hfirst hno
  exact ⟨hfirst, hno, h.2.1, h.2.2 _⟩

/-! ## Witnesses and counterexamples: the active set -/

/-- The run that C26 fails on: node 5 joins the active set at the third tick,
when its parent 2 is polled `Finished` and its parent 4 is found `Finished` by
the parent query; in the same tick the finished parent 3 activates the Finished
node 4 a second time. The fourth tick removes the Finished node 5 from the
active set. When the work item of node 4 completes again, the fifth tick polls
node 4 `Finished` and activates the Finished node 5, which is added to the
active set once more. -/
theorem C26_failing_run :
    (exampleSecondEntry.steps exampleSecondEntryEvents3).1.ActiveNodes = [some 4, some 5]
    ∧ (exampleSecondEntry.steps exampleSecondEntryEvents3).2.map (fun c => c.Node)
        = [some 0, some 1, some 2, some 3, some 4, some 5, some 4]
    ∧ (exampleSecondEntry.steps exampleSecondEntryEvents4).1.ActiveNodes = [some 4]
    ∧ ((exampleSecondEntry.steps exampleSecondEntryEvents4).1.SequenceGraph.node
        (some 5)).NodeState = EAutomationGraphNodeState.Finished
    ∧ (exampleSecondEntry.steps exampleSecondEntryEvents5).1.ActiveNodes = [some 5]
    ∧ ((exampleSecondEntry.steps exampleSecondEntryEvents5).1.SequenceGraph.node
        (some 5)).NodeState = EAutomationGraphNodeState.Active
    ∧ (exampleSecondEntry.steps exampleSecondEntryEvents5).2.map (fun c => c.Node)
        = [some 0, some 1, some 2, some 3, some 4, some 5, some 4, some 5] := by
  decide

/-- Counterexample to C28 as stated, on the chain `0 → 1` whose node 1 is a
build-sequence node with a work item of the base class: after `Run()` and two
ticks the second tick has polled node 0 `Finished` and called `Activate()` on
node 1, stored as `Standby`; the call stored `Active`, started the work item,
whose `BuildInternal` returned false, and returned false, so node 1 was not
added to the active set. Node 1 is stored as `Active`, reports `Active`, and
the active set is empty. -/
theorem C28_counterexample :
    (exampleBuildEnv 0).World.IsEditorWorld = true
    ∧ exampleFailedStart.ActiveNodes = []
    ∧ ((exampleFailedStart.Run (exampleBuildEnv 0)).steps
        [FRunEvent.Poll (exampleBuildEnv 100)]).1.ActiveNodes = [some 0]
    ∧ ((((exampleFailedStart.Run (exampleBuildEnv 0)).steps
        [FRunEvent.Poll (exampleBuildEnv 100)]).1.PollActiveNodesCalls
          (exampleBuildEnv 200)).2.map
        (fun c => (c.Node, (c.Graph.node c.Node).NodeState,
          ((c.Graph.node c.Node).Activate (exampleBuildEnv 200)).1))
      = [(some 1, EAutomationGraphNodeState.Standby, false)])
    ∧ ((exampleFailedStart.Run (exampleBuildEnv 0)).steps
        [FRunEvent.Poll (exampleBuildEnv 100),
         FRunEvent.Poll (exampleBuildEnv 200)]).1.ActiveNodes = []
    ∧ (((exampleFailedStart.Run (exampleBuildEnv 0)).steps
        [FRunEvent.Poll (exampleBuildEnv 100),
         FRunEvent.Poll (exampleBuildEnv 200)]).1.SequenceGraph.node (some 1)).NodeState
        = EAutomationGraphNodeState.Active
    ∧ ((((exampleFailedStart.Run (exampleBuildEnv 0)).steps
        [FRunEvent.Poll (exampleBuildEnv 100),
         FRunEvent.Poll (exampleBuildEnv 200)]).1.SequenceGraph.node (some 1)).GetState
          (exampleBuildEnv 300)).1 = EAutomationGraphNodeState.Active := by
  decide

/-- Witness of C28 (amended) on the diamond with two build-sequence nodes:
after `Run()` and two ticks, whose calls of `Activate()` are regular, the
nodes 1 and 2 are stored as `Active` and are in the active set. -/
theorem C28_Active_nodes_witness :
    (((exampleBuildDiamond.Run (exampleBuildEnv 0)).steps
        [FRunEvent.Poll (exampleBuildEnv 100),
         FRunEvent.Poll (exampleBuildEnv 200)]).1.SequenceGraph.node (some 1)).NodeState
      = EAutomationGraphNodeState.Active
    ∧ some 1 ∈ ((exampleBuildDiamond.Run (exampleBuildEnv 0)).steps
        [FRunEvent.Poll (exampleBuildEnv 100),
         FRunEvent.Poll (exampleBuildEnv 200)]).1.ActiveNodes := by
  have hstate : (((exampleBuildDiamond.Run (exampleBuildEnv 0)).steps
        [FRunEvent.Poll (exampleBuildEnv 100),
         FRunEvent.Poll (exampleBuildEnv 200)]).1.SequenceGraph.node (some 1)).NodeState
      = EAutomationGraphNodeState.Active := by decide
  refine ⟨hstate, (C28_Active_nodes_in_active_set (exampleBuildEnv 0) exampleBuildDiamond
    [FRunEvent.Poll (exampleBuildEnv 100), FRunEvent.Poll (exampleBuildEnv 200)]
    rfl (by decide) rfl ?_ ?_ (some 1)).1 hstate⟩
  · intro ev hev
    simp only [List.mem_cons, List.mem_singleton, List.not_mem_nil, or_false] at hev
    rcases hev with h | h <;> subst h <;> trivial
  · refine ⟨?_, ?_, trivial⟩
    · intro c hc
      exact (by decide : ∀ c ∈ ((exampleBuildDiamond.Run (exampleBuildEnv 0)).PollActiveNodesCalls
          (exampleBuildEnv 100)).2,
        (c.Graph.node c.Node).NodeState = EAutomationGraphNodeState.Standby
          ∧ (c.Node ∈ (exampleBuildDiamond.Run (exampleBuildEnv 0)).ActiveNodes
            ∨ ((c.Graph.node c.Node).Activate (exampleBuildEnv 100)).1 = true)) c hc
    · intro c hc
      exact (by decide : ∀ c ∈ (((exampleBuildDiamond.Run (exampleBuildEnv 0)).PollActiveNodesCalls
          (exampleBuildEnv 100)).1.PollActiveNodesCalls (exampleBuildEnv 200)).2,
        (c.Graph.node c.Node).NodeState = EAutomationGraphNodeState.Standby
          ∧ (c.Node ∈ ((exampleBuildDiamond.Run (exampleBuildEnv 0)).PollActiveNodesCalls
              (exampleBuildEnv 100)).1.ActiveNodes
            ∨ ((c.Graph.node c.Node).Activate (exampleBuildEnv 200)).1 = true)) c hc

/-! ## Rebuild: the result depends on the editor graph only -/

theorem rebuildNode_length (ed : UEdGraph_HoudiniBuildSequenceGraph) (g : UAutomationGraph)
    (j : Nat) : (ed.rebuildNode g j).Nodes.length = g.Nodes.length := by
  unfold UEdGraph_HoudiniBuildSequenceGraph.rebuildNode
  split
  · rfl
  · split
    · rfl
    · simp only []
      split
      · exact setNode_length _ _ _
      · exact setNode_length _ _ _

theorem node_some_lt (g : UAutomationGraph) (k : Nat) (h : k < g.Nodes.length) :
    g.IsNode (some k) := ⟨k, rfl, h⟩

/-- The node objects after a write of links: what the links `o` prescribe
behind each pointer, over the node objects of `g`. -/
theorem rebuildNode_written (ed : UEdGraph_HoudiniBuildSequenceGraph) (g : UAutomationGraph)
    (j k : Nat) (n : UEdNode_HoudiniBuildSequenceNode)
    (hn : ed.sequenceNode j = some n) (hk : n.SequenceNode = some k)
    (hin : g.IsNode (some k)) :
    (ed.rebuildNode g j).RootNodes
        = g.RootNodes ++ (if (ed.rebuildSets j n.Pins).ParentNodes.isEmpty then [some k] else [])
    ∧ ∀ p, (ed.rebuildNode g j).node p
        = if p = some k then
            { g.node p with ParentNodes := (ed.rebuildSets j n.Pins).ParentNodes,
                            ChildNodes := (ed.rebuildSets j n.Pins).ChildNodes }
          else g.node p := by
  unfold UEdGraph_HoudiniBuildSequenceGraph.rebuildNode
  simp only [hn, hk]
  rw [node_setNode_self g (some k) _ hin]
  simp only []
  have hnode : ∀ p, (g.setNode (some k)
      { g.node (some k) with ParentNodes := (ed.rebuildSets j n.Pins).ParentNodes,
                             ChildNodes := (ed.rebuildSets j n.Pins).ChildNodes }).node p
      = if p = some k then
          { g.node p with ParentNodes := (ed.rebuildSets j n.Pins).ParentNodes,
                          ChildNodes := (ed.rebuildSets j n.Pins).ChildNodes }
        else g.node p := by
    intro p
    by_cases hp : p = some k
    · subst hp
      simp only [if_true]
      exact node_setNode_self g (some k) _ hin
    · simp only [hp, if_false]
      exact node_setNode_ne g (some k) p _ hp
  split
  · exact ⟨by simp only [setNode_RootNodes], hnode⟩
  · exact ⟨by simp only [setNode_RootNodes, List.append_nil], hnode⟩

theorem rebuildNode_dropped (ed : UEdGraph_HoudiniBuildSequenceGraph) (g : UAutomationGraph)
    (j k : Nat) (n : UEdNode_HoudiniBuildSequenceNode)
    (hn : ed.sequenceNode j = some n) (hk : n.SequenceNode = some k)
    (hout : ¬ g.IsNode (some k)) :
    (ed.rebuildNode g j).RootNodes = g.RootNodes ++ [some k]
    ∧ ∀ p, (ed.rebuildNode g j).node p = g.node p := by
  have hset : ∀ x, g.setNode (some k) x = g := by
    intro x
    unfold UAutomationGraph.setNode
    simp only []
    have : g.Nodes.set k x = g.Nodes :=
      List.set_eq_of_length_le (Nat.le_of_not_lt (fun h => hout (node_some_lt g k h)))
    rw [this]
  unfold UEdGraph_HoudiniBuildSequenceGraph.rebuildNode
  simp only [hn, hk, hset]
  rw [node_not_IsNode g (some k) hout]
  simp only [default, instInhabitedUAutomationGraphNode, List.isEmpty_nil, if_true, true_and]
  intro p
  rfl

/-- One turn of the rebuild, for graphs with `len` node objects: the roots it
appends and the links it writes are the same for all of them, and it changes
nothing but the links of one node. -/
theorem rebuildNode_closed (ed : UEdGraph_HoudiniBuildSequenceGraph) (len j : Nat) :
    ∃ (R : List NodePtr) (o : NodePtr → Option (List NodePtr × List NodePtr)),
      (∀ n k, ed.sequenceNode j = some n → n.SequenceNode = some k → k < len →
        (o (some k)).isSome = true)
      ∧ ∀ g : UAutomationGraph, g.Nodes.length = len →
        (ed.rebuildNode g j).RootNodes = g.RootNodes ++ R
        ∧ ∀ p, (ed.rebuildNode g j).node p
            = match o p with
              | some x => { g.node p with ParentNodes := x.1, ChildNodes := x.2 }
              | none => g.node p := by
  cases hn : ed.sequenceNode j with
  | none =>
    refine ⟨[], fun _ => none, fun _ _ h => absurd h (by simp), fun g _ => ?_⟩
    unfold UEdGraph_HoudiniBuildSequenceGraph.rebuildNode
    simp [hn]
  | some n =>
    cases hk : n.SequenceNode with
    | none =>
      refine ⟨[], fun _ => none, ?_, fun g _ => ?_⟩
      · intro n1 k1 h1 h2
        simp only [Option.some.injEq] at h1
        subst h1
        rw [hk] at h2
        exact absurd h2 (by simp)
      · unfold UEdGraph_HoudiniBuildSequenceGraph.rebuildNode
        simp [hn, hk]
    | some k =>
      by_cases hlt : k < len
      · refine ⟨if (ed.rebuildSets j n.Pins).ParentNodes.isEmpty then [some k] else [],
          fun p => if p = some k then
            some ((ed.rebuildSets j n.Pins).ParentNodes, (ed.rebuildSets j n.Pins).ChildNodes)
          else none, ?_, fun g hg => ?_⟩
        · intro n1 k1 h1 h2 _
          simp only [Option.some.injEq] at h1
          subst h1
          rw [hk] at h2
          simp only [Option.some.injEq] at h2
          subst h2
          simp
        · obtain ⟨h1, h2⟩ := rebuildNode_written ed g j k n hn hk
            (node_some_lt g k (by rw [hg]; exact hlt))
          refine ⟨h1, ?_⟩
          intro p
          rw [h2 p]
          by_cases hp : p = some k
          · simp only [hp, if_true]
          · simp only [hp, if_false]
      · refine ⟨[some k], fun _ => none, ?_, fun g hg => ?_⟩
        · intro n1 k1 h1 h2 h3
          simp only [Option.some.injEq] at h1
          subst h1
          rw [hk] at h2
          simp only [Option.some.injEq] at h2
          subst h2
          exact absurd h3 hlt
        · have hout : ¬ g.IsNode (some k) := by
            rintro ⟨i, hi, hlen⟩
            simp only [Option.some.injEq] at hi
            subst hi
            exact hlt (by rw [← hg]; exact hlen)
          exact rebuildNode_dropped ed g j k n hn hk hout

/-- The turns of the rebuild for the editor nodes of `l`, on graphs with `len`
node objects: the same closed form. -/
theorem rebuild_fold_closed (ed : UEdGraph_HoudiniBuildSequenceGraph) (len : Nat) :
    ∀ l : List Nat,
      ∃ (R : List NodePtr) (o : NodePtr → Option (List NodePtr × List NodePtr)),
        (∀ j ∈ l, ∀ n k, ed.sequenceNode j = some n → n.SequenceNode = some k → k < len →
          (o (some k)).isSome = true)
        ∧ ∀ g : UAutomationGraph, g.Nodes.length = len →
          (l.foldl ed.rebuildNode g).RootNodes = g.RootNodes ++ R
          ∧ ∀ p, (l.foldl ed.rebuildNode g).node p
              = match o p with
                | some x => { g.node p with ParentNodes := x.1, ChildNodes := x.2 }
                | none => g.node p
  | [] => ⟨[], fun _ => none, fun j hj => by simp at hj, fun g _ => ⟨by simp, fun _ => rfl⟩⟩
  | i :: l => by
    obtain ⟨R1, o1, hs1, h1⟩ := rebuildNode_closed ed len i
    obtain ⟨R2, o2, hs2, h2⟩ := rebuild_fold_closed ed len l
    refine ⟨R1 ++ R2, fun p => match o2 p with
      | some x => some x
      | none => o1 p, ?_, ?_⟩
    · intro j hj n k hn hk hlt
      simp only []
      cases ho : o2 (some k) with
      | some x => rfl
      | none =>
        simp only []
        rcases List.mem_cons.mp hj with h | h
        · subst h; exact hs1 n k hn hk hlt
        · have := hs2 j h n k hn hk hlt
          rw [ho] at this
          exact absurd this (by simp)
    · intro g hg
      obtain ⟨a1, a2⟩ := h1 g hg
      obtain ⟨b1, b2⟩ := h2 (ed.rebuildNode g i) (by rw [rebuildNode_length]; exact hg)
      simp only [List.foldl_cons]
      refine ⟨by rw [b1, a1, List.append_assoc], ?_⟩
      intro p
      rw [b2 p, a2 p]
      cases ho2 : o2 p with
      | some x =>
        simp only []
        cases o1 p <;> rfl
      | none => rfl

/-! ## Rebuild: idempotence -/

theorem sequenceNode_lt (ed : UEdGraph_HoudiniBuildSequenceGraph) (i : Nat)
    (n : UEdNode_HoudiniBuildSequenceNode) (h : ed.sequenceNode i = some n) :
    i < ed.Nodes.length := by
  by_contra hlt
  unfold UEdGraph_HoudiniBuildSequenceGraph.sequenceNode at h
  rw [List.getD_eq_default _ _ (Nat.le_of_not_lt hlt)] at h
  simp at h

theorem graph_ext_nodes (g1 g2 : UAutomationGraph) (hl : g1.Nodes.length = g2.Nodes.length)
    (hn : ∀ p, g1.node p = g2.node p) (hr : g1.RootNodes = g2.RootNodes) : g1 = g2 := by
  have hnodes : g1.Nodes = g2.Nodes := by
    apply List.ext_getElem hl
    intro i h1 h2
    have := hn (some i)
    simp only [UAutomationGraph.node, List.getD_eq_getElem _ _ h1,
      List.getD_eq_getElem _ _ h2] at this
    exact this
  cases g1
  cases g2
  simp only at hnodes hr
  rw [hnodes, hr]

/-- The rebuild on graphs with `len` node objects: the root set and the links it
writes are the same for all of them, it writes the links of every node an editor
node carries, and it changes nothing else. -/
theorem Rebuild_closed (ed : UEdGraph_HoudiniBuildSequenceGraph) (len : Nat) :
    ∃ (R : List NodePtr) (o : NodePtr → Option (List NodePtr × List NodePtr)),
      (∀ j n k, ed.sequenceNode j = some n → n.SequenceNode = some k → k < len →
        (o (some k)).isSome = true)
      ∧ ∀ g : UAutomationGraph, g.Nodes.length = len →
        (ed.RebuildSequenceGraph g).RootNodes = R
        ∧ ∀ p, (ed.RebuildSequenceGraph g).node p
            = match o p with
              | some x => { g.node p with ParentNodes := x.1, ChildNodes := x.2 }
              | none => g.node p := by
  obtain ⟨R, o, hs, h⟩ := rebuild_fold_closed ed len (List.range ed.Nodes.length)
  refine ⟨R, o, ?_, ?_⟩
  · intro j n k hn hk hlt
    exact hs j (List.mem_range.mpr (sequenceNode_lt ed j n hn)) n k hn hk hlt
  · intro g hg
    obtain ⟨h1, h2⟩ := h { g with RootNodes := [] } hg
    unfold UEdGraph_HoudiniBuildSequenceGraph.RebuildSequenceGraph
    refine ⟨by rw [h1]; rfl, ?_⟩
    intro p
    rw [h2 p]
    rfl

theorem Rebuild_length (ed : UEdGraph_HoudiniBuildSequenceGraph) (g : UAutomationGraph) :
    (ed.RebuildSequenceGraph g).Nodes.length = g.Nodes.length := by
  unfold UEdGraph_HoudiniBuildSequenceGraph.RebuildSequenceGraph
  have : ∀ (l : List Nat) (g1 : UAutomationGraph),
      (l.foldl ed.rebuildNode g1).Nodes.length = g1.Nodes.length := by
    intro l
    induction l with
    | nil => intro g1; rfl
    | cons i l ih =>
      intro g1
      simp only [List.foldl_cons]
      rw [ih, rebuildNode_length]
  exact this _ _

/-- C27: for every editor graph, the rebuild of two graphs that hold the same
number of node objects, whatever their parent lists, child lists, root sets and
other fields, yields the same root set and, for every node an editor node
carries, the same parent list and the same child list; and the rebuild of a
rebuilt graph returns the rebuilt graph. -/
theorem C27_Rebuild_idempotent (ed : UEdGraph_HoudiniBuildSequenceGraph) :
    (∀ g g1 : UAutomationGraph, g.Nodes.length = g1.Nodes.length →
      (ed.RebuildSequenceGraph g).RootNodes = (ed.RebuildSequenceGraph g1).RootNodes
      ∧ ∀ i n k, ed.sequenceNode i = some n → n.SequenceNode = some k →
          ((ed.RebuildSequenceGraph g).node (some k)).ParentNodes
            = ((ed.RebuildSequenceGraph g1).node (some k)).ParentNodes
          ∧ ((ed.RebuildSequenceGraph g).node (some k)).ChildNodes
            = ((ed.RebuildSequenceGraph g1).node (some k)).ChildNodes)
    ∧ ∀ g : UAutomationGraph,
        ed.RebuildSequenceGraph (ed.RebuildSequenceGraph g) = ed.RebuildSequenceGraph g := by
  constructor
  · intro g g1 hlen
    obtain ⟨R, o, hs, h⟩ := Rebuild_closed ed g.Nodes.length
    obtain ⟨a1, a2⟩ := h g rfl
    obtain ⟨b1, b2⟩ := h g1 hlen.symm
    refine ⟨by rw [a1, b1], ?_⟩
    intro i n k hn hk
    rw [a2 (some k), b2 (some k)]
    cases ho : o (some k) with
    | some x => exact ⟨rfl, rfl⟩
    | none =>
      simp only []
      have hge : ¬ k < g.Nodes.length := by
        intro hlt
        have := hs i n k hn hk hlt
        rw [ho] at this
        exact absurd this (by simp)
      have h1 : g.node (some k) = default :=
        node_not_IsNode g _ (by
          rintro ⟨j, hj, hjl⟩
          simp only [Option.some.injEq] at hj
          subst hj
          exact hge hjl)
      have h2 : g1.node (some k) = default :=
        node_not_IsNode g1 _ (by
          rintro ⟨j, hj, hjl⟩
          simp only [Option.some.injEq] at hj
          subst hj
          exact hge (by rw [hlen]; exact hjl))
      rw [h1, h2]
      exact ⟨rfl, rfl⟩
  · intro g
    obtain ⟨R, o, _, h⟩ := Rebuild_closed ed g.Nodes.length
    obtain ⟨a1, a2⟩ := h g rfl
    obtain ⟨b1, b2⟩ := h (ed.RebuildSequenceGraph g) (Rebuild_length ed g)
    apply graph_ext_nodes
    · exact Rebuild_length ed _
    · intro p
      rw [b2 p, a2 p]
      cases o p <;> rfl
    · rw [b1, a1]

/-! ## Rebuild: the sets computed for one editor node -/

theorem LinkReaches_iff (ed : UEdGraph_HoudiniBuildSequenceGraph) (x : Nat)
    (dir : EEdGraphPinDirection) (d : Nat) (p : NodePtr)
    (edge : UEdNode_HoudiniBuildSequenceEdge) (l : Nat) (nl : UEdNode_HoudiniBuildSequenceNode)
    (hedge : ed.sequenceEdge d = some edge) (hl : edge.linkedNode dir = some l)
    (hnl : ed.sequenceNode l = some nl) :
    ed.LinkReaches x dir d p ↔ l ≠ x ∧ nl.SequenceNode = p := by
  unfold UEdGraph_HoudiniBuildSequenceGraph.LinkReaches
  constructor
  · rintro ⟨edge1, l1, nl1, h1, h2, h3, h4, h5⟩
    rw [hedge] at h1
    simp only [Option.some.injEq] at h1
    subst h1
    rw [hl] at h2
    simp only [Option.some.injEq] at h2
    subst h2
    rw [hnl] at h4
    simp only [Option.some.injEq] at h4
    subst h4
    exact ⟨h3, h5⟩
  · rintro ⟨h3, h5⟩
    exact ⟨edge, l, nl, hedge, hl, h3, hnl, h5⟩

theorem not_LinkReaches_of_self (ed : UEdGraph_HoudiniBuildSequenceGraph) (x : Nat)
    (dir : EEdGraphPinDirection) (d : Nat) (p : NodePtr)
    (edge : UEdNode_HoudiniBuildSequenceEdge)
    (hedge : ed.sequenceEdge d = some edge)
    (h : ∀ l nl, edge.linkedNode dir = some l → ed.sequenceNode l = some nl → l = x) :
    ¬ ed.LinkReaches x dir d p := by
  rintro ⟨edge1, l1, nl1, h1, h2, h3, h4, _⟩
  rw [hedge] at h1
  simp only [Option.some.injEq] at h1
  subst h1
  exact h3 (h l1 nl1 h2 h4)

theorem not_LinkReaches_of_no_edge (ed : UEdGraph_HoudiniBuildSequenceGraph) (x : Nat)
    (dir : EEdGraphPinDirection) (d : Nat) (p : NodePtr)
    (hedge : ed.sequenceEdge d = none) : ¬ ed.LinkReaches x dir d p := by
  rintro ⟨edge1, l1, nl1, h1, _⟩
  rw [hedge] at h1
  exact absurd h1 (by simp)

theorem mem_add_unless_contains (s : List NodePtr) (v p : NodePtr) :
    p ∈ (if s.contains v = true then s else TSetAdd s v) ↔ p ∈ s ∨ v = p := by
  split
  · rename_i h
    have hm : v ∈ s := by simpa using h
    constructor
    · intro hp; exact Or.inl hp
    · rintro (hp | hp)
      · exact hp
      · rw [← hp]; exact hm
  · rw [mem_TSetAdd]
    constructor
    · rintro (hp | hp)
      · exact Or.inl hp
      · exact Or.inr hp.symm
    · rintro (hp | hp)
      · exact Or.inl hp
      · exact Or.inr hp.symm

theorem nodup_add_unless_contains (s : List NodePtr) (v : NodePtr)
    (h : s.Nodup) : (if s.contains v = true then s else TSetAdd s v).Nodup := by
  split
  · exact h
  · exact TSetAdd_nodup _ _ h

/-- What the body of the loop over the links of a pin returns. -/
theorem rebuildLink_eq (ed : UEdGraph_HoudiniBuildSequenceGraph) (x : Nat)
    (dir : EEdGraphPinDirection) (s : FRebuildSets) (d : Nat) :
    (ed.rebuildLink x dir s d = s ∧ ∀ p, ¬ ed.LinkReaches x dir d p)
    ∨ (∃ v, (∀ p, ed.LinkReaches x dir d p ↔ v = p)
        ∧ ((dir = EEdGraphPinDirection.EGPD_Input
            ∧ ed.rebuildLink x dir s d
              = { s with ParentNodes :=
                    if s.ParentNodes.contains v = true then s.ParentNodes
                    else TSetAdd s.ParentNodes v })
          ∨ (dir = EEdGraphPinDirection.EGPD_Output
            ∧ ed.rebuildLink x dir s d
              = { s with ChildNodes :=
                    if s.ChildNodes.contains v = true then s.ChildNodes
                    else TSetAdd s.ChildNodes v }))) := by
  cases hedge : ed.sequenceEdge d with
  | none =>
    left
    refine ⟨?_, fun p => not_LinkReaches_of_no_edge ed x dir d p hedge⟩
    unfold UEdGraph_HoudiniBuildSequenceGraph.rebuildLink
    rw [hedge]
  | some edge =>
    cases hl : edge.linkedNode dir with
    | none =>
      left
      constructor
      · unfold UEdGraph_HoudiniBuildSequenceGraph.rebuildLink
        rw [hedge]
        cases dir <;> simp only [UEdNode_HoudiniBuildSequenceEdge.linkedNode] at hl
          <;> simp only [hl]
      · intro p
        apply not_LinkReaches_of_self ed x dir d p edge hedge
        intro l nl h1
        rw [hl] at h1
        exact absurd h1 (by simp)
    | some l =>
      cases hnl : ed.sequenceNode l with
      | none =>
        left
        constructor
        · unfold UEdGraph_HoudiniBuildSequenceGraph.rebuildLink
          rw [hedge]
          cases dir <;> simp only [UEdNode_HoudiniBuildSequenceEdge.linkedNode] at hl
            <;> simp only [hl, hnl]
        · intro p
          apply not_LinkReaches_of_self ed x dir d p edge hedge
          intro l1 nl1 h1 h2
          rw [hl] at h1
          simp only [Option.some.injEq] at h1
          subst h1
          rw [hnl] at h2
          exact absurd h2 (by simp)
      | some nl =>
        by_cases hlx : l = x
        · left
          constructor
          · subst hlx
            unfold UEdGraph_HoudiniBuildSequenceGraph.rebuildLink
            rw [hedge]
            cases dir <;> simp only [UEdNode_HoudiniBuildSequenceEdge.linkedNode] at hl
              <;> simp only [hl, hnl, if_true]
          · intro p
            apply not_LinkReaches_of_self ed x dir d p edge hedge
            intro l1 nl1 h1 _
            rw [hl] at h1
            simp only [Option.some.injEq] at h1
            rw [← h1]; exact hlx
        · right
          refine ⟨nl.SequenceNode, ?_, ?_⟩
          · intro p
            rw [LinkReaches_iff ed x dir d p edge l nl hedge hl hnl]
            exact ⟨fun h => h.2, fun h => ⟨hlx, h⟩⟩
          · unfold UEdGraph_HoudiniBuildSequenceGraph.rebuildLink
            rw [hedge]
            cases dir with
            | EGPD_MAX =>
              simp only [UEdNode_HoudiniBuildSequenceEdge.linkedNode] at hl
              exact absurd hl (by simp)
            | EGPD_Input =>
              simp only [UEdNode_HoudiniBuildSequenceEdge.linkedNode] at hl
              left
              refine ⟨rfl, ?_⟩
              simp only [hl, hnl, hlx, if_false]
              split <;> rfl
            | EGPD_Output =>
              simp only [UEdNode_HoudiniBuildSequenceEdge.linkedNode] at hl
              right
              refine ⟨rfl, ?_⟩
              simp only [hl, hnl, hlx, if_false]
              split <;> rfl

/-- The body of the loop over the links of a pin: the parent set grows by what
the link reaches through an input pin, the child set by what it reaches through
an output pin, and both stay free of duplicates. -/
theorem rebuildLink_spec (ed : UEdGraph_HoudiniBuildSequenceGraph) (x : Nat)
    (dir : EEdGraphPinDirection) (s : FRebuildSets) (d : Nat) :
    (∀ p, p ∈ (ed.rebuildLink x dir s d).ParentNodes
        ↔ p ∈ s.ParentNodes
          ∨ (dir = EEdGraphPinDirection.EGPD_Input ∧ ed.LinkReaches x dir d p))
    ∧ (∀ p, p ∈ (ed.rebuildLink x dir s d).ChildNodes
        ↔ p ∈ s.ChildNodes
          ∨ (dir = EEdGraphPinDirection.EGPD_Output ∧ ed.LinkReaches x dir d p))
    ∧ (s.ParentNodes.Nodup → (ed.rebuildLink x dir s d).ParentNodes.Nodup)
    ∧ (s.ChildNodes.Nodup → (ed.rebuildLink x dir s d).ChildNodes.Nodup) := by
  rcases rebuildLink_eq ed x dir s d with ⟨h1, h2⟩ | ⟨v, hv, ⟨hd, h1⟩ | ⟨hd, h1⟩⟩
  · rw [h1]
    refine ⟨fun p => ?_, fun p => ?_, fun h => h, fun h => h⟩
    · exact ⟨fun h => Or.inl h, fun h => h.elim id (fun hh => absurd hh.2 (h2 p))⟩
    · exact ⟨fun h => Or.inl h, fun h => h.elim id (fun hh => absurd hh.2 (h2 p))⟩
  · subst hd
    rw [h1]
    refine ⟨fun p => ?_, fun p => ?_,
      fun h => by simp only []; exact nodup_add_unless_contains _ _ h, fun h => h⟩
    · simp only [mem_add_unless_contains, hv p, true_and]
    · exact ⟨fun h => Or.inl h, fun h => h.elim id (fun hh => absurd hh.1 (by decide))⟩
  · subst hd
    rw [h1]
    refine ⟨fun p => ?_, fun p => ?_, fun h => h,
      fun h => by simp only []; exact nodup_add_unless_contains _ _ h⟩
    · exact ⟨fun h => Or.inl h, fun h => h.elim id (fun hh => absurd hh.1 (by decide))⟩
    · simp only [mem_add_unless_contains, hv p, true_and]

/-- The loop over the links of one pin. -/
theorem rebuildLinks_spec (ed : UEdGraph_HoudiniBuildSequenceGraph) (x : Nat)
    (dir : EEdGraphPinDirection) :
    ∀ (ds : List Nat) (s : FRebuildSets),
      (∀ p, p ∈ (ds.foldl (ed.rebuildLink x dir) s).ParentNodes
          ↔ p ∈ s.ParentNodes
            ∨ (dir = EEdGraphPinDirection.EGPD_Input ∧ ∃ d ∈ ds, ed.LinkReaches x dir d p))
      ∧ (∀ p, p ∈ (ds.foldl (ed.rebuildLink x dir) s).ChildNodes
          ↔ p ∈ s.ChildNodes
            ∨ (dir = EEdGraphPinDirection.EGPD_Output ∧ ∃ d ∈ ds, ed.LinkReaches x dir d p))
      ∧ (s.ParentNodes.Nodup → (ds.foldl (ed.rebuildLink x dir) s).ParentNodes.Nodup)
      ∧ (s.ChildNodes.Nodup → (ds.foldl (ed.rebuildLink x dir) s).ChildNodes.Nodup)
  | [], s => by simp
  | d :: ds, s => by
    obtain ⟨a1, a2, a3, a4⟩ := rebuildLink_spec ed x dir s d
    obtain ⟨b1, b2, b3, b4⟩ := rebuildLinks_spec ed x dir ds (ed.rebuildLink x dir s d)
    simp only [List.foldl_cons]
    refine ⟨fun p => ?_, fun p => ?_, fun h => b3 (a3 h), fun h => b4 (a4 h)⟩
    · rw [b1 p, a1 p]
      simp only [List.mem_cons, exists_eq_or_imp]
      tauto
    · rw [b2 p, a2 p]
      simp only [List.mem_cons, exists_eq_or_imp]
      tauto

/-- The loop over the pins of an editor node, from any sets. -/
theorem rebuildPins_spec (ed : UEdGraph_HoudiniBuildSequenceGraph) (x : Nat) :
    ∀ (Pins : List (Option UEdGraphPin)) (s : FRebuildSets),
      (∀ p, p ∈ (Pins.foldl (fun s Pin =>
            match Pin with
            | none => s
            | some P => P.LinkedTo.foldl (ed.rebuildLink x P.Direction) s) s).ParentNodes
          ↔ p ∈ s.ParentNodes ∨ ed.Reaches x Pins EEdGraphPinDirection.EGPD_Input p)
      ∧ (∀ p, p ∈ (Pins.foldl (fun s Pin =>
            match Pin with
            | none => s
            | some P => P.LinkedTo.foldl (ed.rebuildLink x P.Direction) s) s).ChildNodes
          ↔ p ∈ s.ChildNodes ∨ ed.Reaches x Pins EEdGraphPinDirection.EGPD_Output p)
      ∧ (s.ParentNodes.Nodup → (Pins.foldl (fun s Pin =>
            match Pin with
            | none => s
            | some P => P.LinkedTo.foldl (ed.rebuildLink x P.Direction) s) s).ParentNodes.Nodup)
      ∧ (s.ChildNodes.Nodup → (Pins.foldl (fun s Pin =>
            match Pin with
            | none => s
            | some P => P.LinkedTo.foldl (ed.rebuildLink x P.Direction) s) s).ChildNodes.Nodup)
  | [], s => by simp [UEdGraph_HoudiniBuildSequenceGraph.Reaches]
  | none :: Pins, s => by
    obtain ⟨b1, b2, b3, b4⟩ := rebuildPins_spec ed x Pins s
    simp only [List.foldl_cons]
    refine ⟨fun p => ?_, fun p => ?_, b3, b4⟩
    · rw [b1 p]
      unfold UEdGraph_HoudiniBuildSequenceGraph.Reaches
      simp only [List.mem_cons, reduceCtorEq, false_or]
    · rw [b2 p]
      unfold UEdGraph_HoudiniBuildSequenceGraph.Reaches
      simp only [List.mem_cons, reduceCtorEq, false_or]
  | some P :: Pins, s => by
    obtain ⟨a1, a2, a3, a4⟩ := rebuildLinks_spec ed x P.Direction P.LinkedTo s
    obtain ⟨b1, b2, b3, b4⟩ := rebuildPins_spec ed x Pins
      (P.LinkedTo.foldl (ed.rebuildLink x P.Direction) s)
    simp only [List.foldl_cons]
    refine ⟨fun p => ?_, fun p => ?_, fun h => b3 (a3 h), fun h => b4 (a4 h)⟩
    · rw [b1 p, a1 p]
      unfold UEdGraph_HoudiniBuildSequenceGraph.Reaches
      simp only [List.mem_cons, Option.some.injEq]
      constructor
      · rintro ((h | ⟨hd, d, hdm, hr⟩) | ⟨Q, hQ, hQd, d, hdm, hr⟩)
        · exact Or.inl h
        · exact Or.inr ⟨P, Or.inl rfl, hd, d, hdm, hd ▸ hr⟩
        · exact Or.inr ⟨Q, Or.inr hQ, hQd, d, hdm, hr⟩
      · rintro (h | ⟨Q, hQ | hQ, hQd, d, hdm, hr⟩)
        · exact Or.inl (Or.inl h)
        · subst hQ
          exact Or.inl (Or.inr ⟨hQd, d, hdm, by rw [hQd]; exact hr⟩)
        · exact Or.inr ⟨Q, hQ, hQd, d, hdm, hr⟩
    · rw [b2 p, a2 p]
      unfold UEdGraph_HoudiniBuildSequenceGraph.Reaches
      simp only [List.mem_cons, Option.some.injEq]
      constructor
      · rintro ((h | ⟨hd, d, hdm, hr⟩) | ⟨Q, hQ, hQd, d, hdm, hr⟩)
        · exact Or.inl h
        · exact Or.inr ⟨P, Or.inl rfl, hd, d, hdm, hd ▸ hr⟩
        · exact Or.inr ⟨Q, Or.inr hQ, hQd, d, hdm, hr⟩
      · rintro (h | ⟨Q, hQ | hQ, hQd, d, hdm, hr⟩)
        · exact Or.inl (Or.inl h)
        · subst hQ
          exact Or.inl (Or.inr ⟨hQd, d, hdm, by rw [hQd]; exact hr⟩)
        · exact Or.inr ⟨Q, hQ, hQd, d, hdm, hr⟩

/-- The sets the rebuild computes for the editor node `x`: the parent set holds
what the input pins reach, the child set what the output pins reach, and neither
has a duplicate. -/
theorem rebuildSets_spec (ed : UEdGraph_HoudiniBuildSequenceGraph) (x : Nat)
    (Pins : List (Option UEdGraphPin)) :
    (∀ p, p ∈ (ed.rebuildSets x Pins).ParentNodes
        ↔ ed.Reaches x Pins EEdGraphPinDirection.EGPD_Input p)
    ∧ (∀ p, p ∈ (ed.rebuildSets x Pins).ChildNodes
        ↔ ed.Reaches x Pins EEdGraphPinDirection.EGPD_Output p)
    ∧ (ed.rebuildSets x Pins).ParentNodes.Nodup
    ∧ (ed.rebuildSets x Pins).ChildNodes.Nodup := by
  obtain ⟨b1, b2, b3, b4⟩ := rebuildPins_spec ed x Pins {}
  refine ⟨fun p => ?_, fun p => ?_, b3 List.nodup_nil, b4 List.nodup_nil⟩
  · exact (b1 p).trans
      ⟨fun h => h.elim (fun hh => absurd hh (List.not_mem_nil p)) id, fun h => Or.inr h⟩
  · exact (b2 p).trans
      ⟨fun h => h.elim (fun hh => absurd hh (List.not_mem_nil p)) id, fun h => Or.inr h⟩

/-! ## Rebuild: the adjacency of the rebuilt graph -/

/-- A turn of the rebuild for another editor node leaves the node alone. -/
theorem rebuildNode_other (ed : UEdGraph_HoudiniBuildSequenceGraph)
    (hown : ed.OwnsSequenceNodes) (g : UAutomationGraph) (i j k : Nat)
    (hc : ed.Carries i k) (hij : j ≠ i) :
    (ed.rebuildNode g j).node (some k) = g.node (some k) := by
  obtain ⟨n, hn, hk⟩ := hc
  by_cases hex : ∃ nj kj, ed.sequenceNode j = some nj ∧ nj.SequenceNode = some kj
  · obtain ⟨nj, kj, hnj, hkj⟩ := hex
    apply (rebuildNode_spec ed g j nj kj hnj hkj).1
    intro h
    apply hij
    apply hown j i nj n hnj hn
    rw [hkj, hk, ← h]
  · rw [rebuildNode_skip ed g j (fun n1 k1 h1 h2 => hex ⟨n1, k1, h1, h2⟩)]

/-- The turns of the rebuild for the editor nodes of `l`: the node carried by
the editor node `i` gets the sets computed for `i` when `i` is in `l`. -/
theorem rebuild_fold_links (ed : UEdGraph_HoudiniBuildSequenceGraph)
    (hown : ed.OwnsSequenceNodes) (i k : Nat) (n : UEdNode_HoudiniBuildSequenceNode)
    (hn : ed.sequenceNode i = some n) (hk : n.SequenceNode = some k) :
    ∀ (l : List Nat) (g : UAutomationGraph), k < g.Nodes.length →
      (l.foldl ed.rebuildNode g).node (some k)
        = if i ∈ l then
            { g.node (some k) with ParentNodes := (ed.rebuildSets i n.Pins).ParentNodes,
                                   ChildNodes := (ed.rebuildSets i n.Pins).ChildNodes }
          else g.node (some k)
  | [], g, _ => by simp
  | j :: l, g, hlt => by
    simp only [List.foldl_cons]
    rw [rebuild_fold_links ed hown i k n hn hk l (ed.rebuildNode g j)
      (by rw [rebuildNode_length]; exact hlt)]
    by_cases hji : j = i
    · subst hji
      have hw := (rebuildNode_written ed g j k n hn hk (node_some_lt g k hlt)).2 (some k)
      simp only [if_true] at hw
      rw [hw]
      simp only [List.mem_cons, true_or, if_true]
      split <;> rfl
    · rw [rebuildNode_other ed hown g i j k ⟨n, hn, hk⟩ hji]
      have : i ∈ j :: l ↔ i ∈ l := by
        simp only [List.mem_cons]
        constructor
        · rintro (h | h)
          · exact absurd h.symm hji
          · exact h
        · intro h; exact Or.inr h
      simp only [this]

/-- After the rebuild the node carried by an editor node has the sets computed
for that editor node as its parent list and child list. -/
theorem Rebuild_links (ed : UEdGraph_HoudiniBuildSequenceGraph) (g : UAutomationGraph)
    (hown : ed.OwnsSequenceNodes) (hvalid : ed.NodesIn g)
    (i k : Nat) (n : UEdNode_HoudiniBuildSequenceNode)
    (hn : ed.sequenceNode i = some n) (hk : n.SequenceNode = some k) :
    ((ed.RebuildSequenceGraph g).node (some k)).ParentNodes
        = (ed.rebuildSets i n.Pins).ParentNodes
    ∧ ((ed.RebuildSequenceGraph g).node (some k)).ChildNodes
        = (ed.rebuildSets i n.Pins).ChildNodes := by
  have hlt : k < g.Nodes.length := hvalid i k ⟨n, hn, hk⟩
  unfold UEdGraph_HoudiniBuildSequenceGraph.RebuildSequenceGraph
  rw [rebuild_fold_links ed hown i k n hn hk (List.range ed.Nodes.length)
    { g with RootNodes := [] } hlt]
  rw [if_pos (List.mem_range.mpr (sequenceNode_lt ed i n hn))]
  exact ⟨rfl, rfl⟩

/-- The adjacency after a rebuild over well-formed edges, for the nodes carried
by the editor nodes `i` and `j`: the child list of the one holds the other iff
the parent list of the other holds the one; the lists of a carried node have no
duplicate and do not hold the node itself; and the lists hold carried nodes only. -/
theorem Rebuild_adjacency (ed : UEdGraph_HoudiniBuildSequenceGraph) (g : UAutomationGraph)
    (hown : ed.OwnsSequenceNodes) (hwf : ed.WellFormedEdges) (hvalid : ed.NodesIn g)
    (i ka : Nat) (hi : ed.Carries i ka) :
    (∀ j kb, ed.Carries j kb →
      (some kb ∈ ((ed.RebuildSequenceGraph g).node (some ka)).ChildNodes
        ↔ some ka ∈ ((ed.RebuildSequenceGraph g).node (some kb)).ParentNodes))
    ∧ ((ed.RebuildSequenceGraph g).node (some ka)).ParentNodes.Nodup
    ∧ ((ed.RebuildSequenceGraph g).node (some ka)).ChildNodes.Nodup
    ∧ some ka ∉ ((ed.RebuildSequenceGraph g).node (some ka)).ParentNodes
    ∧ some ka ∉ ((ed.RebuildSequenceGraph g).node (some ka)).ChildNodes
    ∧ (∀ p ∈ ((ed.RebuildSequenceGraph g).node (some ka)).ParentNodes,
        ∃ j kb, p = some kb ∧ ed.Carries j kb)
    ∧ (∀ p ∈ ((ed.RebuildSequenceGraph g).node (some ka)).ChildNodes,
        ∃ j kb, p = some kb ∧ ed.Carries j kb) := by
  obtain ⟨ni, hni, hka⟩ := hi
  obtain ⟨lp, lc⟩ := Rebuild_links ed g hown hvalid i ka ni hni hka
  obtain ⟨sp, sc, np, nc⟩ := rebuildSets_spec ed i ni.Pins
  have hself : ∀ dir, ¬ ed.Reaches i ni.Pins dir (some ka) := by
    rintro dir ⟨P, _, _, d, _, edge, l, nl, _, _, hli, hnl, hkl⟩
    exact hli (hown l i nl ni hnl hni (by rw [hkl, hka]))
  have hcar : ∀ dir p, ed.Reaches i ni.Pins dir p → ∃ j kb, p = some kb ∧ ed.Carries j kb := by
    rintro dir p ⟨P, _, _, d, _, edge, l, nl, hedge, hlink, _, hnl, hkl⟩
    obtain ⟨a, b, k1, k2, hs, he, ⟨na, hna, hk1⟩, ⟨nb, hnb, hk2⟩, _, _⟩ := hwf.ends d edge hedge
    cases dir with
    | EGPD_MAX =>
      simp only [UEdNode_HoudiniBuildSequenceEdge.linkedNode] at hlink
      exact absurd hlink (by simp)
    | EGPD_Input =>
      simp only [UEdNode_HoudiniBuildSequenceEdge.linkedNode] at hlink
      rw [hs] at hlink
      simp only [Option.some.injEq] at hlink
      subst hlink
      rw [hna] at hnl
      simp only [Option.some.injEq] at hnl
      subst hnl
      exact ⟨a, k1, by rw [← hkl, hk1], na, hna, hk1⟩
    | EGPD_Output =>
      simp only [UEdNode_HoudiniBuildSequenceEdge.linkedNode] at hlink
      rw [he] at hlink
      simp only [Option.some.injEq] at hlink
      subst hlink
      rw [hnb] at hnl
      simp only [Option.some.injEq] at hnl
      subst hnl
      exact ⟨b, k2, by rw [← hkl, hk2], nb, hnb, hk2⟩
  refine ⟨?_, by rw [lp]; exact np, by rw [lc]; exact nc, ?_, ?_, ?_, ?_⟩
  · rintro j kb ⟨nj, hnj, hkb⟩
    obtain ⟨jp, _⟩ := Rebuild_links ed g hown hvalid j kb nj hnj hkb
    obtain ⟨tp, _, _, _⟩ := rebuildSets_spec ed j nj.Pins
    rw [lc, jp, sc, tp]
    constructor
    · rintro ⟨P, hP, hPd, d, hd, edge, l, nl, hedge, hlink, hli, hnl, hkl⟩
      have hlj : l = j := hown l j nl nj hnl hnj (by rw [hkl, hkb])
      subst hlj
      have hstart := hwf.outLinks d edge i hedge ⟨ni, P, hni, hP, hPd, hd⟩
      obtain ⟨a, b, _, _, _, he, _, _, _, ⟨nb, Q, hnb, hQ, hQd, hdQ⟩⟩ := hwf.ends d edge hedge
      simp only [UEdNode_HoudiniBuildSequenceEdge.linkedNode] at hlink
      rw [he] at hlink
      simp only [Option.some.injEq] at hlink
      subst hlink
      rw [hnj] at hnb
      simp only [Option.some.injEq] at hnb
      subst hnb
      exact ⟨Q, hQ, hQd, d, hdQ, edge, i, ni, hedge, hstart, fun h => hli h.symm, hni, hka⟩
    · rintro ⟨P, hP, hPd, d, hd, edge, l, nl, hedge, hlink, hlj, hnl, hkl⟩
      have hli : l = i := hown l i nl ni hnl hni (by rw [hkl, hka])
      subst hli
      have hend := hwf.inLinks d edge j hedge ⟨nj, P, hnj, hP, hPd, hd⟩
      obtain ⟨a, b, _, _, hs, _, _, _, ⟨na, Q, hna, hQ, hQd, hdQ⟩, _⟩ := hwf.ends d edge hedge
      simp only [UEdNode_HoudiniBuildSequenceEdge.linkedNode] at hlink
      rw [hs] at hlink
      simp only [Option.some.injEq] at hlink
      subst hlink
      rw [hni] at hna
      simp only [Option.some.injEq] at hna
      subst hna
      exact ⟨Q, hQ, hQd, d, hdQ, edge, j, nj, hedge, hend, fun h => hlj h.symm, hnj, hkb⟩
  · rw [lp, sp]; exact hself _
  · rw [lc, sc]; exact hself _
  · intro p hp
    rw [lp, sp] at hp
    exact hcar _ p hp
  · intro p hp
    rw [lc, sc] at hp
    exact hcar _ p hp

/-- C30: after `RebuildSequenceGraph` over well-formed edges, on an editor graph
whose editor nodes carry each their own sequence node, all of them node objects
of the graph: for the nodes `A` and `B` carried by two editor nodes, `B` is in
the child list of `A` iff `A` is in the parent list of `B`; and the parent list
and the child list of a carried node have no duplicate and do not hold the node
itself. -/
theorem C30_Rebuild_adjacency_clean (ed : UEdGraph_HoudiniBuildSequenceGraph)
    (g : UAutomationGraph)
    (hown : ed.OwnsSequenceNodes) (hwf : ed.WellFormedEdges) (hvalid : ed.NodesIn g)
    (i j A B : Nat) (hA : ed.Carries i A) (hB : ed.Carries j B) :
    (some B ∈ ((ed.RebuildSequenceGraph g).node (some A)).ChildNodes
      ↔ some A ∈ ((ed.RebuildSequenceGraph g).node (some B)).ParentNodes)
    ∧ ((ed.RebuildSequenceGraph g).node (some A)).ParentNodes.Nodup
    ∧ ((ed.RebuildSequenceGraph g).node (some A)).ChildNodes.Nodup
    ∧ some A ∉ ((ed.RebuildSequenceGraph g).node (some A)).ParentNodes
    ∧ some A ∉ ((ed.RebuildSequenceGraph g).node (some A)).ChildNodes := by
  obtain ⟨h1, h2, h3, h4, h5, _, _⟩ := Rebuild_adjacency ed g hown hwf hvalid i A hA
  exact ⟨h1 j B hB, h2, h3, h4, h5⟩

/-! ## Rebuild: reachability from the root set -/

theorem rebuild_fold_roots_carried (ed : UEdGraph_HoudiniBuildSequenceGraph) :
    ∀ (l : List Nat) (g : UAutomationGraph),
      (∀ p ∈ g.RootNodes, ∃ i k, p = some k ∧ ed.Carries i k) →
      ∀ p ∈ (l.foldl ed.rebuildNode g).RootNodes, ∃ i k, p = some k ∧ ed.Carries i k
  | [], _, h => h
  | j :: l, g, h => by
    simp only [List.foldl_cons]
    apply rebuild_fold_roots_carried ed l
    intro p hp
    rcases rebuildNode_RootNodes_sub ed g j p hp with h1 | ⟨n, k, hn, hk, hpk, _⟩
    · exact h p h1
    · exact ⟨j, k, hpk, n, hn, hk⟩

/-- After the rebuild the node of an editor node is a root iff its parent list
is empty, and every root is the node of an editor node. -/
theorem Rebuild_roots (ed : UEdGraph_HoudiniBuildSequenceGraph) (g : UAutomationGraph)
    (hown : ed.OwnsSequenceNodes) :
    (∀ i k, ed.Carries i k →
      (some k ∈ (ed.RebuildSequenceGraph g).RootNodes
        ↔ ((ed.RebuildSequenceGraph g).node (some k)).ParentNodes = []))
    ∧ (∀ p ∈ (ed.RebuildSequenceGraph g).RootNodes, ∃ i k, p = some k ∧ ed.Carries i k) := by
  have h := rebuild_fold_inv ed hown (List.range ed.Nodes.length) [] { g with RootNodes := [] }
    (by simpa using List.nodup_range _) (by intro p hp; simp at hp) (by intro i hi; simp at hi)
  simp only [List.nil_append] at h
  constructor
  · rintro i k ⟨n, hn, hk⟩
    exact h.2 i (List.mem_range.mpr (sequenceNode_lt ed i n hn)) n k hn hk
  · unfold UEdGraph_HoudiniBuildSequenceGraph.RebuildSequenceGraph
    apply rebuild_fold_roots_carried
    intro p hp
    simp at hp

/-- C25: after a rebuild over well-formed edges, on an editor graph whose editor
nodes carry each their own sequence node, all of them node objects of the graph,
and with no carried node on a cycle of child links: every node an editor node
carries is reachable from the root set by following child links, and the root
set is empty iff no editor node carries a node. -/
theorem C25_Rebuild_reachable_from_roots (ed : UEdGraph_HoudiniBuildSequenceGraph)
    (g : UAutomationGraph)
    (hown : ed.OwnsSequenceNodes) (hwf : ed.WellFormedEdges) (hvalid : ed.NodesIn g)
    (hacyc : ∀ i k, ed.Carries i k →
      ¬ Relation.TransGen (ed.RebuildSequenceGraph g).childLink (some k) (some k)) :
    (∀ i k, ed.Carries i k → (ed.RebuildSequenceGraph g).ReachableFromRoots (some k))
    ∧ ((ed.RebuildSequenceGraph g).RootNodes = [] ↔ ¬ ∃ i k, ed.Carries i k) := by
  obtain ⟨hroot, hrc⟩ := Rebuild_roots ed g hown
  let R : Fin g.Nodes.length → Fin g.Nodes.length → Prop :=
    fun a b => (ed.RebuildSequenceGraph g).childLink (some a.val) (some b.val)
      ∧ ∃ i, ed.Carries i a.val
  have hlift : ∀ a b, Relation.TransGen R a b →
      Relation.TransGen (ed.RebuildSequenceGraph g).childLink (some a.val) (some b.val) := by
    intro a b hab
    exact Relation.TransGen.lift (fun k : Fin g.Nodes.length => (some k.val : NodePtr))
      (fun x y hxy => hxy.1) hab
  haveI : IsTrans (Fin g.Nodes.length) (Relation.TransGen R) :=
    ⟨fun _ _ _ h1 h2 => Relation.TransGen.trans h1 h2⟩
  haveI : IsIrrefl (Fin g.Nodes.length) (Relation.TransGen R) :=
    ⟨fun a ha => by
      obtain ⟨b, hab, _⟩ := Relation.TransGen.head'_iff.mp ha
      obtain ⟨i, hi⟩ := hab.2
      exact hacyc i a.val hi (hlift a a ha)⟩
  have hwfR : WellFounded (Relation.TransGen R) := Finite.wellFounded_of_trans_of_irrefl _
  have key : ∀ a : Fin g.Nodes.length, (∃ i, ed.Carries i a.val) →
      (ed.RebuildSequenceGraph g).ReachableFromRoots (some a.val) := by
    intro a
    induction a using hwfR.induction with
    | _ a ih =>
      rintro ⟨i, hi⟩
      obtain ⟨_, _, _, _, _, hpc, _⟩ := Rebuild_adjacency ed g hown hwf hvalid i a.val hi
      cases hp : ((ed.RebuildSequenceGraph g).node (some a.val)).ParentNodes with
      | nil => exact ⟨some a.val, (hroot i a.val hi).2 hp, Relation.ReflTransGen.refl⟩
      | cons p rest =>
        have hpm : p ∈ ((ed.RebuildSequenceGraph g).node (some a.val)).ParentNodes := by
          rw [hp]; exact List.mem_cons_self _ _
        obtain ⟨j, kb, hpk, hj⟩ := hpc p hpm
        subst hpk
        have hchild : some a.val ∈ ((ed.RebuildSequenceGraph g).node (some kb)).ChildNodes :=
          ((Rebuild_adjacency ed g hown hwf hvalid j kb hj).1 i a.val hi).2 hpm
        obtain ⟨r, hr, hrp⟩ := ih ⟨kb, hvalid j kb hj⟩
          (Relation.TransGen.single ⟨hchild, j, hj⟩) ⟨j, hj⟩
        exact ⟨r, hr, hrp.tail hchild⟩
  constructor
  · intro i k hi
    exact key ⟨k, hvalid i k hi⟩ ⟨i, hi⟩
  · constructor
    · rintro hnil ⟨i, k, hi⟩
      obtain ⟨r, hr, _⟩ := key ⟨k, hvalid i k hi⟩ ⟨i, hi⟩
      rw [hnil] at hr
      exact absurd hr (List.not_mem_nil r)
    · intro hnone
      apply List.eq_nil_iff_forall_not_mem.mpr
      intro p hp
      obtain ⟨i, k, _, hi⟩ := hrc p hp
      exact hnone ⟨i, k, hi⟩

/-! ## Witnesses: the rebuild -/

theorem exampleEd_Carries (i k : Nat) (h : exampleEd.Carries i k) :
    (i = 0 ∧ k = 0) ∨ (i = 1 ∧ k = 1) := by
  obtain ⟨n, hn, hk⟩ := h
  rcases i with _ | _ | _ | i <;>
    simp [UEdGraph_HoudiniBuildSequenceGraph.sequenceNode, exampleEd] at hn
  · subst hn
    simp at hk
    exact Or.inl ⟨rfl, hk.symm⟩
  · subst hn
    simp at hk
    exact Or.inr ⟨rfl, hk.symm⟩

theorem exampleEd_Carries_zero : exampleEd.Carries 0 0 :=
  ⟨_, rfl, rfl⟩

theorem exampleEd_Carries_one : exampleEd.Carries 1 1 :=
  ⟨_, rfl, rfl⟩

theorem exampleEd_sequenceEdge (d : Nat) (GraphEdge : UEdNode_HoudiniBuildSequenceEdge)
    (h : exampleEd.sequenceEdge d = some GraphEdge) :
    d = 2 ∧ GraphEdge = { StartNode := some 0, EndNode := some 1 } := by
  rcases d with _ | _ | _ | d <;>
    simp [UEdGraph_HoudiniBuildSequenceGraph.sequenceEdge, exampleEd] at h
  exact ⟨rfl, h.symm⟩

theorem exampleEd_PinLinked (x : Nat) (Direction : EEdGraphPinDirection) (d : Nat)
    (h : exampleEd.PinLinked x Direction d) :
    (x = 0 ∧ Direction = EEdGraphPinDirection.EGPD_Output)
      ∨ (x = 1 ∧ Direction = EEdGraphPinDirection.EGPD_Input) := by
  obtain ⟨nx, P, hn, hP, hd, hl⟩ := h
  rcases x with _ | _ | _ | x <;>
    simp [UEdGraph_HoudiniBuildSequenceGraph.sequenceNode, exampleEd] at hn
  · subst hn
    simp at hP
    rcases hP with hP | hP
    · subst hP; simp at hl
    · subst hP; exact Or.inl ⟨rfl, hd.symm⟩
  · subst hn
    simp at hP
    rcases hP with hP | hP
    · subst hP; exact Or.inr ⟨rfl, hd.symm⟩
    · subst hP; simp at hl

theorem exampleEd_WellFormedEdges : exampleEd.WellFormedEdges where
  ends := by
    intro d GraphEdge h
    obtain ⟨hd, hE⟩ := exampleEd_sequenceEdge d GraphEdge h
    subst hd; subst hE
    exact ⟨0, 1, 0, 1, rfl, rfl, exampleEd_Carries_zero, exampleEd_Carries_one,
      ⟨_, { Direction := EEdGraphPinDirection.EGPD_Output, LinkedTo := [2] }, rfl,
        by simp, rfl, by simp⟩,
      ⟨_, { Direction := EEdGraphPinDirection.EGPD_Input, LinkedTo := [2] }, rfl,
        by simp, rfl, by simp⟩⟩
  outLinks := by
    intro d GraphEdge x h hl
    obtain ⟨_, hE⟩ := exampleEd_sequenceEdge d GraphEdge h
    subst hE
    rcases exampleEd_PinLinked x _ d hl with ⟨hx, _⟩ | ⟨_, hd⟩
    · rw [hx]
    · exact absurd hd (by decide)
  inLinks := by
    intro d GraphEdge x h hl
    obtain ⟨_, hE⟩ := exampleEd_sequenceEdge d GraphEdge h
    subst hE
    rcases exampleEd_PinLinked x _ d hl with ⟨_, hd⟩ | ⟨hx, _⟩
    · exact absurd hd (by decide)
    · rw [hx]

theorem exampleEd_NodesIn (g : UAutomationGraph) (h : g.Nodes.length = 2) :
    exampleEd.NodesIn g := by
  intro i k hik
  rcases exampleEd_Carries i k hik with ⟨_, hk⟩ | ⟨_, hk⟩ <;> omega

theorem exampleEd_Rebuild_exampleTwoIsolated :
    exampleEd.RebuildSequenceGraph exampleTwoIsolated
      = { Nodes := [{ ChildNodes := [some 1] }, { ParentNodes := [some 0] }],
          RootNodes := [some 0] } := by
  decide

theorem exampleEd_Rebuild_childLink (x y : NodePtr)
    (h : (exampleEd.RebuildSequenceGraph exampleTwoIsolated).childLink x y) :
    x = some 0 ∧ y = some 1 := by
  rw [exampleEd_Rebuild_exampleTwoIsolated] at h
  unfold UAutomationGraph.childLink at h
  rcases x with _ | _ | _ | i
  · simp [UAutomationGraph.node] at h
    exact absurd h (by simp [default, instInhabitedUAutomationGraphNode])
  · simp [UAutomationGraph.node] at h
    exact ⟨rfl, h⟩
  · simp [UAutomationGraph.node] at h
  · simp [UAutomationGraph.node] at h
    exact absurd h (by simp [default, instInhabitedUAutomationGraphNode])

theorem exampleEd_Rebuild_acyclic (a : NodePtr) :
    ¬ Relation.TransGen (exampleEd.RebuildSequenceGraph exampleTwoIsolated).childLink a a := by
  intro h
  obtain ⟨c, hc, hca⟩ := Relation.TransGen.head'_iff.mp h
  obtain ⟨ha, hc1⟩ := exampleEd_Rebuild_childLink a c hc
  subst ha; subst hc1
  rcases Relation.ReflTransGen.cases_head hca with h1 | ⟨d, hd, _⟩
  · simp at h1
  · have := (exampleEd_Rebuild_childLink _ _ hd).1
    simp at this

/-- Witness for C25 on the editor graph with the edge `0 → 1`, rebuilt over two
node objects without links and with an empty root set: nodes 0 and 1 are
reachable from the root set, and the root set is not empty. -/
theorem C25_Rebuild_reachable_witness :
    exampleEd.OwnsSequenceNodes ∧ exampleEd.WellFormedEdges
    ∧ exampleEd.NodesIn exampleTwoIsolated
    ∧ (∀ i k, exampleEd.Carries i k →
        ¬ Relation.TransGen (exampleEd.RebuildSequenceGraph exampleTwoIsolated).childLink
          (some k) (some k))
    ∧ ((∀ i k, exampleEd.Carries i k →
          (exampleEd.RebuildSequenceGraph exampleTwoIsolated).ReachableFromRoots (some k))
      ∧ ((exampleEd.RebuildSequenceGraph exampleTwoIsolated).RootNodes = []
          ↔ ¬ ∃ i k, exampleEd.Carries i k)) :=
  ⟨exampleEd_OwnsSequenceNodes, exampleEd_WellFormedEdges, exampleEd_NodesIn _ rfl,
    fun _ k _ => exampleEd_Rebuild_acyclic (some k),
    C25_Rebuild_reachable_from_roots exampleEd exampleTwoIsolated exampleEd_OwnsSequenceNodes
      exampleEd_WellFormedEdges (exampleEd_NodesIn _ rfl)
      (fun _ k _ => exampleEd_Rebuild_acyclic (some k))⟩

/-- Witness for C27 on the editor graph with the edge `0 → 1`: the rebuild of
the chain `0 → 1` with root 0 and the rebuild of two node objects without links
and without roots agree on the root set and on the parent and child lists of
the carried nodes, and a second rebuild changes nothing. -/
theorem C27_Rebuild_idempotent_witness :
    exampleChain.Nodes.length = exampleTwoIsolated.Nodes.length
    ∧ ((∀ g g1 : UAutomationGraph, g.Nodes.length = g1.Nodes.length →
        (exampleEd.RebuildSequenceGraph g).RootNodes
          = (exampleEd.RebuildSequenceGraph g1).RootNodes
        ∧ ∀ i n k, exampleEd.sequenceNode i = some n → n.SequenceNode = some k →
            ((exampleEd.RebuildSequenceGraph g).node (some k)).ParentNodes
              = ((exampleEd.RebuildSequenceGraph g1).node (some k)).ParentNodes
            ∧ ((exampleEd.RebuildSequenceGraph g).node (some k)).ChildNodes
              = ((exampleEd.RebuildSequenceGraph g1).node (some k)).ChildNodes)
      ∧ ∀ g : UAutomationGraph,
          exampleEd.RebuildSequenceGraph (exampleEd.RebuildSequenceGraph g)
            = exampleEd.RebuildSequenceGraph g) :=
  ⟨rfl, C27_Rebuild_idempotent exampleEd⟩

/-- Witness for C30 on the editor graph with the edge `0 → 1`, rebuilt over two
node objects without links, at `A` = node 0 and `B` = node 1. -/
theorem C30_Rebuild_adjacency_witness :
    exampleEd.OwnsSequenceNodes ∧ exampleEd.WellFormedEdges
    ∧ exampleEd.NodesIn exampleTwoIsolated
    ∧ exampleEd.Carries 0 0 ∧ exampleEd.Carries 1 1
    ∧ ((some 1 ∈ ((exampleEd.RebuildSequenceGraph exampleTwoIsolated).node (some 0)).ChildNodes
        ↔ some 0 ∈ ((exampleEd.RebuildSequenceGraph exampleTwoIsolated).node
            (some 1)).ParentNodes)
      ∧ ((exampleEd.RebuildSequenceGraph exampleTwoIsolated).node (some 0)).ParentNodes.Nodup
      ∧ ((exampleEd.RebuildSequenceGraph exampleTwoIsolated).node (some 0)).ChildNodes.Nodup
      ∧ some 0 ∉ ((exampleEd.RebuildSequenceGraph exampleTwoIsolated).node
          (some 0)).ParentNodes
      ∧ some 0 ∉ ((exampleEd.RebuildSequenceGraph exampleTwoIsolated).node
          (some 0)).ChildNodes) :=
  ⟨exampleEd_OwnsSequenceNodes, exampleEd_WellFormedEdges, exampleEd_NodesIn _ rfl,
    exampleEd_Carries_zero, exampleEd_Carries_one,
    C30_Rebuild_adjacency_clean exampleEd exampleTwoIsolated exampleEd_OwnsSequenceNodes
      exampleEd_WellFormedEdges (exampleEd_NodesIn _ rfl) 0 1 0 1
      exampleEd_Carries_zero exampleEd_Carries_one⟩

end EHE
